import Mathlib

/-!
# lab8: sequencer-based distributed shared memory (`dsm.h`, `dsm.cpp`, `main.cpp`)

A shallow embedding of the `DSM` class and a verification of its ordering,
replication and error-handling properties.

The development covers three programs of the repository: lab8 (namespace `Lab8`), the
polynomial multiplication of lab7 (`Lab7`) and the block partition of the n-body project
(`NBody`).  The definitions of all three come first, the theorems follow.

Modelling conventions

* The private members of `class DSM` are the fields of the structure `DSM`, with the
  names they have in `dsm.h`.  `cb_` is a `Bool`: whether the `std::function` holds a
  callable.  A call of the callback is recorded as an `Event.callback`.
* `int` and `long long` are modelled by `Int`.  The only arithmetic the class performs
  is `nextSeq_++`, `nextReqId_++`, `homeRank * varsPerProc_ + localIndex` (on a checked
  address, so bounded by the size of `values_`) and `(homeRank + k) % world_`; signed
  overflow is undefined behaviour in C++ and is outside the model.  `%` is the truncating
  remainder `Int.tmod`.  `static_cast<int>` of a received `long long` is `wrap32`.
* `std::vector<int>` is a `List Int`; `std::unordered_map<long long, bool>` is an
  association list with at most one entry per key.
* A member function returns an `Outcome`: the state it leaves behind (also when it
  throws: C++ keeps the side effects made before the `throw`), the events it emitted in
  order, and how it ended.
* MPI: `MPI_Send` is an emitted event.  The messages `MPI_Iprobe` finds are given by a
  `Net` value (the queue of pending requests with their source, and the queue of
  pending ordered operations from rank 0), received front first.  A blocking wait gets
  the list of message batches that arrive before each of its iterations; when that
  list is used up the call is reported as `Result.blocked` (still waiting).
* Two events are instrumentation and have no counterpart in the program output:
  `Event.ordered` marks the construction of an `OrderedOp` with `nextSeq_++`, and
  `Event.applied` marks an entry into `applyOrderedOp`.
-/

namespace Lab8

/-! ## Data model (`dsm.h`) -/

/-- Enum class `MsgType : long long`: a value is its underlying tag. -/
structure MsgType where
  tag : Int
deriving DecidableEq, Repr

/-- Enumerator `WRITE = 1`. -/
def MsgType.WRITE : MsgType := ⟨1⟩

/-- Enumerator `CAS = 2`. -/
def MsgType.CAS : MsgType := ⟨2⟩

/-- Enumerator `SHUTDOWN = 3`. -/
def MsgType.SHUTDOWN : MsgType := ⟨3⟩

/-- Struct `OrderedOp`. -/
structure OrderedOp where
  seq : Int
  type : MsgType
  home : Int
  idx : Int
  v1 : Int
  v2 : Int
  initiator : Int
  reqId : Int
deriving DecidableEq, Repr

/-- The `std::runtime_error`s thrown by the class, one constructor per message. -/
inductive DsmError where
  /-- "varsPerProcess must be > 0" -/
  | varsPerProcessNotPositive
  /-- "invalid homeRank" -/
  | invalidHomeRank
  /-- "invalid localIndex" -/
  | invalidLocalIndex
  /-- "Non-subscriber attempted to modify a variable" -/
  | nonSubscriberRequest
  /-- "write() not allowed: caller is not subscribed to variable" -/
  | writeNotAllowed
  /-- "compareExchange() not allowed: caller is not subscribed to variable" -/
  | casNotAllowed
  /-- "DSM stopped while waiting for write" -/
  | stoppedWaitingWrite
  /-- "DSM stopped while waiting for CAS" -/
  | stoppedWaitingCas
deriving DecidableEq, Repr

/-- The private state of a `DSM` object (`comm_` is represented by `rank_` and `world_`). -/
structure DSM where
  rank_ : Int
  world_ : Int
  varsPerProc_ : Int
  cb_ : Bool
  running_ : Bool
  values_ : List Int
  nextReqId_ : Int
  writeDone_ : List (Int × Bool)
  casDone_ : List (Int × Bool)
  casResult_ : List (Int × Bool)
  nextSeq_ : Int
deriving DecidableEq, Repr

/-- Observable effects of a member function, plus two instrumentation events. -/
inductive Event where
  /-- `MPI_Send(buf, 6, MPI_LONG_LONG, 0, TAG_REQ, comm_)` -/
  | sendReq (buf : List Int)
  /-- `MPI_Send(buf, 8, MPI_LONG_LONG, dest, TAG_OP, comm_)` -/
  | sendOp (dest : Int) (buf : List Int)
  /-- `cb_(home, idx, newValue, seq)` -/
  | callback (home idx newValue seq : Int)
  /-- Instrumentation: an `OrderedOp` was built with `op.seq = nextSeq_++`. -/
  | ordered (op : OrderedOp)
  /-- Instrumentation: `applyOrderedOp(op)` was entered. -/
  | applied (op : OrderedOp)
deriving DecidableEq, Repr

/-- How a call ended: normal return, a thrown `std::runtime_error`, or still waiting
when the modelled arrivals ran out. -/
inductive Result (α : Type) where
  | ok (a : α)
  | threw (e : DsmError)
  | blocked
deriving DecidableEq, Repr

/-- Result of a member function that does not receive messages. -/
structure Outcome (α : Type) where
  state : DSM
  events : List Event
  result : Result α

/-- Messages `MPI_Iprobe` can find: requests (with their `MPI_SOURCE`) and ordered
operations from rank 0, each queue in arrival order. -/
structure Net where
  reqQ : List (Int × List Int)
  opQ : List (List Int)
deriving DecidableEq, Repr

/-- Result of a member function that may receive messages: `net` is what is left
unreceived. -/
structure NetOutcome (α : Type) where
  state : DSM
  net : Net
  events : List Event
  result : Result α

/-! ## `std::unordered_map<long long, bool>` -/

/-- Assignment `m[k] = v`. -/
def mapAssign : List (Int × Bool) → Int → Bool → List (Int × Bool)
  | [], k, v => [(k, v)]
  | (k', v') :: t, k, v => if k' = k then (k, v) :: t else (k', v') :: mapAssign t k v

/-- Lookup `m.find(k)`: the mapped value, or `none` for `m.end()`. -/
def mapFind : List (Int × Bool) → Int → Option Bool
  | [], _ => none
  | (k', v') :: t, k => if k' = k then some v' else mapFind t k

/-- Reading `m[k]`: the mapped value; a missing key is inserted with `false`. -/
def mapIndex (m : List (Int × Bool)) (k : Int) : Bool × List (Int × Bool) :=
  match mapFind m k with
  | some v => (v, m)
  | none => (false, mapAssign m k false)

/-! ## Addressing and subscription policy -/

/-- Member `DSM::globalVarId`; reads `world_` and `varsPerProc_`. -/
def globalVarId (world varsPerProc homeRank localIndex : Int) : Except DsmError Int :=
  if homeRank < 0 ∨ homeRank ≥ world then .error .invalidHomeRank
  else if localIndex < 0 ∨ localIndex ≥ varsPerProc then .error .invalidLocalIndex
  else .ok (homeRank * varsPerProc + localIndex)

/-- The call `subs.erase(std::unique(subs.begin(), subs.end()), subs.end())`: of every
run of equal neighbours one element is kept. -/
def uniqueAdj : List Int → List Int
  | [] => []
  | [a] => [a]
  | a :: b :: t => if a = b then uniqueAdj (b :: t) else a :: uniqueAdj (b :: t)

/-- Member `DSM::subscribersFor`; reads `world_`. -/
def subscribersFor (world homeRank localIndex : Int) : List Int :=
  let _unused := localIndex
  let subs0 : List Int := [homeRank]
  let subs1 := if world ≥ 2 then subs0 ++ [Int.tmod (homeRank + 1) world] else subs0
  let subs2 := if world ≥ 3 then subs1 ++ [Int.tmod (homeRank + 2) world] else subs1
  uniqueAdj (List.insertionSort (· ≤ ·) subs2)

/-- The loop of `std::lower_bound` on positions `[first, first + count)`; the first
argument bounds the number of iterations. -/
def lowerBound (xs : List Int) (value : Int) : Nat → Nat → Nat → Nat
  | 0, first, _ => first
  | fuel + 1, first, count =>
    if count = 0 then first
    else
      let step := count / 2
      let it := first + step
      if xs.getD it 0 < value then lowerBound xs value fuel (it + 1) (count - (step + 1))
      else lowerBound xs value fuel first step

/-- The call `std::binary_search(xs.begin(), xs.end(), value)`. -/
def binarySearch (xs : List Int) (value : Int) : Bool :=
  let first := lowerBound xs value xs.length 0 xs.length
  decide (first ≠ xs.length) && !decide (value < xs.getD first 0)

/-- Member `DSM::isSubscriber`; reads `world_`. -/
def isSubscriber (world who homeRank localIndex : Int) : Bool :=
  binarySearch (subscribersFor world homeRank localIndex) who

/-! ## Construction -/

/-- Constructor `DSM::DSM`; `rank` and `world` are what `MPI_Comm_rank` and
`MPI_Comm_size` report for `comm`. -/
def DSM.new (rank world varsPerProcess : Int) (cb : Bool) : Except DsmError DSM :=
  if varsPerProcess ≤ 0 then .error .varsPerProcessNotPositive
  else .ok
    { rank_ := rank, world_ := world, varsPerProc_ := varsPerProcess, cb_ := cb,
      running_ := true,
      values_ := List.replicate (world * varsPerProcess).toNat 0,
      nextReqId_ := 1, writeDone_ := [], casDone_ := [], casResult_ := [],
      nextSeq_ := 1 }

/-- Class invariant established by the constructor and kept by every member function:
`values_` has `world_ * varsPerProc_` entries. -/
def DSM.Sized (s : DSM) : Prop :=
  s.values_.length = (s.world_ * s.varsPerProc_).toNat

instance (s : DSM) : Decidable s.Sized := by
  unfold DSM.Sized; infer_instance

/-! ## Replica engine -/

/-- The tail of `applyOrderedOp`: `if (changed && cb_) cb_(op.home, op.idx, cur, op.seq)`,
where `cur` refers to `values_[gid]`. -/
def notifyChange (s : DSM) (op : OrderedOp) (gid : Int) (changed : Bool) : Outcome Unit :=
  { state := s,
    events := Event.applied op ::
      (if changed && s.cb_ then
        [Event.callback op.home op.idx (s.values_.getD gid.toNat 0) op.seq] else []),
    result := .ok () }

/-- Member `DSM::applyOrderedOp`. -/
def applyOrderedOp (s : DSM) (op : OrderedOp) : Outcome Unit :=
  let s1 : DSM :=
    { s with running_ := if op.type = MsgType.SHUTDOWN then false else s.running_ }
  if isSubscriber s1.world_ s1.rank_ op.home op.idx = false then
    { state := s1, events := [Event.applied op], result := .ok () }
  else
    match globalVarId s1.world_ s1.varsPerProc_ op.home op.idx with
    | .error e => { state := s1, events := [Event.applied op], result := .threw e }
    | .ok gid =>
      let cur := s1.values_.getD gid.toNat 0
      if op.type = MsgType.WRITE then
        let changed := decide (cur ≠ op.v1)
        let s2 : DSM :=
          { s1 with
            values_ := s1.values_.set gid.toNat op.v1,
            writeDone_ :=
              if op.initiator = s1.rank_ then mapAssign s1.writeDone_ op.reqId true
              else s1.writeDone_ }
        notifyChange s2 op gid changed
      else if op.type = MsgType.CAS then
        let casSuccess := decide (cur = op.v1)
        let changed := casSuccess && decide (cur ≠ op.v2)
        let s2 : DSM :=
          { s1 with
            values_ := if casSuccess then s1.values_.set gid.toNat op.v2 else s1.values_,
            casDone_ :=
              if op.initiator = s1.rank_ then mapAssign s1.casDone_ op.reqId true
              else s1.casDone_,
            casResult_ :=
              if op.initiator = s1.rank_ then mapAssign s1.casResult_ op.reqId casSuccess
              else s1.casResult_ }
        notifyChange s2 op gid changed
      else
        notifyChange s1 op gid false

/-- Member `DSM::read`. -/
def read (s : DSM) (homeRank localIndex : Int) : Except DsmError Int :=
  match globalVarId s.world_ s.varsPerProc_ homeRank localIndex with
  | .error e => .error e
  | .ok gid => .ok (s.values_.getD gid.toNat 0)

/-! ## Wire records and transport -/

/-- Conversion `static_cast<int>(x)` of a `long long`: reduction modulo `2^32` into
`[-2^31, 2^31)`. -/
def wrap32 (x : Int) : Int := (x + 2147483648) % 4294967296 - 2147483648

/-- The 8-word buffer filled by `sequencerMulticast` and by `shutdown`:
`[seq, type, home, idx, v1, v2, initiator, reqId]`. -/
def encodeOp (op : OrderedOp) : List Int :=
  [op.seq, op.type.tag, op.home, op.idx, op.v1, op.v2, op.initiator, op.reqId]

/-- The decoding of a received 8-word buffer in `poll`. -/
def decodeOp (buf : List Int) : OrderedOp :=
  { seq := buf.getD 0 0,
    type := ⟨buf.getD 1 0⟩,
    home := wrap32 (buf.getD 2 0),
    idx := wrap32 (buf.getD 3 0),
    v1 := wrap32 (buf.getD 4 0),
    v2 := wrap32 (buf.getD 5 0),
    initiator := wrap32 (buf.getD 6 0),
    reqId := buf.getD 7 0 }

/-- Member `DSM::sendRequest`: one message `[type, home, idx, v1, v2, reqId]` to rank 0. -/
def sendRequest (type : MsgType) (home idx v1 v2 reqId : Int) : List Event :=
  [Event.sendReq [type.tag, home, idx, v1, v2, reqId]]

/-- Member `DSM::sequencerMulticast`; reads `world_`, changes no member. -/
def sequencerMulticast (s : DSM) (op : OrderedOp) : List Event :=
  let buf := encodeOp op
  let subs := subscribersFor s.world_ op.home op.idx
  (subs.filter (fun dest => decide (dest ≠ 0))).map (fun dest => Event.sendOp dest buf)

/-! ## Sequencer -/

/-- Member `DSM::sequencerProcessRequests`: the loop over the requests `MPI_Iprobe`
finds, front first. -/
def sequencerProcessRequests (s : DSM) (opQ : List (List Int)) :
    List (Int × List Int) → NetOutcome Unit
  | [] => { state := s, net := ⟨[], opQ⟩, events := [], result := .ok () }
  | (source, rbuf) :: rest =>
    let type : MsgType := ⟨rbuf.getD 0 0⟩
    let home := wrap32 (rbuf.getD 1 0)
    let idx := wrap32 (rbuf.getD 2 0)
    let v1 := wrap32 (rbuf.getD 3 0)
    let v2 := wrap32 (rbuf.getD 4 0)
    let reqId := rbuf.getD 5 0
    if isSubscriber s.world_ source home idx = false then
      { state := s, net := ⟨rest, opQ⟩, events := [],
        result := .threw .nonSubscriberRequest }
    else
      let op : OrderedOp :=
        { seq := s.nextSeq_, type := type, home := home, idx := idx, v1 := v1, v2 := v2,
          initiator := source, reqId := reqId }
      let s1 : DSM := { s with nextSeq_ := s.nextSeq_ + 1 }
      let r := applyOrderedOp s1 op
      match r.result with
      | .ok _ =>
        let k := sequencerProcessRequests r.state opQ rest
        { k with events := Event.ordered op :: (r.events ++ sequencerMulticast r.state op ++ k.events) }
      | .threw e =>
        { state := r.state, net := ⟨rest, opQ⟩, events := Event.ordered op :: r.events,
          result := .threw e }
      | .blocked =>
        { state := r.state, net := ⟨rest, opQ⟩, events := Event.ordered op :: r.events,
          result := .blocked }

/-! ## Poll loop -/

/-- The receive loop of `DSM::poll` on a rank other than 0. -/
def pollLoop (s : DSM) (reqQ : List (Int × List Int)) : List (List Int) → NetOutcome Unit
  | [] => { state := s, net := ⟨reqQ, []⟩, events := [], result := .ok () }
  | buf :: rest =>
    let op := decodeOp buf
    let r := applyOrderedOp s op
    match r.result with
    | .ok _ =>
      if op.type = MsgType.SHUTDOWN then
        { state := { r.state with running_ := false }, net := ⟨reqQ, rest⟩,
          events := r.events, result := .ok () }
      else
        let k := pollLoop r.state reqQ rest
        { k with events := r.events ++ k.events }
    | .threw e =>
      { state := r.state, net := ⟨reqQ, rest⟩, events := r.events, result := .threw e }
    | .blocked =>
      { state := r.state, net := ⟨reqQ, rest⟩, events := r.events, result := .blocked }

/-- Member `DSM::poll`. -/
def poll (s : DSM) (net : Net) : NetOutcome Unit :=
  if s.running_ = false then { state := s, net := net, events := [], result := .ok () }
  else if s.rank_ = 0 then sequencerProcessRequests s net.opQ net.reqQ
  else pollLoop s net.reqQ net.opQ

/-- Messages of `batch` arrive behind the ones already pending. -/
def Net.deliver (net batch : Net) : Net :=
  ⟨net.reqQ ++ batch.reqQ, net.opQ ++ batch.opQ⟩

/-- Member `DSM::waitForWrite`.  The list holds, for each iteration of the loop, the
messages that arrive before its `poll()`; when it is used up the call is still
waiting. -/
def waitForWrite (reqId : Int) : List Net → DSM → Net → NetOutcome Unit
  | [], s, net =>
    if s.running_ = false then
      { state := s, net := net, events := [], result := .threw .stoppedWaitingWrite }
    else { state := s, net := net, events := [], result := .blocked }
  | batch :: later, s, net =>
    if s.running_ = false then
      { state := s, net := net, events := [], result := .threw .stoppedWaitingWrite }
    else
      let r := poll s (net.deliver batch)
      match r.result with
      | .ok _ =>
        if mapFind r.state.writeDone_ reqId = some true then r
        else
          let k := waitForWrite reqId later r.state r.net
          { k with events := r.events ++ k.events }
      | _ => r

/-- Member `DSM::waitForCas`; same conventions as `waitForWrite`. -/
def waitForCas (reqId : Int) : List Net → DSM → Net → NetOutcome Bool
  | [], s, net =>
    if s.running_ = false then
      { state := s, net := net, events := [], result := .threw .stoppedWaitingCas }
    else { state := s, net := net, events := [], result := .blocked }
  | batch :: later, s, net =>
    if s.running_ = false then
      { state := s, net := net, events := [], result := .threw .stoppedWaitingCas }
    else
      let r := poll s (net.deliver batch)
      match r.result with
      | .ok _ =>
        if mapFind r.state.casDone_ reqId = some true then
          let res := mapIndex r.state.casResult_ reqId
          { state := { r.state with casResult_ := res.2 }, net := r.net, events := r.events,
            result := .ok res.1 }
        else
          let k := waitForCas reqId later r.state r.net
          { k with events := r.events ++ k.events }
      | .threw e => { state := r.state, net := r.net, events := r.events, result := .threw e }
      | .blocked => { state := r.state, net := r.net, events := r.events, result := .blocked }

/-! ## Client operation layer -/

/-- Member `DSM::write`.  `arrivals` is only used by the blocking wait of a rank other
than 0. -/
def write (s : DSM) (net : Net) (arrivals : List Net) (homeRank localIndex value : Int) :
    NetOutcome Unit :=
  if isSubscriber s.world_ s.rank_ homeRank localIndex = false then
    { state := s, net := net, events := [], result := .threw .writeNotAllowed }
  else
    let reqId := s.nextReqId_
    let s1 : DSM := { s with nextReqId_ := s.nextReqId_ + 1 }
    if s1.rank_ = 0 then
      let op : OrderedOp :=
        { seq := s1.nextSeq_, type := MsgType.WRITE, home := homeRank, idx := localIndex,
          v1 := value, v2 := 0, initiator := 0, reqId := reqId }
      let s2 : DSM := { s1 with nextSeq_ := s1.nextSeq_ + 1 }
      let r := applyOrderedOp s2 op
      match r.result with
      | .ok _ =>
        { state := { r.state with writeDone_ := mapAssign r.state.writeDone_ reqId true },
          net := net,
          events := Event.ordered op :: (r.events ++ sequencerMulticast r.state op),
          result := .ok () }
      | .threw e =>
        { state := r.state, net := net, events := Event.ordered op :: r.events,
          result := .threw e }
      | .blocked =>
        { state := r.state, net := net, events := Event.ordered op :: r.events,
          result := .blocked }
    else
      let sent := sendRequest MsgType.WRITE homeRank localIndex value 0 reqId
      let k := waitForWrite reqId arrivals s1 net
      { k with events := sent ++ k.events }

/-- Member `DSM::compareExchange`. -/
def compareExchange (s : DSM) (net : Net) (arrivals : List Net)
    (homeRank localIndex expected desired : Int) : NetOutcome Bool :=
  if isSubscriber s.world_ s.rank_ homeRank localIndex = false then
    { state := s, net := net, events := [], result := .threw .casNotAllowed }
  else
    let reqId := s.nextReqId_
    let s1 : DSM := { s with nextReqId_ := s.nextReqId_ + 1 }
    if s1.rank_ = 0 then
      let op : OrderedOp :=
        { seq := s1.nextSeq_, type := MsgType.CAS, home := homeRank, idx := localIndex,
          v1 := expected, v2 := desired, initiator := 0, reqId := reqId }
      let s2 : DSM := { s1 with nextSeq_ := s1.nextSeq_ + 1 }
      let r := applyOrderedOp s2 op
      match r.result with
      | .ok _ =>
        let s3 : DSM := { r.state with casDone_ := mapAssign r.state.casDone_ reqId true }
        let res := mapIndex s3.casResult_ reqId
        { state := { s3 with casResult_ := res.2 },
          net := net,
          events := Event.ordered op :: (r.events ++ sequencerMulticast r.state op),
          result := .ok res.1 }
      | .threw e =>
        { state := r.state, net := net, events := Event.ordered op :: r.events,
          result := .threw e }
      | .blocked =>
        { state := r.state, net := net, events := Event.ordered op :: r.events,
          result := .blocked }
    else
      let sent := sendRequest MsgType.CAS homeRank localIndex expected desired reqId
      let k := waitForCas reqId arrivals s1 net
      { k with events := sent ++ k.events }

/-- The loop `for (int dest = 1; dest < world_; ++dest) MPI_Send(buf, ...)` of `shutdown`. -/
def shutdownSends (world : Int) (buf : List Int) : List Event :=
  (List.range' 1 (world.toNat - 1)).map (fun dest => Event.sendOp (Int.ofNat dest) buf)

/-- Member `DSM::shutdown`. -/
def shutdown (s : DSM) : Outcome Unit :=
  if s.rank_ ≠ 0 then { state := s, events := [], result := .ok () }
  else
    let op : OrderedOp :=
      { seq := s.nextSeq_, type := MsgType.SHUTDOWN, home := 0, idx := 0, v1 := 0, v2 := 0,
        initiator := 0, reqId := 0 }
    let s1 : DSM := { s with nextSeq_ := s.nextSeq_ + 1 }
    { state := { s1 with running_ := false },
      events := Event.ordered op :: shutdownSends s1.world_ (encodeOp op),
      result := .ok () }

/-! ## Executions of one process -/

/-- A call of a public member function by the application, together with the messages
that reach the process: for `poll` the ones that arrived since the previous call, for
the blocking calls the batches that arrive during the wait. -/
inductive Action where
  | poll (arrived : Net)
  | write (homeRank localIndex value : Int) (arrivals : List Net)
  | compareExchange (homeRank localIndex expected desired : Int) (arrivals : List Net)
  | shutdown

/-- A process in the middle of an execution: the object, the messages pending for it,
and everything it emitted so far.  `stuck` is set when a blocking call never returned. -/
structure Proc where
  dsm : DSM
  net : Net
  trace : List Event
  stuck : Bool

/-- One call.  An exception leaves the object as it is and the application goes on
(it may catch it); a call that never returns ends the execution. -/
def step (p : Proc) (a : Action) : Proc :=
  if p.stuck then p
  else
    match a with
    | .poll arrived =>
      let r := poll p.dsm (p.net.deliver arrived)
      { dsm := r.state, net := r.net, trace := p.trace ++ r.events,
        stuck := decide (r.result = .blocked) }
    | .write h i v arrivals =>
      let r := write p.dsm p.net arrivals h i v
      { dsm := r.state, net := r.net, trace := p.trace ++ r.events,
        stuck := decide (r.result = .blocked) }
    | .compareExchange h i e d arrivals =>
      let r := compareExchange p.dsm p.net arrivals h i e d
      { dsm := r.state, net := r.net, trace := p.trace ++ r.events,
        stuck := decide (r.result = .blocked) }
    | .shutdown =>
      let r := shutdown p.dsm
      { dsm := r.state, net := p.net, trace := p.trace ++ r.events,
        stuck := decide (r.result = .blocked) }

/-- An execution: the calls of `acts` in order. -/
def run (p : Proc) (acts : List Action) : Proc :=
  acts.foldl step p

/-- A process right after construction: nothing pending, nothing emitted. -/
def Proc.start (s : DSM) : Proc :=
  { dsm := s, net := ⟨[], []⟩, trace := [], stuck := false }

/-! ## Vocabulary of the statements -/

/-- The state `applyOrderedOp` works on after its first statement. -/
def markShutdown (s : DSM) (op : OrderedOp) : DSM :=
  { s with running_ := if op.type = MsgType.SHUTDOWN then false else s.running_ }

/-- The sequence numbers of the ordered operations created in a trace, in order. -/
def orderedSeqs (evs : List Event) : List Int :=
  evs.filterMap (fun e => match e with
    | Event.ordered op => some op.seq
    | _ => none)

/-- The ordered-operation buffers sent to rank `d` in a trace, in sending order. -/
def sentTo (d : Int) (evs : List Event) : List (List Int) :=
  evs.filterMap (fun e => match e with
    | Event.sendOp dest buf => if dest = d then some buf else none
    | _ => none)

/-- The operations on which `applyOrderedOp` was entered in a trace, in order. -/
def appliedOps (evs : List Event) : List OrderedOp :=
  evs.filterMap (fun e => match e with
    | Event.applied op => some op
    | _ => none)

/-- The change notifications of a trace, in order. -/
def callbacks (evs : List Event) : List (Int × Int × Int × Int) :=
  evs.filterMap (fun e => match e with
    | Event.callback h i v q => some (h, i, v, q)
    | _ => none)

/-- The messages sent in a trace (requests and ordered operations), in order. -/
def sends (evs : List Event) : List Event :=
  evs.filter (fun e => match e with
    | Event.sendReq _ => true
    | Event.sendOp _ _ => true
    | _ => false)

/-- The list `l` is `a, a + 1, ..., b - 1`. -/
def SeqSpan : Int → List Int → Int → Prop
  | a, [], b => b = a
  | a, x :: t, b => x = a ∧ SeqSpan (a + 1) t b

/-- The list `l` is strictly increasing and lies in `[a, b)`. -/
def Within (a : Int) (l : List Int) (b : Int) : Prop :=
  a ≤ b ∧ l.Pairwise (· < ·) ∧ ∀ x ∈ l, a ≤ x ∧ x < b

/-- The sequence numbers (word 0) of the ordered operations sent to rank `d`, in
sending order. -/
def sentSeqs (d : Int) (evs : List Event) : List Int :=
  (sentTo d evs).map (fun buf => buf.getD 0 0)

/-- A trace that starts with `nextSeq_ = a` and ends with `nextSeq_ = b`: the
operations it orders carry `a, ..., b - 1`, and what it sends to `d` carries strictly
increasing sequence numbers from `[a, b)`. -/
def TraceSpan (d a : Int) (evs : List Event) (b : Int) : Prop :=
  SeqSpan a (orderedSeqs evs) b ∧ Within a (sentSeqs d evs) b

/-- The ordered operation `sequencerProcessRequests` builds from a received request. -/
def requestOp (s : DSM) (source : Int) (rbuf : List Int) : OrderedOp :=
  { seq := s.nextSeq_, type := ⟨rbuf.getD 0 0⟩, home := wrap32 (rbuf.getD 1 0),
    idx := wrap32 (rbuf.getD 2 0), v1 := wrap32 (rbuf.getD 3 0),
    v2 := wrap32 (rbuf.getD 4 0), initiator := source, reqId := rbuf.getD 5 0 }

/-- The state after `nextSeq_++`. -/
def bumpSeq (s : DSM) : DSM := { s with nextSeq_ := s.nextSeq_ + 1 }

/-- The state after `nextReqId_++`. -/
def bumpReqId (s : DSM) : DSM := { s with nextReqId_ := s.nextReqId_ + 1 }

/-- What every piece of an execution guarantees, from state `s` to state `t` with
emitted events `evs`: the configuration and the size of the replica stay, sequence
numbers advance as `TraceSpan` says, the replica entries of checked addresses the rank
does not subscribe to keep their value, and notifications concern subscribed variables
only. -/
structure Effect (s : DSM) (evs : List Event) (t : DSM) : Prop where
  rank : t.rank_ = s.rank_
  world : t.world_ = s.world_
  vars : t.varsPerProc_ = s.varsPerProc_
  cb : t.cb_ = s.cb_
  len : t.values_.length = s.values_.length
  span : ∀ d, TraceSpan d s.nextSeq_ evs t.nextSeq_
  vals : ∀ h i gid, globalVarId s.world_ s.varsPerProc_ h i = .ok gid →
    isSubscriber s.world_ s.rank_ h i = false →
    t.values_.getD gid.toNat 0 = s.values_.getD gid.toNat 0
  cbs : ∀ c ∈ callbacks evs, isSubscriber s.world_ s.rank_ c.1 c.2.1 = true

/-- The ordered operation `write` builds on rank 0. -/
def writeOp (s : DSM) (homeRank localIndex value : Int) : OrderedOp :=
  { seq := s.nextSeq_, type := MsgType.WRITE, home := homeRank, idx := localIndex,
    v1 := value, v2 := 0, initiator := 0, reqId := s.nextReqId_ }

/-- The ordered operation `compareExchange` builds on rank 0. -/
def casOp (s : DSM) (homeRank localIndex expected desired : Int) : OrderedOp :=
  { seq := s.nextSeq_, type := MsgType.CAS, home := homeRank, idx := localIndex,
    v1 := expected, v2 := desired, initiator := 0, reqId := s.nextReqId_ }

/-- The ordered operation `shutdown` builds. -/
def shutdownOp (s : DSM) : OrderedOp :=
  { seq := s.nextSeq_, type := MsgType.SHUTDOWN, home := 0, idx := 0, v1 := 0, v2 := 0,
    initiator := 0, reqId := 0 }

/-- The object `main.cpp` constructs on rank `r` when run with 4 processes
(`VARS_PER_PROCESS = 2`, a callback that prints). -/
def mainState (r : Int) : DSM :=
  { rank_ := r, world_ := 4, varsPerProc_ := 2, cb_ := true, running_ := true,
    values_ := [0, 0, 0, 0, 0, 0, 0, 0], nextReqId_ := 1, writeDone_ := [],
    casDone_ := [], casResult_ := [], nextSeq_ := 1 }

/-- An execution of the coordinator in the scenario of `main.cpp`: it serves the write
request of rank 1 and the CAS request of rank 2, writes 11 itself, and shuts down. -/
def mainCoordinatorActs : List Action :=
  [Action.poll ⟨[(1, [1, 0, 0, 10, 0, 1]), (2, [2, 0, 0, 10, 99, 1])], []⟩,
   Action.write 0 0 11 [],
   Action.shutdown]

/-- The ordered-operation buffers that reach the process during a call, in arrival
order. -/
def Action.offered : Action → List (List Int)
  | Action.poll arrived => arrived.opQ
  | Action.write _ _ _ arrivals => arrivals.flatMap (fun b => b.opQ)
  | Action.compareExchange _ _ _ _ arrivals => arrivals.flatMap (fun b => b.opQ)
  | Action.shutdown => []

/-- The calls `applyOrderedOp(op)` for the operations of a list, in order; a thrown
exception ends the sequence. -/
def applyAll (s : DSM) : List OrderedOp → Outcome Unit
  | [] => { state := s, events := [], result := .ok () }
  | op :: rest =>
    match (applyOrderedOp s op).result with
    | .ok _ =>
      { applyAll (applyOrderedOp s op).state rest with
        events := (applyOrderedOp s op).events ++
          (applyAll (applyOrderedOp s op).state rest).events }
    | .threw e =>
      { state := (applyOrderedOp s op).state, events := (applyOrderedOp s op).events,
        result := .threw e }
    | .blocked =>
      { state := (applyOrderedOp s op).state, events := (applyOrderedOp s op).events,
        result := .blocked }

/-- Whether an operation targets the variable `(home, idx)`. -/
def targets (home idx : Int) (op : OrderedOp) : Bool :=
  decide (op.home = home) && decide (op.idx = idx)

/-- The change notifications of a trace that concern the variable `(home, idx)`. -/
def callbacksFor (home idx : Int) (evs : List Event) : List (Int × Int × Int × Int) :=
  (callbacks evs).filter (fun c => decide (c.1 = home) && decide (c.2.1 = idx))

/-- One step in the history of a variable: from the value `x`, the new value and the
notification produced by an operation that targets the variable, on a replica whose
callback is set iff `cb`. -/
def replay1 (cb : Bool) (x : Int) (op : OrderedOp) : Int × List (Int × Int × Int × Int) :=
  if op.type = MsgType.WRITE then
    (op.v1, if x ≠ op.v1 ∧ cb = true then [(op.home, op.idx, op.v1, op.seq)] else [])
  else if op.type = MsgType.CAS then
    if x = op.v1 then
      (op.v2, if x ≠ op.v2 ∧ cb = true then [(op.home, op.idx, op.v2, op.seq)] else [])
    else (x, [])
  else (x, [])

/-- The history of one variable: the final value and the notifications produced by a
list of operations that all target it. -/
def replay (cb : Bool) : Int → List OrderedOp → Int × List (Int × Int × Int × Int)
  | x, [] => (x, [])
  | x, op :: rest =>
    ((replay cb (replay1 cb x op).1 rest).1,
      (replay1 cb x op).2 ++ (replay cb (replay1 cb x op).1 rest).2)

/-- A valid variable address: `home` in `[0, world)` and `idx` in `[0, varsPerProc)`. -/
def ValidAddr (world varsPerProc home idx : Int) : Prop :=
  0 ≤ home ∧ home < world ∧ 0 ≤ idx ∧ idx < varsPerProc

instance (world varsPerProc home idx : Int) : Decidable (ValidAddr world varsPerProc home idx) := by
  unfold ValidAddr; infer_instance

/-- Operations of the `main.cpp` scenario in sequencer order, mixed with operations on
other variables, as two subscribers of `(0, 0)` may see them. -/
def mainOpsAt1 : List OrderedOp :=
  [⟨1, MsgType.WRITE, 0, 0, 10, 0, 1, 1⟩, ⟨2, MsgType.WRITE, 1, 0, 7, 0, 1, 2⟩,
   ⟨3, MsgType.CAS, 0, 0, 10, 99, 2, 1⟩, ⟨5, MsgType.WRITE, 0, 0, 11, 0, 0, 1⟩]

/-- The same operations on `(0, 0)` with another operation in between. -/
def mainOpsAt2 : List OrderedOp :=
  [⟨1, MsgType.WRITE, 0, 0, 10, 0, 1, 1⟩, ⟨3, MsgType.CAS, 0, 0, 10, 99, 2, 1⟩,
   ⟨4, MsgType.WRITE, 2, 1, 5, 0, 2, 2⟩, ⟨5, MsgType.WRITE, 0, 0, 11, 0, 0, 1⟩]

/-- Rank `r` of the `main.cpp` scenario at a moment when `(0, 0)` holds `x`. -/
def mainStateWith (r x : Int) : DSM :=
  { mainState r with values_ := [x, 0, 0, 0, 0, 0, 0, 0] }

/-- The CAS of rank 2 in `main.cpp`, `compareExchange(0, 0, 10, 99)`, as an ordered
operation. -/
def mainCas : OrderedOp := ⟨2, MsgType.CAS, 0, 0, 10, 99, 2, 1⟩

/-- The write of rank 0 in `main.cpp`, `write(0, 0, 11)`, as an ordered operation. -/
def mainWrite11 : OrderedOp := ⟨3, MsgType.WRITE, 0, 0, 11, 0, 0, 1⟩

/-- Two CAS operations of rank 2 on `(0, 0)` with the same expected value 10; the first
one has desired = expected. -/
def racingCasSame : OrderedOp := ⟨5, MsgType.CAS, 0, 0, 10, 10, 2, 1⟩

/-- The second of the two racing CAS operations, `CAS(10 -> 99)`. -/
def racingCasNext : OrderedOp := ⟨6, MsgType.CAS, 0, 0, 10, 99, 2, 2⟩

/-- The operation does not make `applyOrderedOp` throw on a process with this rank:
if the rank passes the subscriber check for its target, the address is valid. -/
def NoThrow (rank world varsPerProc : Int) (op : OrderedOp) : Prop :=
  rank ∈ subscribersFor world op.home op.idx → ValidAddr world varsPerProc op.home op.idx

instance (rank world varsPerProc : Int) (op : OrderedOp) :
    Decidable (NoThrow rank world varsPerProc op) := by
  unfold NoThrow; infer_instance

/-- The front part of a queue of ordered-operation buffers up to and including the
first SHUTDOWN; the whole queue if it holds none. -/
def uptoShutdown : List (List Int) → List (List Int)
  | [] => []
  | buf :: rest =>
    if (decodeOp buf).type = MsgType.SHUTDOWN then [buf] else buf :: uptoShutdown rest

/-- What follows the first SHUTDOWN in a queue of ordered-operation buffers. -/
def afterShutdown : List (List Int) → List (List Int)
  | [] => []
  | buf :: rest =>
    if (decodeOp buf).type = MsgType.SHUTDOWN then rest else afterShutdown rest

/-- The buffer holds an operation that is no SHUTDOWN and does not make
`applyOrderedOp` throw on a process with this rank. -/
def Calm (rank world varsPerProc : Int) (buf : List Int) : Prop :=
  NoThrow rank world varsPerProc (decodeOp buf) ∧ (decodeOp buf).type ≠ MsgType.SHUTDOWN

instance (rank world varsPerProc : Int) (buf : List Int) :
    Decidable (Calm rank world varsPerProc buf) := by
  unfold Calm; infer_instance

/-- The operation is of type `ty` and carries the initiator `rank` and the request id
`k`: it is the answer to request `k` of that rank. -/
def Completes (ty : MsgType) (rank k : Int) (op : OrderedOp) : Prop :=
  op.type = ty ∧ op.initiator = rank ∧ op.reqId = k

instance (ty : MsgType) (rank k : Int) (op : OrderedOp) : Decidable (Completes ty rank k op) := by
  unfold Completes; infer_instance


/-- A value of the C++ type `int` (32 bits): the range on which `static_cast<int>` of
a `long long` is the identity. -/
def FitsInt (x : Int) : Prop := -2147483648 ≤ x ∧ x < 2147483648

instance (x : Int) : Decidable (FitsInt x) := by
  unfold FitsInt; infer_instance

/-- Rank 1 of the `main.cpp` scenario after it has been stopped. -/
def mainStopped : DSM := { mainState 1 with running_ := false }

/-- The answer to the first write request of rank 1 in `main.cpp`, pending on the
operation channel. -/
def mainAnswer : Net := ⟨[], [[1, 1, 0, 0, 10, 0, 1, 1]]⟩

/-- The ordered operations the sequencer builds from a queue of requests when the first
one gets the sequence number `n`: request by request as in `sequencerProcessRequests`,
with consecutive sequence numbers. -/
def orderAll (n : Int) : List (Int × List Int) → List OrderedOp
  | [] => []
  | (source, rbuf) :: rest =>
    { seq := n, type := ⟨rbuf.getD 0 0⟩, home := wrap32 (rbuf.getD 1 0),
      idx := wrap32 (rbuf.getD 2 0), v1 := wrap32 (rbuf.getD 3 0),
      v2 := wrap32 (rbuf.getD 4 0), initiator := source, reqId := rbuf.getD 5 0 } ::
      orderAll (n + 1) rest

/-- The copies of the operations of a list that are multicast to rank `d`: those whose
target `d` subscribes to, `d` not being rank 0. -/
def copiesFor (world d : Int) (ops : List OrderedOp) : List (List Int) :=
  (ops.filter (fun op => decide (d ∈ subscribersFor world op.home op.idx ∧ d ≠ 0))).map encodeOp

/-- Requests of the `main.cpp` scenario in front of a request of rank 3 for the
variable `(0, 0)`, which rank 3 does not subscribe to, and a later request. -/
def mainRequestsWithIntruder : List (Int × List Int) :=
  [(1, [1, 0, 0, 10, 0, 1]), (2, [2, 0, 0, 10, 99, 1])] ++
    (3, [1, 0, 0, 5, 0, 1]) :: [(1, [1, 1, 0, 7, 0, 2])]

/-- Every request id that has an entry in a completion table of `s` has an entry in the
same table of `t`: no completion record was erased on the way from `s` to `t`. -/
def KeepsRecords (s t : DSM) : Prop :=
  (∀ k, (mapFind s.writeDone_ k).isSome = true → (mapFind t.writeDone_ k).isSome = true) ∧
  (∀ k, (mapFind s.casDone_ k).isSome = true → (mapFind t.casDone_ k).isSome = true) ∧
  (∀ k, (mapFind s.casResult_ k).isSome = true → (mapFind t.casResult_ k).isSome = true)

/-- The request id a call of `write` or `compareExchange` took (`reqId = nextReqId_++`),
read off the events of the call: word 5 of the request it sent on a rank other than 0,
the `reqId` of the operation it ordered on rank 0; `none` for a call that threw at the
subscriber check and emitted nothing. -/
def issuedId (evs : List Event) : Option Int :=
  match evs with
  | Event.sendReq buf :: _ => some (buf.getD 5 0)
  | Event.ordered op :: _ => some op.reqId
  | _ => none

/-- The request ids taken by the `write` and `compareExchange` calls of an execution,
in call order. -/
def issuedIds (p : Proc) : List Action → List Int
  | [] => []
  | a :: rest =>
    (if p.stuck then []
     else
      match a with
      | Action.write h i v arrivals => (issuedId (write p.dsm p.net arrivals h i v).events).toList
      | Action.compareExchange h i e d arrivals =>
        (issuedId (compareExchange p.dsm p.net arrivals h i e d).events).toList
      | _ => []) ++ issuedIds (step p a) rest

/-- Calls of rank 1 in a world of 4: a write it is allowed, a write to `(2, 0)` that it
is not subscribed to, a CAS, a poll, and another write; the answers arrive during the
waits. -/
def mixedCalls : List Action :=
  [Action.write 0 0 10 [mainAnswer],
   Action.write 2 0 5 [],
   Action.compareExchange 0 0 10 99 [⟨[], [[2, 2, 0, 0, 10, 99, 1, 2]]⟩],
   Action.poll ⟨[], []⟩,
   Action.write 1 1 4 [⟨[], [[3, 1, 1, 1, 4, 0, 1, 3]]⟩]]
end Lab8

/-!
# lab7: polynomial multiplication (`MPI_impl.cpp`)

The sequential functions of the program: the helpers on coefficient vectors,
`naiveMul`, `karatsubaSeqPow2` and `karatsubaSeq`; and the loop of `mpiNaiveMul` that
partitions the coefficients over the processes.

Modelling conventions

* `std::vector<ll>` is a `List Int`; the coefficients are exact integers (`long long`
  overflow is outside the model).  Sizes and indices are `Nat`; `v[i]` is
  `v.getD i 0` and is only used inside the vector.
* A loop over `0 ≤ i < n` is a `foldl` over `List.range n` whose state is the vector
  being filled.
* The recursion of `karatsubaSeqPow2` and the loop of `nextPow2` carry a bound on their
  depth (number of iterations) as first argument.
-/

namespace Lab7

/-- Function `nextPow2`: the loop `while (p < x) p <<= 1`.  The first argument bounds the
number of iterations (`x` iterations are enough, since `p` doubles). -/
def nextPow2Loop (x : Nat) : Nat → Nat → Nat
  | 0, p => p
  | fuel + 1, p => if p < x then nextPow2Loop x fuel (p * 2) else p

/-- Function `nextPow2`. -/
def nextPow2 (x : Nat) : Nat := nextPow2Loop x x 1

/-- Function `padTo`: a vector of `n` zeros with `a` copied to its front (for
`a.size() ≤ n`, as in every call). -/
def padTo (a : List Int) (n : Nat) : List Int :=
  (List.range a.length).foldl (fun r i => r.set i (a.getD i 0)) (List.replicate n 0)

/-- Function `addVec`. -/
def addVec (a b : List Int) : List Int :=
  let n := max a.length b.length
  (List.range n).foldl
    (fun r i =>
      r.set i ((if i < a.length then a.getD i 0 else 0) + (if i < b.length then b.getD i 0 else 0)))
    (List.replicate n 0)

/-- Function `subVec`. -/
def subVec (a b : List Int) : List Int :=
  let n := max a.length b.length
  (List.range n).foldl
    (fun r i =>
      r.set i ((if i < a.length then a.getD i 0 else 0) - (if i < b.length then b.getD i 0 else 0)))
    (List.replicate n 0)

/-- Function `addTo`: the new value of `dest`. -/
def addTo (dest src : List Int) (shift : Nat) : List Int :=
  (List.range src.length).foldl
    (fun dest i =>
      let k := shift + i
      if k < dest.length then dest.set k (dest.getD k 0 + src.getD i 0) else dest)
    dest

/-- Function `naiveMul` (for non-empty vectors; the length `n + m - 1` is computed in
`int`). -/
def naiveMul (a b : List Int) : List Int :=
  let n := a.length
  let m := b.length
  (List.range n).foldl
    (fun c i =>
      let ai := a.getD i 0
      (List.range m).foldl (fun c j => c.set (i + j) (c.getD (i + j) 0 + ai * b.getD j 0)) c)
    (List.replicate (n + m - 1) 0)

/-- Function `karatsubaSeqPow2`.  The first argument bounds the depth of the recursion;
`none` stands for a recursion that goes deeper. -/
def karatsubaSeqPow2 : Nat → List Int → List Int → Int → Option (List Int)
  | 0, _, _, _ => none
  | depth + 1, a, b, threshold =>
    let n := a.length
    if (n : Int) ≤ threshold then some (naiveMul a b)
    else
      let half := n / 2
      let a0 := a.take half
      let a1 := a.drop half
      let b0 := b.take half
      let b1 := b.drop half
      match karatsubaSeqPow2 depth a0 b0 threshold, karatsubaSeqPow2 depth a1 b1 threshold,
        karatsubaSeqPow2 depth (addVec a0 a1) (addVec b0 b1) threshold with
      | some z0, some z2, some z1 =>
        let mid := subVec (subVec z1 z0) z2
        let res : List Int := List.replicate (2 * n - 1) 0
        some (addTo (addTo (addTo res z0 0) mid half) z2 (2 * half))
      | _, _, _ => none

/-- The call `v.resize(n)` of a `std::vector<ll>`. -/
def resize (v : List Int) (n : Nat) : List Int :=
  v.take n ++ List.replicate (n - v.length) 0

/-- Function `karatsubaSeq`; the recursion of `karatsubaSeqPow2` is given the depth `n`,
the padded length. -/
def karatsubaSeq (a b : List Int) (threshold : Int) : Option (List Int) :=
  let need := a.length + b.length - 1
  let n := nextPow2 (max a.length b.length)
  let ap := padTo a n
  let bp := padTo b n
  match karatsubaSeqPow2 n ap bp threshold with
  | some cp => some (resize cp need)
  | none => none

/-- The partition loop of `mpiNaiveMul` (`counts[r] = base + (r < rem ? 1 : 0);
displs[r] = off; off += counts[r]`): the two vectors `counts` and `displs`. -/
def scatterCountsDispls (n p : Int) : List Int × List Int :=
  let counts0 : List Int := List.replicate p.toNat 0
  let displs0 : List Int := List.replicate p.toNat 0
  let base := Int.tdiv n p
  let rem := Int.tmod n p
  let st := (List.range p.toNat).foldl
    (fun (st : List Int × List Int × Int) r =>
      let counts := st.1.set r (base + (if (r : Int) < rem then 1 else 0))
      let displs := st.2.1.set r st.2.2
      let off := st.2.2 + counts.getD r 0
      (counts, displs, off))
    (counts0, displs0, 0)
  (st.1, st.2.1)

/-- The generating series of a vector: the coefficient of `X^k` is `v[k]`, and 0 from
the length of the vector on. -/
def series (v : List Int) : PowerSeries Int := PowerSeries.mk (fun k => v.getD k 0)

end Lab7

/-!
# project: n-body simulation (`nbody_mpi.cpp`)

The block partition of the bodies over the ranks.  `int` is `Int`, the two output
vectors are returned as a pair.
-/

namespace NBody

/-- Function `compute_counts_displs(N, P, counts, displs)`: the two output vectors.
`/` and `%` are the truncating operations of C++. -/
def compute_counts_displs (N P : Int) : List Int × List Int :=
  let counts0 : List Int := List.replicate P.toNat 0
  let displs0 : List Int := List.replicate P.toNat 0
  let base := Int.tdiv N P
  let rem := Int.tmod N P
  let counts := (List.range P.toNat).foldl
    (fun counts r => counts.set r (base + (if (r : Int) < rem then 1 else 0))) counts0
  let displs1 := displs0.set 0 0
  let displs := (List.range' 1 (P.toNat - 1)).foldl
    (fun displs r => displs.set r (displs.getD (r - 1) 0 + counts.getD (r - 1) 0)) displs1
  (counts, displs)

end NBody

namespace Lab8

/-! ## Basic facts about the replica engine -/

theorem MsgType.write_ne_cas : MsgType.WRITE ≠ MsgType.CAS := by decide

theorem MsgType.write_ne_shutdown : MsgType.WRITE ≠ MsgType.SHUTDOWN := by decide

theorem MsgType.cas_ne_shutdown : MsgType.CAS ≠ MsgType.SHUTDOWN := by decide

theorem mapFind_mapAssign_self (m : List (Int × Bool)) (k : Int) (v : Bool) :
    mapFind (mapAssign m k v) k = some v := by
  induction m with
  | nil => simp [mapAssign, mapFind]
  | cons p t ih =>
    obtain ⟨k', v'⟩ := p
    by_cases h : k' = k
    · simp [mapAssign, mapFind, h]
    · simp [mapAssign, mapFind, h, ih]

theorem mapFind_mapAssign_other (m : List (Int × Bool)) (k j : Int) (v : Bool) (hj : j ≠ k) :
    mapFind (mapAssign m k v) j = mapFind m j := by
  induction m with
  | nil => simp [mapAssign, mapFind, Ne.symm hj]
  | cons p t ih =>
    obtain ⟨k', v'⟩ := p
    by_cases h : k' = k
    · subst h
      simp [mapAssign, mapFind, Ne.symm hj]
    · by_cases h2 : k' = j
      · subst h2
        simp [mapAssign, mapFind, h]
      · simp [mapAssign, mapFind, h, h2, ih]

theorem applyOrderedOp_not_subscriber (s : DSM) (op : OrderedOp)
    (h : isSubscriber s.world_ s.rank_ op.home op.idx = false) :
    applyOrderedOp s op =
      { state := markShutdown s op, events := [Event.applied op], result := .ok () } := by
  simp [applyOrderedOp, markShutdown, h]

theorem applyOrderedOp_invalid (s : DSM) (op : OrderedOp) (e : DsmError)
    (h : isSubscriber s.world_ s.rank_ op.home op.idx = true)
    (hg : globalVarId s.world_ s.varsPerProc_ op.home op.idx = .error e) :
    applyOrderedOp s op =
      { state := markShutdown s op, events := [Event.applied op], result := .threw e } := by
  simp [applyOrderedOp, markShutdown, h, hg]

theorem applyOrderedOp_write (s : DSM) (op : OrderedOp) (gid : Int)
    (h : isSubscriber s.world_ s.rank_ op.home op.idx = true)
    (hg : globalVarId s.world_ s.varsPerProc_ op.home op.idx = .ok gid)
    (ht : op.type = MsgType.WRITE) :
    applyOrderedOp s op =
      { state :=
          { s with
            values_ := s.values_.set gid.toNat op.v1,
            writeDone_ :=
              if op.initiator = s.rank_ then mapAssign s.writeDone_ op.reqId true
              else s.writeDone_ },
        events := Event.applied op ::
          (if s.values_.getD gid.toNat 0 ≠ op.v1 ∧ s.cb_ = true then
            [Event.callback op.home op.idx ((s.values_.set gid.toNat op.v1).getD gid.toNat 0)
              op.seq]
           else []),
        result := .ok () } := by
  simp [applyOrderedOp, notifyChange, h, hg, ht, MsgType.write_ne_shutdown]

theorem applyOrderedOp_cas (s : DSM) (op : OrderedOp) (gid : Int)
    (h : isSubscriber s.world_ s.rank_ op.home op.idx = true)
    (hg : globalVarId s.world_ s.varsPerProc_ op.home op.idx = .ok gid)
    (ht : op.type = MsgType.CAS) :
    applyOrderedOp s op =
      { state :=
          { s with
            values_ :=
              if s.values_.getD gid.toNat 0 = op.v1 then s.values_.set gid.toNat op.v2
              else s.values_,
            casDone_ :=
              if op.initiator = s.rank_ then mapAssign s.casDone_ op.reqId true
              else s.casDone_,
            casResult_ :=
              if op.initiator = s.rank_ then
                mapAssign s.casResult_ op.reqId (decide (s.values_.getD gid.toNat 0 = op.v1))
              else s.casResult_ },
        events := Event.applied op ::
          (if (s.values_.getD gid.toNat 0 = op.v1 ∧ s.values_.getD gid.toNat 0 ≠ op.v2) ∧
              s.cb_ = true then
            [Event.callback op.home op.idx
              ((if s.values_.getD gid.toNat 0 = op.v1 then s.values_.set gid.toNat op.v2
                else s.values_).getD gid.toNat 0) op.seq]
           else []),
        result := .ok () } := by
  simp [applyOrderedOp, notifyChange, h, hg, ht, MsgType.cas_ne_shutdown,
    MsgType.write_ne_cas.symm]

theorem applyOrderedOp_other (s : DSM) (op : OrderedOp) (gid : Int)
    (h : isSubscriber s.world_ s.rank_ op.home op.idx = true)
    (hg : globalVarId s.world_ s.varsPerProc_ op.home op.idx = .ok gid)
    (hw : op.type ≠ MsgType.WRITE) (hc : op.type ≠ MsgType.CAS) :
    applyOrderedOp s op =
      { state := markShutdown s op, events := [Event.applied op], result := .ok () } := by
  simp [applyOrderedOp, notifyChange, markShutdown, h, hg, hw, hc]

/-- The five ways `applyOrderedOp` can go. -/
theorem applyOrderedOp_cases (s : DSM) (op : OrderedOp) :
    (isSubscriber s.world_ s.rank_ op.home op.idx = false) ∨
    (isSubscriber s.world_ s.rank_ op.home op.idx = true ∧
      ∃ e, globalVarId s.world_ s.varsPerProc_ op.home op.idx = .error e) ∨
    (isSubscriber s.world_ s.rank_ op.home op.idx = true ∧
      ∃ gid, globalVarId s.world_ s.varsPerProc_ op.home op.idx = .ok gid ∧
        (op.type = MsgType.WRITE ∨ op.type = MsgType.CAS ∨
          (op.type ≠ MsgType.WRITE ∧ op.type ≠ MsgType.CAS))) := by
  cases h : isSubscriber s.world_ s.rank_ op.home op.idx
  · exact Or.inl rfl
  · right
    cases hg : globalVarId s.world_ s.varsPerProc_ op.home op.idx with
    | error e => exact Or.inl ⟨rfl, e, rfl⟩
    | ok gid =>
      right
      refine ⟨rfl, gid, rfl, ?_⟩
      by_cases hw : op.type = MsgType.WRITE
      · exact Or.inl hw
      · by_cases hc : op.type = MsgType.CAS
        · exact Or.inr (Or.inl hc)
        · exact Or.inr (Or.inr ⟨hw, hc⟩)

theorem applyOrderedOp_frame (s : DSM) (op : OrderedOp) :
    (applyOrderedOp s op).state.nextSeq_ = s.nextSeq_ ∧
    (applyOrderedOp s op).state.nextReqId_ = s.nextReqId_ ∧
    (applyOrderedOp s op).state.rank_ = s.rank_ ∧
    (applyOrderedOp s op).state.world_ = s.world_ ∧
    (applyOrderedOp s op).state.varsPerProc_ = s.varsPerProc_ ∧
    (applyOrderedOp s op).state.cb_ = s.cb_ ∧
    (applyOrderedOp s op).state.values_.length = s.values_.length := by
  rcases applyOrderedOp_cases s op with h | ⟨h, e, hg⟩ | ⟨h, gid, hg, ht | ht | ⟨hw, hc⟩⟩
  · simp [applyOrderedOp_not_subscriber s op h, markShutdown]
  · simp [applyOrderedOp_invalid s op e h hg, markShutdown]
  · simp [applyOrderedOp_write s op gid h hg ht]
  · rw [applyOrderedOp_cas s op gid h hg ht]
    refine ⟨rfl, rfl, rfl, rfl, rfl, rfl, ?_⟩
    simp only []
    split_ifs <;> simp
  · simp [applyOrderedOp_other s op gid h hg hw hc, markShutdown]

theorem applyOrderedOp_events (s : DSM) (op : OrderedOp) :
    (applyOrderedOp s op).events = [Event.applied op] ∨
    ∃ v, (applyOrderedOp s op).events =
      [Event.applied op, Event.callback op.home op.idx v op.seq] := by
  rcases applyOrderedOp_cases s op with h | ⟨h, e, hg⟩ | ⟨h, gid, hg, ht | ht | ⟨hw, hc⟩⟩
  · simp [applyOrderedOp_not_subscriber s op h]
  · simp [applyOrderedOp_invalid s op e h hg]
  · rw [applyOrderedOp_write s op gid h hg ht]
    simp only []
    split_ifs <;> first | exact Or.inl rfl | exact Or.inr ⟨_, rfl⟩
  · rw [applyOrderedOp_cas s op gid h hg ht]
    simp only []
    split_ifs <;> first | exact Or.inl rfl | exact Or.inr ⟨_, rfl⟩
  · simp [applyOrderedOp_other s op gid h hg hw hc]

theorem applyOrderedOp_not_blocked (s : DSM) (op : OrderedOp) :
    (applyOrderedOp s op).result ≠ Result.blocked := by
  rcases applyOrderedOp_cases s op with h | ⟨h, e, hg⟩ | ⟨h, gid, hg, ht | ht | ⟨hw, hc⟩⟩
  · simp [applyOrderedOp_not_subscriber s op h]
  · simp [applyOrderedOp_invalid s op e h hg]
  · simp [applyOrderedOp_write s op gid h hg ht]
  · simp [applyOrderedOp_cas s op gid h hg ht]
  · simp [applyOrderedOp_other s op gid h hg hw hc]

/-! ## Facts about the subscription policy -/

theorem uniqueAdj_mem (l : List Int) (x : Int) : x ∈ uniqueAdj l ↔ x ∈ l := by
  induction l using uniqueAdj.induct with
  | case1 => simp [uniqueAdj]
  | case2 a => simp [uniqueAdj]
  | case3 a t ih =>
    simp only [uniqueAdj, if_true, ih]
    simp
  | case4 a b t h ih =>
    simp only [uniqueAdj, h, if_false, List.mem_cons, ih]

theorem uniqueAdj_sorted (l : List Int) (hl : l.Pairwise (· ≤ ·)) :
    (uniqueAdj l).Pairwise (· < ·) := by
  induction l using uniqueAdj.induct with
  | case1 => simp [uniqueAdj]
  | case2 a => simp [uniqueAdj]
  | case3 a t ih =>
    simp only [uniqueAdj, if_true]
    exact ih (List.Pairwise.of_cons hl)
  | case4 a b t h ih =>
    simp only [uniqueAdj, h, if_false]
    rw [List.pairwise_cons]
    refine ⟨?_, ih (List.Pairwise.of_cons hl)⟩
    intro x hx
    rw [uniqueAdj_mem] at hx
    rw [List.pairwise_cons] at hl
    obtain ⟨ha, hbt⟩ := hl
    rw [List.pairwise_cons] at hbt
    have hab : a < b := lt_of_le_of_ne (ha b (List.mem_cons_self b t)) h
    rcases List.mem_cons.mp hx with hx | hx
    · rw [hx]; exact hab
    · exact lt_of_lt_of_le hab (hbt.1 x hx)

theorem subscribersFor_sorted (world homeRank localIndex : Int) :
    (subscribersFor world homeRank localIndex).Pairwise (· < ·) := by
  unfold subscribersFor
  exact uniqueAdj_sorted _ (List.sorted_insertionSort (· ≤ ·) _)

theorem subscribersFor_nodup (world homeRank localIndex : Int) :
    (subscribersFor world homeRank localIndex).Nodup :=
  (subscribersFor_sorted world homeRank localIndex).nodup

theorem mem_subscribersFor (world homeRank localIndex x : Int) :
    x ∈ subscribersFor world homeRank localIndex ↔
      x = homeRank ∨ (world ≥ 2 ∧ x = Int.tmod (homeRank + 1) world) ∨
        (world ≥ 3 ∧ x = Int.tmod (homeRank + 2) world) := by
  unfold subscribersFor
  rw [uniqueAdj_mem, (List.perm_insertionSort (· ≤ ·) _).mem_iff]
  by_cases h2 : world ≥ 2 <;> by_cases h3 : world ≥ 3 <;> simp [h2, h3]

theorem lowerBound_spec (xs : List Int) (value : Int)
    (hs : ∀ i j, i ≤ j → j < xs.length → xs.getD i 0 ≤ xs.getD j 0) :
    ∀ (fuel first count : Nat), count ≤ fuel → first + count ≤ xs.length →
      (∀ j, j < first → xs.getD j 0 < value) →
      (∀ j, first + count ≤ j → j < xs.length → value ≤ xs.getD j 0) →
      lowerBound xs value fuel first count ≤ xs.length ∧
      (∀ j, j < lowerBound xs value fuel first count → xs.getD j 0 < value) ∧
      (∀ j, lowerBound xs value fuel first count ≤ j → j < xs.length →
        value ≤ xs.getD j 0) := by
  intro fuel
  induction fuel with
  | zero =>
    intro first count hc hlen hlo hhi
    have h0 : count = 0 := by omega
    subst h0
    simp only [lowerBound]
    exact ⟨by omega, hlo, fun j hj hjn => hhi j (by omega) hjn⟩
  | succ fuel ih =>
    intro first count hc hlen hlo hhi
    by_cases h0 : count = 0
    · subst h0
      simp only [lowerBound, if_true]
      exact ⟨by omega, hlo, fun j hj hjn => hhi j (by omega) hjn⟩
    · simp only [lowerBound, h0, if_false]
      have hstep : count / 2 < count := Nat.div_lt_self (Nat.pos_of_ne_zero h0) (by decide)
      by_cases hlt : xs.getD (first + count / 2) 0 < value
      · simp only [hlt, if_true]
        apply ih
        · omega
        · omega
        · intro j hj
          exact lt_of_le_of_lt (hs j (first + count / 2) (by omega) (by omega)) hlt
        · intro j hj hjn
          exact hhi j (by omega) hjn
      · simp only [hlt, if_false]
        apply ih
        · omega
        · omega
        · exact hlo
        · intro j hj hjn
          exact le_trans (not_lt.mp hlt) (hs (first + count / 2) j hj hjn)

theorem binarySearch_iff_mem (xs : List Int) (value : Int) (hs : xs.Pairwise (· < ·)) :
    binarySearch xs value = true ↔ value ∈ xs := by
  have hmono : ∀ i j, i ≤ j → j < xs.length → xs.getD i 0 ≤ xs.getD j 0 := by
    intro i j hij hj
    rcases Nat.eq_or_lt_of_le hij with h | h
    · rw [h]
    · rw [List.getD_eq_getElem xs 0 (by omega : i < xs.length), List.getD_eq_getElem xs 0 hj]
      exact le_of_lt (List.pairwise_iff_getElem.mp hs i j (by omega) hj h)
  obtain ⟨hle, hlo, hhi⟩ := lowerBound_spec xs value hmono xs.length 0 xs.length
    (le_refl _) (by omega) (fun j hj => absurd hj (Nat.not_lt_zero j))
    (fun j hj hjn => absurd hjn (by omega))
  unfold binarySearch
  simp only [Bool.and_eq_true, decide_eq_true_eq, Bool.not_eq_true', decide_eq_false_iff_not]
  constructor
  · rintro ⟨hne, hnlt⟩
    have hr : lowerBound xs value xs.length 0 xs.length < xs.length := by omega
    have heq : xs.getD (lowerBound xs value xs.length 0 xs.length) 0 = value :=
      le_antisymm (not_lt.mp hnlt) (hhi _ (le_refl _) hr)
    rw [List.getD_eq_getElem xs 0 hr] at heq
    exact List.mem_iff_getElem.mpr ⟨_, hr, heq⟩
  · intro hmem
    obtain ⟨j, hj, hjv⟩ := List.mem_iff_getElem.mp hmem
    have hjd : xs.getD j 0 = value := by rw [List.getD_eq_getElem xs 0 hj]; exact hjv
    have hrj : lowerBound xs value xs.length 0 xs.length ≤ j := by
      by_contra hcon
      have := hlo j (by omega)
      omega
    refine ⟨by omega, ?_⟩
    have := hmono _ j hrj hj
    omega

theorem isSubscriber_iff_mem (world who homeRank localIndex : Int) :
    isSubscriber world who homeRank localIndex = true ↔
      who ∈ subscribersFor world homeRank localIndex :=
  binarySearch_iff_mem _ _ (subscribersFor_sorted world homeRank localIndex)

theorem isSubscriber_false_iff (world who homeRank localIndex : Int) :
    isSubscriber world who homeRank localIndex = false ↔
      who ∉ subscribersFor world homeRank localIndex := by
  rw [← isSubscriber_iff_mem]
  simp

theorem isSubscriber_idx_irrelevant (world who homeRank i j : Int) :
    isSubscriber world who homeRank i = isSubscriber world who homeRank j := rfl

/-! ## Sequence numbers along a trace -/

theorem SeqSpan.append {a b c : Int} {l1 l2 : List Int} (h1 : SeqSpan a l1 b)
    (h2 : SeqSpan b l2 c) : SeqSpan a (l1 ++ l2) c := by
  induction l1 generalizing a with
  | nil =>
    simp only [SeqSpan] at h1
    subst h1
    simpa using h2
  | cons x t ih =>
    simp only [SeqSpan] at h1
    exact ⟨h1.1, ih h1.2⟩

theorem SeqSpan.bounds {a b : Int} {l : List Int} (h : SeqSpan a l b) :
    a ≤ b ∧ ∀ x ∈ l, a ≤ x ∧ x < b := by
  induction l generalizing a with
  | nil =>
    simp only [SeqSpan] at h
    subst h
    simp
  | cons x t ih =>
    simp only [SeqSpan] at h
    obtain ⟨hx, ht⟩ := h
    obtain ⟨hab, hall⟩ := ih ht
    refine ⟨by omega, ?_⟩
    intro y hy
    rcases List.mem_cons.mp hy with hy | hy
    · subst hy; omega
    · have := hall y hy
      omega

theorem SeqSpan.pairwise {a b : Int} {l : List Int} (h : SeqSpan a l b) :
    l.Pairwise (· < ·) := by
  induction l generalizing a with
  | nil => exact List.Pairwise.nil
  | cons x t ih =>
    simp only [SeqSpan] at h
    obtain ⟨hx, ht⟩ := h
    rw [List.pairwise_cons]
    refine ⟨?_, ih ht⟩
    intro y hy
    have := (SeqSpan.bounds ht).2 y hy
    omega

theorem SeqSpan.head {a b : Int} {l : List Int} (h : SeqSpan a l b) :
    ∀ x, l.head? = some x → x = a := by
  cases l with
  | nil => simp
  | cons y t =>
    simp only [SeqSpan] at h
    intro x hx
    simp only [List.head?_cons, Option.some.injEq] at hx
    omega

theorem Within.glue {a b c : Int} {l1 l2 : List Int} (h1 : Within a l1 b)
    (h2 : Within b l2 c) : Within a (l1 ++ l2) c := by
  obtain ⟨hab, hp1, hin1⟩ := h1
  obtain ⟨hbc, hp2, hin2⟩ := h2
  refine ⟨by omega, ?_, ?_⟩
  · rw [List.pairwise_append]
    refine ⟨hp1, hp2, ?_⟩
    intro x hx y hy
    have := hin1 x hx
    have := hin2 y hy
    omega
  · intro x hx
    rcases List.mem_append.mp hx with hx | hx
    · have := hin1 x hx
      omega
    · have := hin2 x hx
      omega

theorem orderedSeqs_append (l1 l2 : List Event) :
    orderedSeqs (l1 ++ l2) = orderedSeqs l1 ++ orderedSeqs l2 := by
  simp [orderedSeqs, List.filterMap_append]

theorem sentTo_append (d : Int) (l1 l2 : List Event) :
    sentTo d (l1 ++ l2) = sentTo d l1 ++ sentTo d l2 := by
  simp [sentTo, List.filterMap_append]

theorem sentSeqs_append (d : Int) (l1 l2 : List Event) :
    sentSeqs d (l1 ++ l2) = sentSeqs d l1 ++ sentSeqs d l2 := by
  simp [sentSeqs, sentTo_append]

theorem TraceSpan.nil (d a : Int) : TraceSpan d a [] a := by
  simp [TraceSpan, SeqSpan, Within, orderedSeqs, sentSeqs, sentTo]

theorem TraceSpan.concat {d a b c : Int} {l1 l2 : List Event} (h1 : TraceSpan d a l1 b)
    (h2 : TraceSpan d b l2 c) : TraceSpan d a (l1 ++ l2) c := by
  refine ⟨?_, ?_⟩
  · rw [orderedSeqs_append]
    exact h1.1.append h2.1
  · rw [sentSeqs_append]
    exact h1.2.glue h2.2

theorem orderedSeqs_applyOrderedOp (s : DSM) (op : OrderedOp) :
    orderedSeqs (applyOrderedOp s op).events = [] := by
  rcases applyOrderedOp_events s op with h | ⟨v, h⟩ <;> simp [h, orderedSeqs]

theorem sentTo_applyOrderedOp (d : Int) (s : DSM) (op : OrderedOp) :
    sentTo d (applyOrderedOp s op).events = [] := by
  rcases applyOrderedOp_events s op with h | ⟨v, h⟩ <;> simp [h, sentTo]

theorem orderedSeqs_map_sendOp (ds : List Int) (buf : List Int) :
    orderedSeqs (ds.map (fun x => Event.sendOp x buf)) = [] := by
  induction ds with
  | nil => rfl
  | cons x t _ => simp [orderedSeqs]

theorem sentTo_map_sendOp_not_mem (ds : List Int) (buf : List Int) (d : Int) (hd : d ∉ ds) :
    sentTo d (ds.map (fun x => Event.sendOp x buf)) = [] := by
  induction ds with
  | nil => rfl
  | cons x t ih =>
    have hx : x ≠ d := fun h => hd (by simp [h])
    have ht : d ∉ t := fun h => hd (List.mem_cons_of_mem _ h)
    simpa [sentTo, hx] using ih ht

theorem sentTo_map_sendOp (ds : List Int) (buf : List Int) (d : Int) (hnd : ds.Nodup) :
    sentTo d (ds.map (fun x => Event.sendOp x buf)) = if d ∈ ds then [buf] else [] := by
  induction ds with
  | nil => rfl
  | cons x t ih =>
    rw [List.nodup_cons] at hnd
    by_cases hx : x = d
    · subst hx
      have := sentTo_map_sendOp_not_mem t buf x hnd.1
      simp [sentTo] at this ⊢
      exact this
    · have h1 : sentTo d ((x :: t).map (fun x => Event.sendOp x buf)) =
          sentTo d (t.map (fun x => Event.sendOp x buf)) := by
        simp [sentTo, hx]
      rw [h1, ih hnd.2]
      have : (d ∈ x :: t) ↔ d ∈ t := by
        simp [List.mem_cons, Ne.symm hx]
      simp only [this]

theorem multicastDests_nodup (world : Int) (op : OrderedOp) :
    ((subscribersFor world op.home op.idx).filter (fun dest => decide (dest ≠ 0))).Nodup :=
  (subscribersFor_nodup world op.home op.idx).filter _

theorem sentTo_sequencerMulticast (d : Int) (s : DSM) (op : OrderedOp) :
    sentTo d (sequencerMulticast s op) =
      if d ∈ subscribersFor s.world_ op.home op.idx ∧ d ≠ 0 then [encodeOp op] else [] := by
  unfold sequencerMulticast
  simp only []
  rw [sentTo_map_sendOp _ _ _ (multicastDests_nodup s.world_ op)]
  simp [List.mem_filter]

theorem orderedSeqs_sequencerMulticast (s : DSM) (op : OrderedOp) :
    orderedSeqs (sequencerMulticast s op) = [] := by
  unfold sequencerMulticast
  exact orderedSeqs_map_sendOp _ _

theorem shutdownDests_nodup (world : Int) :
    ((List.range' 1 (world.toNat - 1)).map (fun dest => Int.ofNat dest)).Nodup :=
  (List.nodup_range' 1 (world.toNat - 1)).map (fun _ _ h => Int.ofNat.inj h)

theorem shutdownSends_eq (world : Int) (buf : List Int) :
    shutdownSends world buf =
      ((List.range' 1 (world.toNat - 1)).map (fun dest => Int.ofNat dest)).map
        (fun x => Event.sendOp x buf) := by
  simp [shutdownSends, List.map_map, Function.comp_def]

theorem sentTo_shutdownSends (d world : Int) (buf : List Int) :
    sentTo d (shutdownSends world buf) = if 1 ≤ d ∧ d < world then [buf] else [] := by
  rw [shutdownSends_eq, sentTo_map_sendOp _ _ _ (shutdownDests_nodup world)]
  have : d ∈ (List.range' 1 (world.toNat - 1)).map (fun dest => Int.ofNat dest) ↔
      (1 ≤ d ∧ d < world) := by
    simp only [List.mem_map, List.mem_range'_1]
    constructor
    · rintro ⟨n, ⟨h1, h2⟩, rfl⟩
      simp only [Int.ofNat_eq_coe]
      omega
    · rintro ⟨h1, h2⟩
      refine ⟨d.toNat, ⟨by omega, by omega⟩, ?_⟩
      simp only [Int.ofNat_eq_coe]
      omega
  simp only [this]

theorem orderedSeqs_shutdownSends (world : Int) (buf : List Int) :
    orderedSeqs (shutdownSends world buf) = [] := by
  rw [shutdownSends_eq]
  exact orderedSeqs_map_sendOp _ _

/-- An operation ordered with the current `nextSeq_`, applied, and then sent to a
duplicate-free list of destinations. -/
theorem TraceSpan.one (d : Int) (s : DSM) (op : OrderedOp) (sent : List Event)
    (ho : orderedSeqs sent = [])
    (hs : sentTo d sent = [] ∨ sentTo d sent = [encodeOp op]) :
    TraceSpan d op.seq (Event.ordered op :: ((applyOrderedOp s op).events ++ sent))
      (op.seq + 1) := by
  refine ⟨?_, ?_⟩
  · have : orderedSeqs (Event.ordered op :: ((applyOrderedOp s op).events ++ sent)) =
        [op.seq] := by
      have h := orderedSeqs_append (applyOrderedOp s op).events sent
      rw [orderedSeqs_applyOrderedOp, ho] at h
      simp only [orderedSeqs, List.filterMap_cons] at h ⊢
      simp [h]
    rw [this]
    simp [SeqSpan]
  · have : sentSeqs d (Event.ordered op :: ((applyOrderedOp s op).events ++ sent)) =
        sentSeqs d sent := by
      have h := sentTo_append d (applyOrderedOp s op).events sent
      rw [sentTo_applyOrderedOp] at h
      simp only [sentSeqs, sentTo, List.filterMap_cons] at h ⊢
      simp [h]
    rw [this]
    rcases hs with hs | hs
    · simp [sentSeqs, hs, Within]
    · simp [sentSeqs, hs, Within, encodeOp]

/-! ## Unfolding of the loops -/

theorem sequencerProcessRequests_cons (s : DSM) (opQ : List (List Int)) (source : Int)
    (rbuf : List Int) (rest : List (Int × List Int)) :
    sequencerProcessRequests s opQ ((source, rbuf) :: rest) =
      if isSubscriber s.world_ source (requestOp s source rbuf).home
          (requestOp s source rbuf).idx = false then
        { state := s, net := ⟨rest, opQ⟩, events := [],
          result := .threw .nonSubscriberRequest }
      else
        match (applyOrderedOp (bumpSeq s) (requestOp s source rbuf)).result with
        | .ok _ =>
          { sequencerProcessRequests
              (applyOrderedOp (bumpSeq s) (requestOp s source rbuf)).state opQ rest with
            events := Event.ordered (requestOp s source rbuf) ::
              ((applyOrderedOp (bumpSeq s) (requestOp s source rbuf)).events ++
                sequencerMulticast (applyOrderedOp (bumpSeq s) (requestOp s source rbuf)).state
                  (requestOp s source rbuf) ++
                (sequencerProcessRequests
                  (applyOrderedOp (bumpSeq s) (requestOp s source rbuf)).state opQ rest).events) }
        | .threw e =>
          { state := (applyOrderedOp (bumpSeq s) (requestOp s source rbuf)).state,
            net := ⟨rest, opQ⟩,
            events := Event.ordered (requestOp s source rbuf) ::
              (applyOrderedOp (bumpSeq s) (requestOp s source rbuf)).events,
            result := .threw e }
        | .blocked =>
          { state := (applyOrderedOp (bumpSeq s) (requestOp s source rbuf)).state,
            net := ⟨rest, opQ⟩,
            events := Event.ordered (requestOp s source rbuf) ::
              (applyOrderedOp (bumpSeq s) (requestOp s source rbuf)).events,
            result := .blocked } := rfl

theorem pollLoop_cons (s : DSM) (reqQ : List (Int × List Int)) (buf : List Int)
    (rest : List (List Int)) :
    pollLoop s reqQ (buf :: rest) =
      match (applyOrderedOp s (decodeOp buf)).result with
      | .ok _ =>
        if (decodeOp buf).type = MsgType.SHUTDOWN then
          { state := { (applyOrderedOp s (decodeOp buf)).state with running_ := false },
            net := ⟨reqQ, rest⟩, events := (applyOrderedOp s (decodeOp buf)).events,
            result := .ok () }
        else
          { pollLoop (applyOrderedOp s (decodeOp buf)).state reqQ rest with
            events := (applyOrderedOp s (decodeOp buf)).events ++
              (pollLoop (applyOrderedOp s (decodeOp buf)).state reqQ rest).events }
      | .threw e =>
        { state := (applyOrderedOp s (decodeOp buf)).state, net := ⟨reqQ, rest⟩,
          events := (applyOrderedOp s (decodeOp buf)).events, result := .threw e }
      | .blocked =>
        { state := (applyOrderedOp s (decodeOp buf)).state, net := ⟨reqQ, rest⟩,
          events := (applyOrderedOp s (decodeOp buf)).events, result := .blocked } := rfl

theorem waitForWrite_cons (reqId : Int) (batch : Net) (later : List Net) (s : DSM)
    (net : Net) :
    waitForWrite reqId (batch :: later) s net =
      if s.running_ = false then
        { state := s, net := net, events := [], result := .threw .stoppedWaitingWrite }
      else
        match (poll s (net.deliver batch)).result with
        | .ok _ =>
          if mapFind (poll s (net.deliver batch)).state.writeDone_ reqId = some true then
            poll s (net.deliver batch)
          else
            { waitForWrite reqId later (poll s (net.deliver batch)).state
                (poll s (net.deliver batch)).net with
              events := (poll s (net.deliver batch)).events ++
                (waitForWrite reqId later (poll s (net.deliver batch)).state
                  (poll s (net.deliver batch)).net).events }
        | _ => poll s (net.deliver batch) := by
  rw [waitForWrite]

theorem waitForCas_cons (reqId : Int) (batch : Net) (later : List Net) (s : DSM)
    (net : Net) :
    waitForCas reqId (batch :: later) s net =
      if s.running_ = false then
        { state := s, net := net, events := [], result := .threw .stoppedWaitingCas }
      else
        match (poll s (net.deliver batch)).result with
        | .ok _ =>
          if mapFind (poll s (net.deliver batch)).state.casDone_ reqId = some true then
            { state :=
                { (poll s (net.deliver batch)).state with
                  casResult_ :=
                    (mapIndex (poll s (net.deliver batch)).state.casResult_ reqId).2 },
              net := (poll s (net.deliver batch)).net,
              events := (poll s (net.deliver batch)).events,
              result := .ok (mapIndex (poll s (net.deliver batch)).state.casResult_ reqId).1 }
          else
            { waitForCas reqId later (poll s (net.deliver batch)).state
                (poll s (net.deliver batch)).net with
              events := (poll s (net.deliver batch)).events ++
                (waitForCas reqId later (poll s (net.deliver batch)).state
                  (poll s (net.deliver batch)).net).events }
        | .threw e =>
          { state := (poll s (net.deliver batch)).state, net := (poll s (net.deliver batch)).net,
            events := (poll s (net.deliver batch)).events, result := .threw e }
        | .blocked =>
          { state := (poll s (net.deliver batch)).state, net := (poll s (net.deliver batch)).net,
            events := (poll s (net.deliver batch)).events, result := .blocked } := rfl

theorem write_eq (s : DSM) (net : Net) (arrivals : List Net) (h i v : Int) :
    write s net arrivals h i v =
      if isSubscriber s.world_ s.rank_ h i = false then
        { state := s, net := net, events := [], result := .threw .writeNotAllowed }
      else if s.rank_ = 0 then
        match (applyOrderedOp (bumpSeq (bumpReqId s)) (writeOp s h i v)).result with
        | .ok _ =>
          { state :=
              { (applyOrderedOp (bumpSeq (bumpReqId s)) (writeOp s h i v)).state with
                writeDone_ :=
                  mapAssign
                    (applyOrderedOp (bumpSeq (bumpReqId s)) (writeOp s h i v)).state.writeDone_
                    s.nextReqId_ true },
            net := net,
            events := Event.ordered (writeOp s h i v) ::
              ((applyOrderedOp (bumpSeq (bumpReqId s)) (writeOp s h i v)).events ++
                sequencerMulticast
                  (applyOrderedOp (bumpSeq (bumpReqId s)) (writeOp s h i v)).state
                  (writeOp s h i v)),
            result := .ok () }
        | .threw e =>
          { state := (applyOrderedOp (bumpSeq (bumpReqId s)) (writeOp s h i v)).state,
            net := net,
            events := Event.ordered (writeOp s h i v) ::
              (applyOrderedOp (bumpSeq (bumpReqId s)) (writeOp s h i v)).events,
            result := .threw e }
        | .blocked =>
          { state := (applyOrderedOp (bumpSeq (bumpReqId s)) (writeOp s h i v)).state,
            net := net,
            events := Event.ordered (writeOp s h i v) ::
              (applyOrderedOp (bumpSeq (bumpReqId s)) (writeOp s h i v)).events,
            result := .blocked }
      else
        { waitForWrite s.nextReqId_ arrivals (bumpReqId s) net with
          events := sendRequest MsgType.WRITE h i v 0 s.nextReqId_ ++
            (waitForWrite s.nextReqId_ arrivals (bumpReqId s) net).events } := rfl

theorem compareExchange_eq (s : DSM) (net : Net) (arrivals : List Net) (h i e d : Int) :
    compareExchange s net arrivals h i e d =
      if isSubscriber s.world_ s.rank_ h i = false then
        { state := s, net := net, events := [], result := .threw .casNotAllowed }
      else if s.rank_ = 0 then
        match (applyOrderedOp (bumpSeq (bumpReqId s)) (casOp s h i e d)).result with
        | .ok _ =>
          { state :=
              { (applyOrderedOp (bumpSeq (bumpReqId s)) (casOp s h i e d)).state with
                casDone_ :=
                  mapAssign
                    (applyOrderedOp (bumpSeq (bumpReqId s)) (casOp s h i e d)).state.casDone_
                    s.nextReqId_ true,
                casResult_ :=
                  (mapIndex
                    (applyOrderedOp (bumpSeq (bumpReqId s)) (casOp s h i e d)).state.casResult_
                    s.nextReqId_).2 },
            net := net,
            events := Event.ordered (casOp s h i e d) ::
              ((applyOrderedOp (bumpSeq (bumpReqId s)) (casOp s h i e d)).events ++
                sequencerMulticast
                  (applyOrderedOp (bumpSeq (bumpReqId s)) (casOp s h i e d)).state
                  (casOp s h i e d)),
            result := .ok
              (mapIndex
                (applyOrderedOp (bumpSeq (bumpReqId s)) (casOp s h i e d)).state.casResult_
                s.nextReqId_).1 }
        | .threw err =>
          { state := (applyOrderedOp (bumpSeq (bumpReqId s)) (casOp s h i e d)).state,
            net := net,
            events := Event.ordered (casOp s h i e d) ::
              (applyOrderedOp (bumpSeq (bumpReqId s)) (casOp s h i e d)).events,
            result := .threw err }
        | .blocked =>
          { state := (applyOrderedOp (bumpSeq (bumpReqId s)) (casOp s h i e d)).state,
            net := net,
            events := Event.ordered (casOp s h i e d) ::
              (applyOrderedOp (bumpSeq (bumpReqId s)) (casOp s h i e d)).events,
            result := .blocked }
      else
        { waitForCas s.nextReqId_ arrivals (bumpReqId s) net with
          events := sendRequest MsgType.CAS h i e d s.nextReqId_ ++
            (waitForCas s.nextReqId_ arrivals (bumpReqId s) net).events } := rfl

theorem shutdown_eq (s : DSM) :
    shutdown s =
      if s.rank_ ≠ 0 then { state := s, events := [], result := .ok () }
      else
        { state := { bumpSeq s with running_ := false },
          events := Event.ordered (shutdownOp s) :: shutdownSends s.world_ (encodeOp (shutdownOp s)),
          result := .ok () } := rfl

/-! ## The effect of every member function -/

theorem callbacks_append (l1 l2 : List Event) :
    callbacks (l1 ++ l2) = callbacks l1 ++ callbacks l2 := by
  simp [callbacks, List.filterMap_append]

theorem callbacks_map_sendOp (ds : List Int) (buf : List Int) :
    callbacks (ds.map (fun x => Event.sendOp x buf)) = [] := by
  induction ds with
  | nil => rfl
  | cons x t _ => simp [callbacks]

theorem callbacks_sequencerMulticast (s : DSM) (op : OrderedOp) :
    callbacks (sequencerMulticast s op) = [] := by
  unfold sequencerMulticast
  exact callbacks_map_sendOp _ _

theorem callbacks_shutdownSends (world : Int) (buf : List Int) :
    callbacks (shutdownSends world buf) = [] := by
  rw [shutdownSends_eq]
  exact callbacks_map_sendOp _ _

theorem globalVarId_ok_iff (world varsPerProc h i gid : Int) :
    globalVarId world varsPerProc h i = .ok gid ↔
      (0 ≤ h ∧ h < world ∧ 0 ≤ i ∧ i < varsPerProc ∧ gid = h * varsPerProc + i) := by
  unfold globalVarId
  split_ifs with h1 h2
  · simp only [reduceCtorEq, false_iff]
    omega
  · simp only [reduceCtorEq, false_iff]
    omega
  · simp only [Except.ok.injEq]
    constructor
    · intro hg
      refine ⟨by omega, by omega, by omega, by omega, hg.symm⟩
    · intro hg
      exact hg.2.2.2.2.symm

/-- The address-to-id map is injective on checked addresses. -/
theorem globalVarId_inj (world varsPerProc h i h' i' gid : Int)
    (h1 : globalVarId world varsPerProc h i = .ok gid)
    (h2 : globalVarId world varsPerProc h' i' = .ok gid) : h = h' ∧ i = i' := by
  rw [globalVarId_ok_iff] at h1 h2
  obtain ⟨_, _, hi0, hi1, hg⟩ := h1
  obtain ⟨_, _, hi0', hi1', hg'⟩ := h2
  have hmul : h * varsPerProc + i = h' * varsPerProc + i' := by rw [← hg, ← hg']
  have hh : h = h' := by
    rcases lt_trichotomy h h' with hlt | heq | hgt
    · have : (h + 1) * varsPerProc ≤ h' * varsPerProc :=
        Int.mul_le_mul_of_nonneg_right (by omega) (by omega)
      have : (h + 1) * varsPerProc = h * varsPerProc + varsPerProc := by ring
      omega
    · exact heq
    · have : (h' + 1) * varsPerProc ≤ h * varsPerProc :=
        Int.mul_le_mul_of_nonneg_right (by omega) (by omega)
      have : (h' + 1) * varsPerProc = h' * varsPerProc + varsPerProc := by ring
      omega
  subst hh
  exact ⟨rfl, by omega⟩

theorem globalVarId_nonneg (world varsPerProc h i gid : Int)
    (h1 : globalVarId world varsPerProc h i = .ok gid) : 0 ≤ gid := by
  rw [globalVarId_ok_iff] at h1
  obtain ⟨h0, _, hi0, hi1, hg⟩ := h1
  have : 0 ≤ h * varsPerProc := Int.mul_nonneg h0 (by omega)
  omega

theorem getD_set_other (l : List Int) (a b : Nat) (v : Int) (hab : a ≠ b) :
    (l.set a v).getD b 0 = l.getD b 0 := by
  simp [List.getD_eq_getElem?_getD, List.getElem?_set, hab]

theorem getD_set_self (l : List Int) (a : Nat) (v : Int) (ha : a < l.length) :
    (l.set a v).getD a 0 = v := by
  simp [List.getD_eq_getElem?_getD, List.getElem?_set, ha]

/-- The replica entries `applyOrderedOp` leaves alone: all but the one of the
operation's own checked address. -/
theorem applyOrderedOp_values_other (s : DSM) (op : OrderedOp) (j : Nat)
    (hj : ∀ gid, isSubscriber s.world_ s.rank_ op.home op.idx = true →
      globalVarId s.world_ s.varsPerProc_ op.home op.idx = .ok gid → gid.toNat ≠ j) :
    (applyOrderedOp s op).state.values_.getD j 0 = s.values_.getD j 0 := by
  rcases applyOrderedOp_cases s op with h | ⟨h, e, hg⟩ | ⟨h, gid, hg, ht | ht | ⟨hw, hc⟩⟩
  · simp [applyOrderedOp_not_subscriber s op h, markShutdown]
  · simp [applyOrderedOp_invalid s op e h hg, markShutdown]
  · rw [applyOrderedOp_write s op gid h hg ht]
    exact getD_set_other _ _ _ _ (hj gid h hg)
  · rw [applyOrderedOp_cas s op gid h hg ht]
    simp only []
    split_ifs
    · exact getD_set_other _ _ _ _ (hj gid h hg)
    · rfl
  · simp [applyOrderedOp_other s op gid h hg hw hc, markShutdown]

theorem applyOrderedOp_callbacks (s : DSM) (op : OrderedOp) :
    ∀ c ∈ callbacks (applyOrderedOp s op).events,
      isSubscriber s.world_ s.rank_ op.home op.idx = true ∧ c.1 = op.home ∧
        c.2.1 = op.idx ∧ c.2.2.2 = op.seq := by
  rcases applyOrderedOp_cases s op with h | ⟨h, e, hg⟩ | ⟨h, gid, hg, ht | ht | ⟨hw, hc⟩⟩
  · simp [applyOrderedOp_not_subscriber s op h, callbacks]
  · simp [applyOrderedOp_invalid s op e h hg, callbacks]
  · rw [applyOrderedOp_write s op gid h hg ht]
    simp only []
    split_ifs <;> simp [callbacks, h]
  · rw [applyOrderedOp_cas s op gid h hg ht]
    simp only []
    split_ifs <;> simp [callbacks, h]
  · simp [applyOrderedOp_other s op gid h hg hw hc, callbacks]

theorem Effect.refl (s : DSM) : Effect s [] s where
  rank := rfl
  world := rfl
  vars := rfl
  cb := rfl
  len := rfl
  span := fun d => TraceSpan.nil d _
  vals := fun _ _ _ _ _ => rfl
  cbs := by simp [callbacks]

theorem Effect.trans {s t u : DSM} {e1 e2 : List Event} (h1 : Effect s e1 t)
    (h2 : Effect t e2 u) : Effect s (e1 ++ e2) u where
  rank := h2.rank.trans h1.rank
  world := h2.world.trans h1.world
  vars := h2.vars.trans h1.vars
  cb := h2.cb.trans h1.cb
  len := h2.len.trans h1.len
  span := fun d => (h1.span d).concat (h2.span d)
  vals := by
    intro h i gid hg hs
    have := h2.vals h i gid (by rw [h1.world, h1.vars]; exact hg)
      (by rw [h1.world, h1.rank]; exact hs)
    rw [this]
    exact h1.vals h i gid hg hs
  cbs := by
    intro c hc
    rw [callbacks_append] at hc
    rcases List.mem_append.mp hc with hc | hc
    · exact h1.cbs c hc
    · have := h2.cbs c hc
      rw [h1.world, h1.rank] at this
      exact this

/-- A change of members other than the configuration, the replica and `nextSeq_`. -/
theorem Effect.silent (s t : DSM) (hr : t.rank_ = s.rank_) (hw : t.world_ = s.world_)
    (hv : t.varsPerProc_ = s.varsPerProc_) (hc : t.cb_ = s.cb_)
    (hvals : t.values_ = s.values_) (hq : t.nextSeq_ = s.nextSeq_) : Effect s [] t where
  rank := hr
  world := hw
  vars := hv
  cb := hc
  len := by rw [hvals]
  span := fun d => by rw [hq]; exact TraceSpan.nil d _
  vals := fun _ _ _ _ _ => by rw [hvals]
  cbs := by simp [callbacks]

/-- Events that are neither an ordering, nor an ordered-operation send, nor a
notification change nothing. -/
theorem Effect.quiet (s : DSM) (evs : List Event) (ho : orderedSeqs evs = [])
    (hs : ∀ d, sentTo d evs = []) (hc : callbacks evs = []) : Effect s evs s where
  rank := rfl
  world := rfl
  vars := rfl
  cb := rfl
  len := rfl
  span := fun d => by
    simp [TraceSpan, ho, sentSeqs, hs d, SeqSpan, Within]
  vals := fun _ _ _ _ _ => rfl
  cbs := by simp [hc]

theorem Effect.apply (s : DSM) (op : OrderedOp) :
    Effect s (applyOrderedOp s op).events (applyOrderedOp s op).state where
  rank := (applyOrderedOp_frame s op).2.2.1
  world := (applyOrderedOp_frame s op).2.2.2.1
  vars := (applyOrderedOp_frame s op).2.2.2.2.1
  cb := (applyOrderedOp_frame s op).2.2.2.2.2.1
  len := (applyOrderedOp_frame s op).2.2.2.2.2.2
  span := fun d => by
    rw [(applyOrderedOp_frame s op).1]
    simp [TraceSpan, orderedSeqs_applyOrderedOp, sentSeqs, sentTo_applyOrderedOp, SeqSpan,
      Within]
  vals := by
    intro h i gid hg hs
    apply applyOrderedOp_values_other
    intro gid' hsub hg' heq
    have e : gid' = gid := by
      have := globalVarId_nonneg _ _ _ _ _ hg
      have := globalVarId_nonneg _ _ _ _ _ hg'
      omega
    subst e
    obtain ⟨e1, e2⟩ := globalVarId_inj _ _ _ _ _ _ _ hg hg'
    subst e1 e2
    rw [hs] at hsub
    exact Bool.noConfusion hsub
  cbs := by
    intro c hc
    obtain ⟨h1, h2, h3, _⟩ := applyOrderedOp_callbacks s op c hc
    rw [h2, h3]
    exact h1

/-- An operation is ordered with the current `nextSeq_`, applied, and sent to a
duplicate-free list of destinations. -/
theorem Effect.block (s : DSM) (op : OrderedOp) (sent : List Event)
    (hseq : op.seq = s.nextSeq_) (ho : orderedSeqs sent = [])
    (hs : ∀ d, sentTo d sent = [] ∨ sentTo d sent = [encodeOp op])
    (hc : callbacks sent = []) :
    Effect s (Event.ordered op :: ((applyOrderedOp (bumpSeq s) op).events ++ sent))
      (applyOrderedOp (bumpSeq s) op).state where
  rank := (Effect.apply (bumpSeq s) op).rank
  world := (Effect.apply (bumpSeq s) op).world
  vars := (Effect.apply (bumpSeq s) op).vars
  cb := (Effect.apply (bumpSeq s) op).cb
  len := (Effect.apply (bumpSeq s) op).len
  span := fun d => by
    have h := TraceSpan.one d (bumpSeq s) op sent ho (hs d)
    rw [(applyOrderedOp_frame (bumpSeq s) op).1]
    rw [hseq] at h
    exact h
  vals := (Effect.apply (bumpSeq s) op).vals
  cbs := by
    intro c hcm
    have : callbacks (Event.ordered op :: ((applyOrderedOp (bumpSeq s) op).events ++ sent)) =
        callbacks (applyOrderedOp (bumpSeq s) op).events := by
      have h := callbacks_append (applyOrderedOp (bumpSeq s) op).events sent
      rw [hc] at h
      simp only [callbacks, List.filterMap_cons] at h ⊢
      simp [h]
    rw [this] at hcm
    exact (Effect.apply (bumpSeq s) op).cbs c hcm

theorem Effect.sequencerProcessRequests (opQ : List (List Int)) :
    ∀ (reqQ : List (Int × List Int)) (s : DSM),
      Effect s (sequencerProcessRequests s opQ reqQ).events
        (sequencerProcessRequests s opQ reqQ).state := by
  intro reqQ
  induction reqQ with
  | nil =>
    intro s
    exact Effect.refl s
  | cons hd rest ih =>
    intro s
    obtain ⟨source, rbuf⟩ := hd
    rw [sequencerProcessRequests_cons]
    split_ifs with hsub
    · exact Effect.refl s
    · cases hres : (applyOrderedOp (bumpSeq s) (requestOp s source rbuf)).result with
      | ok u =>
        simp only []
        have h1 := Effect.block s (requestOp s source rbuf)
          (sequencerMulticast (applyOrderedOp (bumpSeq s) (requestOp s source rbuf)).state
            (requestOp s source rbuf)) rfl (orderedSeqs_sequencerMulticast _ _)
          (fun d => by
            rw [sentTo_sequencerMulticast]
            split_ifs
            · exact Or.inr rfl
            · exact Or.inl rfl)
          (callbacks_sequencerMulticast _ _)
        have h3 := h1.trans (ih _)
        simpa using h3
      | threw e =>
        simp only []
        have h1 := Effect.block s (requestOp s source rbuf) [] rfl rfl (fun _ => Or.inl rfl) rfl
        simpa using h1
      | blocked => exact absurd hres (applyOrderedOp_not_blocked _ _)

theorem Effect.pollLoop (reqQ : List (Int × List Int)) :
    ∀ (opQ : List (List Int)) (s : DSM),
      Effect s (pollLoop s reqQ opQ).events (pollLoop s reqQ opQ).state := by
  intro opQ
  induction opQ with
  | nil =>
    intro s
    exact Effect.refl s
  | cons buf rest ih =>
    intro s
    rw [pollLoop_cons]
    cases hres : (applyOrderedOp s (decodeOp buf)).result with
    | ok u =>
      simp only []
      split_ifs with hsd
      · have h2 := Effect.silent (applyOrderedOp s (decodeOp buf)).state
          { (applyOrderedOp s (decodeOp buf)).state with running_ := false }
          rfl rfl rfl rfl rfl rfl
        have h3 := (Effect.apply s (decodeOp buf)).trans h2
        simpa using h3
      · exact (Effect.apply s (decodeOp buf)).trans (ih _)
    | threw e => exact Effect.apply s (decodeOp buf)
    | blocked => exact Effect.apply s (decodeOp buf)

theorem Effect.poll (s : DSM) (net : Net) : Effect s (poll s net).events (poll s net).state := by
  unfold Lab8.poll
  split_ifs
  · exact Effect.refl s
  · exact Effect.sequencerProcessRequests _ _ _
  · exact Effect.pollLoop _ _ _

theorem Effect.waitForWrite (reqId : Int) :
    ∀ (arrivals : List Net) (s : DSM) (net : Net),
      Effect s (waitForWrite reqId arrivals s net).events
        (waitForWrite reqId arrivals s net).state := by
  intro arrivals
  induction arrivals with
  | nil =>
    intro s net
    simp only [Lab8.waitForWrite]
    split_ifs <;> exact Effect.refl s
  | cons batch later ih =>
    intro s net
    rw [waitForWrite_cons]
    by_cases hrun : s.running_ = false
    · rw [if_pos hrun]
      exact Effect.refl s
    · rw [if_neg hrun]
      cases hres : (Lab8.poll s (net.deliver batch)).result with
        | ok u =>
          simp only []
          split_ifs
          · exact Effect.poll s _
          · exact (Effect.poll s _).trans (ih _ _)
        | threw e => exact Effect.poll s _
        | blocked => exact Effect.poll s _

theorem Effect.waitForCas (reqId : Int) :
    ∀ (arrivals : List Net) (s : DSM) (net : Net),
      Effect s (waitForCas reqId arrivals s net).events
        (waitForCas reqId arrivals s net).state := by
  intro arrivals
  induction arrivals with
  | nil =>
    intro s net
    simp only [Lab8.waitForCas]
    split_ifs <;> exact Effect.refl s
  | cons batch later ih =>
    intro s net
    rw [waitForCas_cons]
    by_cases hrun : s.running_ = false
    · rw [if_pos hrun]
      exact Effect.refl s
    · rw [if_neg hrun]
      cases hres : (Lab8.poll s (net.deliver batch)).result with
        | ok u =>
          simp only []
          split_ifs
          · have h2 := Effect.silent (Lab8.poll s (net.deliver batch)).state
              { (Lab8.poll s (net.deliver batch)).state with
                casResult_ :=
                  (mapIndex (Lab8.poll s (net.deliver batch)).state.casResult_ reqId).2 }
              rfl rfl rfl rfl rfl rfl
            have h3 := (Effect.poll s (net.deliver batch)).trans h2
            simpa using h3
          · exact (Effect.poll s _).trans (ih _ _)
        | threw e => exact Effect.poll s _
        | blocked => exact Effect.poll s _

theorem Effect.multicastBlock (s : DSM) (op : OrderedOp) (hseq : op.seq = s.nextSeq_) :
    Effect s
      (Event.ordered op :: ((applyOrderedOp (bumpSeq s) op).events ++
        sequencerMulticast (applyOrderedOp (bumpSeq s) op).state op))
      (applyOrderedOp (bumpSeq s) op).state :=
  Effect.block s op _ hseq (orderedSeqs_sequencerMulticast _ _)
    (fun d => by
      rw [sentTo_sequencerMulticast]
      split_ifs
      · exact Or.inr rfl
      · exact Or.inl rfl)
    (callbacks_sequencerMulticast _ _)

theorem Effect.unsentBlock (s : DSM) (op : OrderedOp) (hseq : op.seq = s.nextSeq_) :
    Effect s (Event.ordered op :: (applyOrderedOp (bumpSeq s) op).events)
      (applyOrderedOp (bumpSeq s) op).state := by
  have h1 := Effect.block s op [] hseq rfl (fun _ => Or.inl rfl) rfl
  simpa using h1

theorem Effect.write (s : DSM) (net : Net) (arrivals : List Net) (h i v : Int) :
    Effect s (write s net arrivals h i v).events (write s net arrivals h i v).state := by
  rw [write_eq]
  by_cases hsub : isSubscriber s.world_ s.rank_ h i = false
  · rw [if_pos hsub]
    exact Effect.refl s
  · rw [if_neg hsub]
    have h0 : Effect s [] (bumpReqId s) := Effect.silent s _ rfl rfl rfl rfl rfl rfl
    by_cases hr : s.rank_ = 0
    · rw [if_pos hr]
      cases hres : (applyOrderedOp (bumpSeq (bumpReqId s)) (writeOp s h i v)).result with
      | ok u =>
        simp only []
        have h1 := Effect.multicastBlock (bumpReqId s) (writeOp s h i v) rfl
        have h2 := Effect.silent
          (applyOrderedOp (bumpSeq (bumpReqId s)) (writeOp s h i v)).state
          { (applyOrderedOp (bumpSeq (bumpReqId s)) (writeOp s h i v)).state with
            writeDone_ :=
              mapAssign
                (applyOrderedOp (bumpSeq (bumpReqId s)) (writeOp s h i v)).state.writeDone_
                s.nextReqId_ true }
          rfl rfl rfl rfl rfl rfl
        have h3 := (h0.trans h1).trans h2
        simpa using h3
      | threw e =>
        simp only []
        have h1 := Effect.unsentBlock (bumpReqId s) (writeOp s h i v) rfl
        have h3 := h0.trans h1
        simpa using h3
      | blocked => exact absurd hres (applyOrderedOp_not_blocked _ _)
    · rw [if_neg hr]
      simp only []
      have h1 : Effect (bumpReqId s) (sendRequest MsgType.WRITE h i v 0 s.nextReqId_)
          (bumpReqId s) := Effect.quiet _ _ rfl (fun _ => rfl) rfl
      have h3 := (h0.trans h1).trans (Effect.waitForWrite s.nextReqId_ arrivals (bumpReqId s) net)
      simpa using h3

theorem Effect.compareExchange (s : DSM) (net : Net) (arrivals : List Net) (h i e d : Int) :
    Effect s (compareExchange s net arrivals h i e d).events
      (compareExchange s net arrivals h i e d).state := by
  rw [compareExchange_eq]
  by_cases hsub : isSubscriber s.world_ s.rank_ h i = false
  · rw [if_pos hsub]
    exact Effect.refl s
  · rw [if_neg hsub]
    have h0 : Effect s [] (bumpReqId s) := Effect.silent s _ rfl rfl rfl rfl rfl rfl
    by_cases hr : s.rank_ = 0
    · rw [if_pos hr]
      cases hres : (applyOrderedOp (bumpSeq (bumpReqId s)) (casOp s h i e d)).result with
      | ok u =>
        simp only []
        have h1 := Effect.multicastBlock (bumpReqId s) (casOp s h i e d) rfl
        have h2 := Effect.silent
          (applyOrderedOp (bumpSeq (bumpReqId s)) (casOp s h i e d)).state
          { (applyOrderedOp (bumpSeq (bumpReqId s)) (casOp s h i e d)).state with
            casDone_ :=
              mapAssign
                (applyOrderedOp (bumpSeq (bumpReqId s)) (casOp s h i e d)).state.casDone_
                s.nextReqId_ true,
            casResult_ :=
              (mapIndex
                (applyOrderedOp (bumpSeq (bumpReqId s)) (casOp s h i e d)).state.casResult_
                s.nextReqId_).2 }
          rfl rfl rfl rfl rfl rfl
        have h3 := (h0.trans h1).trans h2
        simpa using h3
      | threw err =>
        simp only []
        have h1 := Effect.unsentBlock (bumpReqId s) (casOp s h i e d) rfl
        have h3 := h0.trans h1
        simpa using h3
      | blocked => exact absurd hres (applyOrderedOp_not_blocked _ _)
    · rw [if_neg hr]
      simp only []
      have h1 : Effect (bumpReqId s) (sendRequest MsgType.CAS h i e d s.nextReqId_)
          (bumpReqId s) := Effect.quiet _ _ rfl (fun _ => rfl) rfl
      have h3 := (h0.trans h1).trans (Effect.waitForCas s.nextReqId_ arrivals (bumpReqId s) net)
      simpa using h3

theorem Effect.shutdown (s : DSM) : Effect s (shutdown s).events (shutdown s).state := by
  rw [shutdown_eq]
  by_cases hr : s.rank_ ≠ 0
  · rw [if_pos hr]
    exact Effect.refl s
  · rw [if_neg hr]
    simp only []
    exact
      { rank := rfl
        world := rfl
        vars := rfl
        cb := rfl
        len := rfl
        span := fun d => by
          refine ⟨?_, ?_⟩
          · have : orderedSeqs (Event.ordered (shutdownOp s) ::
                shutdownSends s.world_ (encodeOp (shutdownOp s))) = [s.nextSeq_] := by
              have h := orderedSeqs_shutdownSends s.world_ (encodeOp (shutdownOp s))
              have h2 : ∀ l, orderedSeqs (Event.ordered (shutdownOp s) :: l) =
                  (shutdownOp s).seq :: orderedSeqs l := fun l => by simp [orderedSeqs]
              rw [h2, h]
              rfl
            rw [this]
            simp [SeqSpan, bumpSeq]
          · have : sentSeqs d (Event.ordered (shutdownOp s) ::
                shutdownSends s.world_ (encodeOp (shutdownOp s))) =
                sentSeqs d (shutdownSends s.world_ (encodeOp (shutdownOp s))) := by
              simp [sentSeqs, sentTo]
            rw [this]
            simp only [sentSeqs, sentTo_shutdownSends]
            split_ifs <;> simp [Within, encodeOp, shutdownOp, bumpSeq]
        vals := fun _ _ _ _ _ => rfl
        cbs := by
          have h := callbacks_shutdownSends s.world_ (encodeOp (shutdownOp s))
          have h2 : ∀ l, callbacks (Event.ordered (shutdownOp s) :: l) = callbacks l :=
            fun l => by simp [callbacks]
          rw [h2, h]
          simp }

theorem Effect.step (p : Proc) (a : Action) :
    ∃ evs, (step p a).trace = p.trace ++ evs ∧ Effect p.dsm evs (step p a).dsm := by
  unfold Lab8.step
  by_cases hst : p.stuck = true
  · rw [if_pos hst]
    exact ⟨[], by simp, Effect.refl _⟩
  · rw [if_neg hst]
    cases a with
    | poll arrived => exact ⟨_, rfl, Effect.poll _ _⟩
    | write h i v arrivals => exact ⟨_, rfl, Effect.write _ _ _ _ _ _⟩
    | compareExchange h i e d arrivals => exact ⟨_, rfl, Effect.compareExchange _ _ _ _ _ _ _⟩
    | shutdown => exact ⟨_, rfl, Effect.shutdown _⟩

theorem Effect.run (acts : List Action) :
    ∀ p : Proc, ∃ evs, (run p acts).trace = p.trace ++ evs ∧ Effect p.dsm evs (run p acts).dsm := by
  induction acts with
  | nil =>
    intro p
    exact ⟨[], by simp [Lab8.run], Effect.refl _⟩
  | cons a rest ih =>
    intro p
    obtain ⟨e1, ht1, h1⟩ := Effect.step p a
    obtain ⟨e2, ht2, h2⟩ := ih (Lab8.step p a)
    refine ⟨e1 ++ e2, ?_, h1.trans h2⟩
    have : Lab8.run p (a :: rest) = Lab8.run (Lab8.step p a) rest := rfl
    rw [this, ht2, ht1, List.append_assoc]

/-! ## C1: sequence numbers are strictly increasing and never reused -/

theorem DSM.new_nextSeq {rank world varsPerProcess : Int} {cb : Bool} {s0 : DSM}
    (hnew : DSM.new rank world varsPerProcess cb = .ok s0) : s0.nextSeq_ = 1 := by
  unfold DSM.new at hnew
  split_ifs at hnew
  simp only [Except.ok.injEq] at hnew
  rw [← hnew]

theorem run_start_effect (s0 : DSM) (acts : List Action) :
    Effect s0 (run (Proc.start s0) acts).trace (run (Proc.start s0) acts).dsm := by
  obtain ⟨evs, ht, he⟩ := Effect.run acts (Proc.start s0)
  have : (run (Proc.start s0) acts).trace = evs := by
    rw [ht]
    simp [Proc.start]
  rw [this]
  exact he

/-- C1. In every execution of the coordinator that starts from a freshly constructed
object and runs any sequence of `poll` (with any requests arriving), `write`,
`compareExchange` and `shutdown`, the sequence numbers of the ordered operations, in
the order of their creation, start with 1, and each later one is strictly greater than
every earlier one; so they are pairwise distinct. -/
theorem seq_strictly_increasing (world varsPerProcess : Int) (cb : Bool) (s0 : DSM)
    (hnew : DSM.new 0 world varsPerProcess cb = .ok s0) (acts : List Action) :
    (∀ x, (orderedSeqs (run (Proc.start s0) acts).trace).head? = some x → x = 1) ∧
    (orderedSeqs (run (Proc.start s0) acts).trace).Pairwise (· < ·) ∧
    (orderedSeqs (run (Proc.start s0) acts).trace).Nodup := by
  have hspan := ((run_start_effect s0 acts).span 0).1
  rw [DSM.new_nextSeq hnew] at hspan
  exact ⟨hspan.head, hspan.pairwise, hspan.pairwise.nodup⟩

/-- Witness for C1: the coordinator of the `main.cpp` scenario. -/
theorem seq_strictly_increasing_witness :
    DSM.new 0 4 2 true = .ok (mainState 0) ∧
    ((∀ x, (orderedSeqs (run (Proc.start (mainState 0)) mainCoordinatorActs).trace).head? =
        some x → x = 1) ∧
     (orderedSeqs (run (Proc.start (mainState 0)) mainCoordinatorActs).trace).Pairwise
        (· < ·) ∧
     (orderedSeqs (run (Proc.start (mainState 0)) mainCoordinatorActs).trace).Nodup) :=
  ⟨rfl, seq_strictly_increasing 4 2 true (mainState 0) rfl mainCoordinatorActs⟩

/-- The coordinator of the `main.cpp` scenario orders four operations, numbered 1 to 4. -/
theorem main_coordinator_seqs : orderedSeqs (run (Proc.start (mainState 0)) mainCoordinatorActs).trace =
    [1, 2, 3, 4] := by decide

/-- What the coordinator of the `main.cpp` scenario sends to rank 1, in order. -/
theorem main_coordinator_sent_to_1 : sentTo 1 (run (Proc.start (mainState 0)) mainCoordinatorActs).trace =
    [[1, 1, 0, 0, 10, 0, 1, 1], [2, 2, 0, 0, 10, 99, 2, 1], [3, 1, 0, 0, 11, 0, 0, 1],
     [4, 3, 0, 0, 0, 0, 0, 0]] := by decide

/-! ## C2: total order per destination -/

theorem appliedOps_append (l1 l2 : List Event) :
    appliedOps (l1 ++ l2) = appliedOps l1 ++ appliedOps l2 := by
  simp [appliedOps, List.filterMap_append]

theorem appliedOps_applyOrderedOp (s : DSM) (op : OrderedOp) :
    appliedOps (applyOrderedOp s op).events = [op] := by
  rcases applyOrderedOp_events s op with h | ⟨v, h⟩ <;> simp [h, appliedOps]

/-- The receive loop consumes a front part of the queue and applies exactly the
operations it consumed, in queue order. -/
theorem pollLoop_fifo (reqQ : List (Int × List Int)) :
    ∀ (opQ : List (List Int)) (s : DSM),
      ∃ consumed, opQ = consumed ++ (pollLoop s reqQ opQ).net.opQ ∧
        appliedOps (pollLoop s reqQ opQ).events = consumed.map decodeOp := by
  intro opQ
  induction opQ with
  | nil =>
    intro s
    exact ⟨[], rfl, rfl⟩
  | cons buf rest ih =>
    intro s
    rw [pollLoop_cons]
    cases hres : (applyOrderedOp s (decodeOp buf)).result with
    | ok u =>
      simp only []
      by_cases hsd : (decodeOp buf).type = MsgType.SHUTDOWN
      · rw [if_pos hsd]
        exact ⟨[buf], rfl, by simp [appliedOps_applyOrderedOp]⟩
      · rw [if_neg hsd]
        obtain ⟨c, hc1, hc2⟩ := ih (applyOrderedOp s (decodeOp buf)).state
        refine ⟨buf :: c, ?_, ?_⟩
        · simp only [List.cons_append]
          rw [← hc1]
        · simp only [appliedOps_append, appliedOps_applyOrderedOp, hc2, List.map_cons]
          rfl
    | threw e => exact ⟨[buf], rfl, by simp [appliedOps_applyOrderedOp]⟩
    | blocked => exact ⟨[buf], rfl, by simp [appliedOps_applyOrderedOp]⟩

theorem poll_fifo (s : DSM) (net : Net) (hr : s.rank_ ≠ 0) :
    ∃ consumed, net.opQ = consumed ++ (poll s net).net.opQ ∧
      appliedOps (poll s net).events = consumed.map decodeOp := by
  unfold poll
  by_cases hrun : s.running_ = false
  · rw [if_pos hrun]
    exact ⟨[], rfl, rfl⟩
  · rw [if_neg hrun, if_neg hr]
    exact pollLoop_fifo _ _ _

/-- What was applied, followed by what is still pending. -/
theorem poll_stream (s : DSM) (net : Net) (hr : s.rank_ ≠ 0) :
    appliedOps (poll s net).events ++ (poll s net).net.opQ.map decodeOp =
      net.opQ.map decodeOp := by
  obtain ⟨c, h1, h2⟩ := poll_fifo s net hr
  rw [h2, ← List.map_append, ← h1]

theorem waitForWrite_stream (reqId : Int) :
    ∀ (arrivals : List Net) (s : DSM) (net : Net), s.rank_ ≠ 0 →
      List.Sublist
        (appliedOps (waitForWrite reqId arrivals s net).events ++
          (waitForWrite reqId arrivals s net).net.opQ.map decodeOp)
        ((net.opQ ++ arrivals.flatMap (fun b => b.opQ)).map decodeOp) := by
  intro arrivals
  induction arrivals with
  | nil =>
    intro s net hr
    simp only [waitForWrite]
    split_ifs <;> simp [appliedOps]
  | cons batch later ih =>
    intro s net hr
    rw [waitForWrite_cons]
    have hp := poll_stream s (net.deliver batch) hr
    have hpre : List.Sublist
        (appliedOps (poll s (net.deliver batch)).events ++
          (poll s (net.deliver batch)).net.opQ.map decodeOp)
        ((net.opQ ++ (batch :: later).flatMap (fun b => b.opQ)).map decodeOp) := by
      rw [hp]
      simp only [Net.deliver, List.flatMap_cons, List.map_append]
      rw [← List.append_assoc]
      exact List.sublist_append_left _ _
    by_cases hrun : s.running_ = false
    · rw [if_pos hrun]
      simp only [appliedOps, List.filterMap_nil, List.nil_append, List.map_append]
      exact List.sublist_append_left _ _
    · rw [if_neg hrun]
      cases hres : (poll s (net.deliver batch)).result with
      | ok u =>
        simp only []
        split_ifs
        · exact hpre
        · have hr2 : (poll s (net.deliver batch)).state.rank_ ≠ 0 := by
            rw [(Effect.poll s _).rank]
            exact hr
          have h2 := ih (poll s (net.deliver batch)).state (poll s (net.deliver batch)).net hr2
          simp only [appliedOps_append, List.append_assoc]
          have h3 := List.Sublist.append_left h2 (appliedOps (poll s (net.deliver batch)).events)
          refine h3.trans ?_
          rw [List.map_append, ← List.append_assoc, hp]
          simp [Net.deliver, List.flatMap_cons]
      | threw e => exact hpre
      | blocked => exact hpre

theorem waitForCas_stream (reqId : Int) :
    ∀ (arrivals : List Net) (s : DSM) (net : Net), s.rank_ ≠ 0 →
      List.Sublist
        (appliedOps (waitForCas reqId arrivals s net).events ++
          (waitForCas reqId arrivals s net).net.opQ.map decodeOp)
        ((net.opQ ++ arrivals.flatMap (fun b => b.opQ)).map decodeOp) := by
  intro arrivals
  induction arrivals with
  | nil =>
    intro s net hr
    simp only [waitForCas]
    split_ifs <;> simp [appliedOps]
  | cons batch later ih =>
    intro s net hr
    rw [waitForCas_cons]
    have hp := poll_stream s (net.deliver batch) hr
    have hpre : List.Sublist
        (appliedOps (poll s (net.deliver batch)).events ++
          (poll s (net.deliver batch)).net.opQ.map decodeOp)
        ((net.opQ ++ (batch :: later).flatMap (fun b => b.opQ)).map decodeOp) := by
      rw [hp]
      simp only [Net.deliver, List.flatMap_cons, List.map_append]
      rw [← List.append_assoc]
      exact List.sublist_append_left _ _
    by_cases hrun : s.running_ = false
    · rw [if_pos hrun]
      simp only [appliedOps, List.filterMap_nil, List.nil_append, List.map_append]
      exact List.sublist_append_left _ _
    · rw [if_neg hrun]
      cases hres : (poll s (net.deliver batch)).result with
      | ok u =>
        simp only []
        split_ifs
        · exact hpre
        · have hr2 : (poll s (net.deliver batch)).state.rank_ ≠ 0 := by
            rw [(Effect.poll s _).rank]
            exact hr
          have h2 := ih (poll s (net.deliver batch)).state (poll s (net.deliver batch)).net hr2
          simp only [appliedOps_append, List.append_assoc]
          have h3 := List.Sublist.append_left h2 (appliedOps (poll s (net.deliver batch)).events)
          refine h3.trans ?_
          rw [List.map_append, ← List.append_assoc, hp]
          simp [Net.deliver, List.flatMap_cons]
      | threw e => exact hpre
      | blocked => exact hpre

theorem step_stream (p : Proc) (a : Action) (hr : p.dsm.rank_ ≠ 0) :
    ∃ evs, (step p a).trace = p.trace ++ evs ∧
      List.Sublist (appliedOps evs ++ (step p a).net.opQ.map decodeOp)
        ((p.net.opQ ++ a.offered).map decodeOp) := by
  unfold step
  by_cases hst : p.stuck = true
  · rw [if_pos hst]
    refine ⟨[], by simp, ?_⟩
    simp only [appliedOps, List.filterMap_nil, List.nil_append, List.map_append]
    exact List.sublist_append_left _ _
  · rw [if_neg hst]
    cases a with
    | poll arrived =>
      refine ⟨_, rfl, ?_⟩
      simp only []
      rw [poll_stream p.dsm (p.net.deliver arrived) hr]
      exact List.Sublist.refl _
    | write h i v arrivals =>
      refine ⟨_, rfl, ?_⟩
      simp only [Action.offered]
      rw [write_eq]
      by_cases hsub : isSubscriber p.dsm.world_ p.dsm.rank_ h i = false
      · rw [if_pos hsub]
        simp only [appliedOps, List.filterMap_nil, List.nil_append, List.map_append]
        exact List.sublist_append_left _ _
      · rw [if_neg hsub, if_neg hr]
        have := waitForWrite_stream p.dsm.nextReqId_ arrivals (bumpReqId p.dsm) p.net hr
        simpa [appliedOps_append, appliedOps, sendRequest] using this
    | compareExchange h i e d arrivals =>
      refine ⟨_, rfl, ?_⟩
      simp only [Action.offered]
      rw [compareExchange_eq]
      by_cases hsub : isSubscriber p.dsm.world_ p.dsm.rank_ h i = false
      · rw [if_pos hsub]
        simp only [appliedOps, List.filterMap_nil, List.nil_append, List.map_append]
        exact List.sublist_append_left _ _
      · rw [if_neg hsub, if_neg hr]
        have := waitForCas_stream p.dsm.nextReqId_ arrivals (bumpReqId p.dsm) p.net hr
        simpa [appliedOps_append, appliedOps, sendRequest] using this
    | shutdown =>
      refine ⟨_, rfl, ?_⟩
      rw [shutdown_eq, if_pos hr]
      simp [appliedOps, Action.offered]

theorem run_stream (acts : List Action) :
    ∀ p : Proc, p.dsm.rank_ ≠ 0 →
      List.Sublist
        (appliedOps (run p acts).trace ++ (run p acts).net.opQ.map decodeOp)
        (appliedOps p.trace ++ (p.net.opQ ++ acts.flatMap Action.offered).map decodeOp) := by
  induction acts with
  | nil =>
    intro p _
    simp [run]
  | cons a rest ih =>
    intro p hr
    obtain ⟨evs, ht, hsub⟩ := step_stream p a hr
    have hr2 : (step p a).dsm.rank_ ≠ 0 := by
      obtain ⟨_, _, he⟩ := Effect.step p a
      rw [he.rank]
      exact hr
    have h2 := ih (step p a) hr2
    have hrun : run p (a :: rest) = run (step p a) rest := rfl
    rw [hrun]
    refine h2.trans ?_
    rw [ht, appliedOps_append, List.append_assoc]
    apply List.Sublist.append_left
    rw [List.map_append, ← List.append_assoc]
    simp only [List.flatMap_cons, List.map_append]
    rw [← List.append_assoc (List.map decodeOp p.net.opQ)]
    rw [← List.map_append]
    exact List.Sublist.append_right hsub _

theorem decodeOp_seq (bufs : List (List Int)) :
    (bufs.map decodeOp).map (fun op => op.seq) = bufs.map (fun buf => buf.getD 0 0) := by
  simp [decodeOp, List.map_map, Function.comp_def]

/-- C2. In every execution of the coordinator from a fresh object, the ordered
operations sent to a destination `d` carry strictly increasing sequence numbers
(all at least 1) in sending order.  A `poll` on a rank other than 0 consumes a front part of its queue and
applies exactly the consumed operations, in queue order.  Hence a process of rank
other than 0 that is offered, in order, messages the coordinator sent to `d` applies
them in strictly increasing order of sequence number, whatever calls it makes. -/
theorem total_order_per_destination (world varsPerProcess : Int) (cb : Bool) (s0 : DSM)
    (hnew : DSM.new 0 world varsPerProcess cb = .ok s0) (acts : List Action) (d : Int) :
    (sentSeqs d (run (Proc.start s0) acts).trace).Pairwise (· < ·) ∧
    (∀ x ∈ sentSeqs d (run (Proc.start s0) acts).trace, 1 ≤ x) ∧
    (∀ (t : DSM) (net : Net), t.rank_ ≠ 0 →
      ∃ consumed, net.opQ = consumed ++ (poll t net).net.opQ ∧
        appliedOps (poll t net).events = consumed.map decodeOp) ∧
    (∀ (t0 : DSM) (acts' : List Action), t0.rank_ ≠ 0 →
      List.Sublist (acts'.flatMap Action.offered) (sentTo d (run (Proc.start s0) acts).trace) →
      ((appliedOps (run (Proc.start t0) acts').trace).map (fun op => op.seq)).Pairwise
        (· < ·)) := by
  have hsent : (sentSeqs d (run (Proc.start s0) acts).trace).Pairwise (· < ·) :=
    ((run_start_effect s0 acts).span d).2.2.1
  have hpos : ∀ x ∈ sentSeqs d (run (Proc.start s0) acts).trace, 1 ≤ x := by
    intro x hx
    have := (((run_start_effect s0 acts).span d).2.2.2 x hx).1
    rw [DSM.new_nextSeq hnew] at this
    exact this
  refine ⟨hsent, hpos, fun t net ht => poll_fifo t net ht, ?_⟩
  intro t0 acts' ht0 hoff
  have h1 := run_stream acts' (Proc.start t0) ht0
  have h2 : List.Sublist (appliedOps (run (Proc.start t0) acts').trace)
      ((acts'.flatMap Action.offered).map decodeOp) := by
    have h3 := (List.sublist_append_left (appliedOps (run (Proc.start t0) acts').trace)
      ((run (Proc.start t0) acts').net.opQ.map decodeOp)).trans h1
    simpa [Proc.start, appliedOps] using h3
  have h4 := (h2.trans (hoff.map decodeOp)).map (fun op => op.seq)
  rw [decodeOp_seq] at h4
  exact hsent.sublist h4

/-- Witness for C2: the coordinator of the `main.cpp` scenario and destination 1. -/
theorem total_order_per_destination_witness :
    DSM.new 0 4 2 true = .ok (mainState 0) ∧
    ((sentSeqs 1 (run (Proc.start (mainState 0)) mainCoordinatorActs).trace).Pairwise (· < ·) ∧
    (∀ x ∈ sentSeqs 1 (run (Proc.start (mainState 0)) mainCoordinatorActs).trace, 1 ≤ x) ∧
    (∀ (t : DSM) (net : Net), t.rank_ ≠ 0 →
      ∃ consumed, net.opQ = consumed ++ (poll t net).net.opQ ∧
        appliedOps (poll t net).events = consumed.map decodeOp) ∧
    (∀ (t0 : DSM) (acts' : List Action), t0.rank_ ≠ 0 →
      List.Sublist (acts'.flatMap Action.offered)
        (sentTo 1 (run (Proc.start (mainState 0)) mainCoordinatorActs).trace) →
      ((appliedOps (run (Proc.start t0) acts').trace).map (fun op => op.seq)).Pairwise
        (· < ·))) :=
  ⟨rfl, total_order_per_destination 4 2 true (mainState 0) rfl mainCoordinatorActs 1⟩

/-- Rank 1 of the `main.cpp` scenario applies what the coordinator sent to it, in sending order. -/
theorem main_rank1_applies_in_order : appliedOps (run (Proc.start (mainState 1))
    [Action.poll ⟨[], sentTo 1 (run (Proc.start (mainState 0)) mainCoordinatorActs).trace⟩]).trace =
    [⟨1, MsgType.WRITE, 0, 0, 10, 0, 1, 1⟩, ⟨2, MsgType.CAS, 0, 0, 10, 99, 2, 1⟩,
     ⟨3, MsgType.WRITE, 0, 0, 11, 0, 0, 1⟩, ⟨4, MsgType.SHUTDOWN, 0, 0, 0, 0, 0, 0⟩] := by
  decide

/-! ## C3: subscriber consistency -/

theorem gid_lt_length (s : DSM) (hsz : s.Sized) (h i gid : Int)
    (hg : globalVarId s.world_ s.varsPerProc_ h i = .ok gid) :
    gid.toNat < s.values_.length := by
  rw [hsz]
  rw [globalVarId_ok_iff] at hg
  obtain ⟨h0, h1, i0, i1, hgid⟩ := hg
  have hmul : (h + 1) * s.varsPerProc_ ≤ s.world_ * s.varsPerProc_ :=
    Int.mul_le_mul_of_nonneg_right (by omega) (by omega)
  have hexp : (h + 1) * s.varsPerProc_ = h * s.varsPerProc_ + s.varsPerProc_ := by ring
  have hnn : 0 ≤ h * s.varsPerProc_ := Int.mul_nonneg h0 (by omega)
  omega

theorem Sized.applyOrderedOp (s : DSM) (op : OrderedOp) (hsz : s.Sized) :
    (applyOrderedOp s op).state.Sized := by
  unfold DSM.Sized at *
  obtain ⟨_, _, _, hw, hv, _, hl⟩ := applyOrderedOp_frame s op
  rw [hl, hw, hv, hsz]

theorem callbacksFor_append (home idx : Int) (l1 l2 : List Event) :
    callbacksFor home idx (l1 ++ l2) = callbacksFor home idx l1 ++ callbacksFor home idx l2 := by
  simp [callbacksFor, callbacks_append]

theorem replay1_write (cb : Bool) (x : Int) (op : OrderedOp) (hw : op.type = MsgType.WRITE) :
    replay1 cb x op =
      (op.v1, if x ≠ op.v1 ∧ cb = true then [(op.home, op.idx, op.v1, op.seq)] else []) := by
  unfold replay1
  rw [if_pos hw]

theorem replay1_cas (cb : Bool) (x : Int) (op : OrderedOp) (hc : op.type = MsgType.CAS) :
    replay1 cb x op =
      if x = op.v1 then
        (op.v2, if x ≠ op.v2 ∧ cb = true then [(op.home, op.idx, op.v2, op.seq)] else [])
      else (x, []) := by
  unfold replay1
  rw [if_neg (by rw [hc]; exact MsgType.write_ne_cas.symm), if_pos hc]

theorem replay1_other (cb : Bool) (x : Int) (op : OrderedOp) (hw : op.type ≠ MsgType.WRITE)
    (hc : op.type ≠ MsgType.CAS) : replay1 cb x op = (x, []) := by
  unfold replay1
  rw [if_neg hw, if_neg hc]

/-- One operation that targets the variable `(home, idx)` on a subscriber. -/
theorem applyOrderedOp_target (s : DSM) (op : OrderedOp) (home idx gid : Int)
    (hsz : s.Sized) (hsub : isSubscriber s.world_ s.rank_ home idx = true)
    (hg : globalVarId s.world_ s.varsPerProc_ home idx = .ok gid)
    (ht : targets home idx op = true) :
    (applyOrderedOp s op).result = .ok () ∧
    (applyOrderedOp s op).state.values_.getD gid.toNat 0 =
      (replay1 s.cb_ (s.values_.getD gid.toNat 0) op).1 ∧
    callbacksFor home idx (applyOrderedOp s op).events =
      (replay1 s.cb_ (s.values_.getD gid.toNat 0) op).2 := by
  simp only [targets, Bool.and_eq_true, decide_eq_true_eq] at ht
  obtain ⟨hh, hi⟩ := ht
  subst hh hi
  have hlt := gid_lt_length s hsz _ _ gid hg
  by_cases hw : op.type = MsgType.WRITE
  · rw [applyOrderedOp_write s op gid hsub hg hw, replay1_write _ _ _ hw]
    refine ⟨rfl, getD_set_self _ _ _ hlt, ?_⟩
    simp only [getD_set_self _ _ _ hlt]
    split_ifs <;> simp [callbacksFor, callbacks]
  · by_cases hc : op.type = MsgType.CAS
    · rw [applyOrderedOp_cas s op gid hsub hg hc, replay1_cas _ _ _ hc]
      by_cases hx : s.values_.getD gid.toNat 0 = op.v1
      · rw [if_pos hx]
        simp only [if_pos hx, getD_set_self _ _ _ hlt]
        refine ⟨trivial, ?_⟩
        by_cases hn : op.v1 ≠ op.v2 ∧ s.cb_ = true
        · have hn2 : (s.values_.getD gid.toNat 0 = op.v1 ∧
              s.values_.getD gid.toNat 0 ≠ op.v2) ∧ s.cb_ = true := by
            rw [hx]
            exact ⟨⟨rfl, hn.1⟩, hn.2⟩
          rw [if_pos hn2, hx, if_pos hn]
          simp [callbacksFor, callbacks]
        · have hn2 : ¬((s.values_.getD gid.toNat 0 = op.v1 ∧
              s.values_.getD gid.toNat 0 ≠ op.v2) ∧ s.cb_ = true) := by
            rw [hx]
            exact fun h => hn ⟨h.1.2, h.2⟩
          rw [if_neg hn2, hx, if_neg hn]
          simp [callbacksFor, callbacks]
      · have hn2 : ¬((s.values_.getD gid.toNat 0 = op.v1 ∧
            s.values_.getD gid.toNat 0 ≠ op.v2) ∧ s.cb_ = true) := fun h => hx h.1.1
        rw [if_neg hx]
        simp only [if_neg hx, if_neg hn2]
        refine ⟨trivial, ?_⟩
        simp [callbacksFor, callbacks]
    · rw [applyOrderedOp_other s op gid hsub hg hw hc, replay1_other _ _ _ hw hc]
      simp [markShutdown, callbacksFor, callbacks]

/-- One operation with a checked address that targets another variable. -/
theorem applyOrderedOp_nontarget (s : DSM) (op : OrderedOp) (home idx gid g : Int)
    (hg : globalVarId s.world_ s.varsPerProc_ home idx = .ok gid)
    (hop : globalVarId s.world_ s.varsPerProc_ op.home op.idx = .ok g)
    (ht : targets home idx op = false) :
    (applyOrderedOp s op).result = .ok () ∧
    (applyOrderedOp s op).state.values_.getD gid.toNat 0 = s.values_.getD gid.toNat 0 ∧
    callbacksFor home idx (applyOrderedOp s op).events = [] := by
  have hne : ¬(op.home = home ∧ op.idx = idx) := by
    intro h
    simp [targets, h.1, h.2] at ht
  refine ⟨?_, ?_, ?_⟩
  · rcases applyOrderedOp_cases s op with h | ⟨h, e, hg'⟩ | ⟨h, gid', hg', ht' | ht' | ⟨hw, hc⟩⟩
    · simp [applyOrderedOp_not_subscriber s op h]
    · rw [hop] at hg'
      exact absurd hg' (by simp)
    · simp [applyOrderedOp_write s op gid' h hg' ht']
    · simp [applyOrderedOp_cas s op gid' h hg' ht']
    · simp [applyOrderedOp_other s op gid' h hg' hw hc]
  · apply applyOrderedOp_values_other
    intro gid' _ hg' heq
    have e : gid' = gid := by
      have := globalVarId_nonneg _ _ _ _ _ hg
      have := globalVarId_nonneg _ _ _ _ _ hg'
      omega
    subst e
    obtain ⟨e1, e2⟩ := globalVarId_inj _ _ _ _ _ _ _ hg hg'
    exact hne ⟨e1.symm, e2.symm⟩
  · unfold callbacksFor
    rw [List.filter_eq_nil_iff]
    intro c hc
    obtain ⟨_, h1, h2, _⟩ := applyOrderedOp_callbacks s op c hc
    simp only [Bool.and_eq_true, decide_eq_true_eq, not_and]
    intro hh hi
    exact hne ⟨by rw [← h1, hh], by rw [← h2, hi]⟩

/-- The value and the notifications of a variable on a subscriber are the replay of
the operations that target it. -/
theorem applyAll_replay (home idx gid : Int) (L : List OrderedOp) :
    ∀ s : DSM, s.Sized → isSubscriber s.world_ s.rank_ home idx = true →
      globalVarId s.world_ s.varsPerProc_ home idx = .ok gid →
      (∀ op ∈ L, ∃ g, globalVarId s.world_ s.varsPerProc_ op.home op.idx = .ok g) →
      (applyAll s L).result = .ok () ∧
      (applyAll s L).state.world_ = s.world_ ∧
      (applyAll s L).state.varsPerProc_ = s.varsPerProc_ ∧
      (applyAll s L).state.values_.getD gid.toNat 0 =
        (replay s.cb_ (s.values_.getD gid.toNat 0) (L.filter (targets home idx))).1 ∧
      callbacksFor home idx (applyAll s L).events =
        (replay s.cb_ (s.values_.getD gid.toNat 0) (L.filter (targets home idx))).2 := by
  induction L with
  | nil =>
    intro s _ _ _ _
    simp [applyAll, replay, callbacksFor, callbacks]
  | cons op rest ih =>
    intro s hsz hsub hg hval
    obtain ⟨_, _, hrank, hworld, hvars, hcb, _⟩ := applyOrderedOp_frame s op
    have hrest := ih (applyOrderedOp s op).state (Sized.applyOrderedOp s op hsz)
      (by rw [hworld, hrank]; exact hsub) (by rw [hworld, hvars]; exact hg)
      (by
        intro o ho
        rw [hworld, hvars]
        exact hval o (List.mem_cons_of_mem _ ho))
    obtain ⟨r1, r2, r3, r4, r5⟩ := hrest
    have hstep : (applyOrderedOp s op).result = .ok () ∧
        (applyOrderedOp s op).state.values_.getD gid.toNat 0 =
          (if targets home idx op = true then
            (replay1 s.cb_ (s.values_.getD gid.toNat 0) op).1
           else s.values_.getD gid.toNat 0) ∧
        callbacksFor home idx (applyOrderedOp s op).events =
          (if targets home idx op = true then
            (replay1 s.cb_ (s.values_.getD gid.toNat 0) op).2
           else []) := by
      by_cases ht : targets home idx op = true
      · simp only [ht, if_true]
        exact applyOrderedOp_target s op home idx gid hsz hsub hg ht
      · simp only [ht, if_false]
        obtain ⟨g, hop⟩ := hval op (List.mem_cons_self _ _)
        exact applyOrderedOp_nontarget s op home idx gid g hg hop (by simpa using ht)
    obtain ⟨s1, s2, s3⟩ := hstep
    simp only [applyAll, s1]
    refine ⟨r1, by rw [r2, hworld], by rw [r3, hvars], ?_, ?_⟩
    · rw [r4, s2, hcb]
      by_cases ht : targets home idx op = true
      · simp [List.filter_cons, ht, replay]
      · simp [List.filter_cons, ht]
    · rw [callbacksFor_append, r5, s2, s3, hcb]
      by_cases ht : targets home idx op = true
      · simp [List.filter_cons, ht, replay]
      · simp [List.filter_cons, ht]

theorem validAddr_iff (world varsPerProc h i : Int) :
    ValidAddr world varsPerProc h i ↔ ∃ g, globalVarId world varsPerProc h i = .ok g := by
  constructor
  · rintro ⟨h0, h1, i0, i1⟩
    exact ⟨h * varsPerProc + i, (globalVarId_ok_iff _ _ _ _ _).mpr ⟨h0, h1, i0, i1, rfl⟩⟩
  · rintro ⟨g, hg⟩
    obtain ⟨h0, h1, i0, i1, _⟩ := (globalVarId_ok_iff _ _ _ _ _).mp hg
    exact ⟨h0, h1, i0, i1⟩

theorem DSM.new_spec {rank world varsPerProcess : Int} {cb : Bool} {s0 : DSM}
    (hnew : DSM.new rank world varsPerProcess cb = .ok s0) :
    0 < varsPerProcess ∧
    s0 = { rank_ := rank, world_ := world, varsPerProc_ := varsPerProcess, cb_ := cb,
           running_ := true,
           values_ := List.replicate (world * varsPerProcess).toNat 0,
           nextReqId_ := 1, writeDone_ := [], casDone_ := [], casResult_ := [],
           nextSeq_ := 1 } := by
  unfold DSM.new at hnew
  split_ifs at hnew with h
  simp only [Except.ok.injEq] at hnew
  exact ⟨by omega, hnew.symm⟩

theorem DSM.new_sized {rank world varsPerProcess : Int} {cb : Bool} {s0 : DSM}
    (hnew : DSM.new rank world varsPerProcess cb = .ok s0) : s0.Sized := by
  rw [(DSM.new_spec hnew).2]
  simp [DSM.Sized]

theorem getD_replicate_zero (n j : Nat) : (List.replicate n (0 : Int)).getD j 0 = 0 := by
  rw [List.getD_eq_getElem?_getD, List.getElem?_replicate]
  split_ifs <;> rfl

theorem read_of_gid (s : DSM) (h i gid : Int)
    (hg : globalVarId s.world_ s.varsPerProc_ h i = .ok gid) :
    read s h i = .ok (s.values_.getD gid.toNat 0) := by
  simp [read, hg]

/-- C3. For a valid variable and two ranks that both subscribe to it: if two lists of
ordered operations with valid addresses contain the same operations on that variable
in the same order, then applying one list on a fresh replica of the first rank and the
other on a fresh replica of the second rank (same world, same `varsPerProcess`, callback
set on both or on neither) ends without error with the same value of the variable and
the same sequence of change notifications for it. -/
theorem subscriber_consistency (world varsPerProcess : Int) (cb : Bool)
    (home idx p q : Int) (sp sq : DSM) (Lp Lq : List OrderedOp)
    (hp : DSM.new p world varsPerProcess cb = .ok sp)
    (hq : DSM.new q world varsPerProcess cb = .ok sq)
    (hv : ValidAddr world varsPerProcess home idx)
    (hsp : p ∈ subscribersFor world home idx) (hsq : q ∈ subscribersFor world home idx)
    (hLp : ∀ op ∈ Lp, ValidAddr world varsPerProcess op.home op.idx)
    (hLq : ∀ op ∈ Lq, ValidAddr world varsPerProcess op.home op.idx)
    (heq : Lp.filter (targets home idx) = Lq.filter (targets home idx)) :
    (applyAll sp Lp).result = .ok () ∧ (applyAll sq Lq).result = .ok () ∧
    read (applyAll sp Lp).state home idx = read (applyAll sq Lq).state home idx ∧
    callbacksFor home idx (applyAll sp Lp).events =
      callbacksFor home idx (applyAll sq Lq).events := by
  obtain ⟨gid, hg⟩ := (validAddr_iff _ _ _ _).mp hv
  have ep := (DSM.new_spec hp).2
  have eq := (DSM.new_spec hq).2
  have hpw : sp.world_ = world := by rw [ep]
  have hpv : sp.varsPerProc_ = varsPerProcess := by rw [ep]
  have hpr : sp.rank_ = p := by rw [ep]
  have hpc : sp.cb_ = cb := by rw [ep]
  have hqw : sq.world_ = world := by rw [eq]
  have hqv : sq.varsPerProc_ = varsPerProcess := by rw [eq]
  have hqr : sq.rank_ = q := by rw [eq]
  have hqc : sq.cb_ = cb := by rw [eq]
  have hp0 : sp.values_.getD gid.toNat 0 = 0 := by
    rw [ep]
    exact getD_replicate_zero _ _
  have hq0 : sq.values_.getD gid.toNat 0 = 0 := by
    rw [eq]
    exact getD_replicate_zero _ _
  obtain ⟨a1, a2, a3, a4, a5⟩ := applyAll_replay home idx gid Lp sp (DSM.new_sized hp)
    (by rw [hpw, hpr]; exact (isSubscriber_iff_mem _ _ _ _).mpr hsp)
    (by rw [hpw, hpv]; exact hg)
    (by
      intro op hop
      rw [hpw, hpv]
      exact (validAddr_iff _ _ _ _).mp (hLp op hop))
  obtain ⟨b1, b2, b3, b4, b5⟩ := applyAll_replay home idx gid Lq sq (DSM.new_sized hq)
    (by rw [hqw, hqr]; exact (isSubscriber_iff_mem _ _ _ _).mpr hsq)
    (by rw [hqw, hqv]; exact hg)
    (by
      intro op hop
      rw [hqw, hqv]
      exact (validAddr_iff _ _ _ _).mp (hLq op hop))
  refine ⟨a1, b1, ?_, ?_⟩
  · rw [read_of_gid _ home idx gid (by rw [a2, a3, hpw, hpv]; exact hg),
      read_of_gid _ home idx gid (by rw [b2, b3, hqw, hqv]; exact hg),
      a4, b4, hp0, hq0, hpc, hqc, heq]
  · rw [a5, b5, hp0, hq0, hpc, hqc, heq]

/-- Witness for C3: ranks 1 and 2 of the `main.cpp` scenario and the variable `(0, 0)`. -/
theorem subscriber_consistency_witness :
    (DSM.new 1 4 2 true = .ok (mainState 1) ∧ DSM.new 2 4 2 true = .ok (mainState 2) ∧
      ValidAddr 4 2 0 0 ∧ (1 : Int) ∈ subscribersFor 4 0 0 ∧ (2 : Int) ∈ subscribersFor 4 0 0 ∧
      (∀ op ∈ mainOpsAt1, ValidAddr 4 2 op.home op.idx) ∧
      (∀ op ∈ mainOpsAt2, ValidAddr 4 2 op.home op.idx) ∧
      mainOpsAt1.filter (targets 0 0) = mainOpsAt2.filter (targets 0 0)) ∧
    ((applyAll (mainState 1) mainOpsAt1).result = .ok () ∧
      (applyAll (mainState 2) mainOpsAt2).result = .ok () ∧
      read (applyAll (mainState 1) mainOpsAt1).state 0 0 =
        read (applyAll (mainState 2) mainOpsAt2).state 0 0 ∧
      callbacksFor 0 0 (applyAll (mainState 1) mainOpsAt1).events =
        callbacksFor 0 0 (applyAll (mainState 2) mainOpsAt2).events) :=
  ⟨⟨rfl, rfl, by decide, by decide, by decide, by decide, by decide, by decide⟩,
    subscriber_consistency 4 2 true 0 0 1 2 (mainState 1) (mainState 2) mainOpsAt1 mainOpsAt2
      rfl rfl (by decide) (by decide) (by decide) (by decide) (by decide) (by decide)⟩

/-- The notifications for `(0, 0)` on rank 1 in the `main.cpp` scenario. -/
theorem main_ops_notifications : callbacksFor 0 0 (applyAll (mainState 1) mainOpsAt1).events =
    [(0, 0, 10, 1), (0, 0, 99, 3), (0, 0, 11, 5)] := by decide

/-- The replica of rank 1 after its operations. -/
theorem main_ops_values_rank1 : (applyAll (mainState 1) mainOpsAt1).state.values_ = [11, 0, 7, 0, 0, 0, 0, 0] := by
  decide

/-- The replica of rank 2 after its operations. -/
theorem main_ops_values_rank2 : (applyAll (mainState 2) mainOpsAt2).state.values_ = [11, 0, 0, 0, 0, 5, 0, 0] := by
  decide

/-! ## C4, C5: CAS and WRITE semantics of `applyOrderedOp` -/

theorem globalVarId_of_valid (world varsPerProc h i : Int) (hv : ValidAddr world varsPerProc h i) :
    globalVarId world varsPerProc h i = .ok (h * varsPerProc + i) :=
  (globalVarId_ok_iff _ _ _ _ _).mpr ⟨hv.1, hv.2.1, hv.2.2.1, hv.2.2.2, rfl⟩

/-- C4. On a rank that subscribes to the target, a CAS with a valid address returns
normally; it succeeds iff the entry at `globalVarId(op.home, op.idx)` equals `op.v1`
before the call (the success flag is what the initiator finds in `casResult_`); on
success the entry becomes `op.v2`, on failure it keeps its value; every other entry of
the replica is unchanged. -/
theorem cas_semantics (s : DSM) (op : OrderedOp) (hsz : s.Sized)
    (hsub : s.rank_ ∈ subscribersFor s.world_ op.home op.idx)
    (hv : ValidAddr s.world_ s.varsPerProc_ op.home op.idx)
    (ht : op.type = MsgType.CAS) :
    globalVarId s.world_ s.varsPerProc_ op.home op.idx =
      .ok (op.home * s.varsPerProc_ + op.idx) ∧
    (applyOrderedOp s op).result = .ok () ∧
    (op.initiator = s.rank_ →
      mapFind (applyOrderedOp s op).state.casResult_ op.reqId =
        some (decide (s.values_.getD (op.home * s.varsPerProc_ + op.idx).toNat 0 = op.v1))) ∧
    (s.values_.getD (op.home * s.varsPerProc_ + op.idx).toNat 0 = op.v1 →
      (applyOrderedOp s op).state.values_.getD (op.home * s.varsPerProc_ + op.idx).toNat 0 =
        op.v2) ∧
    (s.values_.getD (op.home * s.varsPerProc_ + op.idx).toNat 0 ≠ op.v1 →
      (applyOrderedOp s op).state.values_.getD (op.home * s.varsPerProc_ + op.idx).toNat 0 =
        s.values_.getD (op.home * s.varsPerProc_ + op.idx).toNat 0) ∧
    (∀ j, j ≠ (op.home * s.varsPerProc_ + op.idx).toNat →
      (applyOrderedOp s op).state.values_.getD j 0 = s.values_.getD j 0) ∧
    (applyOrderedOp s op).state.values_.length = s.values_.length := by
  have hg := globalVarId_of_valid _ _ _ _ hv
  have hs := (isSubscriber_iff_mem _ _ _ _).mpr hsub
  have hlt := gid_lt_length s hsz _ _ _ hg
  refine ⟨hg, ?_, ?_, ?_, ?_, ?_, (applyOrderedOp_frame s op).2.2.2.2.2.2⟩
  · rw [applyOrderedOp_cas s op _ hs hg ht]
  · intro hi
    rw [applyOrderedOp_cas s op _ hs hg ht]
    simp only [if_pos hi]
    exact mapFind_mapAssign_self _ _ _
  · intro hx
    rw [applyOrderedOp_cas s op _ hs hg ht]
    simp only [if_pos hx]
    exact getD_set_self _ _ _ hlt
  · intro hx
    rw [applyOrderedOp_cas s op _ hs hg ht]
    simp only [if_neg hx]
  · intro j hj
    apply applyOrderedOp_values_other
    intro gid' _ hg' heq
    rw [hg] at hg'
    simp only [Except.ok.injEq] at hg'
    rw [← hg'] at heq
    exact hj heq.symm

/-- Witness for C4: in the `main.cpp` scenario rank 2 holds 10 in `(0, 0)`; its
`CAS(10 -> 99)` succeeds and the value becomes 99. -/
theorem cas_semantics_witness :
    ((mainStateWith 2 10).Sized ∧
      (mainStateWith 2 10).rank_ ∈
        subscribersFor (mainStateWith 2 10).world_ mainCas.home mainCas.idx ∧
      ValidAddr (mainStateWith 2 10).world_ (mainStateWith 2 10).varsPerProc_ mainCas.home
        mainCas.idx ∧
      mainCas.type = MsgType.CAS) ∧
    mapFind (applyOrderedOp (mainStateWith 2 10) mainCas).state.casResult_ 1 = some true ∧
    (applyOrderedOp (mainStateWith 2 10) mainCas).state.values_.getD 0 0 = 99 :=
  ⟨⟨by decide, by decide, by decide, rfl⟩,
    (cas_semantics (mainStateWith 2 10) mainCas (by decide) (by decide) (by decide) rfl).2.2.1
      rfl,
    (cas_semantics (mainStateWith 2 10) mainCas (by decide) (by decide) (by decide)
      rfl).2.2.2.1 rfl⟩

/-- C5. On a rank that subscribes to the target, a WRITE with a valid address returns
normally; afterwards the entry at `globalVarId(op.home, op.idx)` equals `op.v1`
whatever it was before, every other entry of the replica is unchanged, and `running_`
is unchanged. -/
theorem write_semantics (s : DSM) (op : OrderedOp) (hsz : s.Sized)
    (hsub : s.rank_ ∈ subscribersFor s.world_ op.home op.idx)
    (hv : ValidAddr s.world_ s.varsPerProc_ op.home op.idx)
    (ht : op.type = MsgType.WRITE) :
    globalVarId s.world_ s.varsPerProc_ op.home op.idx =
      .ok (op.home * s.varsPerProc_ + op.idx) ∧
    (applyOrderedOp s op).result = .ok () ∧
    (applyOrderedOp s op).state.values_.getD (op.home * s.varsPerProc_ + op.idx).toNat 0 =
      op.v1 ∧
    (∀ j, j ≠ (op.home * s.varsPerProc_ + op.idx).toNat →
      (applyOrderedOp s op).state.values_.getD j 0 = s.values_.getD j 0) ∧
    (applyOrderedOp s op).state.values_.length = s.values_.length ∧
    (applyOrderedOp s op).state.running_ = s.running_ := by
  have hg := globalVarId_of_valid _ _ _ _ hv
  have hs := (isSubscriber_iff_mem _ _ _ _).mpr hsub
  have hlt := gid_lt_length s hsz _ _ _ hg
  refine ⟨hg, ?_, ?_, ?_, (applyOrderedOp_frame s op).2.2.2.2.2.2, ?_⟩
  · rw [applyOrderedOp_write s op _ hs hg ht]
  · rw [applyOrderedOp_write s op _ hs hg ht]
    exact getD_set_self _ _ _ hlt
  · intro j hj
    apply applyOrderedOp_values_other
    intro gid' _ hg' heq
    rw [hg] at hg'
    simp only [Except.ok.injEq] at hg'
    rw [← hg'] at heq
    exact hj heq.symm
  · rw [applyOrderedOp_write s op _ hs hg ht]

/-- Witness for C5: the write of 11 in the `main.cpp` scenario gives 11, after a CAS
that succeeded (the value was 99) and after a CAS that failed (the value was still 0). -/
theorem write_semantics_witness :
    ((mainStateWith 1 99).Sized ∧
      (mainStateWith 1 99).rank_ ∈
        subscribersFor (mainStateWith 1 99).world_ mainWrite11.home mainWrite11.idx ∧
      ValidAddr (mainStateWith 1 99).world_ (mainStateWith 1 99).varsPerProc_ mainWrite11.home
        mainWrite11.idx ∧
      mainWrite11.type = MsgType.WRITE) ∧
    (applyOrderedOp (mainStateWith 1 99) mainWrite11).state.values_.getD 0 0 = 11 ∧
    (applyOrderedOp (applyOrderedOp (mainStateWith 1 10) mainCas).state
      mainWrite11).state.values_.getD 0 0 = 11 ∧
    (applyOrderedOp (applyOrderedOp (mainStateWith 1 0) mainCas).state
      mainWrite11).state.values_.getD 0 0 = 11 :=
  ⟨⟨by decide, by decide, by decide, rfl⟩,
    (write_semantics (mainStateWith 1 99) mainWrite11 (by decide) (by decide) (by decide)
      rfl).2.2.1,
    (write_semantics (applyOrderedOp (mainStateWith 1 10) mainCas).state mainWrite11
      (by decide) (by decide) (by decide) rfl).2.2.1,
    (write_semantics (applyOrderedOp (mainStateWith 1 0) mainCas).state mainWrite11
      (by decide) (by decide) (by decide) rfl).2.2.1⟩

/-- The CAS of the `main.cpp` scenario on the value 10. -/
theorem main_cas_hit : (applyOrderedOp (mainStateWith 1 10) mainCas).state.values_.getD 0 0 = 99 := by
  decide

/-- The CAS of the `main.cpp` scenario on the value 0. -/
theorem main_cas_miss : (applyOrderedOp (mainStateWith 1 0) mainCas).state.values_.getD 0 0 = 0 := by
  decide

/-! ## C6: change notification -/

theorem read_congr (s t : DSM) (h i : Int) (hw : t.world_ = s.world_)
    (hv : t.varsPerProc_ = s.varsPerProc_) (hvals : t.values_ = s.values_) :
    read t h i = read s h i := by
  simp [read, hw, hv, hvals]

/-- With the callback set, `applyOrderedOp` either leaves the value of the target as
it is and notifies nothing, or it is a WRITE or a successful CAS on a subscriber that
changes the value and notifies exactly the new value. -/
theorem applyOrderedOp_notify (s : DSM) (op : OrderedOp) (hsz : s.Sized)
    (hcb : s.cb_ = true) :
    (read (applyOrderedOp s op).state op.home op.idx = read s op.home op.idx ∧
      callbacks (applyOrderedOp s op).events = []) ∨
    (isSubscriber s.world_ s.rank_ op.home op.idx = true ∧
      ∃ x v, read s op.home op.idx = .ok x ∧
        read (applyOrderedOp s op).state op.home op.idx = .ok v ∧ x ≠ v ∧
        callbacks (applyOrderedOp s op).events = [(op.home, op.idx, v, op.seq)] ∧
        ((op.type = MsgType.WRITE ∧ v = op.v1) ∨
          (op.type = MsgType.CAS ∧ x = op.v1 ∧ v = op.v2))) := by
  rcases applyOrderedOp_cases s op with h | ⟨h, e, hg⟩ | ⟨h, gid, hg, ht | ht | ⟨hw, hc⟩⟩
  · left
    rw [applyOrderedOp_not_subscriber s op h]
    exact ⟨read_congr _ _ _ _ rfl rfl rfl, rfl⟩
  · left
    rw [applyOrderedOp_invalid s op e h hg]
    exact ⟨read_congr _ _ _ _ rfl rfl rfl, rfl⟩
  · have hlt := gid_lt_length s hsz _ _ gid hg
    have hrb := read_of_gid s op.home op.idx gid hg
    have hra : read (applyOrderedOp s op).state op.home op.idx = .ok op.v1 := by
      rw [applyOrderedOp_write s op gid h hg ht]
      simp only [read, hg, getD_set_self _ _ _ hlt]
    by_cases hx : s.values_.getD gid.toNat 0 = op.v1
    · left
      refine ⟨by rw [hra, hrb, hx], ?_⟩
      rw [applyOrderedOp_write s op gid h hg ht]
      simp only []
      rw [if_neg (fun hh => hh.1 hx)]
      rfl
    · right
      refine ⟨h, _, _, hrb, hra, hx, ?_, Or.inl ⟨ht, rfl⟩⟩
      rw [applyOrderedOp_write s op gid h hg ht]
      simp only []
      rw [if_pos ⟨hx, hcb⟩, getD_set_self _ _ _ hlt]
      rfl
  · have hlt := gid_lt_length s hsz _ _ gid hg
    have hrb := read_of_gid s op.home op.idx gid hg
    by_cases hx : s.values_.getD gid.toNat 0 = op.v1
    · have hra : read (applyOrderedOp s op).state op.home op.idx = .ok op.v2 := by
        rw [applyOrderedOp_cas s op gid h hg ht]
        simp only [read, hg, if_pos hx, getD_set_self _ _ _ hlt]
      by_cases hy : s.values_.getD gid.toNat 0 = op.v2
      · left
        refine ⟨by rw [hra, hrb, hy], ?_⟩
        rw [applyOrderedOp_cas s op gid h hg ht]
        simp only []
        rw [if_neg (fun hh => hh.1.2 hy)]
        rfl
      · right
        refine ⟨h, _, _, hrb, hra, hy, ?_, Or.inr ⟨ht, hx, rfl⟩⟩
        rw [applyOrderedOp_cas s op gid h hg ht]
        simp only []
        rw [if_pos ⟨⟨hx, hy⟩, hcb⟩, if_pos hx, getD_set_self _ _ _ hlt]
        rfl
    · left
      constructor
      · rw [applyOrderedOp_cas s op gid h hg ht]
        simp only [read, hg, if_neg hx]
      · rw [applyOrderedOp_cas s op gid h hg ht]
        simp only []
        rw [if_neg (fun hh => hx hh.1.1)]
        rfl
  · left
    rw [applyOrderedOp_other s op gid h hg hw hc]
    exact ⟨read_congr _ _ _ _ rfl rfl rfl, rfl⟩

/-- C6. With the callback set, a call of `applyOrderedOp` emits at most one
notification; it emits exactly `(op.home, op.idx, newValue, op.seq)` if the rank
subscribes to the target and the value read for the target after the call differs from
the one read before, and nothing otherwise.  In particular nothing is emitted for a
failed CAS, for a WRITE of the value already stored, for a CAS with expected = desired,
for SHUTDOWN, and on a rank that does not subscribe. -/
theorem change_notification (s : DSM) (op : OrderedOp) (hsz : s.Sized) (hcb : s.cb_ = true) :
    (callbacks (applyOrderedOp s op).events).length ≤ 1 ∧
    ((s.rank_ ∈ subscribersFor s.world_ op.home op.idx ∧
        read (applyOrderedOp s op).state op.home op.idx ≠ read s op.home op.idx) →
      ∃ v, read (applyOrderedOp s op).state op.home op.idx = .ok v ∧
        callbacks (applyOrderedOp s op).events = [(op.home, op.idx, v, op.seq)]) ∧
    (¬(s.rank_ ∈ subscribersFor s.world_ op.home op.idx ∧
        read (applyOrderedOp s op).state op.home op.idx ≠ read s op.home op.idx) →
      callbacks (applyOrderedOp s op).events = []) ∧
    (op.type = MsgType.CAS → read s op.home op.idx ≠ .ok op.v1 →
      callbacks (applyOrderedOp s op).events = []) ∧
    (op.type = MsgType.WRITE → read s op.home op.idx = .ok op.v1 →
      callbacks (applyOrderedOp s op).events = []) ∧
    (op.type = MsgType.CAS → op.v1 = op.v2 →
      callbacks (applyOrderedOp s op).events = []) ∧
    (op.type = MsgType.SHUTDOWN → callbacks (applyOrderedOp s op).events = []) ∧
    (s.rank_ ∉ subscribersFor s.world_ op.home op.idx →
      callbacks (applyOrderedOp s op).events = []) := by
  rcases applyOrderedOp_notify s op hsz hcb with ⟨hsame, hnone⟩ |
    ⟨hsub, x, v, hrb, hra, hxv, hcbs, hkind⟩
  · refine ⟨by simp [hnone], ?_, fun _ => hnone, fun _ _ => hnone, fun _ _ => hnone,
      fun _ _ => hnone, fun _ => hnone, fun _ => hnone⟩
    rintro ⟨_, hne⟩
    exact absurd hsame hne
  · have hmem := (isSubscriber_iff_mem _ _ _ _).mp hsub
    have hne : read (applyOrderedOp s op).state op.home op.idx ≠ read s op.home op.idx := by
      rw [hra, hrb]
      intro hh
      simp only [Except.ok.injEq] at hh
      exact hxv hh.symm
    refine ⟨by simp [hcbs], fun _ => ⟨v, hra, hcbs⟩, fun hh => absurd ⟨hmem, hne⟩ hh,
      ?_, ?_, ?_, ?_, fun hh => absurd hmem hh⟩
    · intro ht hr
      rcases hkind with ⟨hw, _⟩ | ⟨_, hx1, _⟩
      · rw [ht] at hw
        exact absurd hw MsgType.write_ne_cas.symm
      · rw [hrb, hx1] at hr
        exact absurd rfl hr
    · intro ht hr
      rcases hkind with ⟨_, hv1⟩ | ⟨hc, _, _⟩
      · rw [hrb] at hr
        simp only [Except.ok.injEq] at hr
        rw [hv1, hr] at hxv
        exact absurd rfl hxv
      · rw [ht] at hc
        exact absurd hc MsgType.write_ne_cas
    · intro ht h12
      rcases hkind with ⟨hw, _⟩ | ⟨_, hx1, hv2⟩
      · rw [ht] at hw
        exact absurd hw MsgType.write_ne_cas.symm
      · rw [hx1, hv2, h12] at hxv
        exact absurd rfl hxv
    · intro ht
      rcases hkind with ⟨hw, _⟩ | ⟨hc, _, _⟩
      · rw [ht] at hw
        exact absurd hw MsgType.write_ne_shutdown.symm
      · rw [ht] at hc
        exact absurd hc MsgType.cas_ne_shutdown.symm

/-- Witness for C6: on rank 2 of the `main.cpp` scenario holding 10, the CAS notifies
`(0, 0, 99, 2)`. -/
theorem change_notification_witness :
    ((mainStateWith 2 10).Sized ∧ (mainStateWith 2 10).cb_ = true) ∧
    (callbacks (applyOrderedOp (mainStateWith 2 10) mainCas).events).length ≤ 1 ∧
    callbacks (applyOrderedOp (mainStateWith 2 10) mainCas).events = [(0, 0, 99, 2)] ∧
    callbacks (applyOrderedOp (mainStateWith 2 0) mainCas).events = [] :=
  ⟨⟨by decide, rfl⟩,
    (change_notification (mainStateWith 2 10) mainCas (by decide) rfl).1,
    by decide,
    (change_notification (mainStateWith 2 0) mainCas (by decide) rfl).2.2.2.1 rfl
      (fun h => absurd (Except.ok.inj h) (by decide))⟩

/-! ## C7: non-subscriber isolation -/

/-- C7. In every state reached from a freshly constructed object by any sequence of
`poll` (with any requests and ordered operations delivered), `write`, `compareExchange`
and `shutdown`, for every valid address the rank does not subscribe to: the replica
entry is still 0, `read` returns 0, and no notification for that address has been
emitted. -/
theorem nonsubscriber_isolation (rank world varsPerProcess : Int) (cb : Bool) (s0 : DSM)
    (hnew : DSM.new rank world varsPerProcess cb = .ok s0) (acts : List Action)
    (home idx : Int) (hv : ValidAddr world varsPerProcess home idx)
    (hns : rank ∉ subscribersFor world home idx) :
    (run (Proc.start s0) acts).dsm.values_.getD (home * varsPerProcess + idx).toNat 0 = 0 ∧
    read (run (Proc.start s0) acts).dsm home idx = .ok 0 ∧
    callbacksFor home idx (run (Proc.start s0) acts).trace = [] := by
  have he := run_start_effect s0 acts
  have e0 := (DSM.new_spec hnew).2
  have hw : s0.world_ = world := by rw [e0]
  have hvp : s0.varsPerProc_ = varsPerProcess := by rw [e0]
  have hr : s0.rank_ = rank := by rw [e0]
  have h0 : ∀ j, s0.values_.getD j 0 = 0 := by
    intro j
    rw [e0]
    exact getD_replicate_zero _ _
  have hg := globalVarId_of_valid _ _ _ _ hv
  have hsub : isSubscriber s0.world_ s0.rank_ home idx = false := by
    rw [hw, hr]
    exact (isSubscriber_false_iff _ _ _ _).mpr hns
  have hval := he.vals home idx _ (by rw [hw, hvp]; exact hg) hsub
  rw [h0] at hval
  refine ⟨hval, ?_, ?_⟩
  · rw [read_of_gid _ home idx (home * varsPerProcess + idx)
      (by rw [he.world, he.vars, hw, hvp]; exact hg), hval]
  · unfold callbacksFor
    rw [List.filter_eq_nil_iff]
    intro c hc
    have hcs := he.cbs c hc
    simp only [Bool.and_eq_true, decide_eq_true_eq, not_and]
    intro h1 h2
    rw [h1, h2, hsub] at hcs
    exact Bool.noConfusion hcs

/-- Witness for C7: world of 4 ranks, 2 variables per process; rank 0 does not
subscribe to `(1, 0)` and reads 0 after the whole `main.cpp` scenario. -/
theorem nonsubscriber_isolation_witness :
    (DSM.new 0 4 2 true = .ok (mainState 0) ∧ ValidAddr 4 2 1 0 ∧
      (0 : Int) ∉ subscribersFor 4 1 0) ∧
    ((run (Proc.start (mainState 0)) mainCoordinatorActs).dsm.values_.getD
        ((1 : Int) * 2 + 0).toNat 0 = 0 ∧
      read (run (Proc.start (mainState 0)) mainCoordinatorActs).dsm 1 0 = .ok 0 ∧
      callbacksFor 1 0 (run (Proc.start (mainState 0)) mainCoordinatorActs).trace = []) :=
  ⟨⟨rfl, by decide, by decide⟩,
    nonsubscriber_isolation 0 4 2 true (mainState 0) rfl mainCoordinatorActs 1 0 (by decide)
      (by decide)⟩

/-! ## C8: access denied before any effect -/

/-- C8. When the rank is not in `subscribersFor(home, idx)`, `write` and
`compareExchange` throw their not-allowed error, emit no event at all (so no message
is sent), receive nothing, and leave the object exactly as it was. -/
theorem access_denied_no_effect (s : DSM) (net : Net) (arrivals : List Net)
    (home idx v e d : Int) (hns : s.rank_ ∉ subscribersFor s.world_ home idx) :
    ((write s net arrivals home idx v).result = .threw .writeNotAllowed ∧
      (write s net arrivals home idx v).events = [] ∧
      (write s net arrivals home idx v).state = s ∧
      (write s net arrivals home idx v).net = net) ∧
    ((compareExchange s net arrivals home idx e d).result = .threw .casNotAllowed ∧
      (compareExchange s net arrivals home idx e d).events = [] ∧
      (compareExchange s net arrivals home idx e d).state = s ∧
      (compareExchange s net arrivals home idx e d).net = net) := by
  have hsub := (isSubscriber_false_iff _ _ _ _).mpr hns
  rw [write_eq, compareExchange_eq, if_pos hsub, if_pos hsub]
  exact ⟨⟨rfl, rfl, rfl, rfl⟩, ⟨rfl, rfl, rfl, rfl⟩⟩

/-- Witness for C8: rank 0 of the `main.cpp` scenario and the variable `(1, 0)`. -/
theorem access_denied_no_effect_witness :
    (mainState 0).rank_ ∉ subscribersFor (mainState 0).world_ 1 0 ∧
    (((write (mainState 0) ⟨[], []⟩ [] 1 0 5).result = .threw .writeNotAllowed ∧
      (write (mainState 0) ⟨[], []⟩ [] 1 0 5).events = [] ∧
      (write (mainState 0) ⟨[], []⟩ [] 1 0 5).state = mainState 0 ∧
      (write (mainState 0) ⟨[], []⟩ [] 1 0 5).net = ⟨[], []⟩) ∧
    ((compareExchange (mainState 0) ⟨[], []⟩ [] 1 0 5 6).result = .threw .casNotAllowed ∧
      (compareExchange (mainState 0) ⟨[], []⟩ [] 1 0 5 6).events = [] ∧
      (compareExchange (mainState 0) ⟨[], []⟩ [] 1 0 5 6).state = mainState 0 ∧
      (compareExchange (mainState 0) ⟨[], []⟩ [] 1 0 5 6).net = ⟨[], []⟩)) :=
  ⟨by decide, access_denied_no_effect (mainState 0) ⟨[], []⟩ [] 1 0 5 5 6 (by decide)⟩

/-! ## C9: invalid addresses at the call site -/

/-- C9 (what the code does). World of 4 ranks, 2 variables per process, and the call
`write(0, 5, 7)`, whose index 5 is out of range.  On rank 1 the call passes the
subscriber check, consumes request id 1, sends the request to the coordinator and
waits.  The coordinator that receives this request consumes sequence number 1 and then
throws "invalid localIndex" inside its own `poll`.  On rank 0 the same call throws
"invalid localIndex", but only after it consumed a request id and a sequence number. -/
theorem invalid_address_not_checked_first :
    ¬ValidAddr 4 2 0 5 ∧
    ((write (mainState 1) ⟨[], []⟩ [⟨[], []⟩] 0 5 7).events =
        [Event.sendReq [1, 0, 5, 7, 0, 1]] ∧
      (write (mainState 1) ⟨[], []⟩ [⟨[], []⟩] 0 5 7).state.nextReqId_ = 2 ∧
      (write (mainState 1) ⟨[], []⟩ [⟨[], []⟩] 0 5 7).result = .blocked) ∧
    ((poll (mainState 0) ⟨[(1, [1, 0, 5, 7, 0, 1])], []⟩).result =
        .threw .invalidLocalIndex ∧
      (poll (mainState 0) ⟨[(1, [1, 0, 5, 7, 0, 1])], []⟩).state.nextSeq_ = 2) ∧
    ((write (mainState 0) ⟨[], []⟩ [] 0 5 7).result = .threw .invalidLocalIndex ∧
      (write (mainState 0) ⟨[], []⟩ [] 0 5 7).state.nextReqId_ = 2 ∧
      (write (mainState 0) ⟨[], []⟩ [] 0 5 7).state.nextSeq_ = 2) := by
  decide

/-! ## C10: coordinator operations are synchronous -/

theorem mapIndex_mapAssign_self (m : List (Int × Bool)) (k : Int) (v : Bool) :
    (mapIndex (mapAssign m k v) k).1 = v := by
  simp [mapIndex, mapFind_mapAssign_self]

/-- C10. On rank 0, for a valid address rank 0 subscribes to: `write` returns
normally, receives no message, and afterwards `read` gives the written value;
`compareExchange` returns normally, receives no message, returns `true` iff `read`
gave the expected value before the call, and afterwards `read` gives the desired value
if it returned `true` and the old value if it returned `false`. -/
theorem coordinator_synchronous (s : DSM) (net : Net) (arrivals : List Net)
    (home idx v e d : Int) (hsz : s.Sized) (hr : s.rank_ = 0)
    (hv : ValidAddr s.world_ s.varsPerProc_ home idx)
    (hsub : (0 : Int) ∈ subscribersFor s.world_ home idx) :
    ((write s net arrivals home idx v).result = .ok () ∧
      (write s net arrivals home idx v).net = net ∧
      read (write s net arrivals home idx v).state home idx = .ok v) ∧
    (∃ x, read s home idx = .ok x ∧
      (compareExchange s net arrivals home idx e d).result = .ok (decide (x = e)) ∧
      (compareExchange s net arrivals home idx e d).net = net ∧
      read (compareExchange s net arrivals home idx e d).state home idx =
        .ok (if x = e then d else x)) := by
  have hg := globalVarId_of_valid _ _ _ _ hv
  have hs : isSubscriber s.world_ s.rank_ home idx = true := by
    rw [hr]
    exact (isSubscriber_iff_mem _ _ _ _).mpr hsub
  have hns : ¬isSubscriber s.world_ s.rank_ home idx = false := by
    rw [hs]
    exact Bool.noConfusion
  have hlt := gid_lt_length s hsz _ _ _ hg
  constructor
  · rw [write_eq, if_neg hns, if_pos hr]
    rw [applyOrderedOp_write (bumpSeq (bumpReqId s)) (writeOp s home idx v)
      (home * s.varsPerProc_ + idx) hs hg rfl]
    refine ⟨rfl, rfl, ?_⟩
    simp only [read, bumpSeq, bumpReqId, writeOp, hg]
    rw [getD_set_self _ _ _ hlt]
  · refine ⟨s.values_.getD (home * s.varsPerProc_ + idx).toNat 0,
      read_of_gid s home idx _ hg, ?_⟩
    rw [compareExchange_eq, if_neg hns, if_pos hr]
    rw [applyOrderedOp_cas (bumpSeq (bumpReqId s)) (casOp s home idx e d)
      (home * s.varsPerProc_ + idx) hs hg rfl]
    have hinit : (casOp s home idx e d).initiator = (bumpSeq (bumpReqId s)).rank_ :=
      hr.symm
    refine ⟨?_, rfl, ?_⟩
    · simp only [if_pos hinit]
      exact congrArg Result.ok (mapIndex_mapAssign_self _ _ _)
    · simp only [read, bumpSeq, bumpReqId, casOp, hg]
      by_cases hx : s.values_.getD (home * s.varsPerProc_ + idx).toNat 0 = e
      · rw [if_pos hx, if_pos hx, getD_set_self _ _ _ hlt]
      · rw [if_neg hx, if_neg hx]

/-- Witness for C10: rank 0 of the `main.cpp` scenario, holding 10 in `(0, 0)`:
`write(0, 0, 11)` and `compareExchange(0, 0, 10, 99)`. -/
theorem coordinator_synchronous_witness :
    ((mainStateWith 0 10).Sized ∧ (mainStateWith 0 10).rank_ = 0 ∧
      ValidAddr (mainStateWith 0 10).world_ (mainStateWith 0 10).varsPerProc_ 0 0 ∧
      (0 : Int) ∈ subscribersFor (mainStateWith 0 10).world_ 0 0) ∧
    (((write (mainStateWith 0 10) ⟨[], []⟩ [] 0 0 11).result = .ok () ∧
      (write (mainStateWith 0 10) ⟨[], []⟩ [] 0 0 11).net = ⟨[], []⟩ ∧
      read (write (mainStateWith 0 10) ⟨[], []⟩ [] 0 0 11).state 0 0 = .ok 11) ∧
    (∃ x, read (mainStateWith 0 10) 0 0 = .ok x ∧
      (compareExchange (mainStateWith 0 10) ⟨[], []⟩ [] 0 0 10 99).result =
        .ok (decide (x = 10)) ∧
      (compareExchange (mainStateWith 0 10) ⟨[], []⟩ [] 0 0 10 99).net = ⟨[], []⟩ ∧
      read (compareExchange (mainStateWith 0 10) ⟨[], []⟩ [] 0 0 10 99).state 0 0 =
        .ok (if x = 10 then 99 else x))) :=
  ⟨⟨by decide, rfl, by decide, by decide⟩,
    coordinator_synchronous (mainStateWith 0 10) ⟨[], []⟩ [] 0 0 11 10 99 (by decide) rfl
      (by decide) (by decide)⟩

/-- On rank 0 holding 10, `compareExchange(0, 0, 10, 99)` returns `true`. -/
theorem main_coordinator_cas_true : (compareExchange (mainStateWith 0 10) ⟨[], []⟩ [] 0 0 10 99).result = .ok true := by
  decide

/-- On rank 0 holding 11, `compareExchange(0, 0, 10, 99)` returns `false`. -/
theorem main_coordinator_cas_false : (compareExchange (mainStateWith 0 11) ⟨[], []⟩ [] 0 0 10 99).result = .ok false := by
  decide

/-! ## C15, C16: the subscription policy -/

theorem emod_small (a w : Int) (ha : 0 ≤ a) (hw : a < 2 * w) :
    a % w = if a < w then a else a - w := by
  split_ifs with h
  · exact Int.emod_eq_of_lt ha h
  · have h1 : a = (a - w) + 1 * w := by ring
    rw [h1, Int.add_mul_emod_self]
    rw [← h1]
    exact Int.emod_eq_of_lt (by omega) (by omega)

theorem length_of_mem_iff (l m : List Int) (hl : l.Nodup) (hm : m.Nodup)
    (h : ∀ x, x ∈ l ↔ x ∈ m) : l.length = m.length :=
  ((List.perm_ext_iff_of_nodup hl hm).mpr h).length_eq

/-- C15. For `world ≥ 1`, `home` in `[0, world)` and any `idx`, `subscribersFor` is a
strictly increasing list whose elements are exactly `home`, `(home + 1) mod world` when
`world ≥ 2`, and `(home + 2) mod world` when `world ≥ 3`; it has `min(world, 3)`
elements, all in `[0, world)`, and does not depend on `idx`. -/
theorem subscription_policy (world home idx : Int) (hw : 1 ≤ world) (h0 : 0 ≤ home)
    (h1 : home < world) :
    (subscribersFor world home idx).Pairwise (· < ·) ∧
    (∀ x, x ∈ subscribersFor world home idx ↔
      x = home ∨ (world ≥ 2 ∧ x = (home + 1) % world) ∨
        (world ≥ 3 ∧ x = (home + 2) % world)) ∧
    ((subscribersFor world home idx).length : Int) = min world 3 ∧
    (∀ x ∈ subscribersFor world home idx, 0 ≤ x ∧ x < world) ∧
    (∀ idx', subscribersFor world home idx' = subscribersFor world home idx) := by
  have hsorted := subscribersFor_sorted world home idx
  have hmem : ∀ x, x ∈ subscribersFor world home idx ↔
      x = home ∨ (world ≥ 2 ∧ x = (home + 1) % world) ∨
        (world ≥ 3 ∧ x = (home + 2) % world) := by
    intro x
    rw [mem_subscribersFor, Int.tmod_eq_emod (by omega) (by omega),
      Int.tmod_eq_emod (by omega) (by omega)]
  have e1 := emod_small (home + 1) world (by omega) (by omega)
  have e2 := emod_small (home + 2) world (by omega)
  refine ⟨hsorted, hmem, ?_, ?_, fun _ => rfl⟩
  · by_cases w3 : world ≥ 3
    · have e2' := e2 (by omega)
      have hlen : (subscribersFor world home idx).length =
          [home, (home + 1) % world, (home + 2) % world].length := by
        apply length_of_mem_iff _ _ hsorted.nodup
        · rw [e1, e2']
          simp only [List.nodup_cons, List.mem_cons, List.mem_singleton, List.not_mem_nil,
            not_false_eq_true, List.nodup_nil, and_true, not_or]
          split_ifs <;> omega
        · intro x
          rw [hmem]
          simp only [List.mem_cons, List.mem_singleton, List.not_mem_nil, or_false]
          constructor
          · rintro (h | ⟨_, h⟩ | ⟨_, h⟩)
            · exact Or.inl h
            · exact Or.inr (Or.inl h)
            · exact Or.inr (Or.inr h)
          · rintro (h | h | h)
            · exact Or.inl h
            · exact Or.inr (Or.inl ⟨by omega, h⟩)
            · exact Or.inr (Or.inr ⟨w3, h⟩)
      rw [hlen]
      simp only [List.length_cons, List.length_nil]
      omega
    · by_cases w2 : world ≥ 2
      · have hlen : (subscribersFor world home idx).length =
            [home, (home + 1) % world].length := by
          apply length_of_mem_iff _ _ hsorted.nodup
          · rw [e1]
            simp only [List.nodup_cons, List.mem_singleton, List.not_mem_nil,
              not_false_eq_true, List.nodup_nil, and_true]
            split_ifs <;> omega
          · intro x
            rw [hmem]
            simp only [List.mem_cons, List.mem_singleton, List.not_mem_nil, or_false]
            constructor
            · rintro (h | ⟨_, h⟩ | ⟨h3, _⟩)
              · exact Or.inl h
              · exact Or.inr h
              · exact absurd h3 w3
            · rintro (h | h)
              · exact Or.inl h
              · exact Or.inr (Or.inl ⟨w2, h⟩)
        rw [hlen]
        simp only [List.length_cons, List.length_nil]
        omega
      · have hlen : (subscribersFor world home idx).length = [home].length := by
          apply length_of_mem_iff _ _ hsorted.nodup (List.nodup_singleton _)
          intro x
          rw [hmem]
          simp only [List.mem_singleton]
          constructor
          · rintro (h | ⟨h2, _⟩ | ⟨h3, _⟩)
            · exact h
            · exact absurd h2 w2
            · exact absurd h3 w3
          · exact fun h => Or.inl h
        rw [hlen]
        simp only [List.length_cons, List.length_nil]
        omega
  · intro x hx
    rcases (hmem x).mp hx with h | ⟨_, h⟩ | ⟨_, h⟩
    · omega
    · rw [h]
      exact ⟨Int.emod_nonneg _ (by omega), Int.emod_lt_of_pos _ (by omega)⟩
    · rw [h]
      exact ⟨Int.emod_nonneg _ (by omega), Int.emod_lt_of_pos _ (by omega)⟩

/-- Witness for C15: with 4 processes, `(0, 0)` is subscribed by `[0, 1, 2]` and
`(1, 0)` by `[1, 2, 3]`, as the comment in `main.cpp` says. -/
theorem subscription_policy_witness :
    ((1 : Int) ≤ 4 ∧ (0 : Int) ≤ 1 ∧ (1 : Int) < 4) ∧
    subscribersFor 4 0 0 = [0, 1, 2] ∧ subscribersFor 4 1 0 = [1, 2, 3] ∧
    ((subscribersFor 4 1 0).length : Int) = min 4 3 ∧
    (∀ x ∈ subscribersFor 4 1 0, 0 ≤ x ∧ x < 4) :=
  ⟨⟨by decide, by decide, by decide⟩, by decide, by decide,
    (subscription_policy 4 1 0 (by decide) (by decide) (by decide)).2.2.1,
    (subscription_policy 4 1 0 (by decide) (by decide) (by decide)).2.2.2.1⟩

/-- C16. For all integers `who`, `home` and `idx`, `isSubscriber(who, home, idx)`
returns `true` iff `who` is an element of `subscribersFor(home, idx)`, and `false` iff
it is not: the list the binary search runs on is strictly increasing. -/
theorem isSubscriber_exactly_membership (world who home idx : Int) :
    (subscribersFor world home idx).Pairwise (· < ·) ∧
    (isSubscriber world who home idx = true ↔ who ∈ subscribersFor world home idx) ∧
    (isSubscriber world who home idx = false ↔ who ∉ subscribersFor world home idx) := by
  have hsorted := subscribersFor_sorted world home idx
  have hiff : isSubscriber world who home idx = true ↔
      who ∈ subscribersFor world home idx := by
    unfold isSubscriber
    exact binarySearch_iff_mem _ _ hsorted
  refine ⟨hsorted, hiff, ?_⟩
  rw [← hiff]
  cases isSubscriber world who home idx <;> simp

/-- The subscriber test on the `main.cpp` configuration, for a member, a non-member,
and a home rank outside the world. -/
theorem main_isSubscriber_values :
    isSubscriber 4 2 0 0 = true ∧ isSubscriber 4 3 0 0 = false ∧
    isSubscriber 4 0 3 1 = true ∧ isSubscriber 4 0 (-1) 0 = true := by
  decide

/-! ## C17, C18: the address-to-id map -/

/-- C17. `globalVarId(home, idx)` throws iff `home < 0`, `home ≥ world`, `idx < 0` or
`idx ≥ varsPerProcess` ("invalid homeRank" when `home` is out of range, otherwise
"invalid localIndex"), and otherwise returns `home * varsPerProcess + idx`.  `read`
throws the same error in the same cases and otherwise returns the replica entry at
that id; as a `const` member it has no effect on the object. -/
theorem globalVarId_and_read (s : DSM) (home idx : Int) :
    ((∃ e, globalVarId s.world_ s.varsPerProc_ home idx = .error e) ↔
      (home < 0 ∨ home ≥ s.world_ ∨ idx < 0 ∨ idx ≥ s.varsPerProc_)) ∧
    ((home < 0 ∨ home ≥ s.world_) →
      globalVarId s.world_ s.varsPerProc_ home idx = .error .invalidHomeRank) ∧
    (¬(home < 0 ∨ home ≥ s.world_) → (idx < 0 ∨ idx ≥ s.varsPerProc_) →
      globalVarId s.world_ s.varsPerProc_ home idx = .error .invalidLocalIndex) ∧
    (¬(home < 0 ∨ home ≥ s.world_ ∨ idx < 0 ∨ idx ≥ s.varsPerProc_) →
      globalVarId s.world_ s.varsPerProc_ home idx = .ok (home * s.varsPerProc_ + idx) ∧
      read s home idx = .ok (s.values_.getD (home * s.varsPerProc_ + idx).toNat 0)) ∧
    (∀ e, globalVarId s.world_ s.varsPerProc_ home idx = .error e ↔
      read s home idx = .error e) := by
  have hhome : (home < 0 ∨ home ≥ s.world_) →
      globalVarId s.world_ s.varsPerProc_ home idx = .error .invalidHomeRank := by
    intro h
    unfold globalVarId
    rw [if_pos h]
  have hidx : ¬(home < 0 ∨ home ≥ s.world_) → (idx < 0 ∨ idx ≥ s.varsPerProc_) →
      globalVarId s.world_ s.varsPerProc_ home idx = .error .invalidLocalIndex := by
    intro h1 h2
    unfold globalVarId
    rw [if_neg h1, if_pos h2]
  have hok : ¬(home < 0 ∨ home ≥ s.world_ ∨ idx < 0 ∨ idx ≥ s.varsPerProc_) →
      globalVarId s.world_ s.varsPerProc_ home idx = .ok (home * s.varsPerProc_ + idx) := by
    intro h
    exact globalVarId_of_valid _ _ _ _ ⟨by omega, by omega, by omega, by omega⟩
  refine ⟨?_, hhome, hidx, ?_, ?_⟩
  · constructor
    · rintro ⟨e, he⟩
      by_contra hcon
      rw [hok hcon] at he
      exact Except.noConfusion he
    · intro h
      by_cases hh : home < 0 ∨ home ≥ s.world_
      · exact ⟨_, hhome hh⟩
      · exact ⟨_, hidx hh (by omega)⟩
  · intro h
    exact ⟨hok h, read_of_gid s home idx _ (hok h)⟩
  · intro e
    unfold read
    cases hg : globalVarId s.world_ s.varsPerProc_ home idx with
    | error e' => simp
    | ok g => simp

/-- The address check on the `main.cpp` configuration: an index out of range, a home
rank out of range, and a valid address. -/
theorem main_globalVarId_values :
    globalVarId 4 2 0 5 = .error .invalidLocalIndex ∧
    globalVarId 4 2 4 0 = .error .invalidHomeRank ∧
    globalVarId 4 2 (-1) 7 = .error .invalidHomeRank ∧
    globalVarId 4 2 3 1 = .ok 7 ∧ read (mainStateWith 0 10) 0 0 = .ok 10 :=
  ⟨rfl, rfl, rfl, rfl, rfl⟩

/-- C18. For `varsPerProcess > 0` the map from valid addresses to global ids is a
bijection onto `[0, world * varsPerProcess)`: it is injective, every result lies in
that range (so it is a valid index of `values_`), and every id of the range is the
image of a valid address. -/
theorem globalVarId_bijection (world varsPerProcess : Int) (hv : 0 < varsPerProcess) :
    (∀ h i h' i' g, globalVarId world varsPerProcess h i = .ok g →
      globalVarId world varsPerProcess h' i' = .ok g → h = h' ∧ i = i') ∧
    (∀ h i g, globalVarId world varsPerProcess h i = .ok g →
      0 ≤ g ∧ g < world * varsPerProcess) ∧
    (∀ (s : DSM) h i g, s.world_ = world → s.varsPerProc_ = varsPerProcess → s.Sized →
      globalVarId world varsPerProcess h i = .ok g → g.toNat < s.values_.length) ∧
    (∀ g, 0 ≤ g → g < world * varsPerProcess →
      ∃ h i, ValidAddr world varsPerProcess h i ∧
        globalVarId world varsPerProcess h i = .ok g) := by
  refine ⟨?_, ?_, ?_, ?_⟩
  · intro h i h' i' g h1 h2
    exact globalVarId_inj _ _ _ _ _ _ _ h1 h2
  · intro h i g hg
    refine ⟨globalVarId_nonneg _ _ _ _ _ hg, ?_⟩
    rw [globalVarId_ok_iff] at hg
    obtain ⟨h0, h1, i0, i1, hgid⟩ := hg
    have hmul : (h + 1) * varsPerProcess ≤ world * varsPerProcess :=
      Int.mul_le_mul_of_nonneg_right (by omega) (by omega)
    have hexp : (h + 1) * varsPerProcess = h * varsPerProcess + varsPerProcess := by ring
    omega
  · intro s h i g hw hvp hsz hg
    apply gid_lt_length s hsz h i g
    rw [hw, hvp]
    exact hg
  · intro g g0 g1
    have hdiv := Int.ediv_add_emod g varsPerProcess
    have hmod0 : 0 ≤ g % varsPerProcess := Int.emod_nonneg _ (by omega)
    have hmod1 : g % varsPerProcess < varsPerProcess := Int.emod_lt_of_pos _ hv
    have hq0 : 0 ≤ g / varsPerProcess := Int.ediv_nonneg g0 (by omega)
    have hq1 : g / varsPerProcess < world := Int.ediv_lt_of_lt_mul hv g1
    have hva : ValidAddr world varsPerProcess (g / varsPerProcess) (g % varsPerProcess) :=
      ⟨hq0, hq1, hmod0, hmod1⟩
    refine ⟨g / varsPerProcess, g % varsPerProcess, hva, ?_⟩
    rw [globalVarId_of_valid _ _ _ _ hva]
    have hcomm : g / varsPerProcess * varsPerProcess = varsPerProcess * (g / varsPerProcess) :=
      Int.mul_comm _ _
    rw [hcomm, hdiv]

/-- Witness for C18: 4 processes with 2 variables each; the address `(3, 1)` has the
id 7, the last index of the 8 replica entries. -/
theorem globalVarId_bijection_witness :
    (0 : Int) < 2 ∧
    (∀ g, 0 ≤ g → g < (4 : Int) * 2 →
      ∃ h i, ValidAddr 4 2 h i ∧ globalVarId 4 2 h i = .ok g) ∧
    (∀ h i g, globalVarId 4 2 h i = .ok g → 0 ≤ g ∧ g < (4 : Int) * 2) :=
  ⟨by decide, (globalVarId_bijection 4 2 (by decide)).2.2.2,
    (globalVarId_bijection 4 2 (by decide)).2.1⟩

/-! ## C19: completion recording -/

/-- C19. On a rank that subscribes to the target of an operation with a valid address,
`applyOrderedOp` records a completion iff `op.initiator` is the local rank: a WRITE
sets `writeDone_[op.reqId] = true`; a CAS sets `casDone_[op.reqId] = true` and
`casResult_[op.reqId]` to the success flag (the stored value equals `op.v1`), also when
the CAS fails; the tables not named stay as they are.  For every other type of
operation (SHUTDOWN in particular), and when `op.initiator` is another rank, all three
tables are unchanged. -/
theorem completion_recording (s : DSM) (op : OrderedOp)
    (hsub : s.rank_ ∈ subscribersFor s.world_ op.home op.idx)
    (hv : ValidAddr s.world_ s.varsPerProc_ op.home op.idx) :
    (op.type = MsgType.WRITE → op.initiator = s.rank_ →
      (applyOrderedOp s op).state.writeDone_ = mapAssign s.writeDone_ op.reqId true ∧
      mapFind (applyOrderedOp s op).state.writeDone_ op.reqId = some true ∧
      (applyOrderedOp s op).state.casDone_ = s.casDone_ ∧
      (applyOrderedOp s op).state.casResult_ = s.casResult_) ∧
    (op.type = MsgType.CAS → op.initiator = s.rank_ →
      (applyOrderedOp s op).state.casDone_ = mapAssign s.casDone_ op.reqId true ∧
      mapFind (applyOrderedOp s op).state.casDone_ op.reqId = some true ∧
      (applyOrderedOp s op).state.casResult_ =
        mapAssign s.casResult_ op.reqId
          (decide (s.values_.getD (op.home * s.varsPerProc_ + op.idx).toNat 0 = op.v1)) ∧
      mapFind (applyOrderedOp s op).state.casResult_ op.reqId =
        some (decide (s.values_.getD (op.home * s.varsPerProc_ + op.idx).toNat 0 = op.v1)) ∧
      (applyOrderedOp s op).state.writeDone_ = s.writeDone_) ∧
    ((op.initiator ≠ s.rank_ ∨ (op.type ≠ MsgType.WRITE ∧ op.type ≠ MsgType.CAS)) →
      (applyOrderedOp s op).state.writeDone_ = s.writeDone_ ∧
      (applyOrderedOp s op).state.casDone_ = s.casDone_ ∧
      (applyOrderedOp s op).state.casResult_ = s.casResult_) ∧
    (op.type = MsgType.SHUTDOWN →
      (applyOrderedOp s op).state.writeDone_ = s.writeDone_ ∧
      (applyOrderedOp s op).state.casDone_ = s.casDone_ ∧
      (applyOrderedOp s op).state.casResult_ = s.casResult_) := by
  have hg := globalVarId_of_valid _ _ _ _ hv
  have hs := (isSubscriber_iff_mem _ _ _ _).mpr hsub
  have hother : (op.initiator ≠ s.rank_ ∨ (op.type ≠ MsgType.WRITE ∧ op.type ≠ MsgType.CAS)) →
      (applyOrderedOp s op).state.writeDone_ = s.writeDone_ ∧
      (applyOrderedOp s op).state.casDone_ = s.casDone_ ∧
      (applyOrderedOp s op).state.casResult_ = s.casResult_ := by
    intro h
    by_cases hw : op.type = MsgType.WRITE
    · rw [applyOrderedOp_write s op _ hs hg hw]
      have hi : op.initiator ≠ s.rank_ := by
        rcases h with h | ⟨h, _⟩
        · exact h
        · exact absurd hw h
      simp only [if_neg hi]
      exact ⟨trivial, trivial, trivial⟩
    · by_cases hc : op.type = MsgType.CAS
      · rw [applyOrderedOp_cas s op _ hs hg hc]
        have hi : op.initiator ≠ s.rank_ := by
          rcases h with h | ⟨_, h⟩
          · exact h
          · exact absurd hc h
        simp only [if_neg hi]
        exact ⟨trivial, trivial, trivial⟩
      · rw [applyOrderedOp_other s op _ hs hg hw hc]
        exact ⟨rfl, rfl, rfl⟩
  refine ⟨?_, ?_, hother, ?_⟩
  · intro hw hi
    rw [applyOrderedOp_write s op _ hs hg hw]
    simp only [if_pos hi]
    exact ⟨trivial, mapFind_mapAssign_self _ _ _, trivial, trivial⟩
  · intro hc hi
    rw [applyOrderedOp_cas s op _ hs hg hc]
    simp only [if_pos hi]
    exact ⟨trivial, mapFind_mapAssign_self _ _ _, trivial, mapFind_mapAssign_self _ _ _,
      trivial⟩
  · intro hsd
    apply hother
    right
    rw [hsd]
    exact ⟨MsgType.write_ne_shutdown.symm, MsgType.cas_ne_shutdown.symm⟩

/-- Witness for C19: on rank 2 of the `main.cpp` scenario its own CAS is recorded as
done, with the flag `true` when the value is 10 and `false` when it is 0. -/
theorem completion_recording_witness :
    ((mainStateWith 2 10).rank_ ∈
        subscribersFor (mainStateWith 2 10).world_ mainCas.home mainCas.idx ∧
      ValidAddr (mainStateWith 2 10).world_ (mainStateWith 2 10).varsPerProc_ mainCas.home
        mainCas.idx) ∧
    (applyOrderedOp (mainStateWith 2 10) mainCas).state.casDone_ = [(1, true)] ∧
    (applyOrderedOp (mainStateWith 2 10) mainCas).state.casResult_ = [(1, true)] ∧
    (applyOrderedOp (mainStateWith 2 0) mainCas).state.casResult_ = [(1, false)] ∧
    (applyOrderedOp (mainStateWith 1 10) mainCas).state.casDone_ = [] :=
  ⟨⟨by decide, by decide⟩,
    ((completion_recording (mainStateWith 2 10) mainCas (by decide) (by decide)).2.1 rfl
      rfl).1,
    ((completion_recording (mainStateWith 2 10) mainCas (by decide) (by decide)).2.1 rfl
      rfl).2.2.1,
    ((completion_recording (mainStateWith 2 0) mainCas (by decide) (by decide)).2.1 rfl
      rfl).2.2.1,
    ((completion_recording (mainStateWith 1 10) mainCas (by decide) (by decide)).2.2.1
      (Or.inl (by decide))).2.1⟩

/-! ## C20: racing CAS operations -/

/-- A CAS with a valid address on a subscriber, in terms of the stored value. -/
theorem applyOrderedOp_cas_valid (s : DSM) (op : OrderedOp) (hsz : s.Sized)
    (hsub : s.rank_ ∈ subscribersFor s.world_ op.home op.idx)
    (hv : ValidAddr s.world_ s.varsPerProc_ op.home op.idx)
    (ht : op.type = MsgType.CAS) :
    (applyOrderedOp s op).result = .ok () ∧
    (op.initiator = s.rank_ →
      mapFind (applyOrderedOp s op).state.casResult_ op.reqId =
        some (decide (s.values_.getD (op.home * s.varsPerProc_ + op.idx).toNat 0 = op.v1))) ∧
    (s.values_.getD (op.home * s.varsPerProc_ + op.idx).toNat 0 = op.v1 →
      (applyOrderedOp s op).state.values_.getD (op.home * s.varsPerProc_ + op.idx).toNat 0 =
        op.v2) ∧
    (s.values_.getD (op.home * s.varsPerProc_ + op.idx).toNat 0 ≠ op.v1 →
      (applyOrderedOp s op).state.values_.getD (op.home * s.varsPerProc_ + op.idx).toNat 0 =
        s.values_.getD (op.home * s.varsPerProc_ + op.idx).toNat 0) := by
  have hg := globalVarId_of_valid _ _ _ _ hv
  have hs := (isSubscriber_iff_mem _ _ _ _).mpr hsub
  have hlt := gid_lt_length s hsz _ _ _ hg
  rw [applyOrderedOp_cas s op _ hs hg ht]
  refine ⟨rfl, ?_, ?_, ?_⟩
  · intro hi
    simp only [if_pos hi]
    exact mapFind_mapAssign_self _ _ _
  · intro hx
    simp only [if_pos hx]
    exact getD_set_self _ _ _ hlt
  · intro hx
    simp only [if_neg hx]

/-- C20 as stated fails: rank 2 holds 10 in `(0, 0)` and applies `CAS(10 -> 10)` and
directly afterwards `CAS(10 -> 99)`, both with the expected value 10.  The first one
succeeds and leaves 10 in place, so the second one succeeds too. -/
theorem racing_cas_both_succeed :
    ((mainStateWith 2 10).Sized ∧
      (mainStateWith 2 10).rank_ ∈ subscribersFor (mainStateWith 2 10).world_ 0 0 ∧
      ValidAddr (mainStateWith 2 10).world_ (mainStateWith 2 10).varsPerProc_ 0 0 ∧
      racingCasSame.type = MsgType.CAS ∧ racingCasNext.type = MsgType.CAS ∧
      racingCasSame.home = racingCasNext.home ∧ racingCasSame.idx = racingCasNext.idx ∧
      racingCasSame.v1 = racingCasNext.v1) ∧
    mapFind (applyOrderedOp (mainStateWith 2 10) racingCasSame).state.casResult_
      racingCasSame.reqId = some true ∧
    mapFind (applyOrderedOp (applyOrderedOp (mainStateWith 2 10) racingCasSame).state
      racingCasNext).state.casResult_ racingCasNext.reqId = some true ∧
    (applyOrderedOp (applyOrderedOp (mainStateWith 2 10) racingCasSame).state
      racingCasNext).state.values_.getD 0 0 = 99 := by
  decide

/-- C20, amended. On a rank that subscribes to a valid variable, of two CAS operations
on that variable with the same expected value that are applied one directly after the
other, at most one succeeds, provided the desired value of the first differs from the
expected value: it is not the case that the stored value equals the expected value
before both; the flags recorded for operations the rank initiated are not both `true`;
and when the first succeeds the second leaves the value written by the first. -/
theorem racing_cas_at_most_one (s : DSM) (op1 op2 : OrderedOp) (hsz : s.Sized)
    (hsub : s.rank_ ∈ subscribersFor s.world_ op1.home op1.idx)
    (hv : ValidAddr s.world_ s.varsPerProc_ op1.home op1.idx)
    (ht1 : op1.type = MsgType.CAS) (ht2 : op2.type = MsgType.CAS)
    (hh : op2.home = op1.home) (hi : op2.idx = op1.idx) (he : op2.v1 = op1.v1)
    (hne : op1.v2 ≠ op1.v1) :
    ¬(s.values_.getD (op1.home * s.varsPerProc_ + op1.idx).toNat 0 = op1.v1 ∧
      (applyOrderedOp s op1).state.values_.getD
        (op1.home * s.varsPerProc_ + op1.idx).toNat 0 = op2.v1) ∧
    (op1.initiator = s.rank_ → op2.initiator = s.rank_ →
      ¬(mapFind (applyOrderedOp s op1).state.casResult_ op1.reqId = some true ∧
        mapFind (applyOrderedOp (applyOrderedOp s op1).state op2).state.casResult_
          op2.reqId = some true)) ∧
    (s.values_.getD (op1.home * s.varsPerProc_ + op1.idx).toNat 0 = op1.v1 →
      (applyOrderedOp (applyOrderedOp s op1).state op2).state.values_.getD
        (op1.home * s.varsPerProc_ + op1.idx).toNat 0 = op1.v2) := by
  obtain ⟨_, c1flag, c1hit, _⟩ := applyOrderedOp_cas_valid s op1 hsz hsub hv ht1
  obtain ⟨_, _, hrank, hworld, hvars, _, _⟩ := applyOrderedOp_frame s op1
  have hsz1 : (applyOrderedOp s op1).state.Sized := Sized.applyOrderedOp s op1 hsz
  have hsub2 : (applyOrderedOp s op1).state.rank_ ∈
      subscribersFor (applyOrderedOp s op1).state.world_ op2.home op2.idx := by
    rw [hrank, hworld, hh, hi]
    exact hsub
  have hv2 : ValidAddr (applyOrderedOp s op1).state.world_
      (applyOrderedOp s op1).state.varsPerProc_ op2.home op2.idx := by
    rw [hworld, hvars, hh, hi]
    exact hv
  obtain ⟨_, c2flag, _, c2miss⟩ :=
    applyOrderedOp_cas_valid (applyOrderedOp s op1).state op2 hsz1 hsub2 hv2 ht2
  rw [hvars, hh, hi] at c2flag c2miss
  have hnot : ¬(s.values_.getD (op1.home * s.varsPerProc_ + op1.idx).toNat 0 = op1.v1 ∧
      (applyOrderedOp s op1).state.values_.getD
        (op1.home * s.varsPerProc_ + op1.idx).toNat 0 = op2.v1) := by
    rintro ⟨h1, h2⟩
    rw [c1hit h1, he] at h2
    exact hne h2
  refine ⟨hnot, ?_, ?_⟩
  · intro hi1 hi2
    rintro ⟨f1, f2⟩
    rw [c1flag hi1] at f1
    rw [c2flag (by rw [hrank]; exact hi2)] at f2
    simp only [Option.some.injEq, decide_eq_true_eq] at f1 f2
    exact hnot ⟨f1, f2⟩
  · intro h1
    have hmid := c1hit h1
    have hmiss : (applyOrderedOp s op1).state.values_.getD
        (op1.home * s.varsPerProc_ + op1.idx).toNat 0 ≠ op2.v1 := by
      rw [hmid, he]
      exact hne
    rw [c2miss hmiss, hmid]

/-- Witness for C20 (amended): rank 2 of the `main.cpp` scenario holding 10, the CAS
`10 -> 99` of the scenario followed by a second `CAS(10 -> 99)`. -/
theorem racing_cas_at_most_one_witness :
    ((mainStateWith 2 10).Sized ∧
      (mainStateWith 2 10).rank_ ∈
        subscribersFor (mainStateWith 2 10).world_ mainCas.home mainCas.idx ∧
      ValidAddr (mainStateWith 2 10).world_ (mainStateWith 2 10).varsPerProc_ mainCas.home
        mainCas.idx ∧
      mainCas.type = MsgType.CAS ∧ racingCasNext.type = MsgType.CAS ∧
      racingCasNext.home = mainCas.home ∧ racingCasNext.idx = mainCas.idx ∧
      racingCasNext.v1 = mainCas.v1 ∧ mainCas.v2 ≠ mainCas.v1) ∧
    ¬(mapFind (applyOrderedOp (mainStateWith 2 10) mainCas).state.casResult_
        mainCas.reqId = some true ∧
      mapFind (applyOrderedOp (applyOrderedOp (mainStateWith 2 10) mainCas).state
        racingCasNext).state.casResult_ racingCasNext.reqId = some true) :=
  ⟨⟨by decide, by decide, by decide, rfl, rfl, rfl, rfl, rfl, by decide⟩,
    (racing_cas_at_most_one (mainStateWith 2 10) mainCas racingCasNext (by decide)
      (by decide) (by decide) rfl rfl rfl rfl rfl (by decide)).2.1 rfl rfl⟩

/-! ## C13: `shutdown` -/

theorem sends_shutdownSends (world : Int) (buf : List Int) :
    sends (shutdownSends world buf) = shutdownSends world buf := by
  unfold sends shutdownSends
  rw [List.filter_eq_self]
  intro e he
  obtain ⟨d, _, rfl⟩ := List.mem_map.mp he
  rfl

theorem length_shutdownSends (world : Int) (buf : List Int) :
    (shutdownSends world buf).length = (world - 1).toNat := by
  simp only [shutdownSends, List.length_map, List.length_range']
  omega

/-- C13. On a rank other than 0 `shutdown` changes nothing and emits nothing.  On
rank 0 it builds one SHUTDOWN operation with the next sequence number, sends its
buffer exactly once to every rank `1 .. world - 1` (whatever the subscriber sets) and
to no other rank, sends `world - 1` messages in all and no request, applies nothing
and notifies nothing, and leaves the object as it was except that `running_` is
`false` and `nextSeq_` is one more; in particular every replica value is unchanged. -/
theorem shutdown_behaviour (s : DSM) :
    (s.rank_ ≠ 0 →
      (shutdown s).state = s ∧ (shutdown s).events = [] ∧ (shutdown s).result = .ok ()) ∧
    (s.rank_ = 0 →
      (shutdown s).result = .ok () ∧
      (∀ d, sentTo d (shutdown s).events =
        if 1 ≤ d ∧ d < s.world_ then [[s.nextSeq_, 3, 0, 0, 0, 0, 0, 0]] else []) ∧
      sentTo 0 (shutdown s).events = [] ∧
      decodeOp [s.nextSeq_, 3, 0, 0, 0, 0, 0, 0] =
        ⟨s.nextSeq_, MsgType.SHUTDOWN, 0, 0, 0, 0, 0, 0⟩ ∧
      (sends (shutdown s).events).length = (s.world_ - 1).toNat ∧
      (∀ e ∈ sends (shutdown s).events, ∃ d, 1 ≤ d ∧ d < s.world_ ∧
        e = Event.sendOp d [s.nextSeq_, 3, 0, 0, 0, 0, 0, 0]) ∧
      orderedSeqs (shutdown s).events = [s.nextSeq_] ∧
      appliedOps (shutdown s).events = [] ∧ callbacks (shutdown s).events = [] ∧
      (shutdown s).state = { s with running_ := false, nextSeq_ := s.nextSeq_ + 1 } ∧
      (shutdown s).state.running_ = false ∧
      (shutdown s).state.values_ = s.values_) := by
  constructor
  · intro hr
    rw [shutdown_eq, if_pos hr]
    exact ⟨rfl, rfl, rfl⟩
  · intro hr
    have hr' : ¬s.rank_ ≠ 0 := fun h => h hr
    rw [shutdown_eq, if_neg hr']
    have hcons : ∀ (d : Int) (l : List Event),
        sentTo d (Event.ordered (shutdownOp s) :: l) = sentTo d l := fun d l => by
      simp [sentTo]
    have hsends : ∀ l : List Event, sends (Event.ordered (shutdownOp s) :: l) = sends l :=
      fun l => by simp [sends]
    have hord : ∀ l : List Event, orderedSeqs (Event.ordered (shutdownOp s) :: l) =
        s.nextSeq_ :: orderedSeqs l := fun l => by simp [orderedSeqs, shutdownOp]
    have happ : ∀ l : List Event, appliedOps (Event.ordered (shutdownOp s) :: l) =
        appliedOps l := fun l => by simp [appliedOps]
    have hcb : ∀ l : List Event, callbacks (Event.ordered (shutdownOp s) :: l) =
        callbacks l := fun l => by simp [callbacks]
    have hbuf : encodeOp (shutdownOp s) = [s.nextSeq_, 3, 0, 0, 0, 0, 0, 0] := rfl
    have happlied : appliedOps (shutdownSends s.world_ (encodeOp (shutdownOp s))) = [] := by
      unfold appliedOps shutdownSends
      rw [List.filterMap_eq_nil_iff]
      intro e he
      obtain ⟨d, _, rfl⟩ := List.mem_map.mp he
      rfl
    refine ⟨rfl, ?_, ?_, ?_, ?_, ?_, ?_, ?_, ?_, rfl, rfl, rfl⟩
    · intro d
      simp only []
      rw [hcons, sentTo_shutdownSends, hbuf]
    · simp only []
      rw [hcons, sentTo_shutdownSends]
      rw [if_neg (by omega)]
    · simp [decodeOp, wrap32, MsgType.SHUTDOWN]
    · simp only []
      rw [hsends, sends_shutdownSends, length_shutdownSends]
    · simp only []
      rw [hsends, sends_shutdownSends, hbuf]
      intro e he
      obtain ⟨n, hn, rfl⟩ := List.mem_map.mp he
      rw [List.mem_range'_1] at hn
      refine ⟨Int.ofNat n, ?_, ?_, rfl⟩
      · simp only [Int.ofNat_eq_coe]
        omega
      · simp only [Int.ofNat_eq_coe]
        omega
    · simp only []
      rw [hord, orderedSeqs_shutdownSends]
    · simp only []
      rw [happ, happlied]
    · simp only []
      rw [hcb, callbacks_shutdownSends]

/-- Witness for C13: rank 0 of the `main.cpp` scenario sends the SHUTDOWN with sequence
number 1 to the ranks 1, 2 and 3, also to rank 3, which subscribes to nothing rank 0
subscribes to; on rank 1 the call does nothing. -/
theorem shutdown_behaviour_witness :
    ((mainState 1).rank_ ≠ 0 ∧ (mainState 0).rank_ = 0) ∧
    ((shutdown (mainState 1)).state = mainState 1 ∧ (shutdown (mainState 1)).events = [] ∧
      (shutdown (mainState 1)).result = .ok ()) ∧
    (sends (shutdown (mainState 0)).events).length = ((mainState 0).world_ - 1).toNat ∧
    (shutdown (mainState 0)).events =
      [Event.ordered ⟨1, MsgType.SHUTDOWN, 0, 0, 0, 0, 0, 0⟩,
       Event.sendOp 1 [1, 3, 0, 0, 0, 0, 0, 0], Event.sendOp 2 [1, 3, 0, 0, 0, 0, 0, 0],
       Event.sendOp 3 [1, 3, 0, 0, 0, 0, 0, 0]] :=
  ⟨⟨by decide, rfl⟩, (shutdown_behaviour (mainState 1)).1 (by decide),
    ((shutdown_behaviour (mainState 0)).2 rfl).2.2.2.2.1, by decide⟩

/-! ## Draining a queue of operations that do not throw -/

theorem uptoShutdown_append_afterShutdown (L : List (List Int)) :
    uptoShutdown L ++ afterShutdown L = L := by
  induction L with
  | nil => rfl
  | cons buf rest ih =>
    by_cases h : (decodeOp buf).type = MsgType.SHUTDOWN
    · simp [uptoShutdown, afterShutdown, h]
    · simp [uptoShutdown, afterShutdown, h, ih]

theorem uptoShutdown_of_none (L : List (List Int))
    (h : ∀ buf ∈ L, (decodeOp buf).type ≠ MsgType.SHUTDOWN) :
    uptoShutdown L = L ∧ afterShutdown L = [] := by
  induction L with
  | nil => exact ⟨rfl, rfl⟩
  | cons buf rest ih =>
    have h1 := h buf (List.mem_cons_self _ _)
    have h2 := ih (fun b hb => h b (List.mem_cons_of_mem _ hb))
    simp [uptoShutdown, afterShutdown, h1, h2.1, h2.2]

theorem uptoShutdown_split (pre : List (List Int)) (sd : List Int) (post : List (List Int))
    (hpre : ∀ buf ∈ pre, (decodeOp buf).type ≠ MsgType.SHUTDOWN)
    (hsd : (decodeOp sd).type = MsgType.SHUTDOWN) :
    uptoShutdown (pre ++ sd :: post) = pre ++ [sd] ∧
      afterShutdown (pre ++ sd :: post) = post := by
  induction pre with
  | nil => simp [uptoShutdown, afterShutdown, hsd]
  | cons buf rest ih =>
    have h1 := hpre buf (List.mem_cons_self _ _)
    have h2 := ih (fun b hb => hpre b (List.mem_cons_of_mem _ hb))
    simp [uptoShutdown, afterShutdown, h1, h2.1, h2.2]

/-- The first SHUTDOWN of a queue that holds one. -/
theorem exists_first_shutdown (L : List (List Int))
    (h : ∃ buf ∈ L, (decodeOp buf).type = MsgType.SHUTDOWN) :
    ∃ pre sd post, L = pre ++ sd :: post ∧
      (∀ buf ∈ pre, (decodeOp buf).type ≠ MsgType.SHUTDOWN) ∧
      (decodeOp sd).type = MsgType.SHUTDOWN := by
  induction L with
  | nil =>
    obtain ⟨b, hb, _⟩ := h
    exact absurd hb (List.not_mem_nil b)
  | cons buf rest ih =>
    by_cases hb : (decodeOp buf).type = MsgType.SHUTDOWN
    · exact ⟨[], buf, rest, rfl, fun b hb' => absurd hb' (List.not_mem_nil b), hb⟩
    · obtain ⟨b, hmem, hty⟩ := h
      have hrest : ∃ b ∈ rest, (decodeOp b).type = MsgType.SHUTDOWN := by
        rcases List.mem_cons.mp hmem with e | e
        · rw [e] at hty
          exact absurd hty hb
        · exact ⟨b, e, hty⟩
      obtain ⟨pre, sd, post, e, hpre, hsd⟩ := ih hrest
      refine ⟨buf :: pre, sd, post, by rw [e]; rfl, ?_, hsd⟩
      intro x hx
      rcases List.mem_cons.mp hx with e' | e'
      · rw [e']
        exact hb
      · exact hpre x e'

theorem applyOrderedOp_noThrow (s : DSM) (op : OrderedOp)
    (h : NoThrow s.rank_ s.world_ s.varsPerProc_ op) :
    (applyOrderedOp s op).result = .ok () := by
  rcases applyOrderedOp_cases s op with hs | ⟨hs, e, hg⟩ | ⟨hs, gid, hg, ht | ht | ⟨hw, hc⟩⟩
  · rw [applyOrderedOp_not_subscriber s op hs]
  · have hv := h ((isSubscriber_iff_mem _ _ _ _).mp hs)
    rw [globalVarId_of_valid _ _ _ _ hv] at hg
    exact Except.noConfusion hg
  · rw [applyOrderedOp_write s op gid hs hg ht]
  · rw [applyOrderedOp_cas s op gid hs hg ht]
  · rw [applyOrderedOp_other s op gid hs hg hw hc]

theorem applyOrderedOp_running (s : DSM) (op : OrderedOp) :
    (applyOrderedOp s op).state.running_ =
      if op.type = MsgType.SHUTDOWN then false else s.running_ := by
  rcases applyOrderedOp_cases s op with hs | ⟨hs, e, hg⟩ | ⟨hs, gid, hg, ht | ht | ⟨hw, hc⟩⟩
  · rw [applyOrderedOp_not_subscriber s op hs]
    rfl
  · rw [applyOrderedOp_invalid s op e hs hg]
    rfl
  · rw [applyOrderedOp_write s op gid hs hg ht]
    simp only []
    rw [if_neg (by rw [ht]; exact MsgType.write_ne_shutdown)]
  · rw [applyOrderedOp_cas s op gid hs hg ht]
    simp only []
    rw [if_neg (by rw [ht]; exact MsgType.cas_ne_shutdown)]
  · rw [applyOrderedOp_other s op gid hs hg hw hc]
    rfl

theorem noThrow_after_apply (s : DSM) (op o : OrderedOp)
    (h : NoThrow s.rank_ s.world_ s.varsPerProc_ o) :
    NoThrow (applyOrderedOp s op).state.rank_ (applyOrderedOp s op).state.world_
      (applyOrderedOp s op).state.varsPerProc_ o := by
  obtain ⟨_, _, hr, hw, hv, _, _⟩ := applyOrderedOp_frame s op
  rw [hr, hw, hv]
  exact h

theorem applyAll_cons_ok (s : DSM) (op : OrderedOp) (rest : List OrderedOp)
    (h : (applyOrderedOp s op).result = .ok ()) :
    (applyAll s (op :: rest)).state = (applyAll (applyOrderedOp s op).state rest).state ∧
    (applyAll s (op :: rest)).events =
      (applyOrderedOp s op).events ++ (applyAll (applyOrderedOp s op).state rest).events ∧
    (applyAll s (op :: rest)).result = (applyAll (applyOrderedOp s op).state rest).result := by
  simp only [applyAll, h]
  exact ⟨trivial, trivial, trivial⟩

/-- Applying operations that do not throw: normal return, every operation entered in
order, configuration kept. -/
theorem applyAll_noThrow (ops : List OrderedOp) :
    ∀ s : DSM, (∀ op ∈ ops, NoThrow s.rank_ s.world_ s.varsPerProc_ op) →
      (applyAll s ops).result = .ok () ∧ appliedOps (applyAll s ops).events = ops ∧
      (applyAll s ops).state.rank_ = s.rank_ ∧ (applyAll s ops).state.world_ = s.world_ ∧
      (applyAll s ops).state.varsPerProc_ = s.varsPerProc_ ∧
      (applyAll s ops).state.nextReqId_ = s.nextReqId_ ∧
      ((applyAll s ops).state.Sized ↔ s.Sized) ∧
      ((applyAll s ops).state.running_ = false ↔
        (s.running_ = false ∨ ∃ op ∈ ops, op.type = MsgType.SHUTDOWN)) := by
  induction ops with
  | nil =>
    intro s _
    simp [applyAll, appliedOps]
  | cons op rest ih =>
    intro s h
    have hok := applyOrderedOp_noThrow s op (h op (List.mem_cons_self _ _))
    obtain ⟨e1, e2, e3⟩ := applyAll_cons_ok s op rest hok
    obtain ⟨_, hq, hr, hw, hv, _, hl⟩ := applyOrderedOp_frame s op
    obtain ⟨i1, i2, i3, i4, i5, i6, i7, i8⟩ := ih (applyOrderedOp s op).state
      (fun o ho => noThrow_after_apply s op o (h o (List.mem_cons_of_mem _ ho)))
    rw [e1, e2, e3]
    refine ⟨i1, ?_, i3.trans hr, i4.trans hw, i5.trans hv, i6.trans hq, ?_, ?_⟩
    · rw [appliedOps_append, appliedOps_applyOrderedOp, i2]
      rfl
    · rw [i7]
      unfold DSM.Sized
      rw [hl, hw, hv]
    · rw [i8, applyOrderedOp_running]
      by_cases hsd : op.type = MsgType.SHUTDOWN
      · simp [hsd]
      · simp [hsd]

theorem applyAll_append (l1 l2 : List OrderedOp) :
    ∀ s : DSM, (applyAll s l1).result = .ok () →
      (applyAll s (l1 ++ l2)).state = (applyAll (applyAll s l1).state l2).state ∧
      (applyAll s (l1 ++ l2)).events =
        (applyAll s l1).events ++ (applyAll (applyAll s l1).state l2).events ∧
      (applyAll s (l1 ++ l2)).result = (applyAll (applyAll s l1).state l2).result := by
  induction l1 with
  | nil =>
    intro s _
    simp [applyAll]
  | cons op rest ih =>
    intro s h
    cases hres : (applyOrderedOp s op).result with
    | ok u =>
      obtain ⟨e1, e2, e3⟩ := applyAll_cons_ok s op rest hres
      obtain ⟨f1, f2, f3⟩ := applyAll_cons_ok s op (rest ++ l2) hres
      rw [e3] at h
      obtain ⟨g1, g2, g3⟩ := ih (applyOrderedOp s op).state h
      rw [List.cons_append, f1, f2, f3, e1, e2, g1, g2, g3, List.append_assoc]
      exact ⟨rfl, rfl, rfl⟩
    | threw e =>
      simp only [applyAll, hres] at h
      exact Result.noConfusion h
    | blocked => exact absurd hres (applyOrderedOp_not_blocked _ _)

/-- The receive loop on a queue whose front part up to the first SHUTDOWN does not
throw: it is the application, in order, of exactly that front part. -/
theorem pollLoop_noThrow (reqQ : List (Int × List Int)) :
    ∀ (L : List (List Int)) (s : DSM),
      (∀ buf ∈ uptoShutdown L, NoThrow s.rank_ s.world_ s.varsPerProc_ (decodeOp buf)) →
      (pollLoop s reqQ L).state = (applyAll s ((uptoShutdown L).map decodeOp)).state ∧
      (pollLoop s reqQ L).events = (applyAll s ((uptoShutdown L).map decodeOp)).events ∧
      (pollLoop s reqQ L).net = ⟨reqQ, afterShutdown L⟩ ∧
      (pollLoop s reqQ L).result = .ok () := by
  intro L
  induction L with
  | nil =>
    intro s _
    exact ⟨rfl, rfl, rfl, rfl⟩
  | cons buf rest ih =>
    intro s h
    rw [pollLoop_cons]
    by_cases hsd : (decodeOp buf).type = MsgType.SHUTDOWN
    · have hup : uptoShutdown (buf :: rest) = [buf] := by simp [uptoShutdown, hsd]
      have haf : afterShutdown (buf :: rest) = rest := by simp [afterShutdown, hsd]
      have hok := applyOrderedOp_noThrow s (decodeOp buf)
        (h buf (by rw [hup]; exact List.mem_singleton_self _))
      obtain ⟨e1, e2, _⟩ := applyAll_cons_ok s (decodeOp buf) [] hok
      rw [hup, haf, List.map_singleton, e1, e2, hok]
      simp only [if_pos hsd, applyAll, List.append_nil]
      refine ⟨?_, trivial, trivial, trivial⟩
      have hrun := applyOrderedOp_running s (decodeOp buf)
      rw [if_pos hsd] at hrun
      cases hst : (applyOrderedOp s (decodeOp buf)).state
      rw [hst] at hrun
      simp only at hrun
      simp only [hrun]
    · have hup : uptoShutdown (buf :: rest) = buf :: uptoShutdown rest := by
        simp [uptoShutdown, hsd]
      have haf : afterShutdown (buf :: rest) = afterShutdown rest := by
        simp [afterShutdown, hsd]
      have hok := applyOrderedOp_noThrow s (decodeOp buf)
        (h buf (by rw [hup]; exact List.mem_cons_self _ _))
      obtain ⟨e1, e2, _⟩ := applyAll_cons_ok s (decodeOp buf)
        ((uptoShutdown rest).map decodeOp) hok
      obtain ⟨i1, i2, i3, i4⟩ := ih (applyOrderedOp s (decodeOp buf)).state
        (fun b hb => noThrow_after_apply s _ _
          (h b (by rw [hup]; exact List.mem_cons_of_mem _ hb)))
      rw [hup, haf, List.map_cons, e1, e2, hok]
      simp only [if_neg hsd]
      exact ⟨i1, by rw [i2], i3, i4⟩

/-! ## C14: `poll` does not drain past SHUTDOWN -/

/-- C14 as stated fails: rank 1 of the `main.cpp` configuration finds two operations
and no SHUTDOWN.  The first is a WRITE to `(1, 5)`, whose index is out of range; rank 1
passes the subscriber check for home rank 1, `globalVarId` throws, and `poll` ends with
"invalid localIndex" after entering `applyOrderedOp` once: the second operation, a
valid WRITE to `(1, 0)`, stays unreceived and the replica stays all 0. -/
theorem poll_throws_before_end :
    (mainState 1).running_ = true ∧ (mainState 1).rank_ ≠ 0 ∧
    (∀ buf ∈ [[1, 1, 1, 5, 7, 0, 2, 1], [2, 1, 1, 0, 8, 0, 2, 2]],
      (decodeOp buf).type ≠ MsgType.SHUTDOWN) ∧
    (poll (mainState 1) ⟨[], [[1, 1, 1, 5, 7, 0, 2, 1], [2, 1, 1, 0, 8, 0, 2, 2]]⟩).result =
      .threw .invalidLocalIndex ∧
    appliedOps
      (poll (mainState 1) ⟨[], [[1, 1, 1, 5, 7, 0, 2, 1], [2, 1, 1, 0, 8, 0, 2, 2]]⟩).events =
      [⟨1, MsgType.WRITE, 1, 5, 7, 0, 2, 1⟩] ∧
    (poll (mainState 1) ⟨[], [[1, 1, 1, 5, 7, 0, 2, 1], [2, 1, 1, 0, 8, 0, 2, 2]]⟩).net.opQ =
      [[2, 1, 1, 0, 8, 0, 2, 2]] ∧
    (poll (mainState 1)
      ⟨[], [[1, 1, 1, 5, 7, 0, 2, 1], [2, 1, 1, 0, 8, 0, 2, 2]]⟩).state.values_ =
      [0, 0, 0, 0, 0, 0, 0, 0] := by
  decide

/-- C14, amended. A `poll` on a stopped object receives and applies nothing.  On a
running rank other than 0, with the available ordered operations `L` such that no
operation up to and including the first SHUTDOWN makes `applyOrderedOp` throw (each has
a valid address, or a target the rank does not subscribe to), `poll` returns normally,
applies in order exactly the front part of `L` up to and including the first SHUTDOWN
(all of `L` if there is none), leaves the rest unreceived, touches no request, and
ends with `running_ = false` iff `L` holds a SHUTDOWN. -/
theorem poll_stops_at_shutdown (s : DSM) (net : Net) :
    (s.running_ = false →
      (poll s net).state = s ∧ (poll s net).net = net ∧ (poll s net).events = [] ∧
      (poll s net).result = .ok ()) ∧
    (s.running_ = true → s.rank_ ≠ 0 →
      (∀ buf ∈ uptoShutdown net.opQ,
        NoThrow s.rank_ s.world_ s.varsPerProc_ (decodeOp buf)) →
      (poll s net).result = .ok () ∧
      appliedOps (poll s net).events = (uptoShutdown net.opQ).map decodeOp ∧
      (poll s net).state = (applyAll s ((uptoShutdown net.opQ).map decodeOp)).state ∧
      (poll s net).net.opQ = afterShutdown net.opQ ∧
      (poll s net).net.reqQ = net.reqQ ∧
      net.opQ = uptoShutdown net.opQ ++ (poll s net).net.opQ ∧
      ((∀ buf ∈ net.opQ, (decodeOp buf).type ≠ MsgType.SHUTDOWN) →
        uptoShutdown net.opQ = net.opQ ∧ (poll s net).net.opQ = []) ∧
      (∀ pre sd post, net.opQ = pre ++ sd :: post →
        (∀ buf ∈ pre, (decodeOp buf).type ≠ MsgType.SHUTDOWN) →
        (decodeOp sd).type = MsgType.SHUTDOWN →
        uptoShutdown net.opQ = pre ++ [sd] ∧ (poll s net).net.opQ = post) ∧
      ((poll s net).state.running_ = false ↔
        ∃ buf ∈ net.opQ, (decodeOp buf).type = MsgType.SHUTDOWN)) := by
  constructor
  · intro hrun
    unfold poll
    rw [if_pos hrun]
    exact ⟨rfl, rfl, rfl, rfl⟩
  · intro hrun hr hnt
    have hrun' : ¬s.running_ = false := by
      rw [hrun]
      exact Bool.noConfusion
    have hpoll : poll s net = pollLoop s net.reqQ net.opQ := by
      unfold poll
      rw [if_neg hrun', if_neg hr]
    obtain ⟨p1, p2, p3, p4⟩ := pollLoop_noThrow net.reqQ net.opQ s hnt
    obtain ⟨a1, a2, _, _, _, _, _, a8⟩ := applyAll_noThrow ((uptoShutdown net.opQ).map decodeOp) s
      (by
        intro op hop
        obtain ⟨buf, hbuf, rfl⟩ := List.mem_map.mp hop
        exact hnt buf hbuf)
    rw [hpoll, p1, p2, p3, p4]
    refine ⟨rfl, a2, rfl, rfl, rfl, (uptoShutdown_append_afterShutdown _).symm, ?_, ?_, ?_⟩
    · intro hnone
      exact uptoShutdown_of_none _ hnone
    · intro pre sd post hL hpre hsd
      simp only []
      rw [hL]
      exact uptoShutdown_split pre sd post hpre hsd
    · rw [a8]
      constructor
      · rintro (h | ⟨op, hop, hty⟩)
        · rw [hrun] at h
          exact Bool.noConfusion h
        · obtain ⟨buf, hbuf, rfl⟩ := List.mem_map.mp hop
          refine ⟨buf, ?_, hty⟩
          have hsplit := uptoShutdown_append_afterShutdown net.opQ
          rw [← hsplit]
          exact List.mem_append_left _ hbuf
      · rintro hex
        right
        obtain ⟨pre, sd, post, hL, hpre, hsd⟩ := exists_first_shutdown _ hex
        have hup := (uptoShutdown_split pre sd post hpre hsd).1
        rw [← hL] at hup
        refine ⟨decodeOp sd, ?_, hsd⟩
        rw [hup]
        exact List.mem_map.mpr ⟨sd, by simp, rfl⟩

/-- Witness for C14 (amended): rank 1 of the `main.cpp` scenario finds the write of
rank 1, the SHUTDOWN and one more operation; it applies the first two, is stopped, and
leaves the third; polling again does nothing. -/
theorem poll_stops_at_shutdown_witness :
    ((mainState 1).running_ = true ∧ (mainState 1).rank_ ≠ 0 ∧
      (∀ buf ∈ uptoShutdown
          [[1, 1, 0, 0, 10, 0, 1, 1], [2, 3, 0, 0, 0, 0, 0, 0], [3, 1, 0, 0, 11, 0, 0, 1]],
        NoThrow (mainState 1).rank_ (mainState 1).world_ (mainState 1).varsPerProc_
          (decodeOp buf))) ∧
    appliedOps (poll (mainState 1)
      ⟨[], [[1, 1, 0, 0, 10, 0, 1, 1], [2, 3, 0, 0, 0, 0, 0, 0],
        [3, 1, 0, 0, 11, 0, 0, 1]]⟩).events =
      [⟨1, MsgType.WRITE, 0, 0, 10, 0, 1, 1⟩, ⟨2, MsgType.SHUTDOWN, 0, 0, 0, 0, 0, 0⟩] ∧
    (poll (mainState 1)
      ⟨[], [[1, 1, 0, 0, 10, 0, 1, 1], [2, 3, 0, 0, 0, 0, 0, 0],
        [3, 1, 0, 0, 11, 0, 0, 1]]⟩).net.opQ = [[3, 1, 0, 0, 11, 0, 0, 1]] ∧
    (poll (mainState 1)
      ⟨[], [[1, 1, 0, 0, 10, 0, 1, 1], [2, 3, 0, 0, 0, 0, 0, 0],
        [3, 1, 0, 0, 11, 0, 0, 1]]⟩).state.running_ = false :=
  ⟨⟨rfl, by decide, by decide⟩,
    ((poll_stops_at_shutdown (mainState 1)
      ⟨[], [[1, 1, 0, 0, 10, 0, 1, 1], [2, 3, 0, 0, 0, 0, 0, 0],
        [3, 1, 0, 0, 11, 0, 0, 1]]⟩).2 rfl (by decide) (by decide)).2.1,
    ((poll_stops_at_shutdown (mainState 1)
      ⟨[], [[1, 1, 0, 0, 10, 0, 1, 1], [2, 3, 0, 0, 0, 0, 0, 0],
        [3, 1, 0, 0, 11, 0, 0, 1]]⟩).2 rfl (by decide) (by decide)).2.2.2.1,
    by decide⟩

/-! ## C12: shutdown finality -/

theorem waitForWrite_stopped (reqId : Int) (arrivals : List Net) (s : DSM) (net : Net)
    (h : s.running_ = false) :
    waitForWrite reqId arrivals s net =
      { state := s, net := net, events := [], result := .threw .stoppedWaitingWrite } := by
  cases arrivals with
  | nil => simp [waitForWrite, h]
  | cons b rest => rw [waitForWrite_cons, if_pos h]

theorem waitForCas_stopped (reqId : Int) (arrivals : List Net) (s : DSM) (net : Net)
    (h : s.running_ = false) :
    waitForCas reqId arrivals s net =
      { state := s, net := net, events := [], result := .threw .stoppedWaitingCas } := by
  cases arrivals with
  | nil => simp [waitForCas, h]
  | cons b rest => rw [waitForCas_cons, if_pos h]

/-- What does hold of a stopped object: `poll` does nothing on any rank, and on a rank
other than 0 `write` and `compareExchange` enter `applyOrderedOp` for no operation,
leave the replica and `running_` as they are, notify nothing and send no ordered
operation. -/
theorem stopped_noncoordinator_applies_nothing (s : DSM) (net : Net) (arrivals : List Net)
    (home idx v e d : Int) (hstop : s.running_ = false) :
    ((poll s net).state = s ∧ (poll s net).events = [] ∧ (poll s net).net = net) ∧
    (s.rank_ ≠ 0 →
      (appliedOps (write s net arrivals home idx v).events = [] ∧
        callbacks (write s net arrivals home idx v).events = [] ∧
        (∀ dest, sentTo dest (write s net arrivals home idx v).events = []) ∧
        (write s net arrivals home idx v).state.values_ = s.values_ ∧
        (write s net arrivals home idx v).net = net) ∧
      (appliedOps (compareExchange s net arrivals home idx e d).events = [] ∧
        callbacks (compareExchange s net arrivals home idx e d).events = [] ∧
        (∀ dest, sentTo dest (compareExchange s net arrivals home idx e d).events = []) ∧
        (compareExchange s net arrivals home idx e d).state.values_ = s.values_ ∧
        (compareExchange s net arrivals home idx e d).net = net)) := by
  constructor
  · unfold poll
    rw [if_pos hstop]
    exact ⟨rfl, rfl, rfl⟩
  · intro hr
    constructor
    · rw [write_eq]
      by_cases hsub : isSubscriber s.world_ s.rank_ home idx = false
      · rw [if_pos hsub]
        exact ⟨rfl, rfl, fun _ => rfl, rfl, rfl⟩
      · rw [if_neg hsub, if_neg hr, waitForWrite_stopped _ _ _ _ (by exact hstop)]
        exact ⟨rfl, rfl, fun _ => rfl, rfl, rfl⟩
    · rw [compareExchange_eq]
      by_cases hsub : isSubscriber s.world_ s.rank_ home idx = false
      · rw [if_pos hsub]
        exact ⟨rfl, rfl, fun _ => rfl, rfl, rfl⟩
      · rw [if_neg hsub, if_neg hr, waitForCas_stopped _ _ _ _ (by exact hstop)]
        exact ⟨rfl, rfl, fun _ => rfl, rfl, rfl⟩

/-- C12 (what the code does). The coordinator of the `main.cpp` configuration calls
`shutdown()` and is stopped.  A later `write(0, 0, 11)` on it still orders an operation
(sequence number 2), applies it (the value of `(0, 0)` changes from 0 to 11, the
callback is called) and multicasts it to the ranks 1 and 2; a later
`compareExchange(0, 0, 0, 99)` does the same and returns `true`. -/
theorem stopped_coordinator_still_applies :
    (shutdown (mainState 0)).state.running_ = false ∧
    (write (shutdown (mainState 0)).state ⟨[], []⟩ [] 0 0 11).result = .ok () ∧
    (write (shutdown (mainState 0)).state ⟨[], []⟩ [] 0 0 11).events =
      [Event.ordered ⟨2, MsgType.WRITE, 0, 0, 11, 0, 0, 1⟩,
       Event.applied ⟨2, MsgType.WRITE, 0, 0, 11, 0, 0, 1⟩,
       Event.callback 0 0 11 2,
       Event.sendOp 1 [2, 1, 0, 0, 11, 0, 0, 1], Event.sendOp 2 [2, 1, 0, 0, 11, 0, 0, 1]] ∧
    (shutdown (mainState 0)).state.values_ = [0, 0, 0, 0, 0, 0, 0, 0] ∧
    (write (shutdown (mainState 0)).state ⟨[], []⟩ [] 0 0 11).state.values_ =
      [11, 0, 0, 0, 0, 0, 0, 0] ∧
    (write (shutdown (mainState 0)).state ⟨[], []⟩ [] 0 0 11).state.running_ = false ∧
    (compareExchange (shutdown (mainState 0)).state ⟨[], []⟩ [] 0 0 0 99).result =
      .ok true ∧
    (compareExchange (shutdown (mainState 0)).state ⟨[], []⟩ [] 0 0 0 99).events =
      [Event.ordered ⟨2, MsgType.CAS, 0, 0, 0, 99, 0, 1⟩,
       Event.applied ⟨2, MsgType.CAS, 0, 0, 0, 99, 0, 1⟩,
       Event.callback 0 0 99 2,
       Event.sendOp 1 [2, 2, 0, 0, 0, 99, 0, 1], Event.sendOp 2 [2, 2, 0, 0, 0, 99, 0, 1]] := by
  decide

/-! ## Completion tables and sent messages along a drain -/

theorem sends_append (l1 l2 : List Event) : sends (l1 ++ l2) = sends l1 ++ sends l2 := by
  simp [sends, List.filter_append]

theorem sends_applyOrderedOp (s : DSM) (op : OrderedOp) :
    sends (applyOrderedOp s op).events = [] := by
  rcases applyOrderedOp_events s op with h | ⟨v, h⟩ <;> simp [h, sends]

theorem sends_pollLoop (reqQ : List (Int × List Int)) :
    ∀ (L : List (List Int)) (s : DSM), sends (pollLoop s reqQ L).events = [] := by
  intro L
  induction L with
  | nil =>
    intro s
    rfl
  | cons buf rest ih =>
    intro s
    rw [pollLoop_cons]
    cases hres : (applyOrderedOp s (decodeOp buf)).result with
    | ok u =>
      simp only []
      split_ifs
      · exact sends_applyOrderedOp _ _
      · simp only [sends_append, sends_applyOrderedOp, ih, List.append_nil]
    | threw e => exact sends_applyOrderedOp _ _
    | blocked => exact sends_applyOrderedOp _ _

theorem sends_poll (s : DSM) (net : Net) (hr : s.rank_ ≠ 0) : sends (poll s net).events = [] := by
  unfold poll
  by_cases hrun : s.running_ = false
  · rw [if_pos hrun]
    rfl
  · rw [if_neg hrun, if_neg hr]
    exact sends_pollLoop _ _ _

theorem sends_waitForWrite (reqId : Int) :
    ∀ (arrivals : List Net) (s : DSM) (net : Net), s.rank_ ≠ 0 →
      sends (waitForWrite reqId arrivals s net).events = [] := by
  intro arrivals
  induction arrivals with
  | nil =>
    intro s net _
    simp only [waitForWrite]
    split_ifs <;> rfl
  | cons batch later ih =>
    intro s net hr
    rw [waitForWrite_cons]
    by_cases hrun : s.running_ = false
    · rw [if_pos hrun]
      rfl
    · rw [if_neg hrun]
      have hp := sends_poll s (net.deliver batch) hr
      cases hres : (poll s (net.deliver batch)).result with
      | ok u =>
        simp only []
        split_ifs
        · exact hp
        · have hr2 : (poll s (net.deliver batch)).state.rank_ ≠ 0 := by
            rw [(Effect.poll s _).rank]
            exact hr
          simp only [sends_append, hp, ih _ _ hr2, List.append_nil]
      | threw e => exact hp
      | blocked => exact hp

theorem sends_waitForCas (reqId : Int) :
    ∀ (arrivals : List Net) (s : DSM) (net : Net), s.rank_ ≠ 0 →
      sends (waitForCas reqId arrivals s net).events = [] := by
  intro arrivals
  induction arrivals with
  | nil =>
    intro s net _
    simp only [waitForCas]
    split_ifs <;> rfl
  | cons batch later ih =>
    intro s net hr
    rw [waitForCas_cons]
    by_cases hrun : s.running_ = false
    · rw [if_pos hrun]
      rfl
    · rw [if_neg hrun]
      have hp := sends_poll s (net.deliver batch) hr
      cases hres : (poll s (net.deliver batch)).result with
      | ok u =>
        simp only []
        split_ifs
        · exact hp
        · have hr2 : (poll s (net.deliver batch)).state.rank_ ≠ 0 := by
            rw [(Effect.poll s _).rank]
            exact hr
          simp only [sends_append, hp, ih _ _ hr2, List.append_nil]
      | threw e => exact hp
      | blocked => exact hp

/-- The completion tables after one `applyOrderedOp` that does not throw, looked up at a
request id `k`. -/
theorem applyOrderedOp_tables (s : DSM) (op : OrderedOp) (k : Int)
    (hnt : NoThrow s.rank_ s.world_ s.varsPerProc_ op) :
    mapFind (applyOrderedOp s op).state.writeDone_ k =
      (if Completes MsgType.WRITE s.rank_ k op ∧
          s.rank_ ∈ subscribersFor s.world_ op.home op.idx then some true
       else mapFind s.writeDone_ k) ∧
    mapFind (applyOrderedOp s op).state.casDone_ k =
      (if Completes MsgType.CAS s.rank_ k op ∧
          s.rank_ ∈ subscribersFor s.world_ op.home op.idx then some true
       else mapFind s.casDone_ k) ∧
    mapFind (applyOrderedOp s op).state.casResult_ k =
      (if Completes MsgType.CAS s.rank_ k op ∧
          s.rank_ ∈ subscribersFor s.world_ op.home op.idx then
        some (decide (s.values_.getD (op.home * s.varsPerProc_ + op.idx).toNat 0 = op.v1))
       else mapFind s.casResult_ k) := by
  by_cases hmem : s.rank_ ∈ subscribersFor s.world_ op.home op.idx
  · have hs := (isSubscriber_iff_mem _ _ _ _).mpr hmem
    have hg := globalVarId_of_valid _ _ _ _ (hnt hmem)
    by_cases hw : op.type = MsgType.WRITE
    · have hnc : ¬Completes MsgType.CAS s.rank_ k op := fun h =>
        MsgType.write_ne_cas (hw.symm.trans h.1)
      rw [applyOrderedOp_write s op _ hs hg hw]
      simp only [if_neg (fun h : Completes MsgType.CAS s.rank_ k op ∧ _ => hnc h.1)]
      refine ⟨?_, trivial, trivial⟩
      by_cases hi : op.initiator = s.rank_
      · rw [if_pos hi]
        by_cases hk : op.reqId = k
        · rw [if_pos ⟨⟨hw, hi, hk⟩, hmem⟩, ← hk]
          exact mapFind_mapAssign_self _ _ _
        · rw [if_neg (fun h => hk h.1.2.2)]
          exact mapFind_mapAssign_other _ _ _ _ (Ne.symm hk)
      · rw [if_neg hi, if_neg (fun h => hi h.1.2.1)]
    · have hnw : ¬Completes MsgType.WRITE s.rank_ k op := fun h => hw h.1
      by_cases hc : op.type = MsgType.CAS
      · rw [applyOrderedOp_cas s op _ hs hg hc]
        simp only [if_neg (fun h : Completes MsgType.WRITE s.rank_ k op ∧ _ => hnw h.1)]
        refine ⟨trivial, ?_, ?_⟩
        · by_cases hi : op.initiator = s.rank_
          · rw [if_pos hi]
            by_cases hk : op.reqId = k
            · rw [if_pos ⟨⟨hc, hi, hk⟩, hmem⟩, ← hk]
              exact mapFind_mapAssign_self _ _ _
            · rw [if_neg (fun h => hk h.1.2.2)]
              exact mapFind_mapAssign_other _ _ _ _ (Ne.symm hk)
          · rw [if_neg hi, if_neg (fun h => hi h.1.2.1)]
        · by_cases hi : op.initiator = s.rank_
          · rw [if_pos hi]
            by_cases hk : op.reqId = k
            · rw [if_pos ⟨⟨hc, hi, hk⟩, hmem⟩, ← hk]
              exact mapFind_mapAssign_self _ _ _
            · rw [if_neg (fun h => hk h.1.2.2)]
              exact mapFind_mapAssign_other _ _ _ _ (Ne.symm hk)
          · rw [if_neg hi, if_neg (fun h => hi h.1.2.1)]
      · have hnc : ¬Completes MsgType.CAS s.rank_ k op := fun h => hc h.1
        rw [applyOrderedOp_other s op _ hs hg hw hc]
        simp only [if_neg (fun h : Completes MsgType.WRITE s.rank_ k op ∧ _ => hnw h.1),
          if_neg (fun h : Completes MsgType.CAS s.rank_ k op ∧ _ => hnc h.1)]
        exact ⟨rfl, rfl, rfl⟩
  · have hs := (isSubscriber_false_iff _ _ _ _).mpr hmem
    rw [applyOrderedOp_not_subscriber s op hs]
    simp only [if_neg (fun h : Completes MsgType.WRITE s.rank_ k op ∧ _ => hmem h.2),
      if_neg (fun h : Completes MsgType.CAS s.rank_ k op ∧ _ => hmem h.2)]
    exact ⟨rfl, rfl, rfl⟩

theorem completes_after_apply (ty : MsgType) (s : DSM) (op o : OrderedOp) (k : Int)
    (h : ¬Completes ty s.rank_ k o) :
    ¬Completes ty (applyOrderedOp s op).state.rank_ k o := by
  rw [(applyOrderedOp_frame s op).2.2.1]
  exact h

/-- Operations that are no answer to the write request `k` leave `writeDone_[k]` as it
is. -/
theorem applyAll_writeDone_keep (k : Int) (ops : List OrderedOp) :
    ∀ s : DSM, (∀ op ∈ ops, NoThrow s.rank_ s.world_ s.varsPerProc_ op) →
      (∀ op ∈ ops, ¬Completes MsgType.WRITE s.rank_ k op) →
      mapFind (applyAll s ops).state.writeDone_ k = mapFind s.writeDone_ k := by
  induction ops with
  | nil =>
    intro s _ _
    rfl
  | cons op rest ih =>
    intro s hnt hnc
    have hnt0 := hnt op (List.mem_cons_self _ _)
    have hok := applyOrderedOp_noThrow s op hnt0
    rw [(applyAll_cons_ok s op rest hok).1]
    rw [ih (applyOrderedOp s op).state
      (fun o ho => noThrow_after_apply s op o (hnt o (List.mem_cons_of_mem _ ho)))
      (fun o ho => completes_after_apply _ s op o k (hnc o (List.mem_cons_of_mem _ ho)))]
    rw [(applyOrderedOp_tables s op k hnt0).1]
    rw [if_neg (fun h => hnc op (List.mem_cons_self _ _) h.1)]

/-- Operations that are no answer to the CAS request `k` leave `casDone_[k]` and
`casResult_[k]` as they are. -/
theorem applyAll_cas_keep (k : Int) (ops : List OrderedOp) :
    ∀ s : DSM, (∀ op ∈ ops, NoThrow s.rank_ s.world_ s.varsPerProc_ op) →
      (∀ op ∈ ops, ¬Completes MsgType.CAS s.rank_ k op) →
      mapFind (applyAll s ops).state.casDone_ k = mapFind s.casDone_ k ∧
      mapFind (applyAll s ops).state.casResult_ k = mapFind s.casResult_ k := by
  induction ops with
  | nil =>
    intro s _ _
    exact ⟨rfl, rfl⟩
  | cons op rest ih =>
    intro s hnt hnc
    have hnt0 := hnt op (List.mem_cons_self _ _)
    have hok := applyOrderedOp_noThrow s op hnt0
    rw [(applyAll_cons_ok s op rest hok).1]
    obtain ⟨i1, i2⟩ := ih (applyOrderedOp s op).state
      (fun o ho => noThrow_after_apply s op o (hnt o (List.mem_cons_of_mem _ ho)))
      (fun o ho => completes_after_apply _ s op o k (hnc o (List.mem_cons_of_mem _ ho)))
    rw [i1, i2, (applyOrderedOp_tables s op k hnt0).2.1, (applyOrderedOp_tables s op k hnt0).2.2]
    rw [if_neg (fun h => hnc op (List.mem_cons_self _ _) h.1),
      if_neg (fun h => hnc op (List.mem_cons_self _ _) h.1)]
    exact ⟨rfl, rfl⟩

/-- A completion once recorded stays recorded. -/
theorem applyAll_done_mono (k : Int) (ops : List OrderedOp) :
    ∀ s : DSM, (∀ op ∈ ops, NoThrow s.rank_ s.world_ s.varsPerProc_ op) →
      (mapFind s.writeDone_ k = some true →
        mapFind (applyAll s ops).state.writeDone_ k = some true) ∧
      (mapFind s.casDone_ k = some true →
        mapFind (applyAll s ops).state.casDone_ k = some true) := by
  induction ops with
  | nil =>
    intro s _
    exact ⟨fun h => h, fun h => h⟩
  | cons op rest ih =>
    intro s hnt
    have hnt0 := hnt op (List.mem_cons_self _ _)
    have hok := applyOrderedOp_noThrow s op hnt0
    rw [(applyAll_cons_ok s op rest hok).1]
    obtain ⟨i1, i2⟩ := ih (applyOrderedOp s op).state
      (fun o ho => noThrow_after_apply s op o (hnt o (List.mem_cons_of_mem _ ho)))
    obtain ⟨t1, t2, _⟩ := applyOrderedOp_tables s op k hnt0
    constructor
    · intro h
      apply i1
      rw [t1]
      split_ifs
      · rfl
      · exact h
    · intro h
      apply i2
      rw [t2]
      split_ifs
      · rfl
      · exact h

theorem uptoShutdown_calm_append (l1 l2 : List (List Int))
    (h : ∀ buf ∈ l1, (decodeOp buf).type ≠ MsgType.SHUTDOWN) :
    uptoShutdown (l1 ++ l2) = l1 ++ uptoShutdown l2 ∧
      afterShutdown (l1 ++ l2) = afterShutdown l2 := by
  induction l1 with
  | nil => exact ⟨rfl, rfl⟩
  | cons buf rest ih =>
    have h1 := h buf (List.mem_cons_self _ _)
    have h2 := ih (fun b hb => h b (List.mem_cons_of_mem _ hb))
    simp [uptoShutdown, afterShutdown, h1, h2.1, h2.2]

/-- A `poll` of a running rank other than 0 whose queue holds no SHUTDOWN and nothing
that throws: the whole queue is applied in order and the object keeps running. -/
theorem poll_calm (s : DSM) (net : Net) (hr : s.rank_ ≠ 0) (hrun : s.running_ = true)
    (hcalm : ∀ buf ∈ net.opQ, Calm s.rank_ s.world_ s.varsPerProc_ buf) :
    (poll s net).result = .ok () ∧
    (poll s net).state = (applyAll s (net.opQ.map decodeOp)).state ∧
    (poll s net).net.opQ = [] ∧
    (poll s net).state.running_ = true ∧
    (poll s net).state.rank_ = s.rank_ ∧ (poll s net).state.world_ = s.world_ ∧
    (poll s net).state.varsPerProc_ = s.varsPerProc_ := by
  have hrun' : ¬s.running_ = false := by
    rw [hrun]
    exact Bool.noConfusion
  have hpoll : poll s net = pollLoop s net.reqQ net.opQ := by
    unfold poll
    rw [if_neg hrun', if_neg hr]
  obtain ⟨u1, u2⟩ := uptoShutdown_of_none net.opQ (fun b hb => (hcalm b hb).2)
  obtain ⟨p1, _, p3, p4⟩ := pollLoop_noThrow net.reqQ net.opQ s
    (by rw [u1]; exact fun b hb => (hcalm b hb).1)
  rw [u1] at p1
  rw [u2] at p3
  have hops : ∀ op ∈ net.opQ.map decodeOp, NoThrow s.rank_ s.world_ s.varsPerProc_ op := by
    intro op hop
    obtain ⟨buf, hbuf, rfl⟩ := List.mem_map.mp hop
    exact (hcalm buf hbuf).1
  obtain ⟨_, _, a3, a4, a5, _, _, a8⟩ := applyAll_noThrow (net.opQ.map decodeOp) s hops
  rw [hpoll, p1, p3, p4]
  refine ⟨rfl, rfl, rfl, ?_, a3, a4, a5⟩
  cases hb : (applyAll s (net.opQ.map decodeOp)).state.running_ with
  | true => rfl
  | false =>
    rcases a8.mp hb with h | ⟨op, hop, hty⟩
    · rw [hrun] at h
      exact Bool.noConfusion h
    · obtain ⟨buf, hbuf, rfl⟩ := List.mem_map.mp hop
      exact absurd hty (hcalm buf hbuf).2

/-! ## The blocking waits on a rank other than 0 -/

theorem mapIndex_of_find (m : List (Int × Bool)) (k : Int) (v : Bool)
    (h : mapFind m k = some v) : (mapIndex m k).1 = v := by
  simp [mapIndex, h]

/-- A `poll` of a running rank other than 0 whose queue throws nothing up to its first
SHUTDOWN. -/
theorem poll_noThrow (s : DSM) (net : Net) (hr : s.rank_ ≠ 0) (hrun : s.running_ = true)
    (hnt : ∀ buf ∈ uptoShutdown net.opQ,
      NoThrow s.rank_ s.world_ s.varsPerProc_ (decodeOp buf)) :
    (poll s net).result = .ok () ∧
    (poll s net).state = (applyAll s ((uptoShutdown net.opQ).map decodeOp)).state ∧
    (poll s net).net = ⟨net.reqQ, afterShutdown net.opQ⟩ := by
  have hrun' : ¬s.running_ = false := by
    rw [hrun]
    exact Bool.noConfusion
  have hpoll : poll s net = pollLoop s net.reqQ net.opQ := by
    unfold poll
    rw [if_neg hrun', if_neg hr]
  obtain ⟨p1, _, p3, p4⟩ := pollLoop_noThrow net.reqQ net.opQ s hnt
  rw [hpoll]
  exact ⟨p4, p1, p3⟩

theorem calm_noThrow_map (rank world vpp : Int) (l : List (List Int))
    (h : ∀ buf ∈ l, Calm rank world vpp buf) :
    ∀ op ∈ l.map decodeOp, NoThrow rank world vpp op := by
  intro op hop
  obtain ⟨buf, hbuf, rfl⟩ := List.mem_map.mp hop
  exact (h buf hbuf).1

theorem not_completes_map (ty : MsgType) (rank k : Int) (l : List (List Int))
    (h : ∀ buf ∈ l, ¬Completes ty rank k (decodeOp buf)) :
    ∀ op ∈ l.map decodeOp, ¬Completes ty rank k op := by
  intro op hop
  obtain ⟨buf, hbuf, rfl⟩ := List.mem_map.mp hop
  exact h buf hbuf

/-- The state a running rank other than 0 is in after a `poll` that finds calm
operations, then the operation `cbuf`, then operations that throw nothing up to their
first SHUTDOWN. -/
theorem poll_through (s : DSM) (net : Net) (calm : List (List Int)) (cbuf : List Int)
    (post : List (List Int)) (hr : s.rank_ ≠ 0) (hrun : s.running_ = true)
    (hq : net.opQ = calm ++ cbuf :: post)
    (hcalm : ∀ buf ∈ calm, Calm s.rank_ s.world_ s.varsPerProc_ buf)
    (hc : NoThrow s.rank_ s.world_ s.varsPerProc_ (decodeOp cbuf))
    (hcty : (decodeOp cbuf).type ≠ MsgType.SHUTDOWN)
    (hpost : ∀ buf ∈ uptoShutdown post,
      NoThrow s.rank_ s.world_ s.varsPerProc_ (decodeOp buf)) :
    (poll s net).result = .ok () ∧
    (poll s net).state =
      (applyAll (applyOrderedOp (applyAll s (calm.map decodeOp)).state (decodeOp cbuf)).state
        ((uptoShutdown post).map decodeOp)).state ∧
    (applyAll s (calm.map decodeOp)).state.rank_ = s.rank_ ∧
    (applyAll s (calm.map decodeOp)).state.world_ = s.world_ ∧
    (applyAll s (calm.map decodeOp)).state.varsPerProc_ = s.varsPerProc_ := by
  have hup : uptoShutdown net.opQ = calm ++ cbuf :: uptoShutdown post := by
    rw [hq, (uptoShutdown_calm_append calm _ (fun b hb => (hcalm b hb).2)).1]
    simp [uptoShutdown, hcty]
  have hnt : ∀ buf ∈ uptoShutdown net.opQ,
      NoThrow s.rank_ s.world_ s.varsPerProc_ (decodeOp buf) := by
    rw [hup]
    intro buf hbuf
    rcases List.mem_append.mp hbuf with h | h
    · exact (hcalm buf h).1
    · rcases List.mem_cons.mp h with h | h
      · rw [h]
        exact hc
      · exact hpost buf h
  obtain ⟨p1, p2, _⟩ := poll_noThrow s net hr hrun hnt
  obtain ⟨a1, _, a3, a4, a5, _, _, _⟩ := applyAll_noThrow (calm.map decodeOp) s
    (calm_noThrow_map _ _ _ _ hcalm)
  have hc1 : NoThrow (applyAll s (calm.map decodeOp)).state.rank_
      (applyAll s (calm.map decodeOp)).state.world_
      (applyAll s (calm.map decodeOp)).state.varsPerProc_ (decodeOp cbuf) := by
    rw [a3, a4, a5]
    exact hc
  have hok := applyOrderedOp_noThrow _ _ hc1
  refine ⟨p1, ?_, a3, a4, a5⟩
  rw [p2, hup, List.map_append, List.map_cons, (applyAll_append _ _ s a1).1,
    (applyAll_cons_ok _ _ _ hok).1]

/-- Waiting for a write: the answer to request `k` arrives in `batch` before any
SHUTDOWN and nothing delivered until then throws. -/
theorem waitForWrite_success (k rank world vpp : Int) (batch : Net) (after : List Net)
    (pre : List (List Int)) (cbuf : List Int) (post : List (List Int))
    (hb : batch.opQ = pre ++ cbuf :: post) (hr : rank ≠ 0)
    (hc : Completes MsgType.WRITE rank k (decodeOp cbuf))
    (hcs : rank ∈ subscribersFor world (decodeOp cbuf).home (decodeOp cbuf).idx)
    (hcv : ValidAddr world vpp (decodeOp cbuf).home (decodeOp cbuf).idx)
    (hpost : ∀ buf ∈ uptoShutdown post, NoThrow rank world vpp (decodeOp buf)) :
    ∀ (before : List Net) (s : DSM) (net : Net), s.rank_ = rank → s.world_ = world →
      s.varsPerProc_ = vpp → s.running_ = true →
      (∀ buf ∈ net.opQ ++ before.flatMap (fun b => b.opQ) ++ pre, Calm rank world vpp buf) →
      (waitForWrite k (before ++ batch :: after) s net).result = .ok () := by
  intro before
  induction before with
  | nil =>
    intro s net e1 e2 e3 hrun hcalm
    subst e1 e2 e3
    have hrun' : ¬s.running_ = false := by
      rw [hrun]
      exact Bool.noConfusion
    have hq : (net.deliver batch).opQ = (net.opQ ++ pre) ++ cbuf :: post := by
      simp [Net.deliver, hb]
    have hcalm' : ∀ buf ∈ net.opQ ++ pre, Calm s.rank_ s.world_ s.varsPerProc_ buf := by
      intro buf hbuf
      exact hcalm buf (by simpa using hbuf)
    obtain ⟨p1, p2, q1, q2, q3⟩ := poll_through s (net.deliver batch) (net.opQ ++ pre) cbuf post
      hr hrun hq hcalm' (fun _ => hcv)
      (by rw [hc.1]; exact MsgType.write_ne_shutdown) hpost
    have hdone : mapFind (poll s (net.deliver batch)).state.writeDone_ k = some true := by
      rw [p2]
      have hnt1 : NoThrow (applyAll s ((net.opQ ++ pre).map decodeOp)).state.rank_
          (applyAll s ((net.opQ ++ pre).map decodeOp)).state.world_
          (applyAll s ((net.opQ ++ pre).map decodeOp)).state.varsPerProc_ (decodeOp cbuf) := by
        rw [q1, q2, q3]
        exact fun _ => hcv
      apply (applyAll_done_mono k _ _ ?_).1
      · rw [(applyOrderedOp_tables _ _ k hnt1).1, q1, q2, if_pos ⟨hc, hcs⟩]
      · intro op hop
        obtain ⟨buf, hbuf, rfl⟩ := List.mem_map.mp hop
        apply noThrow_after_apply
        rw [q1, q2, q3]
        exact hpost buf hbuf
    rw [List.nil_append, waitForWrite_cons, if_neg hrun']
    simp only [p1, hdone, if_true]
  | cons b bs ih =>
    intro s net e1 e2 e3 hrun hcalm
    subst e1 e2 e3
    have hrun' : ¬s.running_ = false := by
      rw [hrun]
      exact Bool.noConfusion
    have hcalm1 : ∀ buf ∈ (net.deliver b).opQ, Calm s.rank_ s.world_ s.varsPerProc_ buf := by
      intro buf hbuf
      apply hcalm buf
      simp only [Net.deliver, List.mem_append] at hbuf
      simp only [List.flatMap_cons, List.mem_append]
      rcases hbuf with h | h
      · exact Or.inl (Or.inl h)
      · exact Or.inl (Or.inr (Or.inl h))
    obtain ⟨p1, _, p3, p4, p5, p6, p7⟩ := poll_calm s (net.deliver b) hr hrun hcalm1
    rw [List.cons_append, waitForWrite_cons, if_neg hrun']
    simp only [p1]
    split_ifs
    · exact p1
    · apply ih _ _ p5 p6 p7 p4
      intro buf hbuf
      apply hcalm buf
      rw [p3] at hbuf
      simp only [List.nil_append, List.mem_append] at hbuf
      simp only [List.flatMap_cons, List.mem_append]
      rcases hbuf with h | h
      · exact Or.inl (Or.inr (Or.inr h))
      · exact Or.inr h

/-- Waiting for a CAS: the one answer to request `k` arrives in `batch` before any
SHUTDOWN and nothing delivered until then throws; the call returns the flag computed
when that answer is applied. -/
theorem waitForCas_success (k rank world vpp : Int) (batch : Net) (after : List Net)
    (pre : List (List Int)) (cbuf : List Int) (post : List (List Int))
    (hb : batch.opQ = pre ++ cbuf :: post) (hr : rank ≠ 0)
    (hc : Completes MsgType.CAS rank k (decodeOp cbuf))
    (hcs : rank ∈ subscribersFor world (decodeOp cbuf).home (decodeOp cbuf).idx)
    (hcv : ValidAddr world vpp (decodeOp cbuf).home (decodeOp cbuf).idx)
    (hpost : ∀ buf ∈ uptoShutdown post, NoThrow rank world vpp (decodeOp buf))
    (hpostu : ∀ buf ∈ uptoShutdown post, ¬Completes MsgType.CAS rank k (decodeOp buf)) :
    ∀ (before : List Net) (s : DSM) (net : Net), s.rank_ = rank → s.world_ = world →
      s.varsPerProc_ = vpp → s.running_ = true →
      (∀ buf ∈ net.opQ ++ before.flatMap (fun b => b.opQ) ++ pre, Calm rank world vpp buf) →
      (∀ buf ∈ net.opQ ++ before.flatMap (fun b => b.opQ) ++ pre,
        ¬Completes MsgType.CAS rank k (decodeOp buf)) →
      mapFind s.casDone_ k ≠ some true →
      (waitForCas k (before ++ batch :: after) s net).result =
        .ok (decide ((applyAll s
          ((net.opQ ++ before.flatMap (fun b => b.opQ) ++ pre).map decodeOp)).state.values_.getD
            ((decodeOp cbuf).home * vpp + (decodeOp cbuf).idx).toNat 0 =
          (decodeOp cbuf).v1)) := by
  intro before
  induction before with
  | nil =>
    intro s net e1 e2 e3 hrun hcalm huniq _
    subst e1 e2 e3
    have hrun' : ¬s.running_ = false := by
      rw [hrun]
      exact Bool.noConfusion
    have hq : (net.deliver batch).opQ = (net.opQ ++ pre) ++ cbuf :: post := by
      simp [Net.deliver, hb]
    have hlist : net.opQ ++ ([] : List Net).flatMap (fun b => b.opQ) ++ pre = net.opQ ++ pre := by
      simp
    rw [hlist] at hcalm huniq ⊢
    obtain ⟨p1, p2, q1, q2, q3⟩ := poll_through s (net.deliver batch) (net.opQ ++ pre) cbuf post
      hr hrun hq hcalm (fun _ => hcv)
      (by rw [hc.1]; exact MsgType.cas_ne_shutdown) hpost
    have hnt1 : NoThrow (applyAll s ((net.opQ ++ pre).map decodeOp)).state.rank_
        (applyAll s ((net.opQ ++ pre).map decodeOp)).state.world_
        (applyAll s ((net.opQ ++ pre).map decodeOp)).state.varsPerProc_ (decodeOp cbuf) := by
      rw [q1, q2, q3]
      exact fun _ => hcv
    have hntpost : ∀ op ∈ (uptoShutdown post).map decodeOp,
        NoThrow (applyOrderedOp (applyAll s ((net.opQ ++ pre).map decodeOp)).state
            (decodeOp cbuf)).state.rank_
          (applyOrderedOp (applyAll s ((net.opQ ++ pre).map decodeOp)).state
            (decodeOp cbuf)).state.world_
          (applyOrderedOp (applyAll s ((net.opQ ++ pre).map decodeOp)).state
            (decodeOp cbuf)).state.varsPerProc_ op := by
      intro op hop
      obtain ⟨buf, hbuf, rfl⟩ := List.mem_map.mp hop
      apply noThrow_after_apply
      rw [q1, q2, q3]
      exact hpost buf hbuf
    have hdone : mapFind (poll s (net.deliver batch)).state.casDone_ k = some true := by
      rw [p2]
      apply (applyAll_done_mono k _ _ hntpost).2
      rw [(applyOrderedOp_tables _ _ k hnt1).2.1, q1, q2, if_pos ⟨hc, hcs⟩]
    have hflag : mapFind (poll s (net.deliver batch)).state.casResult_ k =
        some (decide ((applyAll s ((net.opQ ++ pre).map decodeOp)).state.values_.getD
          ((decodeOp cbuf).home * s.varsPerProc_ + (decodeOp cbuf).idx).toNat 0 =
          (decodeOp cbuf).v1)) := by
      rw [p2]
      rw [(applyAll_cas_keep k _ _ hntpost ?_).2]
      · rw [(applyOrderedOp_tables _ _ k hnt1).2.2, q1, q2, q3, if_pos ⟨hc, hcs⟩]
      · intro op hop
        obtain ⟨buf, hbuf, rfl⟩ := List.mem_map.mp hop
        apply completes_after_apply
        rw [q1]
        exact hpostu buf hbuf
    rw [List.nil_append, waitForCas_cons, if_neg hrun']
    simp only [p1, hdone, if_true]
    exact congrArg Result.ok (mapIndex_of_find _ _ _ hflag)
  | cons b bs ih =>
    intro s net e1 e2 e3 hrun hcalm huniq hstale
    subst e1 e2 e3
    have hrun' : ¬s.running_ = false := by
      rw [hrun]
      exact Bool.noConfusion
    have hsub1 : ∀ buf ∈ (net.deliver b).opQ,
        buf ∈ net.opQ ++ (b :: bs).flatMap (fun b => b.opQ) ++ pre := by
      intro buf hbuf
      simp only [Net.deliver, List.mem_append] at hbuf
      simp only [List.flatMap_cons, List.mem_append]
      rcases hbuf with h | h
      · exact Or.inl (Or.inl h)
      · exact Or.inl (Or.inr (Or.inl h))
    have hcalm1 : ∀ buf ∈ (net.deliver b).opQ, Calm s.rank_ s.world_ s.varsPerProc_ buf :=
      fun buf hbuf => hcalm buf (hsub1 buf hbuf)
    obtain ⟨p1, p2, p3, p4, p5, p6, p7⟩ := poll_calm s (net.deliver b) hr hrun hcalm1
    have hnt1 := calm_noThrow_map _ _ _ _ hcalm1
    have hkeep := applyAll_cas_keep k _ s hnt1
      (not_completes_map _ _ _ _ (fun buf hbuf => huniq buf (hsub1 buf hbuf)))
    have hnd : ¬mapFind (poll s (net.deliver b)).state.casDone_ k = some true := by
      rw [p2, hkeep.1]
      exact hstale
    have hsub2 : ∀ buf ∈ (poll s (net.deliver b)).net.opQ ++ bs.flatMap (fun b => b.opQ) ++ pre,
        buf ∈ net.opQ ++ (b :: bs).flatMap (fun b => b.opQ) ++ pre := by
      intro buf hbuf
      rw [p3] at hbuf
      simp only [List.nil_append, List.mem_append] at hbuf
      simp only [List.flatMap_cons, List.mem_append]
      rcases hbuf with h | h
      · exact Or.inl (Or.inr (Or.inr h))
      · exact Or.inr h
    rw [List.cons_append, waitForCas_cons, if_neg hrun']
    simp only [p1, if_neg hnd]
    rw [ih _ _ p5 p6 p7 p4 (fun buf hbuf => hcalm buf (hsub2 buf hbuf))
      (fun buf hbuf => huniq buf (hsub2 buf hbuf)) hnd]
    have hsplit : (net.opQ ++ (b :: bs).flatMap (fun b => b.opQ) ++ pre).map decodeOp =
        (net.deliver b).opQ.map decodeOp ++
          (bs.flatMap (fun b => b.opQ) ++ pre).map decodeOp := by
      simp [Net.deliver, List.flatMap_cons, List.append_assoc]
    have hok := (applyAll_noThrow _ s hnt1).1
    rw [hsplit, (applyAll_append _ _ s hok).1, p3, List.nil_append, p2]

/-- The state after a `poll` that finds calm operations and then a SHUTDOWN: the
object is stopped and everything up to the SHUTDOWN was applied. -/
theorem poll_to_shutdown (s : DSM) (net : Net) (calm : List (List Int)) (sd : List Int)
    (post : List (List Int)) (hr : s.rank_ ≠ 0) (hrun : s.running_ = true)
    (hq : net.opQ = calm ++ sd :: post)
    (hcalm : ∀ buf ∈ calm, Calm s.rank_ s.world_ s.varsPerProc_ buf)
    (hsd : (decodeOp sd).type = MsgType.SHUTDOWN)
    (hsdnt : NoThrow s.rank_ s.world_ s.varsPerProc_ (decodeOp sd)) :
    (poll s net).result = .ok () ∧
    (poll s net).state = (applyAll s ((calm ++ [sd]).map decodeOp)).state ∧
    (poll s net).state.running_ = false ∧
    (∀ op ∈ (calm ++ [sd]).map decodeOp, NoThrow s.rank_ s.world_ s.varsPerProc_ op) := by
  have hup : uptoShutdown net.opQ = calm ++ [sd] := by
    rw [hq]
    exact (uptoShutdown_split calm sd post (fun b hb => (hcalm b hb).2) hsd).1
  have hnt : ∀ buf ∈ calm ++ [sd], NoThrow s.rank_ s.world_ s.varsPerProc_ (decodeOp buf) := by
    intro buf hbuf
    rcases List.mem_append.mp hbuf with h | h
    · exact (hcalm buf h).1
    · rw [List.mem_singleton.mp h]
      exact hsdnt
  have hnt' : ∀ op ∈ (calm ++ [sd]).map decodeOp,
      NoThrow s.rank_ s.world_ s.varsPerProc_ op := by
    intro op hop
    obtain ⟨buf, hbuf, rfl⟩ := List.mem_map.mp hop
    exact hnt buf hbuf
  obtain ⟨p1, p2, _⟩ := poll_noThrow s net hr hrun (by rw [hup]; exact hnt)
  rw [hup] at p2
  refine ⟨p1, p2, ?_, hnt'⟩
  rw [p2]
  apply (applyAll_noThrow _ s hnt').2.2.2.2.2.2.2.mpr
  right
  exact ⟨decodeOp sd, List.mem_map.mpr ⟨sd, by simp, rfl⟩, hsd⟩

/-- Waiting for a write: a SHUTDOWN arrives in `batch` and no answer to request `k` was
delivered or recorded before it. -/
theorem waitForWrite_abort (k rank world vpp : Int) (batch : Net) (after : List Net)
    (pre : List (List Int)) (sd : List Int) (post : List (List Int))
    (hb : batch.opQ = pre ++ sd :: post) (hr : rank ≠ 0)
    (hsd : (decodeOp sd).type = MsgType.SHUTDOWN)
    (hsdnt : NoThrow rank world vpp (decodeOp sd)) :
    ∀ (before : List Net) (s : DSM) (net : Net), s.rank_ = rank → s.world_ = world →
      s.varsPerProc_ = vpp → s.running_ = true →
      (∀ buf ∈ net.opQ ++ before.flatMap (fun b => b.opQ) ++ pre, Calm rank world vpp buf) →
      (∀ buf ∈ net.opQ ++ before.flatMap (fun b => b.opQ) ++ pre,
        ¬Completes MsgType.WRITE rank k (decodeOp buf)) →
      mapFind s.writeDone_ k ≠ some true →
      (waitForWrite k (before ++ batch :: after) s net).result =
        .threw .stoppedWaitingWrite := by
  intro before
  induction before with
  | nil =>
    intro s net e1 e2 e3 hrun hcalm hnone hstale
    subst e1 e2 e3
    have hrun' : ¬s.running_ = false := by
      rw [hrun]
      exact Bool.noConfusion
    have hq : (net.deliver batch).opQ = (net.opQ ++ pre) ++ sd :: post := by
      simp [Net.deliver, hb]
    have hlist : net.opQ ++ ([] : List Net).flatMap (fun b => b.opQ) ++ pre = net.opQ ++ pre := by
      simp
    rw [hlist] at hcalm hnone
    obtain ⟨p1, p2, p3, p4⟩ := poll_to_shutdown s (net.deliver batch) (net.opQ ++ pre) sd post
      hr hrun hq hcalm hsd hsdnt
    have hnd : ¬mapFind (poll s (net.deliver batch)).state.writeDone_ k = some true := by
      rw [p2, applyAll_writeDone_keep k _ s p4]
      · exact hstale
      · intro op hop
        obtain ⟨buf, hbuf, rfl⟩ := List.mem_map.mp hop
        rcases List.mem_append.mp hbuf with h | h
        · exact hnone buf h
        · rw [List.mem_singleton.mp h]
          intro hcmp
          exact MsgType.write_ne_shutdown (hcmp.1.symm.trans hsd)
    rw [List.nil_append, waitForWrite_cons, if_neg hrun']
    simp only [p1, if_neg hnd]
    rw [waitForWrite_stopped _ _ _ _ p3]
  | cons b bs ih =>
    intro s net e1 e2 e3 hrun hcalm hnone hstale
    subst e1 e2 e3
    have hrun' : ¬s.running_ = false := by
      rw [hrun]
      exact Bool.noConfusion
    have hsub1 : ∀ buf ∈ (net.deliver b).opQ,
        buf ∈ net.opQ ++ (b :: bs).flatMap (fun b => b.opQ) ++ pre := by
      intro buf hbuf
      simp only [Net.deliver, List.mem_append] at hbuf
      simp only [List.flatMap_cons, List.mem_append]
      rcases hbuf with h | h
      · exact Or.inl (Or.inl h)
      · exact Or.inl (Or.inr (Or.inl h))
    have hcalm1 : ∀ buf ∈ (net.deliver b).opQ, Calm s.rank_ s.world_ s.varsPerProc_ buf :=
      fun buf hbuf => hcalm buf (hsub1 buf hbuf)
    obtain ⟨p1, p2, p3, p4, p5, p6, p7⟩ := poll_calm s (net.deliver b) hr hrun hcalm1
    have hnt1 := calm_noThrow_map _ _ _ _ hcalm1
    have hkeep := applyAll_writeDone_keep k _ s hnt1
      (not_completes_map _ _ _ _ (fun buf hbuf => hnone buf (hsub1 buf hbuf)))
    have hnd : ¬mapFind (poll s (net.deliver b)).state.writeDone_ k = some true := by
      rw [p2, hkeep]
      exact hstale
    have hsub2 : ∀ buf ∈ (poll s (net.deliver b)).net.opQ ++ bs.flatMap (fun b => b.opQ) ++ pre,
        buf ∈ net.opQ ++ (b :: bs).flatMap (fun b => b.opQ) ++ pre := by
      intro buf hbuf
      rw [p3] at hbuf
      simp only [List.nil_append, List.mem_append] at hbuf
      simp only [List.flatMap_cons, List.mem_append]
      rcases hbuf with h | h
      · exact Or.inl (Or.inr (Or.inr h))
      · exact Or.inr h
    rw [List.cons_append, waitForWrite_cons, if_neg hrun']
    simp only [p1, if_neg hnd]
    exact ih _ _ p5 p6 p7 p4 (fun buf hbuf => hcalm buf (hsub2 buf hbuf))
      (fun buf hbuf => hnone buf (hsub2 buf hbuf)) hnd

/-- Waiting for a CAS: a SHUTDOWN arrives in `batch` and no answer to request `k` was
delivered or recorded before it. -/
theorem waitForCas_abort (k rank world vpp : Int) (batch : Net) (after : List Net)
    (pre : List (List Int)) (sd : List Int) (post : List (List Int))
    (hb : batch.opQ = pre ++ sd :: post) (hr : rank ≠ 0)
    (hsd : (decodeOp sd).type = MsgType.SHUTDOWN)
    (hsdnt : NoThrow rank world vpp (decodeOp sd)) :
    ∀ (before : List Net) (s : DSM) (net : Net), s.rank_ = rank → s.world_ = world →
      s.varsPerProc_ = vpp → s.running_ = true →
      (∀ buf ∈ net.opQ ++ before.flatMap (fun b => b.opQ) ++ pre, Calm rank world vpp buf) →
      (∀ buf ∈ net.opQ ++ before.flatMap (fun b => b.opQ) ++ pre,
        ¬Completes MsgType.CAS rank k (decodeOp buf)) →
      mapFind s.casDone_ k ≠ some true →
      (waitForCas k (before ++ batch :: after) s net).result =
        .threw .stoppedWaitingCas := by
  intro before
  induction before with
  | nil =>
    intro s net e1 e2 e3 hrun hcalm hnone hstale
    subst e1 e2 e3
    have hrun' : ¬s.running_ = false := by
      rw [hrun]
      exact Bool.noConfusion
    have hq : (net.deliver batch).opQ = (net.opQ ++ pre) ++ sd :: post := by
      simp [Net.deliver, hb]
    have hlist : net.opQ ++ ([] : List Net).flatMap (fun b => b.opQ) ++ pre = net.opQ ++ pre := by
      simp
    rw [hlist] at hcalm hnone
    obtain ⟨p1, p2, p3, p4⟩ := poll_to_shutdown s (net.deliver batch) (net.opQ ++ pre) sd post
      hr hrun hq hcalm hsd hsdnt
    have hnd : ¬mapFind (poll s (net.deliver batch)).state.casDone_ k = some true := by
      rw [p2, (applyAll_cas_keep k _ s p4 ?_).1]
      · exact hstale
      · intro op hop
        obtain ⟨buf, hbuf, rfl⟩ := List.mem_map.mp hop
        rcases List.mem_append.mp hbuf with h | h
        · exact hnone buf h
        · rw [List.mem_singleton.mp h]
          intro hcmp
          exact MsgType.cas_ne_shutdown (hcmp.1.symm.trans hsd)
    rw [List.nil_append, waitForCas_cons, if_neg hrun']
    simp only [p1, if_neg hnd]
    rw [waitForCas_stopped _ _ _ _ p3]
  | cons b bs ih =>
    intro s net e1 e2 e3 hrun hcalm hnone hstale
    subst e1 e2 e3
    have hrun' : ¬s.running_ = false := by
      rw [hrun]
      exact Bool.noConfusion
    have hsub1 : ∀ buf ∈ (net.deliver b).opQ,
        buf ∈ net.opQ ++ (b :: bs).flatMap (fun b => b.opQ) ++ pre := by
      intro buf hbuf
      simp only [Net.deliver, List.mem_append] at hbuf
      simp only [List.flatMap_cons, List.mem_append]
      rcases hbuf with h | h
      · exact Or.inl (Or.inl h)
      · exact Or.inl (Or.inr (Or.inl h))
    have hcalm1 : ∀ buf ∈ (net.deliver b).opQ, Calm s.rank_ s.world_ s.varsPerProc_ buf :=
      fun buf hbuf => hcalm buf (hsub1 buf hbuf)
    obtain ⟨p1, p2, p3, p4, p5, p6, p7⟩ := poll_calm s (net.deliver b) hr hrun hcalm1
    have hnt1 := calm_noThrow_map _ _ _ _ hcalm1
    have hkeep := applyAll_cas_keep k _ s hnt1
      (not_completes_map _ _ _ _ (fun buf hbuf => hnone buf (hsub1 buf hbuf)))
    have hnd : ¬mapFind (poll s (net.deliver b)).state.casDone_ k = some true := by
      rw [p2, hkeep.1]
      exact hstale
    have hsub2 : ∀ buf ∈ (poll s (net.deliver b)).net.opQ ++ bs.flatMap (fun b => b.opQ) ++ pre,
        buf ∈ net.opQ ++ (b :: bs).flatMap (fun b => b.opQ) ++ pre := by
      intro buf hbuf
      rw [p3] at hbuf
      simp only [List.nil_append, List.mem_append] at hbuf
      simp only [List.flatMap_cons, List.mem_append]
      rcases hbuf with h | h
      · exact Or.inl (Or.inr (Or.inr h))
      · exact Or.inr h
    rw [List.cons_append, waitForCas_cons, if_neg hrun']
    simp only [p1, if_neg hnd]
    exact ih _ _ p5 p6 p7 p4 (fun buf hbuf => hcalm buf (hsub2 buf hbuf))
      (fun buf hbuf => hnone buf (hsub2 buf hbuf)) hnd

/-! ## C11: outcome of the blocking wait on a rank other than 0 -/

/-- C11 as stated fails: rank 1 of the `main.cpp` configuration calls `write(1, 0, 10)`
(request id 1).  One batch arrives that holds a WRITE of rank 2 to `(1, 5)`, whose
index is out of range, followed by the answer to the call; no SHUTDOWN is delivered.
The `poll` inside the wait throws "invalid localIndex" on the first operation, so the
call neither returns normally nor fails with the aborted error. -/
theorem wait_throws_on_invalid_operation :
    ((mainState 1).rank_ ≠ 0 ∧ (mainState 1).running_ = true ∧
      (mainState 1).rank_ ∈ subscribersFor (mainState 1).world_ 1 0 ∧
      ValidAddr (mainState 1).world_ (mainState 1).varsPerProc_ 1 0) ∧
    decodeOp [2, 1, 1, 0, 10, 0, 1, 1] =
      ⟨2, MsgType.WRITE, 1, 0, 10, 0, (mainState 1).rank_, (mainState 1).nextReqId_⟩ ∧
    (∀ buf ∈ [[1, 1, 1, 5, 7, 0, 2, 1], [2, 1, 1, 0, 10, 0, 1, 1]],
      (decodeOp buf).type ≠ MsgType.SHUTDOWN) ∧
    (write (mainState 1) ⟨[], []⟩
      [⟨[], [[1, 1, 1, 5, 7, 0, 2, 1], [2, 1, 1, 0, 10, 0, 1, 1]]⟩] 1 0 10).result =
      .threw .invalidLocalIndex ∧
    (write (mainState 1) ⟨[], []⟩
      [⟨[], [[1, 1, 1, 5, 7, 0, 2, 1], [2, 1, 1, 0, 10, 0, 1, 1]]⟩] 1 0 10).events =
      [Event.sendReq [1, 1, 0, 10, 0, 1], Event.applied ⟨1, MsgType.WRITE, 1, 5, 7, 0, 2, 1⟩] := by
  decide

/-- C11, amended. A running rank `r ≠ 0` calls `write` or `compareExchange` on a valid
address it subscribes to; the operations pending at the call and the batches that
arrive before each `poll` of the wait are given.

1. Whatever arrives, the call sends exactly one message: its request, to rank 0.
2. If the answer to the call (the operation carrying the request's fields, initiator
   `r` and the call's request id) arrives in some batch, no SHUTDOWN is delivered before
   it, and no operation delivered up to the end of that batch (or up to a SHUTDOWN in
   it) makes `applyOrderedOp` throw, then `write` returns normally; `compareExchange`
   returns the flag computed when the answer is applied to the replica as the
   operations before it left it, provided no completion is recorded yet for the request
   id and the answer is the only operation that carries it.
3. If a SHUTDOWN arrives in some batch, nothing delivered before it throws or is an
   answer to the call, and no completion is recorded yet for the request id, the call
   fails with the stopped-while-waiting error. -/
theorem blocking_wait_outcome (s : DSM) (net : Net) (home idx v e d : Int)
    (hr : s.rank_ ≠ 0) (hrun : s.running_ = true)
    (hsub : s.rank_ ∈ subscribersFor s.world_ home idx)
    (hv : ValidAddr s.world_ s.varsPerProc_ home idx) :
    (∀ arrivals,
      sends (write s net arrivals home idx v).events =
        [Event.sendReq [1, home, idx, v, 0, s.nextReqId_]] ∧
      sends (compareExchange s net arrivals home idx e d).events =
        [Event.sendReq [2, home, idx, e, d, s.nextReqId_]]) ∧
    (∀ (before : List Net) (batch : Net) (after : List Net) (pre : List (List Int))
        (cbuf : List Int) (post : List (List Int)) (q : Int),
      batch.opQ = pre ++ cbuf :: post →
      (∀ buf ∈ net.opQ ++ before.flatMap (fun b => b.opQ) ++ pre,
        Calm s.rank_ s.world_ s.varsPerProc_ buf) →
      (∀ buf ∈ uptoShutdown post, NoThrow s.rank_ s.world_ s.varsPerProc_ (decodeOp buf)) →
      (decodeOp cbuf = ⟨q, MsgType.WRITE, home, idx, v, 0, s.rank_, s.nextReqId_⟩ →
        (write s net (before ++ batch :: after) home idx v).result = .ok ()) ∧
      (decodeOp cbuf = ⟨q, MsgType.CAS, home, idx, e, d, s.rank_, s.nextReqId_⟩ →
        mapFind s.casDone_ s.nextReqId_ ≠ some true →
        (∀ buf ∈ net.opQ ++ before.flatMap (fun b => b.opQ) ++ pre ++ uptoShutdown post,
          ¬Completes MsgType.CAS s.rank_ s.nextReqId_ (decodeOp buf)) →
        (compareExchange s net (before ++ batch :: after) home idx e d).result =
          .ok (decide ((applyAll (bumpReqId s)
            ((net.opQ ++ before.flatMap (fun b => b.opQ) ++ pre).map
              decodeOp)).state.values_.getD (home * s.varsPerProc_ + idx).toNat 0 = e)))) ∧
    (∀ (before : List Net) (batch : Net) (after : List Net) (pre : List (List Int))
        (sd : List Int) (post : List (List Int)),
      batch.opQ = pre ++ sd :: post →
      (∀ buf ∈ net.opQ ++ before.flatMap (fun b => b.opQ) ++ pre,
        Calm s.rank_ s.world_ s.varsPerProc_ buf) →
      (decodeOp sd).type = MsgType.SHUTDOWN →
      NoThrow s.rank_ s.world_ s.varsPerProc_ (decodeOp sd) →
      (mapFind s.writeDone_ s.nextReqId_ ≠ some true →
        (∀ buf ∈ net.opQ ++ before.flatMap (fun b => b.opQ) ++ pre,
          ¬Completes MsgType.WRITE s.rank_ s.nextReqId_ (decodeOp buf)) →
        (write s net (before ++ batch :: after) home idx v).result =
          .threw .stoppedWaitingWrite) ∧
      (mapFind s.casDone_ s.nextReqId_ ≠ some true →
        (∀ buf ∈ net.opQ ++ before.flatMap (fun b => b.opQ) ++ pre,
          ¬Completes MsgType.CAS s.rank_ s.nextReqId_ (decodeOp buf)) →
        (compareExchange s net (before ++ batch :: after) home idx e d).result =
          .threw .stoppedWaitingCas)) := by
  have hns : ¬isSubscriber s.world_ s.rank_ home idx = false := by
    rw [(isSubscriber_iff_mem _ _ _ _).mpr hsub]
    exact Bool.noConfusion
  have hwres : ∀ arrivals, (write s net arrivals home idx v).result =
      (waitForWrite s.nextReqId_ arrivals (bumpReqId s) net).result := by
    intro arrivals
    rw [write_eq, if_neg hns, if_neg hr]
  have hcres : ∀ arrivals, (compareExchange s net arrivals home idx e d).result =
      (waitForCas s.nextReqId_ arrivals (bumpReqId s) net).result := by
    intro arrivals
    rw [compareExchange_eq, if_neg hns, if_neg hr]
  refine ⟨?_, ?_, ?_⟩
  · intro arrivals
    constructor
    · rw [write_eq, if_neg hns, if_neg hr]
      simp only [sends_append, sends_waitForWrite s.nextReqId_ arrivals (bumpReqId s) net hr,
        List.append_nil]
      rfl
    · rw [compareExchange_eq, if_neg hns, if_neg hr]
      simp only [sends_append, sends_waitForCas s.nextReqId_ arrivals (bumpReqId s) net hr,
        List.append_nil]
      rfl
  · intro before batch after pre cbuf post q hb hcalm hpost
    constructor
    · intro hc
      rw [hwres]
      apply waitForWrite_success s.nextReqId_ s.rank_ s.world_ s.varsPerProc_ batch after pre cbuf
        post hb hr ?_ ?_ ?_ hpost before (bumpReqId s) net rfl rfl rfl hrun hcalm
      · rw [hc]
        exact ⟨rfl, rfl, rfl⟩
      · rw [hc]
        exact hsub
      · rw [hc]
        exact hv
    · intro hc hstale huniq
      rw [hcres]
      have h := waitForCas_success s.nextReqId_ s.rank_ s.world_ s.varsPerProc_ batch after pre
        cbuf post hb hr (by rw [hc]; exact ⟨rfl, rfl, rfl⟩) (by rw [hc]; exact hsub)
        (by rw [hc]; exact hv) hpost
        (fun buf hbuf => huniq buf (List.mem_append_right _ hbuf))
        before (bumpReqId s) net rfl rfl rfl hrun hcalm
        (fun buf hbuf => huniq buf (List.mem_append_left _ hbuf)) hstale
      rw [h, hc]
  · intro before batch after pre sd post hb hcalm hsd hsdnt
    constructor
    · intro hstale hnone
      rw [hwres]
      exact waitForWrite_abort s.nextReqId_ s.rank_ s.world_ s.varsPerProc_ batch after pre sd
        post hb hr hsd hsdnt before (bumpReqId s) net rfl rfl rfl hrun hcalm hnone hstale
    · intro hstale hnone
      rw [hcres]
      exact waitForCas_abort s.nextReqId_ s.rank_ s.world_ s.varsPerProc_ batch after pre sd
        post hb hr hsd hsdnt before (bumpReqId s) net rfl rfl rfl hrun hcalm hnone hstale

/-- Witness for C11 (amended): rank 1 of the `main.cpp` scenario calls
`write(0, 0, 10)` or `compareExchange(0, 0, 10, 99)` with request id 1.  A first batch
brings a WRITE of 10 to `(0, 0)` by rank 0; when the second batch brings the answer the
call returns (the CAS with `true`, as the value is 10 by then); when the second batch
brings a SHUTDOWN instead the call fails with the stopped-while-waiting error. -/
theorem blocking_wait_outcome_witness :
    ((mainState 1).rank_ ≠ 0 ∧ (mainState 1).running_ = true ∧
      (mainState 1).rank_ ∈ subscribersFor (mainState 1).world_ 0 0 ∧
      ValidAddr (mainState 1).world_ (mainState 1).varsPerProc_ 0 0) ∧
    sends (write (mainState 1) ⟨[], []⟩ [] 0 0 10).events =
      [Event.sendReq [1, 0, 0, 10, 0, 1]] ∧
    (write (mainState 1) ⟨[], []⟩
      [⟨[], [[1, 1, 0, 0, 10, 0, 0, 1]]⟩, ⟨[], [[2, 1, 0, 0, 10, 0, 1, 1]]⟩] 0 0 10).result =
      .ok () ∧
    (compareExchange (mainState 1) ⟨[], []⟩
      [⟨[], [[1, 1, 0, 0, 10, 0, 0, 1]]⟩, ⟨[], [[2, 2, 0, 0, 10, 99, 1, 1]]⟩]
      0 0 10 99).result = .ok true ∧
    (write (mainState 1) ⟨[], []⟩
      [⟨[], [[1, 1, 0, 0, 10, 0, 0, 1]]⟩, ⟨[], [[2, 3, 0, 0, 0, 0, 0, 0]]⟩] 0 0 10).result =
      .threw .stoppedWaitingWrite ∧
    (compareExchange (mainState 1) ⟨[], []⟩
      [⟨[], [[1, 1, 0, 0, 10, 0, 0, 1]]⟩, ⟨[], [[2, 3, 0, 0, 0, 0, 0, 0]]⟩]
      0 0 10 99).result = .threw .stoppedWaitingCas :=
  ⟨⟨by decide, rfl, by decide, by decide⟩,
    ((blocking_wait_outcome (mainState 1) ⟨[], []⟩ 0 0 10 10 99 (by decide) rfl (by decide)
      (by decide)).1 []).1,
    ((blocking_wait_outcome (mainState 1) ⟨[], []⟩ 0 0 10 10 99 (by decide) rfl (by decide)
      (by decide)).2.1 [⟨[], [[1, 1, 0, 0, 10, 0, 0, 1]]⟩] ⟨[], [[2, 1, 0, 0, 10, 0, 1, 1]]⟩ []
      [] [2, 1, 0, 0, 10, 0, 1, 1] [] 2 rfl (by decide) (by decide)).1 (by decide),
    (((blocking_wait_outcome (mainState 1) ⟨[], []⟩ 0 0 10 10 99 (by decide) rfl (by decide)
      (by decide)).2.1 [⟨[], [[1, 1, 0, 0, 10, 0, 0, 1]]⟩] ⟨[], [[2, 2, 0, 0, 10, 99, 1, 1]]⟩ []
      [] [2, 2, 0, 0, 10, 99, 1, 1] [] 2 rfl (by decide) (by decide)).2 (by decide)
      (by decide) (by decide)).trans (by decide),
    ((blocking_wait_outcome (mainState 1) ⟨[], []⟩ 0 0 10 10 99 (by decide) rfl (by decide)
      (by decide)).2.2 [⟨[], [[1, 1, 0, 0, 10, 0, 0, 1]]⟩] ⟨[], [[2, 3, 0, 0, 0, 0, 0, 0]]⟩ []
      [] [2, 3, 0, 0, 0, 0, 0, 0] [] rfl (by decide) (by decide) (by decide)).1 (by decide)
      (by decide),
    ((blocking_wait_outcome (mainState 1) ⟨[], []⟩ 0 0 10 10 99 (by decide) rfl (by decide)
      (by decide)).2.2 [⟨[], [[1, 1, 0, 0, 10, 0, 0, 1]]⟩] ⟨[], [[2, 3, 0, 0, 0, 0, 0, 0]]⟩ []
      [] [2, 3, 0, 0, 0, 0, 0, 0] [] rfl (by decide) (by decide) (by decide)).2 (by decide)
      (by decide)⟩

/-- The same calls evaluated directly; and a wait that runs out of arrivals is still
waiting. -/
theorem main_wait_values :
    (write (mainState 1) ⟨[], []⟩
      [⟨[], [[1, 1, 0, 0, 10, 0, 0, 1]]⟩, ⟨[], [[2, 1, 0, 0, 10, 0, 1, 1]]⟩] 0 0 10).result =
      .ok () ∧
    (compareExchange (mainState 1) ⟨[], []⟩
      [⟨[], [[2, 2, 0, 0, 10, 99, 1, 1]]⟩] 0 0 10 99).result = .ok false ∧
    (write (mainState 1) ⟨[], []⟩
      [⟨[], [[1, 3, 0, 0, 0, 0, 0, 0], [2, 1, 0, 0, 10, 0, 1, 1]]⟩] 0 0 10).result =
      .threw .stoppedWaitingWrite ∧
    (write (mainState 1) ⟨[], []⟩
      [⟨[], [[2, 1, 0, 0, 10, 0, 1, 1], [1, 3, 0, 0, 0, 0, 0, 0]]⟩] 0 0 10).result =
      .ok () ∧
    (write (mainState 1) ⟨[], []⟩ [⟨[], [[1, 1, 0, 0, 10, 0, 0, 1]]⟩] 0 0 10).result =
      .blocked := by
  decide


/-! ## C22: destinations of the multicast -/

theorem subscribersFor_range (world home idx : Int) (h0 : 0 ≤ home) (h1 : home < world) :
    ∀ x ∈ subscribersFor world home idx, 0 ≤ x ∧ x < world := by
  intro x hx
  rw [mem_subscribersFor, Int.tmod_eq_emod (by omega) (by omega),
    Int.tmod_eq_emod (by omega) (by omega)] at hx
  rcases hx with hx | ⟨_, hx⟩ | ⟨_, hx⟩
  · omega
  · rw [hx]
    exact ⟨Int.emod_nonneg _ (by omega), Int.emod_lt_of_pos _ (by omega)⟩
  · rw [hx]
    exact ⟨Int.emod_nonneg _ (by omega), Int.emod_lt_of_pos _ (by omega)⟩

/-- C22. For an ordered operation with `home` in `[0, world)`, the events of
`sequencerMulticast` are one send of the operation's buffer per destination, where the
destinations are, in strictly increasing rank order, exactly the subscribers of the
target other than 0; so every such subscriber is sent exactly one copy, rank 0 and the
non-subscribers are sent nothing, every destination is a rank in `[1, world)`, and
for `world = 1` nothing is sent. -/
theorem multicast_destinations (s : DSM) (op : OrderedOp) (h0 : 0 ≤ op.home)
    (h1 : op.home < s.world_) :
    (∃ dests : List Int,
      sequencerMulticast s op = dests.map (fun d => Event.sendOp d (encodeOp op)) ∧
      dests.Pairwise (· < ·) ∧
      (∀ d, d ∈ dests ↔ d ∈ subscribersFor s.world_ op.home op.idx ∧ d ≠ 0) ∧
      (∀ d ∈ dests, 1 ≤ d ∧ d < s.world_)) ∧
    (∀ d, d ∈ subscribersFor s.world_ op.home op.idx → d ≠ 0 →
      sentTo d (sequencerMulticast s op) = [encodeOp op]) ∧
    sentTo 0 (sequencerMulticast s op) = [] ∧
    (∀ d, d ∉ subscribersFor s.world_ op.home op.idx →
      sentTo d (sequencerMulticast s op) = []) ∧
    (s.world_ = 1 → sequencerMulticast s op = []) := by
  have hrange := subscribersFor_range s.world_ op.home op.idx h0 h1
  refine ⟨⟨(subscribersFor s.world_ op.home op.idx).filter (fun dest => decide (dest ≠ 0)),
    rfl, (subscribersFor_sorted _ _ _).filter _, ?_, ?_⟩, ?_, ?_, ?_, ?_⟩
  · intro d
    simp [List.mem_filter]
  · intro d hd
    rw [List.mem_filter] at hd
    have h := hrange d hd.1
    have hne : d ≠ 0 := by simpa using hd.2
    omega
  · intro d hd hne
    rw [sentTo_sequencerMulticast, if_pos ⟨hd, hne⟩]
  · rw [sentTo_sequencerMulticast, if_neg (fun h => h.2 rfl)]
  · intro d hd
    rw [sentTo_sequencerMulticast, if_neg (fun h => hd h.1)]
  · intro hw
    unfold sequencerMulticast
    simp only []
    rw [List.map_eq_nil_iff, List.filter_eq_nil_iff]
    intro x hx
    have := hrange x hx
    simp only [decide_eq_true_eq, ne_eq, not_not]
    omega

theorem multicast_destinations_witness :
    ((0 : Int) ≤ mainCas.home ∧ mainCas.home < (mainState 0).world_) ∧
    ((∃ dests : List Int,
      sequencerMulticast (mainState 0) mainCas =
        dests.map (fun d => Event.sendOp d (encodeOp mainCas)) ∧
      dests.Pairwise (· < ·) ∧
      (∀ d, d ∈ dests ↔ d ∈ subscribersFor (mainState 0).world_ mainCas.home mainCas.idx ∧
        d ≠ 0) ∧
      (∀ d ∈ dests, 1 ≤ d ∧ d < (mainState 0).world_)) ∧
    (∀ d, d ∈ subscribersFor (mainState 0).world_ mainCas.home mainCas.idx → d ≠ 0 →
      sentTo d (sequencerMulticast (mainState 0) mainCas) = [encodeOp mainCas]) ∧
    sentTo 0 (sequencerMulticast (mainState 0) mainCas) = [] ∧
    (∀ d, d ∉ subscribersFor (mainState 0).world_ mainCas.home mainCas.idx →
      sentTo d (sequencerMulticast (mainState 0) mainCas) = []) ∧
    ((mainState 0).world_ = 1 → sequencerMulticast (mainState 0) mainCas = [])) :=
  ⟨by decide, multicast_destinations (mainState 0) mainCas (by decide) (by decide)⟩

/-- The multicast of the CAS of `main.cpp` (target `(0, 0)`, world of 4): one copy to
rank 1 and one to rank 2, in that order; in a world of one process nothing is sent. -/
theorem main_multicast_values :
    sequencerMulticast (mainState 0) mainCas =
      [Event.sendOp 1 [2, 2, 0, 0, 10, 99, 2, 1], Event.sendOp 2 [2, 2, 0, 0, 10, 99, 2, 1]] ∧
    sequencerMulticast { mainState 0 with world_ := 1 } mainCas = [] ∧
    sequencerMulticast (mainState 0) ⟨7, MsgType.WRITE, 3, 1, 5, 0, 3, 1⟩ =
      [Event.sendOp 1 [7, 1, 3, 1, 5, 0, 3, 1], Event.sendOp 3 [7, 1, 3, 1, 5, 0, 3, 1]] := by
  decide

/-! ## C25: construction -/

/-- C25. In a communicator of at least one process, the constructor throws
"varsPerProcess must be > 0" when `varsPerProcess ≤ 0`; when `varsPerProcess > 0` it
yields an object that is running, has a replica of `world * varsPerProcess` entries that
are all 0 (so `read` of every valid address returns 0), `nextSeq_ = 1`, `nextReqId_ = 1`
and empty completion tables. -/
theorem constructor_establishes_initial_state (rank world varsPerProcess : Int) (cb : Bool) (hw : 1 ≤ world) :
    (varsPerProcess ≤ 0 →
      DSM.new rank world varsPerProcess cb = .error .varsPerProcessNotPositive) ∧
    (0 < varsPerProcess →
      ∃ s : DSM, DSM.new rank world varsPerProcess cb = .ok s ∧
        s.running_ = true ∧ s.rank_ = rank ∧ s.world_ = world ∧
        s.varsPerProc_ = varsPerProcess ∧ s.cb_ = cb ∧
        (s.values_.length : Int) = world * varsPerProcess ∧
        (∀ x ∈ s.values_, x = 0) ∧
        (∀ h i, ValidAddr world varsPerProcess h i → read s h i = .ok 0) ∧
        s.nextSeq_ = 1 ∧ s.nextReqId_ = 1 ∧
        s.writeDone_ = [] ∧ s.casDone_ = [] ∧ s.casResult_ = []) := by
  constructor
  · intro h
    unfold DSM.new
    rw [if_pos h]
  · intro h
    refine ⟨_, by unfold DSM.new; rw [if_neg (by omega)], rfl, rfl, rfl, rfl, rfl, ?_, ?_, ?_,
      rfl, rfl, rfl, rfl, rfl⟩
    · simp only [List.length_replicate]
      have : 0 ≤ world * varsPerProcess := Int.mul_nonneg (by omega) (by omega)
      omega
    · intro x hx
      exact (List.mem_replicate.mp hx).2
    · intro a i hv
      unfold read
      simp only []
      rw [globalVarId_of_valid _ _ _ _ hv]
      simp only []
      rw [getD_replicate_zero]

theorem constructor_establishes_initial_state_witness :
    ((1 : Int) ≤ 4) ∧
    ((2 : Int) ≤ 0 → DSM.new 1 4 2 true = .error .varsPerProcessNotPositive) ∧
    ((0 : Int) < 2 →
      ∃ s : DSM, DSM.new 1 4 2 true = .ok s ∧
        s.running_ = true ∧ s.rank_ = 1 ∧ s.world_ = 4 ∧
        s.varsPerProc_ = 2 ∧ s.cb_ = true ∧
        (s.values_.length : Int) = 4 * 2 ∧
        (∀ x ∈ s.values_, x = 0) ∧
        (∀ h i, ValidAddr 4 2 h i → read s h i = .ok 0) ∧
        s.nextSeq_ = 1 ∧ s.nextReqId_ = 1 ∧
        s.writeDone_ = [] ∧ s.casDone_ = [] ∧ s.casResult_ = []) :=
  ⟨by decide, constructor_establishes_initial_state 1 4 2 true (by decide)⟩

/-- The constructor on the arguments of `main.cpp` (4 processes) and on a
non-positive `varsPerProcess`. -/
theorem main_construction_values :
    DSM.new 1 4 2 true = .ok (mainState 1) ∧
    DSM.new 1 4 0 true = .error .varsPerProcessNotPositive ∧
    DSM.new 1 4 (-3) true = .error .varsPerProcessNotPositive :=
  ⟨rfl, rfl, rfl⟩

/-! ## C26: the wire format of ordered operations -/

theorem wrap32_of_fits (x : Int) (h : FitsInt x) : wrap32 x = x := by
  unfold FitsInt at h
  unfold wrap32
  omega

/-- C26. The buffer of every message `sequencerMulticast` sends for `op`, and of every
message `shutdown` sends, is `[seq, tag, home, idx, v1, v2, initiator, reqId]` of the
operation, with tag 1 for WRITE, 2 for CAS and 3 for SHUTDOWN; when `home`, `idx`, `v1`,
`v2` and `initiator` fit in an `int`, the decoding of `poll` gives back the operation,
field by field. -/
theorem wire_round_trip (s : DSM) (op : OrderedOp) (hh : FitsInt op.home)
    (hi : FitsInt op.idx) (h1 : FitsInt op.v1) (h2 : FitsInt op.v2)
    (hin : FitsInt op.initiator) :
    (∀ ev ∈ sequencerMulticast s op, ∃ d, ev = Event.sendOp d
      [op.seq, op.type.tag, op.home, op.idx, op.v1, op.v2, op.initiator, op.reqId]) ∧
    (∀ ev ∈ sends (shutdown s).events, ∃ d, ev = Event.sendOp d
      [s.nextSeq_, 3, 0, 0, 0, 0, 0, 0]) ∧
    (op.type = MsgType.WRITE → op.type.tag = 1) ∧
    (op.type = MsgType.CAS → op.type.tag = 2) ∧
    (op.type = MsgType.SHUTDOWN → op.type.tag = 3) ∧
    decodeOp [op.seq, op.type.tag, op.home, op.idx, op.v1, op.v2, op.initiator, op.reqId] =
      op ∧
    decodeOp [s.nextSeq_, 3, 0, 0, 0, 0, 0, 0] =
      ⟨s.nextSeq_, MsgType.SHUTDOWN, 0, 0, 0, 0, 0, 0⟩ := by
  refine ⟨?_, ?_, ?_, ?_, ?_, ?_, ?_⟩
  · intro ev hev
    unfold sequencerMulticast at hev
    simp only [List.mem_map] at hev
    obtain ⟨d, _, rfl⟩ := hev
    exact ⟨d, rfl⟩
  · intro ev hev
    rw [shutdown_eq] at hev
    by_cases hr : s.rank_ ≠ 0
    · rw [if_pos hr] at hev
      simp [sends] at hev
    · rw [if_neg hr] at hev
      simp only [sends, List.filter_cons] at hev
      change ev ∈ sends (shutdownSends s.world_ (encodeOp (shutdownOp s))) at hev
      rw [sends_shutdownSends] at hev
      unfold shutdownSends at hev
      simp only [List.mem_map] at hev
      obtain ⟨d, _, rfl⟩ := hev
      exact ⟨_, rfl⟩
  · intro h; rw [h]; rfl
  · intro h; rw [h]; rfl
  · intro h; rw [h]; rfl
  · unfold decodeOp
    simp only [List.getD_cons_zero, List.getD_cons_succ, wrap32_of_fits _ hh,
      wrap32_of_fits _ hi, wrap32_of_fits _ h1, wrap32_of_fits _ h2, wrap32_of_fits _ hin]
  · rfl

theorem wire_round_trip_witness :
    (FitsInt mainCas.home ∧ FitsInt mainCas.idx ∧ FitsInt mainCas.v1 ∧ FitsInt mainCas.v2 ∧
      FitsInt mainCas.initiator) ∧
    ((∀ ev ∈ sequencerMulticast (mainState 0) mainCas, ∃ d, ev = Event.sendOp d
      [mainCas.seq, mainCas.type.tag, mainCas.home, mainCas.idx, mainCas.v1, mainCas.v2,
        mainCas.initiator, mainCas.reqId]) ∧
    (∀ ev ∈ sends (shutdown (mainState 0)).events, ∃ d, ev = Event.sendOp d
      [(mainState 0).nextSeq_, 3, 0, 0, 0, 0, 0, 0]) ∧
    (mainCas.type = MsgType.WRITE → mainCas.type.tag = 1) ∧
    (mainCas.type = MsgType.CAS → mainCas.type.tag = 2) ∧
    (mainCas.type = MsgType.SHUTDOWN → mainCas.type.tag = 3) ∧
    decodeOp [mainCas.seq, mainCas.type.tag, mainCas.home, mainCas.idx, mainCas.v1,
      mainCas.v2, mainCas.initiator, mainCas.reqId] = mainCas ∧
    decodeOp [(mainState 0).nextSeq_, 3, 0, 0, 0, 0, 0, 0] =
      ⟨(mainState 0).nextSeq_, MsgType.SHUTDOWN, 0, 0, 0, 0, 0, 0⟩) :=
  ⟨by decide, wire_round_trip (mainState 0) mainCas (by decide) (by decide) (by decide)
    (by decide) (by decide)⟩

/-- The buffers of the `main.cpp` scenario, and a value that does not fit in an `int`:
it comes back reduced modulo `2^32`. -/
theorem main_wire_values :
    encodeOp mainCas = [2, 2, 0, 0, 10, 99, 2, 1] ∧
    decodeOp [2, 2, 0, 0, 10, 99, 2, 1] = mainCas ∧
    encodeOp mainWrite11 = [3, 1, 0, 0, 11, 0, 0, 1] ∧
    decodeOp [3, 1, 0, 0, 11, 0, 0, 1] = mainWrite11 ∧
    encodeOp (shutdownOp (mainState 0)) = [1, 3, 0, 0, 0, 0, 0, 0] ∧
    (decodeOp [1, 1, 0, 0, 4294967301, 0, 0, 1]).v1 = 5 := by
  decide

/-! ## C29: calls on a stopped rank other than 0 -/

/-- C29. On a rank other than 0 that is stopped and subscribes to the target, `write`
and `compareExchange` take one request id, send exactly one request to rank 0 and then
throw "DSM stopped while waiting for write" (resp. "... for CAS"), whatever messages are
pending or arrive: nothing is received, `applyOrderedOp` is not entered, and the object
is unchanged apart from `nextReqId_`. -/
theorem stopped_noncoordinator_call (s : DSM) (net : Net) (arrivals : List Net)
    (home idx v e d : Int) (hr : s.rank_ ≠ 0) (hstop : s.running_ = false)
    (hsub : s.rank_ ∈ subscribersFor s.world_ home idx) :
    ((write s net arrivals home idx v).result = .threw .stoppedWaitingWrite ∧
      (write s net arrivals home idx v).events =
        [Event.sendReq [1, home, idx, v, 0, s.nextReqId_]] ∧
      (write s net arrivals home idx v).state =
        { s with nextReqId_ := s.nextReqId_ + 1 } ∧
      (write s net arrivals home idx v).net = net) ∧
    ((compareExchange s net arrivals home idx e d).result = .threw .stoppedWaitingCas ∧
      (compareExchange s net arrivals home idx e d).events =
        [Event.sendReq [2, home, idx, e, d, s.nextReqId_]] ∧
      (compareExchange s net arrivals home idx e d).state =
        { s with nextReqId_ := s.nextReqId_ + 1 } ∧
      (compareExchange s net arrivals home idx e d).net = net) := by
  have hs : ¬ isSubscriber s.world_ s.rank_ home idx = false := by
    rw [(isSubscriber_iff_mem _ _ _ _).mpr hsub]
    simp
  constructor
  · rw [write_eq, if_neg hs, if_neg hr, waitForWrite_stopped _ _ _ _ (by exact hstop)]
    exact ⟨rfl, rfl, rfl, rfl⟩
  · rw [compareExchange_eq, if_neg hs, if_neg hr, waitForCas_stopped _ _ _ _ (by exact hstop)]
    exact ⟨rfl, rfl, rfl, rfl⟩

theorem stopped_noncoordinator_call_witness :
    (mainStopped.rank_ ≠ 0 ∧ mainStopped.running_ = false ∧
      mainStopped.rank_ ∈ subscribersFor mainStopped.world_ 0 0) ∧
    (((write mainStopped mainAnswer [mainAnswer] 0 0 10).result =
        .threw .stoppedWaitingWrite ∧
      (write mainStopped mainAnswer [mainAnswer] 0 0 10).events =
        [Event.sendReq [1, 0, 0, 10, 0, mainStopped.nextReqId_]] ∧
      (write mainStopped mainAnswer [mainAnswer] 0 0 10).state =
        { mainStopped with nextReqId_ := mainStopped.nextReqId_ + 1 } ∧
      (write mainStopped mainAnswer [mainAnswer] 0 0 10).net = mainAnswer) ∧
    ((compareExchange mainStopped mainAnswer [mainAnswer] 0 0 10 99).result =
        .threw .stoppedWaitingCas ∧
      (compareExchange mainStopped mainAnswer [mainAnswer] 0 0 10 99).events =
        [Event.sendReq [2, 0, 0, 10, 99, mainStopped.nextReqId_]] ∧
      (compareExchange mainStopped mainAnswer [mainAnswer] 0 0 10 99).state =
        { mainStopped with nextReqId_ := mainStopped.nextReqId_ + 1 } ∧
      (compareExchange mainStopped mainAnswer [mainAnswer] 0 0 10 99).net = mainAnswer)) :=
  ⟨by decide, stopped_noncoordinator_call mainStopped mainAnswer [mainAnswer] 0 0 10 10 99
    (by decide) rfl (by decide)⟩

/-- Rank 1 of `main.cpp`, stopped, with the answer to its request already pending:
`write(0, 0, 10)` sends the request with id 1 and throws; the replica keeps its values
and the pending message stays unreceived. -/
theorem main_stopped_call_values :
    (write mainStopped mainAnswer [⟨[], []⟩] 0 0 10).result = .threw .stoppedWaitingWrite ∧
    (write mainStopped mainAnswer [⟨[], []⟩] 0 0 10).events =
      [Event.sendReq [1, 0, 0, 10, 0, 1]] ∧
    (write mainStopped mainAnswer [⟨[], []⟩] 0 0 10).state.values_ =
      [0, 0, 0, 0, 0, 0, 0, 0] ∧
    (write mainStopped mainAnswer [⟨[], []⟩] 0 0 10).state.nextReqId_ = 2 ∧
    (write mainStopped mainAnswer [⟨[], []⟩] 0 0 10).net = ⟨[], [[1, 1, 0, 0, 10, 0, 1, 1]]⟩ := by
  decide

/-! ## C23: the sequencer rejects requests of non-subscribers -/

theorem appliedOps_sequencerMulticast (s : DSM) (op : OrderedOp) :
    appliedOps (sequencerMulticast s op) = [] := by
  unfold sequencerMulticast
  simp only []
  induction (subscribersFor s.world_ op.home op.idx).filter (fun dest => decide (dest ≠ 0)) with
  | nil => rfl
  | cons x t ih => simp [appliedOps]

/-- Requests drained without an exception, followed by more requests: the sequencer
goes on with the rest from the state it has reached. -/
theorem sequencerProcessRequests_append (opQ : List (List Int))
    (rest : List (Int × List Int)) :
    ∀ (pre : List (Int × List Int)) (s : DSM),
      (sequencerProcessRequests s opQ pre).result = .ok () →
      sequencerProcessRequests s opQ (pre ++ rest) =
        { sequencerProcessRequests (sequencerProcessRequests s opQ pre).state opQ rest with
          events := (sequencerProcessRequests s opQ pre).events ++
            (sequencerProcessRequests (sequencerProcessRequests s opQ pre).state opQ
              rest).events } := by
  intro pre
  induction pre with
  | nil =>
    intro s _
    rfl
  | cons hd tl ih =>
    intro s hok
    obtain ⟨source, rbuf⟩ := hd
    by_cases hsub : isSubscriber s.world_ source (requestOp s source rbuf).home
        (requestOp s source rbuf).idx = false
    · rw [sequencerProcessRequests_cons, if_pos hsub] at hok
      exact absurd hok (by simp)
    · cases hres : (applyOrderedOp (bumpSeq s) (requestOp s source rbuf)).result with
      | ok u =>
        simp only [sequencerProcessRequests_cons, if_neg hsub, hres] at hok
        simp only [List.cons_append, sequencerProcessRequests_cons, if_neg hsub, hres]
        rw [ih _ hok]
        simp only [List.append_assoc, List.cons_append]
      | threw e =>
        simp only [sequencerProcessRequests_cons, if_neg hsub, hres] at hok
        exact absurd hok (by simp)
      | blocked => exact absurd hres (applyOrderedOp_not_blocked _ _)

/-- Requests drained without an exception: each one got the next sequence number, was
applied, and was multicast to the subscribers of its target other than rank 0. -/
theorem sequencerProcessRequests_ok (opQ : List (List Int)) :
    ∀ (pre : List (Int × List Int)) (s : DSM),
      (sequencerProcessRequests s opQ pre).result = .ok () →
      (sequencerProcessRequests s opQ pre).state.nextSeq_ = s.nextSeq_ + pre.length ∧
      (sequencerProcessRequests s opQ pre).state.world_ = s.world_ ∧
      appliedOps (sequencerProcessRequests s opQ pre).events = orderAll s.nextSeq_ pre ∧
      orderedSeqs (sequencerProcessRequests s opQ pre).events =
        (orderAll s.nextSeq_ pre).map (fun op => op.seq) ∧
      (∀ d, sentTo d (sequencerProcessRequests s opQ pre).events =
        copiesFor s.world_ d (orderAll s.nextSeq_ pre)) ∧
      (sequencerProcessRequests s opQ pre).net = ⟨[], opQ⟩ := by
  intro pre
  induction pre with
  | nil =>
    intro s _
    refine ⟨by simp [sequencerProcessRequests], rfl, rfl, rfl, fun _ => rfl, rfl⟩
  | cons hd tl ih =>
    intro s hok
    obtain ⟨source, rbuf⟩ := hd
    rw [sequencerProcessRequests_cons] at hok ⊢
    by_cases hsub : isSubscriber s.world_ source (requestOp s source rbuf).home
        (requestOp s source rbuf).idx = false
    · rw [if_pos hsub] at hok
      exact absurd hok (by simp)
    · rw [if_neg hsub] at hok ⊢
      cases hres : (applyOrderedOp (bumpSeq s) (requestOp s source rbuf)).result with
      | ok u =>
        rw [hres] at hok
        simp only [] at hok ⊢
        obtain ⟨h1, h2, h3, h4, h5, h6⟩ := ih _ hok
        have hf := applyOrderedOp_frame (bumpSeq s) (requestOp s source rbuf)
        have hseq : (applyOrderedOp (bumpSeq s) (requestOp s source rbuf)).state.nextSeq_ =
            s.nextSeq_ + 1 := hf.1
        have hworld : (applyOrderedOp (bumpSeq s) (requestOp s source rbuf)).state.world_ =
            s.world_ := hf.2.2.2.1
        rw [hseq] at h1 h3 h4 h5
        rw [hworld] at h2 h5
        refine ⟨?_, h2, ?_, ?_, ?_, h6⟩
        · rw [h1, List.length_cons]
          push_cast
          ring
        · have : appliedOps (Event.ordered (requestOp s source rbuf) ::
              ((applyOrderedOp (bumpSeq s) (requestOp s source rbuf)).events ++
                sequencerMulticast (applyOrderedOp (bumpSeq s) (requestOp s source rbuf)).state
                  (requestOp s source rbuf) ++
                (sequencerProcessRequests
                  (applyOrderedOp (bumpSeq s) (requestOp s source rbuf)).state opQ tl).events)) =
              appliedOps ((applyOrderedOp (bumpSeq s) (requestOp s source rbuf)).events ++
                sequencerMulticast (applyOrderedOp (bumpSeq s) (requestOp s source rbuf)).state
                  (requestOp s source rbuf) ++
                (sequencerProcessRequests
                  (applyOrderedOp (bumpSeq s) (requestOp s source rbuf)).state opQ tl).events) :=
            rfl
          rw [this, appliedOps_append, appliedOps_append, appliedOps_applyOrderedOp,
            appliedOps_sequencerMulticast, h3]
          rfl
        · have : orderedSeqs (Event.ordered (requestOp s source rbuf) ::
              ((applyOrderedOp (bumpSeq s) (requestOp s source rbuf)).events ++
                sequencerMulticast (applyOrderedOp (bumpSeq s) (requestOp s source rbuf)).state
                  (requestOp s source rbuf) ++
                (sequencerProcessRequests
                  (applyOrderedOp (bumpSeq s) (requestOp s source rbuf)).state opQ tl).events)) =
              s.nextSeq_ ::
              orderedSeqs ((applyOrderedOp (bumpSeq s) (requestOp s source rbuf)).events ++
                sequencerMulticast (applyOrderedOp (bumpSeq s) (requestOp s source rbuf)).state
                  (requestOp s source rbuf) ++
                (sequencerProcessRequests
                  (applyOrderedOp (bumpSeq s) (requestOp s source rbuf)).state opQ tl).events) :=
            rfl
          rw [this, orderedSeqs_append, orderedSeqs_append, orderedSeqs_applyOrderedOp,
            orderedSeqs_sequencerMulticast, h4]
          rfl
        · intro d
          have : sentTo d (Event.ordered (requestOp s source rbuf) ::
              ((applyOrderedOp (bumpSeq s) (requestOp s source rbuf)).events ++
                sequencerMulticast (applyOrderedOp (bumpSeq s) (requestOp s source rbuf)).state
                  (requestOp s source rbuf) ++
                (sequencerProcessRequests
                  (applyOrderedOp (bumpSeq s) (requestOp s source rbuf)).state opQ tl).events)) =
              sentTo d ((applyOrderedOp (bumpSeq s) (requestOp s source rbuf)).events ++
                sequencerMulticast (applyOrderedOp (bumpSeq s) (requestOp s source rbuf)).state
                  (requestOp s source rbuf) ++
                (sequencerProcessRequests
                  (applyOrderedOp (bumpSeq s) (requestOp s source rbuf)).state opQ tl).events) :=
            rfl
          rw [this, sentTo_append, sentTo_append, sentTo_applyOrderedOp,
            sentTo_sequencerMulticast, h5 d, hworld]
          unfold copiesFor
          simp only [orderAll, List.filter_cons]
          by_cases hd : d ∈ subscribersFor s.world_ (requestOp s source rbuf).home
              (requestOp s source rbuf).idx ∧ d ≠ 0
          · rw [if_pos hd]
            have hd2 : decide (d ∈ subscribersFor s.world_ (wrap32 (rbuf.getD 1 0))
                (wrap32 (rbuf.getD 2 0)) ∧ d ≠ 0) = true := decide_eq_true hd
            rw [if_pos hd2]
            rfl
          · rw [if_neg hd]
            have hd2 : ¬ decide (d ∈ subscribersFor s.world_ (wrap32 (rbuf.getD 1 0))
                (wrap32 (rbuf.getD 2 0)) ∧ d ≠ 0) = true := by
              rw [decide_eq_true_eq]
              exact hd
            rw [if_neg hd2]
            rfl
      | threw e =>
        rw [hres] at hok
        exact absurd hok (by simp)
      | blocked => exact absurd hres (applyOrderedOp_not_blocked _ _)

/-- C23. `sequencerProcessRequests` has drained the requests `pre` without an exception
and reads a request whose sender is not in `subscribersFor` of its target: the call
throws "Non-subscriber attempted to modify a variable" from the state reached after
`pre`, so `nextSeq_` is what it was before the request was read (the start value plus
the number of requests of `pre`); the events are those of draining `pre` alone, whose
requests were ordered with consecutive sequence numbers, applied and multicast, and the
rejected request is in none of them; the later requests stay unreceived. -/
theorem sequencer_rejects_nonsubscriber (s : DSM) (opQ : List (List Int))
    (pre post : List (Int × List Int)) (source : Int) (rbuf : List Int)
    (hpre : (sequencerProcessRequests s opQ pre).result = .ok ())
    (hns : source ∉ subscribersFor s.world_ (wrap32 (rbuf.getD 1 0))
      (wrap32 (rbuf.getD 2 0))) :
    (sequencerProcessRequests s opQ (pre ++ (source, rbuf) :: post)).result =
      .threw .nonSubscriberRequest ∧
    (sequencerProcessRequests s opQ (pre ++ (source, rbuf) :: post)).state =
      (sequencerProcessRequests s opQ pre).state ∧
    (sequencerProcessRequests s opQ (pre ++ (source, rbuf) :: post)).state.nextSeq_ =
      s.nextSeq_ + pre.length ∧
    (sequencerProcessRequests s opQ (pre ++ (source, rbuf) :: post)).events =
      (sequencerProcessRequests s opQ pre).events ∧
    (sequencerProcessRequests s opQ (pre ++ (source, rbuf) :: post)).net = ⟨post, opQ⟩ ∧
    orderedSeqs (sequencerProcessRequests s opQ (pre ++ (source, rbuf) :: post)).events =
      (orderAll s.nextSeq_ pre).map (fun op => op.seq) ∧
    appliedOps (sequencerProcessRequests s opQ (pre ++ (source, rbuf) :: post)).events =
      orderAll s.nextSeq_ pre ∧
    (∀ d, sentTo d (sequencerProcessRequests s opQ (pre ++ (source, rbuf) :: post)).events =
      copiesFor s.world_ d (orderAll s.nextSeq_ pre)) := by
  obtain ⟨h1, h2, h3, h4, h5, _⟩ := sequencerProcessRequests_ok opQ pre s hpre
  have hrej : sequencerProcessRequests (sequencerProcessRequests s opQ pre).state opQ
      ((source, rbuf) :: post) =
      { state := (sequencerProcessRequests s opQ pre).state, net := ⟨post, opQ⟩, events := [],
        result := .threw .nonSubscriberRequest } := by
    rw [sequencerProcessRequests_cons, if_pos]
    rw [h2]
    exact (isSubscriber_false_iff _ _ _ _).mpr hns
  rw [sequencerProcessRequests_append opQ _ pre s hpre, hrej]
  refine ⟨rfl, rfl, h1, List.append_nil _, rfl, ?_, ?_, ?_⟩
  · simp only [List.append_nil]
    exact h4
  · simp only [List.append_nil]
    exact h3
  · simp only [List.append_nil]
    exact h5

theorem sequencer_rejects_nonsubscriber_witness :
    ((sequencerProcessRequests (mainState 0) []
        [(1, [1, 0, 0, 10, 0, 1]), (2, [2, 0, 0, 10, 99, 1])]).result = .ok () ∧
      (3 : Int) ∉ subscribersFor (mainState 0).world_
        (wrap32 ([1, 0, 0, 5, 0, 1].getD 1 0)) (wrap32 ([1, 0, 0, 5, 0, 1].getD 2 0))) ∧
    ((sequencerProcessRequests (mainState 0) [] mainRequestsWithIntruder).result =
      .threw .nonSubscriberRequest ∧
    (sequencerProcessRequests (mainState 0) [] mainRequestsWithIntruder).state =
      (sequencerProcessRequests (mainState 0) []
        [(1, [1, 0, 0, 10, 0, 1]), (2, [2, 0, 0, 10, 99, 1])]).state ∧
    (sequencerProcessRequests (mainState 0) [] mainRequestsWithIntruder).state.nextSeq_ =
      (mainState 0).nextSeq_ +
        ([(1, [1, 0, 0, 10, 0, 1]), (2, [2, 0, 0, 10, 99, 1])] :
          List (Int × List Int)).length ∧
    (sequencerProcessRequests (mainState 0) [] mainRequestsWithIntruder).events =
      (sequencerProcessRequests (mainState 0) []
        [(1, [1, 0, 0, 10, 0, 1]), (2, [2, 0, 0, 10, 99, 1])]).events ∧
    (sequencerProcessRequests (mainState 0) [] mainRequestsWithIntruder).net =
      ⟨[(1, [1, 1, 0, 7, 0, 2])], []⟩ ∧
    orderedSeqs (sequencerProcessRequests (mainState 0) [] mainRequestsWithIntruder).events =
      (orderAll (mainState 0).nextSeq_
        [(1, [1, 0, 0, 10, 0, 1]), (2, [2, 0, 0, 10, 99, 1])]).map (fun op => op.seq) ∧
    appliedOps (sequencerProcessRequests (mainState 0) [] mainRequestsWithIntruder).events =
      orderAll (mainState 0).nextSeq_
        [(1, [1, 0, 0, 10, 0, 1]), (2, [2, 0, 0, 10, 99, 1])] ∧
    (∀ d, sentTo d (sequencerProcessRequests (mainState 0) []
        mainRequestsWithIntruder).events =
      copiesFor (mainState 0).world_ d (orderAll (mainState 0).nextSeq_
        [(1, [1, 0, 0, 10, 0, 1]), (2, [2, 0, 0, 10, 99, 1])]))) :=
  ⟨⟨by decide, by decide⟩,
    sequencer_rejects_nonsubscriber (mainState 0) []
      [(1, [1, 0, 0, 10, 0, 1]), (2, [2, 0, 0, 10, 99, 1])] [(1, [1, 1, 0, 7, 0, 2])] 3
      [1, 0, 0, 5, 0, 1] (by decide) (by decide)⟩

/-- The coordinator of `main.cpp` drains the write request of rank 1, the CAS request
of rank 2, a request of rank 3 for `(0, 0)` and one more request: the call throws at the
third one with `nextSeq_ = 3`, the first two are ordered (1 and 2), applied and sent to
the ranks 1 and 2, and the fourth request is still in the queue. -/
theorem main_intruder_values :
    (sequencerProcessRequests (mainState 0) [] mainRequestsWithIntruder).result =
      .threw .nonSubscriberRequest ∧
    (sequencerProcessRequests (mainState 0) [] mainRequestsWithIntruder).state.nextSeq_ = 3 ∧
    (sequencerProcessRequests (mainState 0) [] mainRequestsWithIntruder).state.values_ =
      [99, 0, 0, 0, 0, 0, 0, 0] ∧
    (sequencerProcessRequests (mainState 0) [] mainRequestsWithIntruder).net =
      ⟨[(1, [1, 1, 0, 7, 0, 2])], []⟩ ∧
    (sequencerProcessRequests (mainState 0) [] mainRequestsWithIntruder).events =
      [Event.ordered ⟨1, MsgType.WRITE, 0, 0, 10, 0, 1, 1⟩,
       Event.applied ⟨1, MsgType.WRITE, 0, 0, 10, 0, 1, 1⟩,
       Event.callback 0 0 10 1,
       Event.sendOp 1 [1, 1, 0, 0, 10, 0, 1, 1], Event.sendOp 2 [1, 1, 0, 0, 10, 0, 1, 1],
       Event.ordered ⟨2, MsgType.CAS, 0, 0, 10, 99, 2, 1⟩,
       Event.applied ⟨2, MsgType.CAS, 0, 0, 10, 99, 2, 1⟩,
       Event.callback 0 0 99 2,
       Event.sendOp 1 [2, 2, 0, 0, 10, 99, 2, 1], Event.sendOp 2 [2, 2, 0, 0, 10, 99, 2, 1]] := by
  decide

/-! ## C21: completion records are never erased -/

theorem mapFind_mapAssign_isSome (m : List (Int × Bool)) (k j : Int) (v : Bool)
    (h : (mapFind m j).isSome = true) : (mapFind (mapAssign m k v) j).isSome = true := by
  by_cases hj : j = k
  · rw [hj, mapFind_mapAssign_self]
    rfl
  · rw [mapFind_mapAssign_other _ _ _ _ hj]
    exact h

theorem mapFind_mapIndex_self (m : List (Int × Bool)) (k : Int) :
    mapFind (mapIndex m k).2 k = some (mapIndex m k).1 := by
  unfold mapIndex
  cases h : mapFind m k with
  | some v => exact h
  | none => exact mapFind_mapAssign_self _ _ _

theorem mapFind_mapIndex_isSome (m : List (Int × Bool)) (k j : Int)
    (h : (mapFind m j).isSome = true) : (mapFind (mapIndex m k).2 j).isSome = true := by
  unfold mapIndex
  cases hk : mapFind m k with
  | some v => exact h
  | none => exact mapFind_mapAssign_isSome _ _ _ _ h

theorem KeepsRecords.self (s : DSM) : KeepsRecords s s :=
  ⟨fun _ h => h, fun _ h => h, fun _ h => h⟩

theorem KeepsRecords.chain {s t u : DSM} (h1 : KeepsRecords s t) (h2 : KeepsRecords t u) :
    KeepsRecords s u :=
  ⟨fun k h => h2.1 k (h1.1 k h), fun k h => h2.2.1 k (h1.2.1 k h),
    fun k h => h2.2.2 k (h1.2.2 k h)⟩

/-- A step that leaves the three tables as they are. -/
theorem KeepsRecords.same (s t : DSM) (h1 : t.writeDone_ = s.writeDone_)
    (h2 : t.casDone_ = s.casDone_) (h3 : t.casResult_ = s.casResult_) : KeepsRecords s t := by
  refine ⟨fun k h => ?_, fun k h => ?_, fun k h => ?_⟩
  · rw [h1]; exact h
  · rw [h2]; exact h
  · rw [h3]; exact h

theorem keepsRecords_applyOrderedOp (s : DSM) (op : OrderedOp) :
    KeepsRecords s (applyOrderedOp s op).state := by
  rcases applyOrderedOp_cases s op with h | ⟨h, e, hg⟩ | ⟨h, gid, hg, ht | ht | ⟨hw, hc⟩⟩
  · rw [applyOrderedOp_not_subscriber s op h]
    exact KeepsRecords.same _ _ rfl rfl rfl
  · rw [applyOrderedOp_invalid s op e h hg]
    exact KeepsRecords.same _ _ rfl rfl rfl
  · rw [applyOrderedOp_write s op gid h hg ht]
    refine ⟨fun k hk => ?_, fun k hk => hk, fun k hk => hk⟩
    simp only []
    split_ifs
    · exact mapFind_mapAssign_isSome _ _ _ _ hk
    · exact hk
  · rw [applyOrderedOp_cas s op gid h hg ht]
    refine ⟨fun k hk => hk, fun k hk => ?_, fun k hk => ?_⟩
    · simp only []
      split_ifs
      · exact mapFind_mapAssign_isSome _ _ _ _ hk
      · exact hk
    · simp only []
      split_ifs
      · exact mapFind_mapAssign_isSome _ _ _ _ hk
      · exact hk
  · rw [applyOrderedOp_other s op gid h hg hw hc]
    exact KeepsRecords.same _ _ rfl rfl rfl

theorem keepsRecords_sequencerProcessRequests (opQ : List (List Int)) :
    ∀ (reqQ : List (Int × List Int)) (s : DSM),
      KeepsRecords s (sequencerProcessRequests s opQ reqQ).state := by
  intro reqQ
  induction reqQ with
  | nil =>
    intro s
    exact KeepsRecords.self s
  | cons hd rest ih =>
    intro s
    obtain ⟨source, rbuf⟩ := hd
    rw [sequencerProcessRequests_cons]
    have hb : KeepsRecords s (bumpSeq s) := KeepsRecords.same _ _ rfl rfl rfl
    have ha := hb.chain (keepsRecords_applyOrderedOp (bumpSeq s) (requestOp s source rbuf))
    by_cases hsub : isSubscriber s.world_ source (requestOp s source rbuf).home
        (requestOp s source rbuf).idx = false
    · rw [if_pos hsub]
      exact KeepsRecords.self s
    · rw [if_neg hsub]
      cases hres : (applyOrderedOp (bumpSeq s) (requestOp s source rbuf)).result with
      | ok u => exact ha.chain (ih _)
      | threw e => exact ha
      | blocked => exact ha

theorem keepsRecords_pollLoop (reqQ : List (Int × List Int)) :
    ∀ (opQ : List (List Int)) (s : DSM), KeepsRecords s (pollLoop s reqQ opQ).state := by
  intro opQ
  induction opQ with
  | nil =>
    intro s
    exact KeepsRecords.self s
  | cons buf rest ih =>
    intro s
    rw [pollLoop_cons]
    have ha := keepsRecords_applyOrderedOp s (decodeOp buf)
    cases hres : (applyOrderedOp s (decodeOp buf)).result with
    | ok u =>
      simp only []
      by_cases hsd : (decodeOp buf).type = MsgType.SHUTDOWN
      · rw [if_pos hsd]
        exact ha.chain (KeepsRecords.same _ _ rfl rfl rfl)
      · rw [if_neg hsd]
        exact ha.chain (ih _)
    | threw e => exact ha
    | blocked => exact ha

theorem keepsRecords_poll (s : DSM) (net : Net) : KeepsRecords s (poll s net).state := by
  unfold poll
  split_ifs
  · exact KeepsRecords.self s
  · exact keepsRecords_sequencerProcessRequests _ _ _
  · exact keepsRecords_pollLoop _ _ _

theorem keepsRecords_waitForWrite (reqId : Int) :
    ∀ (arrivals : List Net) (s : DSM) (net : Net),
      KeepsRecords s (waitForWrite reqId arrivals s net).state := by
  intro arrivals
  induction arrivals with
  | nil =>
    intro s net
    unfold waitForWrite
    split_ifs <;> exact KeepsRecords.self s
  | cons batch later ih =>
    intro s net
    rw [waitForWrite_cons]
    have hp := keepsRecords_poll s (net.deliver batch)
    by_cases hrun : s.running_ = false
    · rw [if_pos hrun]
      exact KeepsRecords.self s
    · rw [if_neg hrun]
      cases hres : (poll s (net.deliver batch)).result with
      | ok u =>
        simp only []
        by_cases hd : mapFind (poll s (net.deliver batch)).state.writeDone_ reqId = some true
        · rw [if_pos hd]
          exact hp
        · rw [if_neg hd]
          exact hp.chain (ih _ _)
      | threw e => exact hp
      | blocked => exact hp

theorem keepsRecords_waitForCas (reqId : Int) :
    ∀ (arrivals : List Net) (s : DSM) (net : Net),
      KeepsRecords s (waitForCas reqId arrivals s net).state := by
  intro arrivals
  induction arrivals with
  | nil =>
    intro s net
    unfold waitForCas
    split_ifs <;> exact KeepsRecords.self s
  | cons batch later ih =>
    intro s net
    rw [waitForCas_cons]
    have hp := keepsRecords_poll s (net.deliver batch)
    by_cases hrun : s.running_ = false
    · rw [if_pos hrun]
      exact KeepsRecords.self s
    · rw [if_neg hrun]
      cases hres : (poll s (net.deliver batch)).result with
      | ok u =>
        simp only []
        by_cases hd : mapFind (poll s (net.deliver batch)).state.casDone_ reqId = some true
        · rw [if_pos hd]
          exact hp.chain ⟨fun k hk => hk, fun k hk => hk,
            fun k hk => mapFind_mapIndex_isSome _ _ _ hk⟩
        · rw [if_neg hd]
          exact hp.chain (ih _ _)
      | threw e => exact hp
      | blocked => exact hp

theorem keepsRecords_write (s : DSM) (net : Net) (arrivals : List Net) (h i v : Int) :
    KeepsRecords s (write s net arrivals h i v).state := by
  rw [write_eq]
  have hb : KeepsRecords s (bumpSeq (bumpReqId s)) := KeepsRecords.same _ _ rfl rfl rfl
  have ha := hb.chain (keepsRecords_applyOrderedOp (bumpSeq (bumpReqId s)) (writeOp s h i v))
  by_cases hsub : isSubscriber s.world_ s.rank_ h i = false
  · rw [if_pos hsub]
    exact KeepsRecords.self s
  · rw [if_neg hsub]
    by_cases hr : s.rank_ = 0
    · rw [if_pos hr]
      cases hres : (applyOrderedOp (bumpSeq (bumpReqId s)) (writeOp s h i v)).result with
      | ok u =>
        exact ha.chain ⟨fun k hk => mapFind_mapAssign_isSome _ _ _ _ hk, fun k hk => hk,
          fun k hk => hk⟩
      | threw e => exact ha
      | blocked => exact ha
    · rw [if_neg hr]
      exact (KeepsRecords.same s (bumpReqId s) rfl rfl rfl).chain
        (keepsRecords_waitForWrite _ _ _ _)

theorem keepsRecords_compareExchange (s : DSM) (net : Net) (arrivals : List Net)
    (h i e d : Int) : KeepsRecords s (compareExchange s net arrivals h i e d).state := by
  rw [compareExchange_eq]
  have hb : KeepsRecords s (bumpSeq (bumpReqId s)) := KeepsRecords.same _ _ rfl rfl rfl
  have ha := hb.chain (keepsRecords_applyOrderedOp (bumpSeq (bumpReqId s)) (casOp s h i e d))
  by_cases hsub : isSubscriber s.world_ s.rank_ h i = false
  · rw [if_pos hsub]
    exact KeepsRecords.self s
  · rw [if_neg hsub]
    by_cases hr : s.rank_ = 0
    · rw [if_pos hr]
      cases hres : (applyOrderedOp (bumpSeq (bumpReqId s)) (casOp s h i e d)).result with
      | ok u =>
        exact ha.chain ⟨fun k hk => hk, fun k hk => mapFind_mapAssign_isSome _ _ _ _ hk,
          fun k hk => mapFind_mapIndex_isSome _ _ _ hk⟩
      | threw e => exact ha
      | blocked => exact ha
    · rw [if_neg hr]
      exact (KeepsRecords.same s (bumpReqId s) rfl rfl rfl).chain
        (keepsRecords_waitForCas _ _ _ _)

theorem keepsRecords_step (p : Proc) (a : Action) : KeepsRecords p.dsm (step p a).dsm := by
  unfold step
  by_cases hs : p.stuck = true
  · rw [if_pos hs]
    exact KeepsRecords.self _
  · rw [if_neg hs]
    cases a with
    | poll arrived => exact keepsRecords_poll _ _
    | write h i v arrivals => exact keepsRecords_write _ _ _ _ _ _
    | compareExchange h i e d arrivals => exact keepsRecords_compareExchange _ _ _ _ _ _ _
    | shutdown =>
      simp only []
      rw [shutdown_eq]
      split_ifs
      · exact KeepsRecords.self _
      · exact KeepsRecords.same _ _ rfl rfl rfl

theorem keepsRecords_run (acts : List Action) :
    ∀ p : Proc, KeepsRecords p.dsm (run p acts).dsm := by
  induction acts with
  | nil =>
    intro p
    exact KeepsRecords.self _
  | cons a rest ih =>
    intro p
    exact (keepsRecords_step p a).chain (ih (step p a))

theorem waitForWrite_ok_done (reqId : Int) :
    ∀ (arrivals : List Net) (s : DSM) (net : Net),
      (waitForWrite reqId arrivals s net).result = .ok () →
      mapFind (waitForWrite reqId arrivals s net).state.writeDone_ reqId = some true := by
  intro arrivals
  induction arrivals with
  | nil =>
    intro s net hok
    unfold waitForWrite at hok
    split_ifs at hok
  | cons batch later ih =>
    intro s net hok
    rw [waitForWrite_cons] at hok ⊢
    by_cases hrun : s.running_ = false
    · rw [if_pos hrun] at hok
      simp at hok
    · rw [if_neg hrun] at hok ⊢
      cases hres : (poll s (net.deliver batch)).result with
      | ok u =>
        rw [hres] at hok
        simp only [] at hok ⊢
        by_cases hd : mapFind (poll s (net.deliver batch)).state.writeDone_ reqId = some true
        · rw [if_pos hd]
          exact hd
        · rw [if_neg hd] at hok ⊢
          exact ih _ _ hok
      | threw e =>
        rw [hres] at hok
        simp only [] at hok
        rw [hres] at hok
        simp at hok
      | blocked =>
        rw [hres] at hok
        simp only [] at hok
        rw [hres] at hok
        simp at hok

theorem waitForCas_ok_done (reqId : Int) (b : Bool) :
    ∀ (arrivals : List Net) (s : DSM) (net : Net),
      (waitForCas reqId arrivals s net).result = .ok b →
      mapFind (waitForCas reqId arrivals s net).state.casDone_ reqId = some true ∧
      mapFind (waitForCas reqId arrivals s net).state.casResult_ reqId = some b := by
  intro arrivals
  induction arrivals with
  | nil =>
    intro s net hok
    unfold waitForCas at hok
    split_ifs at hok
  | cons batch later ih =>
    intro s net hok
    rw [waitForCas_cons] at hok ⊢
    by_cases hrun : s.running_ = false
    · rw [if_pos hrun] at hok
      simp at hok
    · rw [if_neg hrun] at hok ⊢
      cases hres : (poll s (net.deliver batch)).result with
      | ok u =>
        rw [hres] at hok
        simp only [] at hok ⊢
        by_cases hd : mapFind (poll s (net.deliver batch)).state.casDone_ reqId = some true
        · rw [if_pos hd] at hok ⊢
          simp only [Result.ok.injEq] at hok
          refine ⟨hd, ?_⟩
          rw [← hok]
          exact mapFind_mapIndex_self _ _
        · rw [if_neg hd] at hok ⊢
          exact ih _ _ hok
      | threw e =>
        rw [hres] at hok
        simp at hok
      | blocked =>
        rw [hres] at hok
        simp at hok

/-- C21 as stated fails: the coordinator of `main.cpp` calls `write(0, 0, 11)`, which
takes request id 1 and returns; afterwards `writeDone_` still holds the entry for id 1.
Rank 1 calls `write(0, 0, 10)` and its answer arrives; after the return the entry for
id 1 is still there.  Rank 2 calls `compareExchange(0, 0, 10, 99)`; after the return
`casDone_` and `casResult_` still hold the entries for id 1.  No call is in progress
and the tables are not empty. -/
theorem completion_record_not_consumed :
    (write (mainState 0) ⟨[], []⟩ [] 0 0 11).result = .ok () ∧
    (write (mainState 0) ⟨[], []⟩ [] 0 0 11).state.writeDone_ = [(1, true)] ∧
    (write (mainState 1) ⟨[], []⟩ [mainAnswer] 0 0 10).result = .ok () ∧
    (write (mainState 1) ⟨[], []⟩ [mainAnswer] 0 0 10).state.writeDone_ = [(1, true)] ∧
    (compareExchange (mainState 2) ⟨[], []⟩ [⟨[], [[2, 2, 0, 0, 10, 99, 2, 1]]⟩]
      0 0 10 99).result = .ok false ∧
    (compareExchange (mainState 2) ⟨[], []⟩ [⟨[], [[2, 2, 0, 0, 10, 99, 2, 1]]⟩]
      0 0 10 99).state.casDone_ = [(1, true)] ∧
    (compareExchange (mainState 2) ⟨[], []⟩ [⟨[], [[2, 2, 0, 0, 10, 99, 2, 1]]⟩]
      0 0 10 99).state.casResult_ = [(1, false)] := by
  decide

/-- C21, amended. On every rank, after a call of `write` has returned normally,
`writeDone_` holds `true` for the request id the call took; after a call of
`compareExchange` has returned normally, `casDone_` holds `true` and `casResult_` holds
the returned flag for the request id the call took.  The records are not erased: over
every execution, an id that has an entry in one of the three tables keeps an entry in
that table. -/
theorem completion_records_stay (s : DSM) (net : Net) (arrivals : List Net)
    (home idx v e d : Int) :
    ((write s net arrivals home idx v).result = .ok () →
      mapFind (write s net arrivals home idx v).state.writeDone_ s.nextReqId_ = some true) ∧
    (∀ b, (compareExchange s net arrivals home idx e d).result = .ok b →
      mapFind (compareExchange s net arrivals home idx e d).state.casDone_ s.nextReqId_ =
        some true ∧
      mapFind (compareExchange s net arrivals home idx e d).state.casResult_ s.nextReqId_ =
        some b) ∧
    (∀ (p : Proc) (acts : List Action), KeepsRecords p.dsm (run p acts).dsm) := by
  refine ⟨?_, ?_, fun p acts => keepsRecords_run acts p⟩
  · intro hok
    rw [write_eq] at hok ⊢
    by_cases hsub : isSubscriber s.world_ s.rank_ home idx = false
    · rw [if_pos hsub] at hok
      simp at hok
    · rw [if_neg hsub] at hok ⊢
      by_cases hr : s.rank_ = 0
      · rw [if_pos hr] at hok ⊢
        cases hres : (applyOrderedOp (bumpSeq (bumpReqId s)) (writeOp s home idx v)).result with
        | ok u => exact mapFind_mapAssign_self _ _ _
        | threw err =>
          rw [hres] at hok
          simp at hok
        | blocked =>
          rw [hres] at hok
          simp at hok
      · rw [if_neg hr] at hok ⊢
        exact waitForWrite_ok_done _ _ _ _ hok
  · intro b hok
    rw [compareExchange_eq] at hok ⊢
    by_cases hsub : isSubscriber s.world_ s.rank_ home idx = false
    · rw [if_pos hsub] at hok
      simp at hok
    · rw [if_neg hsub] at hok ⊢
      by_cases hr : s.rank_ = 0
      · rw [if_pos hr] at hok ⊢
        cases hres : (applyOrderedOp (bumpSeq (bumpReqId s)) (casOp s home idx e d)).result with
        | ok u =>
          rw [hres] at hok
          simp only [Result.ok.injEq] at hok
          refine ⟨mapFind_mapAssign_self _ _ _, ?_⟩
          rw [← hok]
          exact mapFind_mapIndex_self _ _
        | threw err =>
          rw [hres] at hok
          simp at hok
        | blocked =>
          rw [hres] at hok
          simp at hok
      · rw [if_neg hr] at hok ⊢
        exact waitForCas_ok_done _ _ _ _ _ hok

theorem completion_records_stay_witness :
    ((write (mainState 1) ⟨[], []⟩ [mainAnswer] 0 0 10).result = .ok () ∧
      (compareExchange (mainState 1) ⟨[], []⟩ [mainAnswer] 0 0 10 99).result = .blocked) ∧
    mapFind (write (mainState 1) ⟨[], []⟩ [mainAnswer] 0 0 10).state.writeDone_
      (mainState 1).nextReqId_ = some true ∧
    KeepsRecords (Proc.start (mainState 0)).dsm
      (run (Proc.start (mainState 0)) mainCoordinatorActs).dsm :=
  ⟨by decide,
    (completion_records_stay (mainState 1) ⟨[], []⟩ [mainAnswer] 0 0 10 10 99).1 (by decide),
    (completion_records_stay (mainState 1) ⟨[], []⟩ [mainAnswer] 0 0 10 10 99).2.2 _ _⟩

/-- The tables of the coordinator at the end of the `main.cpp` scenario, and of rank 1
after two writes: every request id taken so far still has its record. -/
theorem main_tables_values :
    (run (Proc.start (mainState 0)) mainCoordinatorActs).dsm.writeDone_ = [(1, true)] ∧
    (run (Proc.start (mainState 1))
      [Action.write 0 0 10 [mainAnswer],
       Action.write 1 0 7 [⟨[], [[2, 1, 1, 0, 7, 0, 1, 2]]⟩]]).dsm.writeDone_ =
      [(1, true), (2, true)] := by
  decide

/-! ## C24: request ids -/

theorem nextReqId_sequencerProcessRequests (opQ : List (List Int)) :
    ∀ (reqQ : List (Int × List Int)) (s : DSM),
      (sequencerProcessRequests s opQ reqQ).state.nextReqId_ = s.nextReqId_ := by
  intro reqQ
  induction reqQ with
  | nil =>
    intro s
    rfl
  | cons hd rest ih =>
    intro s
    obtain ⟨source, rbuf⟩ := hd
    rw [sequencerProcessRequests_cons]
    have ha : (applyOrderedOp (bumpSeq s) (requestOp s source rbuf)).state.nextReqId_ =
        s.nextReqId_ := (applyOrderedOp_frame _ _).2.1
    by_cases hsub : isSubscriber s.world_ source (requestOp s source rbuf).home
        (requestOp s source rbuf).idx = false
    · rw [if_pos hsub]
    · rw [if_neg hsub]
      cases hres : (applyOrderedOp (bumpSeq s) (requestOp s source rbuf)).result with
      | ok u => exact (ih _).trans ha
      | threw e => exact ha
      | blocked => exact ha

theorem nextReqId_pollLoop (reqQ : List (Int × List Int)) :
    ∀ (opQ : List (List Int)) (s : DSM),
      (pollLoop s reqQ opQ).state.nextReqId_ = s.nextReqId_ := by
  intro opQ
  induction opQ with
  | nil =>
    intro s
    rfl
  | cons buf rest ih =>
    intro s
    rw [pollLoop_cons]
    have ha : (applyOrderedOp s (decodeOp buf)).state.nextReqId_ = s.nextReqId_ :=
      (applyOrderedOp_frame _ _).2.1
    cases hres : (applyOrderedOp s (decodeOp buf)).result with
    | ok u =>
      simp only []
      by_cases hsd : (decodeOp buf).type = MsgType.SHUTDOWN
      · rw [if_pos hsd]
        exact ha
      · rw [if_neg hsd]
        exact (ih _).trans ha
    | threw e => exact ha
    | blocked => exact ha

theorem nextReqId_poll (s : DSM) (net : Net) : (poll s net).state.nextReqId_ = s.nextReqId_ := by
  unfold poll
  split_ifs
  · rfl
  · exact nextReqId_sequencerProcessRequests _ _ _
  · exact nextReqId_pollLoop _ _ _

theorem nextReqId_waitForWrite (reqId : Int) :
    ∀ (arrivals : List Net) (s : DSM) (net : Net),
      (waitForWrite reqId arrivals s net).state.nextReqId_ = s.nextReqId_ := by
  intro arrivals
  induction arrivals with
  | nil =>
    intro s net
    unfold waitForWrite
    split_ifs <;> rfl
  | cons batch later ih =>
    intro s net
    rw [waitForWrite_cons]
    have hp := nextReqId_poll s (net.deliver batch)
    by_cases hrun : s.running_ = false
    · rw [if_pos hrun]
    · rw [if_neg hrun]
      cases hres : (poll s (net.deliver batch)).result with
      | ok u =>
        simp only []
        by_cases hd : mapFind (poll s (net.deliver batch)).state.writeDone_ reqId = some true
        · rw [if_pos hd]
          exact hp
        · rw [if_neg hd]
          exact (ih _ _).trans hp
      | threw e => exact hp
      | blocked => exact hp

theorem nextReqId_waitForCas (reqId : Int) :
    ∀ (arrivals : List Net) (s : DSM) (net : Net),
      (waitForCas reqId arrivals s net).state.nextReqId_ = s.nextReqId_ := by
  intro arrivals
  induction arrivals with
  | nil =>
    intro s net
    unfold waitForCas
    split_ifs <;> rfl
  | cons batch later ih =>
    intro s net
    rw [waitForCas_cons]
    have hp := nextReqId_poll s (net.deliver batch)
    by_cases hrun : s.running_ = false
    · rw [if_pos hrun]
    · rw [if_neg hrun]
      cases hres : (poll s (net.deliver batch)).result with
      | ok u =>
        simp only []
        by_cases hd : mapFind (poll s (net.deliver batch)).state.casDone_ reqId = some true
        · rw [if_pos hd]
          exact hp
        · rw [if_neg hd]
          exact (ih _ _).trans hp
      | threw e => exact hp
      | blocked => exact hp

/-- What one call of `write` does with the request ids. -/
theorem write_reqId (s : DSM) (net : Net) (arrivals : List Net) (h i v : Int) :
    (isSubscriber s.world_ s.rank_ h i = false →
      (write s net arrivals h i v).result = .threw .writeNotAllowed ∧
      (write s net arrivals h i v).state.nextReqId_ = s.nextReqId_ ∧
      issuedId (write s net arrivals h i v).events = none) ∧
    (isSubscriber s.world_ s.rank_ h i = true →
      (write s net arrivals h i v).state.nextReqId_ = s.nextReqId_ + 1 ∧
      issuedId (write s net arrivals h i v).events = some s.nextReqId_) := by
  rw [write_eq]
  constructor
  · intro hsub
    rw [if_pos hsub]
    exact ⟨rfl, rfl, rfl⟩
  · intro hsub
    rw [if_neg (by rw [hsub]; simp)]
    by_cases hr : s.rank_ = 0
    · rw [if_pos hr]
      have ha : (applyOrderedOp (bumpSeq (bumpReqId s)) (writeOp s h i v)).state.nextReqId_ =
          s.nextReqId_ + 1 := (applyOrderedOp_frame _ _).2.1
      cases hres : (applyOrderedOp (bumpSeq (bumpReqId s)) (writeOp s h i v)).result with
      | ok u => exact ⟨ha, rfl⟩
      | threw e => exact ⟨ha, rfl⟩
      | blocked => exact ⟨ha, rfl⟩
    · rw [if_neg hr]
      exact ⟨nextReqId_waitForWrite _ _ _ _, rfl⟩

/-- What one call of `compareExchange` does with the request ids. -/
theorem compareExchange_reqId (s : DSM) (net : Net) (arrivals : List Net) (h i e d : Int) :
    (isSubscriber s.world_ s.rank_ h i = false →
      (compareExchange s net arrivals h i e d).result = .threw .casNotAllowed ∧
      (compareExchange s net arrivals h i e d).state.nextReqId_ = s.nextReqId_ ∧
      issuedId (compareExchange s net arrivals h i e d).events = none) ∧
    (isSubscriber s.world_ s.rank_ h i = true →
      (compareExchange s net arrivals h i e d).state.nextReqId_ = s.nextReqId_ + 1 ∧
      issuedId (compareExchange s net arrivals h i e d).events = some s.nextReqId_) := by
  rw [compareExchange_eq]
  constructor
  · intro hsub
    rw [if_pos hsub]
    exact ⟨rfl, rfl, rfl⟩
  · intro hsub
    rw [if_neg (by rw [hsub]; simp)]
    by_cases hr : s.rank_ = 0
    · rw [if_pos hr]
      have ha : (applyOrderedOp (bumpSeq (bumpReqId s)) (casOp s h i e d)).state.nextReqId_ =
          s.nextReqId_ + 1 := (applyOrderedOp_frame _ _).2.1
      cases hres : (applyOrderedOp (bumpSeq (bumpReqId s)) (casOp s h i e d)).result with
      | ok u => exact ⟨ha, rfl⟩
      | threw err => exact ⟨ha, rfl⟩
      | blocked => exact ⟨ha, rfl⟩
    · rw [if_neg hr]
      exact ⟨nextReqId_waitForCas _ _ _ _, rfl⟩

theorem seqSpan_option (a : Int) (o : Option Int) (b : Int)
    (h : (o = none ∧ b = a) ∨ (o = some a ∧ b = a + 1)) : SeqSpan a o.toList b := by
  rcases h with ⟨h1, h2⟩ | ⟨h1, h2⟩
  · rw [h1, h2]
    exact rfl
  · rw [h1, h2]
    exact ⟨rfl, rfl⟩

theorem issuedIds_cons (p : Proc) (a : Action) (rest : List Action) :
    issuedIds p (a :: rest) =
      (if p.stuck then []
       else
        match a with
        | Action.write h i v arrivals =>
          (issuedId (write p.dsm p.net arrivals h i v).events).toList
        | Action.compareExchange h i e d arrivals =>
          (issuedId (compareExchange p.dsm p.net arrivals h i e d).events).toList
        | _ => []) ++ issuedIds (step p a) rest := rfl

/-- The ids taken by the calls of an execution are consecutive, from `nextReqId_` at
the start to `nextReqId_` at the end. -/
theorem issuedIds_span (acts : List Action) :
    ∀ p : Proc, SeqSpan p.dsm.nextReqId_ (issuedIds p acts) (run p acts).dsm.nextReqId_ := by
  induction acts with
  | nil =>
    intro p
    exact rfl
  | cons a rest ih =>
    intro p
    have hrun : run p (a :: rest) = run (step p a) rest := rfl
    rw [hrun, issuedIds_cons]
    refine SeqSpan.append ?_ (ih (step p a))
    unfold step
    by_cases hs : p.stuck = true
    · rw [if_pos hs, if_pos hs]
      exact rfl
    · rw [if_neg hs, if_neg hs]
      cases a with
      | poll arrived =>
        simp only []
        rw [nextReqId_poll]
        exact rfl
      | write h i v arrivals =>
        simp only []
        apply seqSpan_option
        cases hsub : isSubscriber p.dsm.world_ p.dsm.rank_ h i
        · have := (write_reqId p.dsm p.net arrivals h i v).1 hsub
          exact Or.inl ⟨this.2.2, this.2.1⟩
        · have := (write_reqId p.dsm p.net arrivals h i v).2 hsub
          exact Or.inr ⟨this.2, this.1⟩
      | compareExchange h i e d arrivals =>
        simp only []
        apply seqSpan_option
        cases hsub : isSubscriber p.dsm.world_ p.dsm.rank_ h i
        · have := (compareExchange_reqId p.dsm p.net arrivals h i e d).1 hsub
          exact Or.inl ⟨this.2.2, this.2.1⟩
        · have := (compareExchange_reqId p.dsm p.net arrivals h i e d).2 hsub
          exact Or.inr ⟨this.2, this.1⟩
      | shutdown =>
        simp only []
        rw [shutdown_eq]
        split_ifs <;> exact rfl

theorem seqSpan_eq_range (l : List Int) :
    ∀ a b : Int, SeqSpan a l b →
      l = (List.range l.length).map (fun n : Nat => a + (n : Int)) ∧ b = a + l.length := by
  induction l with
  | nil =>
    intro a b h
    exact ⟨rfl, by simpa [SeqSpan] using h⟩
  | cons x t ih =>
    intro a b h
    obtain ⟨hx, ht⟩ := h
    obtain ⟨h1, h2⟩ := ih (a + 1) b ht
    constructor
    · rw [List.length_cons, List.range_succ_eq_map, List.map_cons, List.map_map, hx]
      congr 1
      · simp
      · conv_lhs => rw [h1]
        apply List.map_congr_left
        intro n _
        simp only [Function.comp_apply, Nat.succ_eq_add_one]
        push_cast
        ring
    · rw [h2, List.length_cons]
      push_cast
      ring

/-- C24. On an object fresh from the constructor, over every sequence of calls (`write`,
`compareExchange`, and `poll` or `shutdown` in between), the request ids taken by the
calls are `1, 2, ..., n` in call order, strictly increasing and pairwise distinct, the
same counter serving `write` and `compareExchange`, and `nextReqId_` ends as `n + 1`.
In any state, a call that passes the subscriber check takes the id `nextReqId_` and
advances the counter by one; a call rejected at the subscriber check takes no id and
leaves the counter as it is. -/
theorem request_ids_fresh (rank world varsPerProcess : Int) (cb : Bool) (s0 : DSM)
    (hnew : DSM.new rank world varsPerProcess cb = .ok s0) (acts : List Action) :
    issuedIds (Proc.start s0) acts =
      (List.range (issuedIds (Proc.start s0) acts).length).map (fun n : Nat => 1 + (n : Int)) ∧
    (run (Proc.start s0) acts).dsm.nextReqId_ = 1 + (issuedIds (Proc.start s0) acts).length ∧
    (issuedIds (Proc.start s0) acts).Pairwise (· < ·) ∧
    (issuedIds (Proc.start s0) acts).Nodup ∧
    (∀ (s : DSM) (net : Net) (arrivals : List Net) (h i v e d : Int),
      (isSubscriber s.world_ s.rank_ h i = true →
        (issuedId (write s net arrivals h i v).events = some s.nextReqId_ ∧
          (write s net arrivals h i v).state.nextReqId_ = s.nextReqId_ + 1) ∧
        (issuedId (compareExchange s net arrivals h i e d).events = some s.nextReqId_ ∧
          (compareExchange s net arrivals h i e d).state.nextReqId_ = s.nextReqId_ + 1)) ∧
      (isSubscriber s.world_ s.rank_ h i = false →
        ((write s net arrivals h i v).result = .threw .writeNotAllowed ∧
          issuedId (write s net arrivals h i v).events = none ∧
          (write s net arrivals h i v).state.nextReqId_ = s.nextReqId_) ∧
        ((compareExchange s net arrivals h i e d).result = .threw .casNotAllowed ∧
          issuedId (compareExchange s net arrivals h i e d).events = none ∧
          (compareExchange s net arrivals h i e d).state.nextReqId_ = s.nextReqId_))) := by
  have h1 : s0.nextReqId_ = 1 := by
    unfold DSM.new at hnew
    split_ifs at hnew
    cases hnew
    rfl
  have hspan := issuedIds_span acts (Proc.start s0)
  have hs : (Proc.start s0).dsm.nextReqId_ = 1 := h1
  rw [hs] at hspan
  obtain ⟨e1, e2⟩ := seqSpan_eq_range _ _ _ hspan
  refine ⟨e1, e2, hspan.pairwise, hspan.pairwise.nodup, ?_⟩
  intro s net arrivals h i v e d
  constructor
  · intro hsub
    have hw := (write_reqId s net arrivals h i v).2 hsub
    have hc := (compareExchange_reqId s net arrivals h i e d).2 hsub
    exact ⟨⟨hw.2, hw.1⟩, ⟨hc.2, hc.1⟩⟩
  · intro hsub
    have hw := (write_reqId s net arrivals h i v).1 hsub
    have hc := (compareExchange_reqId s net arrivals h i e d).1 hsub
    exact ⟨⟨hw.1, hw.2.2, hw.2.1⟩, ⟨hc.1, hc.2.2, hc.2.1⟩⟩

theorem request_ids_fresh_witness :
    DSM.new 1 4 2 true = .ok (mainState 1) ∧
    issuedIds (Proc.start (mainState 1)) mixedCalls =
      (List.range (issuedIds (Proc.start (mainState 1)) mixedCalls).length).map
        (fun n : Nat => 1 + (n : Int)) ∧
    (run (Proc.start (mainState 1)) mixedCalls).dsm.nextReqId_ =
      1 + (issuedIds (Proc.start (mainState 1)) mixedCalls).length :=
  ⟨rfl, (request_ids_fresh 1 4 2 true (mainState 1) rfl mixedCalls).1,
    (request_ids_fresh 1 4 2 true (mainState 1) rfl mixedCalls).2.1⟩

/-- Rank 1 of a world of 4 makes five calls: the three that pass the subscriber check
take the ids 1, 2 and 3, the rejected write takes none, and the counter ends at 4. -/
theorem mixed_calls_values :
    issuedIds (Proc.start (mainState 1)) mixedCalls = [1, 2, 3] ∧
    (run (Proc.start (mainState 1)) mixedCalls).dsm.nextReqId_ = 4 ∧
    (run (Proc.start (mainState 1)) mixedCalls).stuck = false ∧
    (write (mainState 1) ⟨[], []⟩ [] 2 0 5).result = .threw .writeNotAllowed ∧
    sends (run (Proc.start (mainState 1)) mixedCalls).trace =
      [Event.sendReq [1, 0, 0, 10, 0, 1], Event.sendReq [2, 0, 0, 10, 99, 2],
       Event.sendReq [1, 1, 1, 4, 0, 3]] := by
  decide

/-! ## C28: a request and its answer -/

theorem requestOp_of_fits (c : DSM) (source : Int) (ty : MsgType) (home idx v1 v2 reqId : Int)
    (hh : FitsInt home) (hi : FitsInt idx) (h1 : FitsInt v1) (h2 : FitsInt v2) :
    requestOp c source [ty.tag, home, idx, v1, v2, reqId] =
      ⟨c.nextSeq_, ty, home, idx, v1, v2, source, reqId⟩ := by
  unfold requestOp
  simp only [List.getD_cons_zero, List.getD_cons_succ, wrap32_of_fits _ hh,
    wrap32_of_fits _ hi, wrap32_of_fits _ h1, wrap32_of_fits _ h2]

theorem orderAll_single (n source : Int) (ty : MsgType) (home idx v1 v2 reqId : Int)
    (hh : FitsInt home) (hi : FitsInt idx) (h1 : FitsInt v1) (h2 : FitsInt v2) :
    orderAll n [(source, [ty.tag, home, idx, v1, v2, reqId])] =
      [⟨n, ty, home, idx, v1, v2, source, reqId⟩] := by
  unfold orderAll
  simp only [List.getD_cons_zero, List.getD_cons_succ, wrap32_of_fits _ hh,
    wrap32_of_fits _ hi, wrap32_of_fits _ h1, wrap32_of_fits _ h2, orderAll]

/-- The sequencer serves one request of a subscriber for a valid address. -/
theorem sequencer_serves_request (c : DSM) (opQ : List (List Int)) (source : Int)
    (ty : MsgType) (home idx v1 v2 reqId : Int)
    (hsub : source ∈ subscribersFor c.world_ home idx) (hne : source ≠ 0)
    (hv : ValidAddr c.world_ c.varsPerProc_ home idx)
    (hh : FitsInt home) (hi : FitsInt idx) (h1 : FitsInt v1) (h2 : FitsInt v2) :
    (sequencerProcessRequests c opQ [(source, [ty.tag, home, idx, v1, v2, reqId])]).result =
      .ok () ∧
    appliedOps
      (sequencerProcessRequests c opQ [(source, [ty.tag, home, idx, v1, v2, reqId])]).events =
      [⟨c.nextSeq_, ty, home, idx, v1, v2, source, reqId⟩] ∧
    orderedSeqs
      (sequencerProcessRequests c opQ [(source, [ty.tag, home, idx, v1, v2, reqId])]).events =
      [c.nextSeq_] ∧
    sentTo source
      (sequencerProcessRequests c opQ [(source, [ty.tag, home, idx, v1, v2, reqId])]).events =
      [[c.nextSeq_, ty.tag, home, idx, v1, v2, source, reqId]] := by
  have hreq := requestOp_of_fits c source ty home idx v1 v2 reqId hh hi h1 h2
  have hok : (sequencerProcessRequests c opQ
      [(source, [ty.tag, home, idx, v1, v2, reqId])]).result = .ok () := by
    rw [sequencerProcessRequests_cons, hreq]
    have hs : ¬ isSubscriber c.world_ source home idx = false := by
      rw [(isSubscriber_iff_mem _ _ _ _).mpr hsub]
      simp
    rw [if_neg hs]
    have hnt : NoThrow (bumpSeq c).rank_ (bumpSeq c).world_ (bumpSeq c).varsPerProc_
        ⟨c.nextSeq_, ty, home, idx, v1, v2, source, reqId⟩ := fun _ => hv
    rw [applyOrderedOp_noThrow _ _ hnt]
    rfl
  obtain ⟨_, _, e3, e4, e5, _⟩ := sequencerProcessRequests_ok opQ _ c hok
  rw [orderAll_single _ _ _ _ _ _ _ _ hh hi h1 h2] at e3 e4 e5
  refine ⟨hok, e3, e4, ?_⟩
  rw [e5 source]
  unfold copiesFor
  rw [List.filter_cons_of_pos (by simpa using ⟨hsub, hne⟩)]
  rfl

/-- C28. A rank `t ≠ 0` that subscribes to the valid target `(home, idx)` sends the
request `[type, home, idx, v1, v2, reqId]`, all values being `int`s.  The sequencer
accepts it and builds the operation with the same type, `home`, `idx`, `v1`, `v2` and
`reqId`, with `initiator = t` and the next sequence number; it applies that operation
and sends its buffer to `t`, and decoding the buffer gives the operation back.  Applied
on `t`, a WRITE sets `writeDone_[reqId]` to `true`, a CAS sets `casDone_[reqId]` to
`true` and `casResult_[reqId]` to the success flag.  With `reqId` the id the call took:
when the answer to the request of `write` (of `compareExchange`) arrives during the
wait, the call returns (for `compareExchange`, with the success flag). -/
theorem request_response_matching (c t : DSM) (opQ : List (List Int)) (ty : MsgType)
    (home idx v1 v2 reqId : Int) (reqQ : List (Int × List Int)) (after : List Net)
    (hr : t.rank_ ≠ 0) (hw : t.world_ = c.world_) (hvp : t.varsPerProc_ = c.varsPerProc_)
    (hsub : t.rank_ ∈ subscribersFor c.world_ home idx)
    (hv : ValidAddr c.world_ c.varsPerProc_ home idx)
    (h1 : FitsInt v1) (h2 : FitsInt v2) (hfw : FitsInt c.world_)
    (hfv : FitsInt c.varsPerProc_) :
    sendRequest ty home idx v1 v2 reqId = [Event.sendReq [ty.tag, home, idx, v1, v2, reqId]] ∧
    ((sequencerProcessRequests c opQ [(t.rank_, [ty.tag, home, idx, v1, v2, reqId])]).result =
        .ok () ∧
      appliedOps (sequencerProcessRequests c opQ
          [(t.rank_, [ty.tag, home, idx, v1, v2, reqId])]).events =
        [⟨c.nextSeq_, ty, home, idx, v1, v2, t.rank_, reqId⟩] ∧
      orderedSeqs (sequencerProcessRequests c opQ
          [(t.rank_, [ty.tag, home, idx, v1, v2, reqId])]).events = [c.nextSeq_] ∧
      sentTo t.rank_ (sequencerProcessRequests c opQ
          [(t.rank_, [ty.tag, home, idx, v1, v2, reqId])]).events =
        [[c.nextSeq_, ty.tag, home, idx, v1, v2, t.rank_, reqId]]) ∧
    decodeOp [c.nextSeq_, ty.tag, home, idx, v1, v2, t.rank_, reqId] =
      ⟨c.nextSeq_, ty, home, idx, v1, v2, t.rank_, reqId⟩ ∧
    (ty = MsgType.WRITE →
      mapFind (applyOrderedOp t ⟨c.nextSeq_, ty, home, idx, v1, v2, t.rank_, reqId⟩).state.writeDone_
        reqId = some true) ∧
    (ty = MsgType.CAS →
      mapFind (applyOrderedOp t ⟨c.nextSeq_, ty, home, idx, v1, v2, t.rank_, reqId⟩).state.casDone_
        reqId = some true ∧
      mapFind (applyOrderedOp t ⟨c.nextSeq_, ty, home, idx, v1, v2, t.rank_, reqId⟩).state.casResult_
        reqId = some (decide (t.values_.getD (home * t.varsPerProc_ + idx).toNat 0 = v1))) ∧
    (t.running_ = true →
      (write t ⟨reqQ, []⟩
        (⟨[], sentTo t.rank_ (sequencerProcessRequests c opQ
          [(t.rank_, [1, home, idx, v1, 0, t.nextReqId_])]).events⟩ :: after)
        home idx v1).result = .ok ()) ∧
    (t.running_ = true → mapFind t.casDone_ t.nextReqId_ ≠ some true →
      (compareExchange t ⟨reqQ, []⟩
        (⟨[], sentTo t.rank_ (sequencerProcessRequests c opQ
          [(t.rank_, [2, home, idx, v1, v2, t.nextReqId_])]).events⟩ :: after)
        home idx v1 v2).result =
        .ok (decide (t.values_.getD (home * t.varsPerProc_ + idx).toNat 0 = v1))) := by
  have hrange := subscribersFor_range c.world_ home idx hv.1 hv.2.1 _ hsub
  have hh : FitsInt home := by
    unfold FitsInt at hfw ⊢
    unfold ValidAddr at hv
    omega
  have hi : FitsInt idx := by
    unfold FitsInt at hfv ⊢
    unfold ValidAddr at hv
    omega
  have hin : FitsInt t.rank_ := by
    unfold FitsInt at hfw ⊢
    omega
  have h0 : FitsInt 0 := by decide
  have hdec : ∀ (n : Int) (ty : MsgType) (a b k : Int), FitsInt a → FitsInt b →
      decodeOp [n, ty.tag, home, idx, a, b, t.rank_, k] =
        ⟨n, ty, home, idx, a, b, t.rank_, k⟩ := by
    intro n ty a b k ha hb
    unfold decodeOp
    simp only [List.getD_cons_zero, List.getD_cons_succ, wrap32_of_fits _ hh,
      wrap32_of_fits _ hi, wrap32_of_fits _ ha, wrap32_of_fits _ hb, wrap32_of_fits _ hin]
  have hsubt : t.rank_ ∈ subscribersFor t.world_ home idx := by
    rw [hw]
    exact hsub
  have hvt : ValidAddr t.world_ t.varsPerProc_ home idx := by
    rw [hw, hvp]
    exact hv
  have hst : ¬ isSubscriber t.world_ t.rank_ home idx = false := by
    rw [(isSubscriber_iff_mem _ _ _ _).mpr hsubt]
    simp
  have htab := fun (op : OrderedOp) (hop : op.home = home ∧ op.idx = idx) =>
    applyOrderedOp_tables t op reqId (fun _ => by rw [hop.1, hop.2]; exact hvt)
  refine ⟨rfl, sequencer_serves_request c opQ t.rank_ ty home idx v1 v2 reqId hsub hr hv hh hi
    h1 h2, hdec _ _ _ _ _ h1 h2, ?_, ?_, ?_, ?_⟩
  · intro hty
    rw [(htab ⟨c.nextSeq_, ty, home, idx, v1, v2, t.rank_, reqId⟩ ⟨rfl, rfl⟩).1,
      if_pos ⟨⟨hty, rfl, rfl⟩, hsubt⟩]
  · intro hty
    constructor
    · rw [(htab ⟨c.nextSeq_, ty, home, idx, v1, v2, t.rank_, reqId⟩ ⟨rfl, rfl⟩).2.1,
        if_pos ⟨⟨hty, rfl, rfl⟩, hsubt⟩]
    · rw [(htab ⟨c.nextSeq_, ty, home, idx, v1, v2, t.rank_, reqId⟩ ⟨rfl, rfl⟩).2.2,
        if_pos ⟨⟨hty, rfl, rfl⟩, hsubt⟩]
  · intro hrun
    have hsent := (sequencer_serves_request c opQ t.rank_ MsgType.WRITE home idx v1 0
      t.nextReqId_ hsub hr hv hh hi h1 h0).2.2.2
    have hsent' : sentTo t.rank_ (sequencerProcessRequests c opQ
        [(t.rank_, [1, home, idx, v1, 0, t.nextReqId_])]).events =
        [[c.nextSeq_, 1, home, idx, v1, 0, t.rank_, t.nextReqId_]] := hsent
    rw [hsent', write_eq, if_neg hst, if_neg hr]
    have hd := hdec c.nextSeq_ MsgType.WRITE v1 0 t.nextReqId_ h1 h0
    have hd' : decodeOp [c.nextSeq_, 1, home, idx, v1, 0, t.rank_, t.nextReqId_] =
        ⟨c.nextSeq_, MsgType.WRITE, home, idx, v1, 0, t.rank_, t.nextReqId_⟩ := hd
    exact waitForWrite_success t.nextReqId_ t.rank_ t.world_ t.varsPerProc_
      ⟨[], [[c.nextSeq_, 1, home, idx, v1, 0, t.rank_, t.nextReqId_]]⟩ after [] _ [] rfl hr
      (by rw [hd']; exact ⟨rfl, rfl, rfl⟩) (by rw [hd']; exact hsubt) (by rw [hd']; exact hvt)
      (fun _ hb => by simp [uptoShutdown] at hb) [] (bumpReqId t) ⟨reqQ, []⟩ rfl rfl rfl hrun
      (fun _ hb => by simp at hb)
  · intro hrun hstale
    have hsent := (sequencer_serves_request c opQ t.rank_ MsgType.CAS home idx v1 v2
      t.nextReqId_ hsub hr hv hh hi h1 h2).2.2.2
    have hsent' : sentTo t.rank_ (sequencerProcessRequests c opQ
        [(t.rank_, [2, home, idx, v1, v2, t.nextReqId_])]).events =
        [[c.nextSeq_, 2, home, idx, v1, v2, t.rank_, t.nextReqId_]] := hsent
    rw [hsent', compareExchange_eq, if_neg hst, if_neg hr]
    have hd := hdec c.nextSeq_ MsgType.CAS v1 v2 t.nextReqId_ h1 h2
    have hd' : decodeOp [c.nextSeq_, 2, home, idx, v1, v2, t.rank_, t.nextReqId_] =
        ⟨c.nextSeq_, MsgType.CAS, home, idx, v1, v2, t.rank_, t.nextReqId_⟩ := hd
    have := waitForCas_success t.nextReqId_ t.rank_ t.world_ t.varsPerProc_
      ⟨[], [[c.nextSeq_, 2, home, idx, v1, v2, t.rank_, t.nextReqId_]]⟩ after [] _ [] rfl hr
      (by rw [hd']; exact ⟨rfl, rfl, rfl⟩) (by rw [hd']; exact hsubt) (by rw [hd']; exact hvt)
      (fun _ hb => by simp [uptoShutdown] at hb) (fun _ hb => by simp [uptoShutdown] at hb)
      [] (bumpReqId t) ⟨reqQ, []⟩ rfl rfl rfl hrun
      (fun _ hb => by simp at hb) (fun _ hb => by simp at hb) hstale
    rw [hd'] at this
    exact this

theorem request_response_matching_witness :
    ((mainState 1).rank_ ≠ 0 ∧ (mainState 1).world_ = (mainState 0).world_ ∧
      (mainState 1).varsPerProc_ = (mainState 0).varsPerProc_ ∧
      (mainState 1).rank_ ∈ subscribersFor (mainState 0).world_ 0 0 ∧
      ValidAddr (mainState 0).world_ (mainState 0).varsPerProc_ 0 0 ∧
      FitsInt 10 ∧ FitsInt 0 ∧ FitsInt (mainState 0).world_ ∧
      FitsInt (mainState 0).varsPerProc_) ∧
    sentTo (mainState 1).rank_ (sequencerProcessRequests (mainState 0) []
        [((mainState 1).rank_, [MsgType.WRITE.tag, 0, 0, 10, 0, 1])]).events =
      [[(mainState 0).nextSeq_, MsgType.WRITE.tag, 0, 0, 10, 0, (mainState 1).rank_, 1]] ∧
    ((mainState 1).running_ = true →
      (write (mainState 1) ⟨[], []⟩
        (⟨[], sentTo (mainState 1).rank_ (sequencerProcessRequests (mainState 0) []
          [((mainState 1).rank_, [1, 0, 0, 10, 0, (mainState 1).nextReqId_])]).events⟩ :: [])
        0 0 10).result = .ok ()) :=
  ⟨by decide,
    (request_response_matching (mainState 0) (mainState 1) [] MsgType.WRITE 0 0 10 0 1 [] []
      (by decide) rfl rfl (by decide) (by decide) (by decide) (by decide) (by decide)
      (by decide)).2.1.2.2.2,
    (request_response_matching (mainState 0) (mainState 1) [] MsgType.WRITE 0 0 10 0 1 [] []
      (by decide) rfl rfl (by decide) (by decide) (by decide) (by decide) (by decide)
      (by decide)).2.2.2.2.2.1⟩

/-- The exchange of `main.cpp`: rank 1 sends the write request with id 1, the coordinator
orders it as operation 1 with initiator 1 and sends it to the ranks 1 and 2, and the
write of rank 1 returns when that operation arrives.  Rank 2, holding 10 in `(0, 0)`,
gets `true` from its `compareExchange(0, 0, 10, 99)` in the same way. -/
theorem main_exchange_values :
    (write (mainState 1) ⟨[], []⟩ [] 0 0 10).events = [Event.sendReq [1, 0, 0, 10, 0, 1]] ∧
    (sequencerProcessRequests (mainState 0) [] [(1, [1, 0, 0, 10, 0, 1])]).events =
      [Event.ordered ⟨1, MsgType.WRITE, 0, 0, 10, 0, 1, 1⟩,
       Event.applied ⟨1, MsgType.WRITE, 0, 0, 10, 0, 1, 1⟩,
       Event.callback 0 0 10 1,
       Event.sendOp 1 [1, 1, 0, 0, 10, 0, 1, 1], Event.sendOp 2 [1, 1, 0, 0, 10, 0, 1, 1]] ∧
    (write (mainState 1) ⟨[], []⟩ [⟨[], [[1, 1, 0, 0, 10, 0, 1, 1]]⟩] 0 0 10).result =
      .ok () ∧
    (write (mainState 1) ⟨[], []⟩ [⟨[], [[1, 1, 0, 0, 10, 0, 1, 1]]⟩] 0 0 10).state.writeDone_ =
      [(1, true)] ∧
    (compareExchange (mainStateWith 2 10) ⟨[], []⟩
      [⟨[], sentTo 2 (sequencerProcessRequests (mainStateWith 0 10) []
        [(2, [2, 0, 0, 10, 99, 1])]).events⟩] 0 0 10 99).result = .ok true := by
  decide

end Lab8

/-! # Loops over vectors -/

namespace Vec

theorem getD_set (l : List Int) (i j : Nat) (v : Int) :
    (l.set i v).getD j 0 = if i = j ∧ i < l.length then v else l.getD j 0 := by
  rw [List.getD_eq_getElem?_getD, List.getD_eq_getElem?_getD, List.getElem?_set]
  by_cases h : i = j
  · subst h
    by_cases h2 : i < l.length
    · simp [h2]
    · rw [List.getElem?_eq_none (Nat.le_of_not_lt h2)]
      simp [h2]
  · simp [h]

theorem getD_of_length_le (l : List Int) (i : Nat) (h : l.length ≤ i) : l.getD i 0 = 0 := by
  rw [List.getD_eq_getElem?_getD, List.getElem?_eq_none h]
  rfl

theorem getD_replicate (n i : Nat) : (List.replicate n (0 : Int)).getD i 0 = 0 := by
  rw [List.getD_eq_getElem?_getD, List.getElem?_replicate]
  split_ifs <;> rfl

/-- Two vectors of the same size with the same entries are equal. -/
theorem ext_getD (l m : List Int) (hlen : l.length = m.length)
    (h : ∀ i, i < l.length → l.getD i 0 = m.getD i 0) : l = m := by
  apply List.ext_getElem hlen
  intro i h1 h2
  have := h i h1
  rw [List.getD_eq_getElem?_getD, List.getD_eq_getElem?_getD, List.getElem?_eq_getElem h1,
    List.getElem?_eq_getElem h2] at this
  simpa using this

/-- A loop `for (k = 0; k < n; k++) c[k] = f(k)`. -/
theorem fill (f : Nat → Int) (n : Nat) (c : List Int) :
    ((List.range n).foldl (fun c k => c.set k (f k)) c).length = c.length ∧
    ∀ i, ((List.range n).foldl (fun c k => c.set k (f k)) c).getD i 0 =
      if i < n ∧ i < c.length then f i else c.getD i 0 := by
  induction n with
  | zero => simp
  | succ n ih =>
    rw [List.range_succ, List.foldl_append]
    obtain ⟨h1, h2⟩ := ih
    refine ⟨by simp only [List.foldl_cons, List.foldl_nil, List.length_set]; exact h1, ?_⟩
    intro i
    simp only [List.foldl_cons, List.foldl_nil]
    rw [getD_set, h1, h2]
    by_cases hi : n = i
    · subst hi
      by_cases hl : n < c.length
      · simp [hl]
      · simp [hl]
    · have : (i < n + 1 ∧ i < c.length) ↔ (i < n ∧ i < c.length) := by omega
      simp only [hi, false_and, if_false, this]

theorem sum_take_succ (c : List Int) (m : Nat) :
    (c.take (m + 1)).sum = (c.take m).sum + c.getD m 0 := by
  induction c generalizing m with
  | nil => simp
  | cons x t ih =>
    cases m with
    | zero => simp
    | succ m =>
      simp only [List.take_succ_cons, List.sum_cons, List.getD_cons_succ]
      rw [ih m]
      ring

/-- A loop `for (r = 1; r < P; r++) d[r] = d[r - 1] + c[r - 1]` on a vector that starts
with 0: the running sums of `c`. -/
theorem running_sums (c : List Int) (m : Nat) (d : List Int) (h0 : d.getD 0 0 = 0) :
    ((List.range' 1 m).foldl (fun d r => d.set r (d.getD (r - 1) 0 + c.getD (r - 1) 0))
      d).length = d.length ∧
    ∀ i, i ≤ m → i < d.length →
      ((List.range' 1 m).foldl (fun d r => d.set r (d.getD (r - 1) 0 + c.getD (r - 1) 0))
        d).getD i 0 = (c.take i).sum := by
  induction m with
  | zero =>
    refine ⟨rfl, ?_⟩
    intro i hi _
    have : i = 0 := by omega
    subst this
    simpa using h0
  | succ m ih =>
    rw [List.range'_concat, List.foldl_append]
    obtain ⟨h1, h2⟩ := ih
    refine ⟨by simp only [List.foldl_cons, List.foldl_nil, List.length_set]; exact h1, ?_⟩
    intro i hi hlen
    simp only [List.foldl_cons, List.foldl_nil, Nat.one_mul, Nat.add_sub_cancel_left]
    rw [getD_set, h1]
    by_cases him : 1 + m = i
    · rw [if_pos ⟨him, by omega⟩, h2 m (by omega) (by omega), ← him, Nat.add_comm 1 m,
        sum_take_succ]
    · rw [if_neg (fun h => him h.1)]
      exact h2 i (by omega) hlen

/-- A loop `for (j = 0; j < m; j++) c[shift + j] += g(j)`. -/
theorem accumulate (g : Nat → Int) (shift m : Nat) (c : List Int) :
    ((List.range m).foldl (fun c j => c.set (shift + j) (c.getD (shift + j) 0 + g j))
      c).length = c.length ∧
    ∀ k, ((List.range m).foldl (fun c j => c.set (shift + j) (c.getD (shift + j) 0 + g j))
      c).getD k 0 =
      c.getD k 0 + (if shift ≤ k ∧ k - shift < m ∧ k < c.length then g (k - shift) else 0) := by
  induction m with
  | zero => simp
  | succ m ih =>
    rw [List.range_succ, List.foldl_append]
    obtain ⟨h1, h2⟩ := ih
    refine ⟨by simp only [List.foldl_cons, List.foldl_nil, List.length_set]; exact h1, ?_⟩
    intro k
    simp only [List.foldl_cons, List.foldl_nil]
    rw [getD_set, h1, h2, h2]
    by_cases hk : shift + m = k
    · subst hk
      by_cases hl : shift + m < c.length
      · have e1 : ¬ (shift ≤ shift + m ∧ shift + m - shift < m ∧ shift + m < c.length) := by
          omega
        have e2 : shift ≤ shift + m ∧ shift + m - shift < m + 1 ∧ shift + m < c.length := by
          omega
        rw [if_pos ⟨rfl, hl⟩, if_neg e1, if_pos e2, Nat.add_sub_cancel_left]
        ring
      · have e1 : ¬ (shift ≤ shift + m ∧ shift + m - shift < m ∧ shift + m < c.length) := by
          omega
        have e2 : ¬ (shift ≤ shift + m ∧ shift + m - shift < m + 1 ∧
            shift + m < c.length) := by
          omega
        rw [if_neg (fun h => hl h.2), if_neg e1, if_neg e2]
    · rw [if_neg (fun h => hk h.1)]
      have : (shift ≤ k ∧ k - shift < m + 1 ∧ k < c.length) ↔
          (shift ≤ k ∧ k - shift < m ∧ k < c.length) := by
        omega
      simp only [this]

end Vec

namespace Lab7

/-! ## Vectors as series -/

theorem coeff_series (v : List Int) (k : Nat) :
    PowerSeries.coeff Int k (series v) = v.getD k 0 :=
  PowerSeries.coeff_mk _ _

theorem series_congr (u v : List Int) (h : ∀ k, u.getD k 0 = v.getD k 0) :
    series u = series v := by
  apply PowerSeries.ext
  intro k
  rw [coeff_series, coeff_series, h k]

theorem eq_of_series (u v : List Int) (hlen : u.length = v.length) (h : series u = series v) :
    u = v := by
  apply Vec.ext_getD u v hlen
  intro i _
  rw [← coeff_series, ← coeff_series, h]

theorem series_replicate (n : Nat) : series (List.replicate n 0) = 0 := by
  apply PowerSeries.ext
  intro k
  rw [coeff_series, Vec.getD_replicate]
  simp

theorem addVec_spec (a b : List Int) :
    (addVec a b).length = max a.length b.length ∧
    series (addVec a b) = series a + series b := by
  have hf := Vec.fill
    (fun i => (if i < a.length then a.getD i 0 else 0) + (if i < b.length then b.getD i 0 else 0))
    (max a.length b.length) (List.replicate (max a.length b.length) 0)
  have hdef : addVec a b = (List.range (max a.length b.length)).foldl
      (fun c k => c.set k ((fun i => (if i < a.length then a.getD i 0 else 0) +
        (if i < b.length then b.getD i 0 else 0)) k))
      (List.replicate (max a.length b.length) 0) := rfl
  rw [hdef]
  refine ⟨by rw [hf.1, List.length_replicate], ?_⟩
  apply PowerSeries.ext
  intro k
  rw [coeff_series, hf.2 k, map_add, coeff_series, coeff_series, List.length_replicate,
    Vec.getD_replicate]
  by_cases ha : k < a.length <;> by_cases hb : k < b.length
  · simp [ha, hb]
  · rw [Vec.getD_of_length_le b k (by omega)]
    simp [ha, hb]
  · rw [Vec.getD_of_length_le a k (by omega)]
    simp [ha, hb]
  · rw [Vec.getD_of_length_le a k (by omega), Vec.getD_of_length_le b k (by omega)]
    simp [ha, hb]

theorem subVec_spec (a b : List Int) :
    (subVec a b).length = max a.length b.length ∧
    series (subVec a b) = series a - series b := by
  have hf := Vec.fill
    (fun i => (if i < a.length then a.getD i 0 else 0) - (if i < b.length then b.getD i 0 else 0))
    (max a.length b.length) (List.replicate (max a.length b.length) 0)
  have hdef : subVec a b = (List.range (max a.length b.length)).foldl
      (fun c k => c.set k ((fun i => (if i < a.length then a.getD i 0 else 0) -
        (if i < b.length then b.getD i 0 else 0)) k))
      (List.replicate (max a.length b.length) 0) := rfl
  rw [hdef]
  refine ⟨by rw [hf.1, List.length_replicate], ?_⟩
  apply PowerSeries.ext
  intro k
  rw [coeff_series, hf.2 k, map_sub, coeff_series, coeff_series, List.length_replicate,
    Vec.getD_replicate]
  by_cases ha : k < a.length <;> by_cases hb : k < b.length
  · simp [ha, hb]
  · rw [Vec.getD_of_length_le b k (by omega)]
    simp [ha, hb]
  · rw [Vec.getD_of_length_le a k (by omega)]
    simp [ha, hb]
  · rw [Vec.getD_of_length_le a k (by omega), Vec.getD_of_length_le b k (by omega)]
    simp [ha, hb]

theorem padTo_spec (a : List Int) (n : Nat) (h : a.length ≤ n) :
    (padTo a n).length = n ∧ series (padTo a n) = series a := by
  have hf := Vec.fill (fun i => a.getD i 0) a.length (List.replicate n 0)
  have hdef : padTo a n = (List.range a.length).foldl
      (fun c k => c.set k ((fun i => a.getD i 0) k)) (List.replicate n 0) := rfl
  rw [hdef]
  refine ⟨by rw [hf.1, List.length_replicate], ?_⟩
  apply series_congr
  intro k
  rw [hf.2 k, List.length_replicate, Vec.getD_replicate]
  by_cases ha : k < a.length
  · rw [if_pos ⟨ha, by omega⟩]
  · rw [if_neg (fun h => ha h.1), Vec.getD_of_length_le a k (by omega)]

/-- The series of a vector after a loop `c[shift + j] += g(j)` that stays inside it. -/
theorem series_accumulate (g : Nat → Int) (shift m : Nat) (c : List Int)
    (h : shift + m ≤ c.length) :
    series ((List.range m).foldl
      (fun c j => c.set (shift + j) (c.getD (shift + j) 0 + g j)) c) =
      series c + PowerSeries.X ^ shift * PowerSeries.mk (fun j => if j < m then g j else 0) := by
  apply PowerSeries.ext
  intro k
  rw [coeff_series, (Vec.accumulate g shift m c).2 k, map_add, coeff_series,
    PowerSeries.coeff_X_pow_mul', PowerSeries.coeff_mk]
  by_cases h1 : shift ≤ k
  · by_cases h2 : k - shift < m
    · rw [if_pos ⟨h1, h2, by omega⟩, if_pos h1, if_pos h2]
    · rw [if_neg (fun h => h2 h.2.1), if_pos h1, if_neg h2]
  · rw [if_neg (fun h => h1 h.1), if_neg h1]

theorem addTo_eq (dest src : List Int) (shift : Nat) :
    addTo dest src shift = (List.range src.length).foldl
      (fun c j => c.set (shift + j) (c.getD (shift + j) 0 + src.getD j 0)) dest := by
  unfold addTo
  congr 1
  funext d i
  simp only []
  split_ifs with h
  · rfl
  · rw [List.set_eq_of_length_le (by omega)]

theorem addTo_spec (dest src : List Int) (shift : Nat) (h : shift + src.length ≤ dest.length) :
    (addTo dest src shift).length = dest.length ∧
    series (addTo dest src shift) = series dest + PowerSeries.X ^ shift * series src := by
  rw [addTo_eq]
  refine ⟨(Vec.accumulate _ _ _ _).1, ?_⟩
  rw [series_accumulate _ _ _ _ h]
  congr 2
  apply PowerSeries.ext
  intro k
  rw [PowerSeries.coeff_mk, coeff_series]
  split_ifs with hk
  · rfl
  · rw [Vec.getD_of_length_le src k (by omega)]

theorem series_take_drop (a : List Int) (h : Nat) :
    series (a.take h) + PowerSeries.X ^ h * series (a.drop h) = series a := by
  apply PowerSeries.ext
  intro k
  rw [map_add, coeff_series, PowerSeries.coeff_X_pow_mul', coeff_series, coeff_series]
  simp only [List.getD_eq_getElem?_getD, List.getElem?_take, List.getElem?_drop]
  by_cases hk : k < h
  · rw [if_pos hk, if_neg (by omega)]
    simp
  · rw [if_neg hk, if_pos (by omega)]
    have : h + (k - h) = k := by omega
    rw [this]
    simp

/-- The rows of `naiveMul`: after the rows `0, ..., rows - 1` the vector `c` holds the
product of the front part of `a` with `b`. -/
theorem naiveMul_rows (a b : List Int) (rows : Nat) (hrows : rows ≤ a.length) :
    ((List.range rows).foldl
      (fun c i => (List.range b.length).foldl
        (fun c j => c.set (i + j) (c.getD (i + j) 0 + a.getD i 0 * b.getD j 0)) c)
      (List.replicate (a.length + b.length - 1) 0)).length = a.length + b.length - 1 ∧
    series ((List.range rows).foldl
      (fun c i => (List.range b.length).foldl
        (fun c j => c.set (i + j) (c.getD (i + j) 0 + a.getD i 0 * b.getD j 0)) c)
      (List.replicate (a.length + b.length - 1) 0)) =
      PowerSeries.mk (fun i => if i < rows then a.getD i 0 else 0) * series b := by
  induction rows with
  | zero =>
    refine ⟨by simp, ?_⟩
    simp only [List.range_zero, List.foldl_nil, series_replicate]
    have : (PowerSeries.mk fun i : Nat => if i < 0 then a.getD i 0 else (0 : Int)) = 0 := by
      apply PowerSeries.ext
      intro k
      simp
    rw [this, zero_mul]
  | succ r ih =>
    obtain ⟨h1, h2⟩ := ih (by omega)
    rw [List.range_succ, List.foldl_append]
    simp only [List.foldl_cons, List.foldl_nil]
    refine ⟨by rw [(Vec.accumulate _ _ _ _).1, h1], ?_⟩
    rw [series_accumulate _ _ _ _ (by rw [h1]; omega), h2]
    have e1 : (PowerSeries.mk fun j => if j < b.length then a.getD r 0 * b.getD j 0 else 0) =
        PowerSeries.C Int (a.getD r 0) * series b := by
      apply PowerSeries.ext
      intro k
      rw [PowerSeries.coeff_mk, PowerSeries.coeff_C_mul, coeff_series]
      split_ifs with hk
      · rfl
      · rw [Vec.getD_of_length_le b k (by omega), mul_zero]
    have e2 : (PowerSeries.mk fun i => if i < r + 1 then a.getD i 0 else 0) =
        (PowerSeries.mk fun i => if i < r then a.getD i 0 else 0) +
          PowerSeries.X ^ r * PowerSeries.C Int (a.getD r 0) := by
      apply PowerSeries.ext
      intro k
      rw [map_add, PowerSeries.coeff_mk, PowerSeries.coeff_mk, PowerSeries.coeff_X_pow_mul',
        PowerSeries.coeff_C]
      by_cases h3 : k < r
      · rw [if_pos (by omega), if_pos h3, if_neg (by omega), add_zero]
      · by_cases h4 : k = r
        · subst h4
          simp
        · rw [if_neg (by omega), if_neg h3, if_pos (by omega), if_neg (by omega), add_zero]
    rw [e1, e2]
    ring

theorem naiveMul_spec (a b : List Int) :
    (naiveMul a b).length = a.length + b.length - 1 ∧
    series (naiveMul a b) = series a * series b := by
  have h := naiveMul_rows a b a.length (le_refl _)
  have hdef : naiveMul a b = (List.range a.length).foldl
      (fun c i => (List.range b.length).foldl
        (fun c j => c.set (i + j) (c.getD (i + j) 0 + a.getD i 0 * b.getD j 0)) c)
      (List.replicate (a.length + b.length - 1) 0) := rfl
  rw [hdef]
  refine ⟨h.1, ?_⟩
  rw [h.2]
  congr 1
  apply PowerSeries.ext
  intro k
  rw [PowerSeries.coeff_mk, coeff_series]
  split_ifs with hk
  · rfl
  · rw [Vec.getD_of_length_le a k (by omega)]

/-! ## C27: Karatsuba against the naive product -/

theorem addTo_length (dest src : List Int) (shift : Nat) :
    (addTo dest src shift).length = dest.length := by
  rw [addTo_eq]
  exact (Vec.accumulate _ _ _ _).1

theorem nextPow2Loop_ge (x : Nat) :
    ∀ (fuel p : Nat), 1 ≤ p → x ≤ p * 2 ^ fuel →
      x ≤ nextPow2Loop x fuel p ∧ 1 ≤ nextPow2Loop x fuel p := by
  intro fuel
  induction fuel with
  | zero =>
    intro p hp hx
    unfold nextPow2Loop
    exact ⟨by simpa using hx, hp⟩
  | succ f ih =>
    intro p hp hx
    unfold nextPow2Loop
    split_ifs with h
    · exact ih (p * 2) (by omega) (by rw [pow_succ] at hx; rw [Nat.mul_assoc, Nat.mul_comm 2]; exact hx)
    · exact ⟨by omega, hp⟩

theorem nextPow2_ge (x : Nat) : x ≤ nextPow2 x ∧ 1 ≤ nextPow2 x := by
  unfold nextPow2
  exact nextPow2Loop_ge x x 1 (le_refl _) (by rw [Nat.one_mul]; exact Nat.lt_two_pow x |>.le)

/-- On vectors of one length, with a threshold of at least 1 and a depth bound of at
least that length, `karatsubaSeqPow2` returns what `naiveMul` returns. -/
theorem karatsubaSeqPow2_eq (threshold : Int) (ht : 1 ≤ threshold) :
    ∀ (depth : Nat) (a b : List Int), a.length = b.length → 1 ≤ a.length →
      a.length ≤ depth → karatsubaSeqPow2 depth a b threshold = some (naiveMul a b) := by
  intro depth
  induction depth with
  | zero =>
    intro a b _ h1 h2
    omega
  | succ d ih =>
    intro a b hab h1 h2
    rw [karatsubaSeqPow2]
    by_cases hn : (a.length : Int) ≤ threshold
    · simp only [hn, if_true]
    · simp only [hn, if_false]
      have hn2 : 2 ≤ a.length := by omega
      have hhalf1 : 1 ≤ a.length / 2 := by omega
      have hhalf2 : a.length / 2 < a.length := by omega
      have la0 : (a.take (a.length / 2)).length = a.length / 2 := by
        rw [List.length_take]; omega
      have lb0 : (b.take (a.length / 2)).length = a.length / 2 := by
        rw [List.length_take]; omega
      have la1 : (a.drop (a.length / 2)).length = a.length - a.length / 2 := List.length_drop _ _
      have lb1 : (b.drop (a.length / 2)).length = a.length - a.length / 2 := by
        rw [List.length_drop, hab]
      have la01 := (addVec_spec (a.take (a.length / 2)) (a.drop (a.length / 2))).1
      have lb01 := (addVec_spec (b.take (a.length / 2)) (b.drop (a.length / 2))).1
      rw [la0, la1] at la01
      rw [lb0, lb1] at lb01
      have e0 := ih (a.take (a.length / 2)) (b.take (a.length / 2)) (by rw [la0, lb0])
        (by rw [la0]; exact hhalf1) (by rw [la0]; omega)
      have e2 := ih (a.drop (a.length / 2)) (b.drop (a.length / 2)) (by rw [la1, lb1])
        (by rw [la1]; omega) (by rw [la1]; omega)
      have e1 := ih (addVec (a.take (a.length / 2)) (a.drop (a.length / 2)))
        (addVec (b.take (a.length / 2)) (b.drop (a.length / 2))) (by rw [la01, lb01])
        (by rw [la01]; omega) (by rw [la01]; omega)
      rw [e0, e2, e1]
      simp only [Option.some.injEq]
      -- the three products: their lengths and their series
      obtain ⟨lz0, sz0⟩ := naiveMul_spec (a.take (a.length / 2)) (b.take (a.length / 2))
      obtain ⟨lz2, sz2⟩ := naiveMul_spec (a.drop (a.length / 2)) (b.drop (a.length / 2))
      obtain ⟨lz1, sz1⟩ := naiveMul_spec
        (addVec (a.take (a.length / 2)) (a.drop (a.length / 2)))
        (addVec (b.take (a.length / 2)) (b.drop (a.length / 2)))
      rw [la0, lb0] at lz0
      rw [la1, lb1] at lz2
      rw [la01, lb01] at lz1
      rw [(addVec_spec _ _).2, (addVec_spec _ _).2] at sz1
      generalize naiveMul (a.take (a.length / 2)) (b.take (a.length / 2)) = z0 at lz0 sz0 ⊢
      generalize naiveMul (a.drop (a.length / 2)) (b.drop (a.length / 2)) = z2 at lz2 sz2 ⊢
      generalize naiveMul (addVec (a.take (a.length / 2)) (a.drop (a.length / 2)))
        (addVec (b.take (a.length / 2)) (b.drop (a.length / 2))) = z1 at lz1 sz1 ⊢
      have lmid : (subVec (subVec z1 z0) z2).length = 2 * (a.length - a.length / 2) - 1 := by
        rw [(subVec_spec _ _).1, (subVec_spec _ _).1, lz0, lz1, lz2]
        omega
      have smid : series (subVec (subVec z1 z0) z2) = series z1 - series z0 - series z2 := by
        rw [(subVec_spec _ _).2, (subVec_spec _ _).2]
      generalize subVec (subVec z1 z0) z2 = mid at lmid smid ⊢
      -- the three additions stay inside `res`
      have s1 := addTo_spec (List.replicate (2 * a.length - 1) 0) z0 0
        (by rw [lz0, List.length_replicate]; omega)
      have s2 := addTo_spec (addTo (List.replicate (2 * a.length - 1) 0) z0 0) mid
        (a.length / 2) (by rw [lmid, s1.1, List.length_replicate]; omega)
      have s3 := addTo_spec
        (addTo (addTo (List.replicate (2 * a.length - 1) 0) z0 0) mid (a.length / 2)) z2
        (2 * (a.length / 2)) (by rw [lz2, s2.1, s1.1, List.length_replicate]; omega)
      apply eq_of_series
      · rw [s3.1, s2.1, s1.1, List.length_replicate, (naiveMul_spec a b).1, ← hab]
        omega
      · rw [s3.2, s2.2, s1.2, series_replicate, smid, sz0, sz1, sz2, (naiveMul_spec a b).2]
        conv_rhs => rw [← series_take_drop a (a.length / 2), ← series_take_drop b (a.length / 2)]
        ring

theorem resize_naiveMul (a b : List Int) (n : Nat) (ha : 1 ≤ a.length) (hb : 1 ≤ b.length)
    (han : a.length ≤ n) (hbn : b.length ≤ n) :
    resize (naiveMul (padTo a n) (padTo b n)) (a.length + b.length - 1) = naiveMul a b := by
  obtain ⟨pa1, pa2⟩ := padTo_spec a n han
  obtain ⟨pb1, pb2⟩ := padTo_spec b n hbn
  obtain ⟨m1, m2⟩ := naiveMul_spec (padTo a n) (padTo b n)
  obtain ⟨n1, n2⟩ := naiveMul_spec a b
  rw [pa1, pb1] at m1
  rw [pa2, pb2] at m2
  have hz : a.length + b.length - 1 - (n + n - 1) = 0 := by omega
  unfold resize
  rw [m1, hz, List.replicate_zero, List.append_nil]
  apply Vec.ext_getD
  · rw [List.length_take, m1, n1]
    omega
  · intro i hi
    rw [List.length_take] at hi
    rw [List.getD_eq_getElem?_getD, List.getElem?_take, if_pos (by omega),
      ← List.getD_eq_getElem?_getD, ← coeff_series, ← coeff_series, m2, n2]

/-- For non-empty vectors and a threshold of at least 1, `karatsubaSeq` returns what
`naiveMul` returns. -/
theorem karatsubaSeq_eq (a b : List Int) (threshold : Int) (ha : a ≠ []) (hb : b ≠ [])
    (ht : 1 ≤ threshold) : karatsubaSeq a b threshold = some (naiveMul a b) := by
  have ha1 : 1 ≤ a.length := List.length_pos.mpr ha
  have hb1 : 1 ≤ b.length := List.length_pos.mpr hb
  obtain ⟨g1, g2⟩ := nextPow2_ge (max a.length b.length)
  have han : a.length ≤ nextPow2 (max a.length b.length) := by omega
  have hbn : b.length ≤ nextPow2 (max a.length b.length) := by omega
  obtain ⟨pa1, _⟩ := padTo_spec a _ han
  obtain ⟨pb1, _⟩ := padTo_spec b _ hbn
  unfold karatsubaSeq
  simp only []
  rw [karatsubaSeqPow2_eq threshold ht _ _ _ (by rw [pa1, pb1]) (by rw [pa1]; exact g2)
    (by rw [pa1])]
  simp only []
  rw [resize_naiveMul a b _ ha1 hb1 han hbn]

/-- C27. For non-empty coefficient vectors `a` and `b` and a threshold of at least 1,
`karatsubaSeq(a, b, threshold)` returns the vector `naiveMul(a, b)` returns (exact
integers), which has `|a| + |b| - 1` entries, the `k`-th being the sum of `a[i] * b[j]`
over the pairs with `i + j = k`. -/
theorem karatsuba_agrees_with_naive (a b : List Int) (threshold : Int) (ha : a ≠ [])
    (hb : b ≠ []) (ht : 1 ≤ threshold) :
    karatsubaSeq a b threshold = some (naiveMul a b) ∧
    (naiveMul a b).length = a.length + b.length - 1 ∧
    ∀ k, k < a.length + b.length - 1 →
      (naiveMul a b).getD k 0 =
        ∑ p ∈ Finset.antidiagonal k, a.getD p.1 0 * b.getD p.2 0 := by
  refine ⟨karatsubaSeq_eq a b threshold ha hb ht, (naiveMul_spec a b).1, ?_⟩
  intro k _
  rw [← coeff_series, (naiveMul_spec a b).2, PowerSeries.coeff_mul]
  simp only [coeff_series]

theorem karatsuba_agrees_with_naive_witness :
    (([1, 2, 3] : List Int) ≠ [] ∧ ([4, 5] : List Int) ≠ [] ∧ (1 : Int) ≤ 1) ∧
    (karatsubaSeq [1, 2, 3] [4, 5] 1 = some (naiveMul [1, 2, 3] [4, 5]) ∧
    (naiveMul [1, 2, 3] [4, 5]).length = ([1, 2, 3] : List Int).length +
      ([4, 5] : List Int).length - 1 ∧
    ∀ k, k < ([1, 2, 3] : List Int).length + ([4, 5] : List Int).length - 1 →
      (naiveMul [1, 2, 3] [4, 5]).getD k 0 =
        ∑ p ∈ Finset.antidiagonal k,
          ([1, 2, 3] : List Int).getD p.1 0 * ([4, 5] : List Int).getD p.2 0) :=
  ⟨by decide, karatsuba_agrees_with_naive [1, 2, 3] [4, 5] 1 (by decide) (by decide)
    (by decide)⟩

/-- The check of `main`: `N = 4096` coefficients each and `KARATSUBA_THRESHOLD = 64`;
`last == ref` holds for the run of `karatsubaSeq`, whatever the random coefficients. -/
theorem main_verify_check (A B : List Int) (hA : A.length = 4096) (hB : B.length = 4096) :
    karatsubaSeq A B 64 = some (naiveMul A B) :=
  karatsubaSeq_eq A B 64 (by intro h; rw [h] at hA; simp at hA)
    (by intro h; rw [h] at hB; simp at hB) (by decide)

/-- Small products computed by both functions, with the recursion taken down to single
coefficients. -/
theorem karatsuba_values :
    naiveMul [1, 2, 3] [4, 5] = [4, 13, 22, 15] ∧
    karatsubaSeq [1, 2, 3] [4, 5] 1 = some [4, 13, 22, 15] ∧
    karatsubaSeq [1, -1, 2, 3] [2, 0, -5, 1] 1 = some [2, -2, -1, 12, -11, -13, 3] ∧
    naiveMul [1, -1, 2, 3] [2, 0, -5, 1] = [2, -2, -1, 12, -11, -13, 3] ∧
    karatsubaSeq [7] [-3] 64 = some [-21] ∧
    nextPow2 3 = 4 ∧ nextPow2 4096 = 4096 ∧ nextPow2 1 = 1 ∧
    padTo [1, 2, 3] 4 = [1, 2, 3, 0] ∧
    addVec [1, 2] [3, 4, 5] = [4, 6, 5] ∧ subVec [1, 2] [3, 4, 5] = [-2, -2, -5] ∧
    addTo [0, 0, 0, 0] [1, 2, 3] 2 = [0, 0, 1, 2] := by
  decide

end Lab7

namespace NBody

/-! ## C30: block partition of the bodies -/

theorem sum_map_counts (base rem : Int) (n : Nat) :
    ((List.range n).map (fun r : Nat => base + (if (r : Int) < rem then 1 else 0))).sum =
      n * base + min (n : Int) (max rem 0) := by
  induction n with
  | zero => simp
  | succ n ih =>
    rw [List.range_succ, List.map_append, List.sum_append, ih]
    simp only [List.map_cons, List.map_nil, List.sum_cons, List.sum_nil]
    push_cast
    have : ((n : Int) + 1) * base = n * base + base := by ring
    rw [this]
    split_ifs <;> omega


theorem counts_eq (N P : Int) :
    (compute_counts_displs N P).1 =
      (List.range P.toNat).map
        (fun r : Nat => Int.tdiv N P + (if (r : Int) < Int.tmod N P then 1 else 0)) := by
  have hf := Vec.fill (fun r : Nat => Int.tdiv N P + (if (r : Int) < Int.tmod N P then 1 else 0))
    P.toNat (List.replicate P.toNat 0)
  apply Vec.ext_getD
  · unfold compute_counts_displs
    simp only []
    rw [hf.1]
    simp
  · intro i hi
    unfold compute_counts_displs at hi ⊢
    simp only [] at hi ⊢
    rw [hf.1, List.length_replicate] at hi
    rw [hf.2 i, List.length_replicate, if_pos ⟨hi, hi⟩, List.getD_eq_getElem?_getD,
      List.getElem?_map, List.getElem?_range hi]
    rfl

theorem displs_getD (N P : Int) (i : Nat) (hi : i < P.toNat) :
    (compute_counts_displs N P).2.length = P.toNat ∧
    (compute_counts_displs N P).2.getD i 0 = ((compute_counts_displs N P).1.take i).sum := by
  have h0 : ((List.replicate P.toNat (0 : Int)).set 0 0).getD 0 0 = 0 := by
    rw [Vec.getD_set, Vec.getD_replicate]
    split_ifs <;> rfl
  have hr := Vec.running_sums (compute_counts_displs N P).1 (P.toNat - 1)
    ((List.replicate P.toNat (0 : Int)).set 0 0) h0
  have hlen : ((List.replicate P.toNat (0 : Int)).set 0 0).length = P.toNat := by simp
  rw [hlen] at hr
  exact ⟨hr.1, hr.2 i (by omega) hi⟩

theorem exists_block (D : Nat → Int) (x : Int) (n : Nat) (h0 : D 0 ≤ x) (hn : x < D n) :
    ∃ r, r < n ∧ D r ≤ x ∧ x < D (r + 1) := by
  induction n with
  | zero => omega
  | succ n ih =>
    by_cases h : x < D n
    · obtain ⟨r, hr, h1, h2⟩ := ih h
      exact ⟨r, by omega, h1, h2⟩
    · exact ⟨n, by omega, by omega, hn⟩

/-- C30. For `N ≥ 0` and `P ≥ 1`, `compute_counts_displs(N, P)` yields two vectors of
length `P` with `counts[r] = N / P + 1` for `r < N mod P` and `N / P` otherwise,
`displs[0] = 0` and `displs[r] = counts[0] + ... + counts[r - 1]`.  The counts are not
negative and sum to `N`; the ranges `[displs[r], displs[r] + counts[r])` lie in
`[0, N)`, the range of a lower rank ends where or before the range of a higher rank
starts, and every `x` in `[0, N)` is in the range of some rank. -/
theorem block_partition (N P : Int) (hN : 0 ≤ N) (hP : 1 ≤ P) :
    ((compute_counts_displs N P).1.length : Int) = P ∧
    ((compute_counts_displs N P).2.length : Int) = P ∧
    (∀ r : Nat, (r : Int) < P →
      (compute_counts_displs N P).1.getD r 0 =
        if (r : Int) < N % P then N / P + 1 else N / P) ∧
    (compute_counts_displs N P).2.getD 0 0 = 0 ∧
    (∀ r : Nat, (r : Int) < P →
      (compute_counts_displs N P).2.getD r 0 = ((compute_counts_displs N P).1.take r).sum) ∧
    (compute_counts_displs N P).1.sum = N ∧
    (∀ r : Nat, (r : Int) < P →
      0 ≤ (compute_counts_displs N P).1.getD r 0 ∧
      0 ≤ (compute_counts_displs N P).2.getD r 0 ∧
      (compute_counts_displs N P).2.getD r 0 + (compute_counts_displs N P).1.getD r 0 ≤ N) ∧
    (∀ r1 r2 : Nat, r1 < r2 → (r2 : Int) < P →
      (compute_counts_displs N P).2.getD r1 0 + (compute_counts_displs N P).1.getD r1 0 ≤
        (compute_counts_displs N P).2.getD r2 0) ∧
    (∀ x : Int, 0 ≤ x → x < N →
      ∃ r : Nat, (r : Int) < P ∧ (compute_counts_displs N P).2.getD r 0 ≤ x ∧
        x < (compute_counts_displs N P).2.getD r 0 +
          (compute_counts_displs N P).1.getD r 0) := by
  have hdiv : Int.tdiv N P = N / P := Int.tdiv_eq_ediv hN (by omega)
  have hmod : Int.tmod N P = N % P := Int.tmod_eq_emod hN (by omega)
  have hb : 0 ≤ N / P := Int.ediv_nonneg hN (by omega)
  have hr0 : 0 ≤ N % P := Int.emod_nonneg _ (by omega)
  have hr1 : N % P < P := Int.emod_lt_of_pos _ (by omega)
  have hsplit : P * (N / P) + N % P = N := Int.ediv_add_emod N P
  have hPn : ((P.toNat : Nat) : Int) = P := Int.toNat_of_nonneg (by omega)
  have hcounts := counts_eq N P
  rw [hdiv, hmod] at hcounts
  -- closed forms
  have hC : ∀ r : Nat, (r : Int) < P → (compute_counts_displs N P).1.getD r 0 =
      N / P + (if (r : Int) < N % P then 1 else 0) := by
    intro r hr
    rw [hcounts, List.getD_eq_getElem?_getD, List.getElem?_map,
      List.getElem?_range (by omega)]
    rfl
  have hT : ∀ r : Nat, (r : Int) ≤ P → ((compute_counts_displs N P).1.take r).sum =
      r * (N / P) + min (r : Int) (N % P) := by
    intro r hr
    rw [hcounts, ← List.map_take, List.take_range, Nat.min_eq_left (by omega),
      sum_map_counts, max_eq_left hr0]
  have hD : ∀ r : Nat, (r : Int) < P → (compute_counts_displs N P).2.getD r 0 =
      r * (N / P) + min (r : Int) (N % P) := by
    intro r hr
    rw [(displs_getD N P r (by omega)).2, hT r (by omega)]
  have hmono : ∀ i j : Nat, i ≤ j →
      (i : Int) * (N / P) + min (i : Int) (N % P) ≤ j * (N / P) + min (j : Int) (N % P) := by
    intro i j hij
    have h1 : (i : Int) * (N / P) ≤ j * (N / P) :=
      mul_le_mul_of_nonneg_right (by exact_mod_cast hij) hb
    have h2 : (i : Int) ≤ j := by exact_mod_cast hij
    omega
  have hstep : ∀ r : Nat, ((r + 1 : Nat) : Int) * (N / P) + min ((r + 1 : Nat) : Int) (N % P) =
      r * (N / P) + min (r : Int) (N % P) + (N / P + (if (r : Int) < N % P then 1 else 0)) := by
    intro r
    push_cast
    have : ((r : Int) + 1) * (N / P) = r * (N / P) + N / P := by ring
    rw [this]
    split_ifs <;> omega
  have htotal : (P.toNat : Int) * (N / P) + min (P.toNat : Int) (N % P) = N := by
    rw [hPn]
    omega
  refine ⟨?_, ?_, ?_, ?_, ?_, ?_, ?_, ?_, ?_⟩
  · rw [hcounts]
    simp [hPn]
  · rw [(displs_getD N P 0 (by omega)).1, hPn]
  · intro r hr
    rw [hC r hr]
    split_ifs <;> simp
  · rw [hD 0 (by omega)]
    simp [hr0]
  · intro r hr
    exact (displs_getD N P r (by omega)).2
  · have := hT P.toNat (by omega)
    rw [List.take_of_length_le (by rw [hcounts]; simp)] at this
    rw [this, htotal]
  · intro r hr
    rw [hC r hr, hD r hr]
    have h1 := hstep r
    have h2 := hmono (r + 1) P.toNat (by omega)
    rw [htotal] at h2
    have h3 := hmono 0 r (by omega)
    have h4 : 0 ≤ (r : Int) * (N / P) := mul_nonneg (by omega) hb
    refine ⟨by split_ifs <;> omega, by omega, ?_⟩
    rw [← h1]
    exact h2
  · intro r1 r2 hlt hr2
    rw [hC r1 (by omega), hD r1 (by omega), hD r2 hr2, ← hstep r1]
    exact hmono (r1 + 1) r2 (by omega)
  · intro x hx0 hxN
    obtain ⟨r, hr, h1, h2⟩ := exists_block
      (fun r : Nat => (r : Int) * (N / P) + min (r : Int) (N % P)) x P.toNat
      (by simp [hr0, hx0]) (by simp only []; rw [htotal]; exact hxN)
    refine ⟨r, by omega, ?_, ?_⟩
    · rw [hD r (by omega)]
      exact h1
    · rw [hD r (by omega), hC r (by omega), ← hstep r]
      exact h2

theorem block_partition_witness :
    ((0 : Int) ≤ 10 ∧ (1 : Int) ≤ 4) ∧
    (compute_counts_displs 10 4).1.sum = 10 ∧
    (∀ x : Int, 0 ≤ x → x < 10 →
      ∃ r : Nat, (r : Int) < 4 ∧ (compute_counts_displs 10 4).2.getD r 0 ≤ x ∧
        x < (compute_counts_displs 10 4).2.getD r 0 +
          (compute_counts_displs 10 4).1.getD r 0) :=
  ⟨by decide, (block_partition 10 4 (by decide) (by decide)).2.2.2.2.2.1,
    (block_partition 10 4 (by decide) (by decide)).2.2.2.2.2.2.2.2⟩

/-- The partition of 10 bodies over 4 ranks, of the default 1024 bodies over 3 ranks,
and of 2 bodies over 4 ranks. -/
theorem partition_values :
    compute_counts_displs 10 4 = ([3, 3, 2, 2], [0, 3, 6, 8]) ∧
    compute_counts_displs 1024 3 = ([342, 341, 341], [0, 342, 683]) ∧
    compute_counts_displs 2 4 = ([1, 1, 0, 0], [0, 1, 2, 2]) ∧
    compute_counts_displs 0 1 = ([0], [0]) := by
  decide

/-! ## The same partition in lab7 -/

theorem sum_map_range_succ (c : Nat → Int) (k : Nat) :
    ((List.range (k + 1)).map c).sum = ((List.range k).map c).sum + c k := by
  rw [List.range_succ, List.map_append, List.sum_append]
  simp

/-- The loop of `mpiNaiveMul` after `k` rounds. -/
theorem scatter_rounds (c : Nat → Int) (P k : Nat) (hk : k ≤ P) :
    ((List.range k).foldl
      (fun (st : List Int × List Int × Int) r =>
        ((st.1.set r (c r)), (st.2.1.set r st.2.2), st.2.2 + (st.1.set r (c r)).getD r 0))
      (List.replicate P 0, List.replicate P 0, 0)).1.length = P ∧
    ((List.range k).foldl
      (fun (st : List Int × List Int × Int) r =>
        ((st.1.set r (c r)), (st.2.1.set r st.2.2), st.2.2 + (st.1.set r (c r)).getD r 0))
      (List.replicate P 0, List.replicate P 0, 0)).2.1.length = P ∧
    ((List.range k).foldl
      (fun (st : List Int × List Int × Int) r =>
        ((st.1.set r (c r)), (st.2.1.set r st.2.2), st.2.2 + (st.1.set r (c r)).getD r 0))
      (List.replicate P 0, List.replicate P 0, 0)).2.2 = ((List.range k).map c).sum ∧
    ∀ i, i < k →
      ((List.range k).foldl
        (fun (st : List Int × List Int × Int) r =>
          ((st.1.set r (c r)), (st.2.1.set r st.2.2), st.2.2 + (st.1.set r (c r)).getD r 0))
        (List.replicate P 0, List.replicate P 0, 0)).1.getD i 0 = c i ∧
      ((List.range k).foldl
        (fun (st : List Int × List Int × Int) r =>
          ((st.1.set r (c r)), (st.2.1.set r st.2.2), st.2.2 + (st.1.set r (c r)).getD r 0))
        (List.replicate P 0, List.replicate P 0, 0)).2.1.getD i 0 =
        ((List.range i).map c).sum := by
  induction k with
  | zero =>
    refine ⟨by simp, by simp, by simp, ?_⟩
    intro i hi
    omega
  | succ k ih =>
    obtain ⟨h1, h2, h3, h4⟩ := ih (by omega)
    rw [List.range_succ, List.foldl_append]
    simp only [List.foldl_cons, List.foldl_nil, List.length_set]
    refine ⟨h1, h2, ?_, ?_⟩
    · rw [h3, Vec.getD_set, if_pos ⟨rfl, by omega⟩, ← List.range_succ, sum_map_range_succ]
    · intro i hi
      rw [Vec.getD_set, Vec.getD_set, h1, h2]
      by_cases hik : k = i
      · subst hik
        rw [if_pos ⟨rfl, by omega⟩, if_pos ⟨rfl, by omega⟩]
        exact ⟨rfl, h3⟩
      · rw [if_neg (fun h => hik h.1), if_neg (fun h => hik h.1)]
        exact h4 i (by omega)

/-- The partition loop in `mpiNaiveMul` of lab7 yields the same two vectors as
`compute_counts_displs`. -/
theorem mpiNaiveMul_same_partition (n p : Int) (hp : 1 ≤ p) :
    Lab7.scatterCountsDispls n p = compute_counts_displs n p := by
  have hs := scatter_rounds
    (fun r : Nat => Int.tdiv n p + (if (r : Int) < Int.tmod n p then 1 else 0))
    p.toNat p.toNat (le_refl _)
  have hdef : Lab7.scatterCountsDispls n p =
      (((List.range p.toNat).foldl
        (fun (st : List Int × List Int × Int) r =>
          ((st.1.set r ((fun r : Nat =>
              Int.tdiv n p + (if (r : Int) < Int.tmod n p then 1 else 0)) r)),
            (st.2.1.set r st.2.2),
            st.2.2 + (st.1.set r ((fun r : Nat =>
              Int.tdiv n p + (if (r : Int) < Int.tmod n p then 1 else 0)) r)).getD r 0))
        (List.replicate p.toNat 0, List.replicate p.toNat 0, 0)).1,
       ((List.range p.toNat).foldl
        (fun (st : List Int × List Int × Int) r =>
          ((st.1.set r ((fun r : Nat =>
              Int.tdiv n p + (if (r : Int) < Int.tmod n p then 1 else 0)) r)),
            (st.2.1.set r st.2.2),
            st.2.2 + (st.1.set r ((fun r : Nat =>
              Int.tdiv n p + (if (r : Int) < Int.tmod n p then 1 else 0)) r)).getD r 0))
        (List.replicate p.toNat 0, List.replicate p.toNat 0, 0)).2.1) := rfl
  obtain ⟨h1, h2, _, h4⟩ := hs
  have hc := counts_eq n p
  rw [hdef]
  apply Prod.ext
  · simp only []
    rw [hc]
    apply Vec.ext_getD
    · rw [h1]
      simp
    · intro i hi
      rw [h1] at hi
      rw [(h4 i hi).1, List.getD_eq_getElem?_getD, List.getElem?_map, List.getElem?_range hi]
      rfl
  · simp only []
    apply Vec.ext_getD
    · rw [h2, (displs_getD n p 0 (by omega)).1]
    · intro i hi
      rw [h2] at hi
      rw [(h4 i hi).2, (displs_getD n p i hi).2, hc, ← List.map_take, List.take_range,
        Nat.min_eq_left (by omega)]

/-- The partition of the 4096 coefficients of lab7 over 3 processes. -/
theorem scatter_values :
    Lab7.scatterCountsDispls 4096 3 = ([1366, 1365, 1365], [0, 1366, 2731]) ∧
    Lab7.scatterCountsDispls 10 4 = ([3, 3, 2, 2], [0, 3, 6, 8]) := by
  decide

end NBody
